import Mathlib

set_option linter.unusedVariables false

/-!
# A shallow embedding of `sfmm.c`

The allocator of `src/src/sfmm.c` is modelled over a flat, word-granular
memory.  `size_t` values and pointers are natural numbers below `2 ^ 64`;
every arithmetic operation that can wrap in C is reduced modulo `2 ^ 64`.
Loops whose termination depends on the shape of the heap take a fuel
argument and return `none` when it runs out.
-/

namespace Sfmm

/-! ## Machine words -/

/-- Number of values of a `size_t` (and of a pointer). -/
def WORD : Nat := 2 ^ 64

/-- Unsigned 64-bit addition, also used for pointer arithmetic. -/
def wadd (a b : Nat) : Nat := (a + b) % WORD

/-- Unsigned 64-bit subtraction, also used for pointer arithmetic. -/
def wsub (a b : Nat) : Nat := (a + (WORD - b % WORD)) % WORD

/-! ## Constants of `sfmm.c` -/

def MIN_BLOCK_SIZE : Nat := 32
def MROW : Nat := 8
def QL_MAX_SIZE : Nat := 224
def PROLOGUE_SIZE : Nat := 32
def EPILOGUE_SIZE : Nat := 8

/-- Modelled from the spec: `PAGE_SZ` of the missing `sfmm.h`; the spec fixes
the page size at 4096 bytes. -/
def PAGE_SZ : Nat := 4096

/-- Modelled from the spec: flag constant `THIS_BLOCK_ALLOCATED = 1` of the
missing `sfmm.h`. -/
def THIS_BLOCK_ALLOCATED : Nat := 1

/-- Modelled from the spec: flag constant `IN_QUICK_LIST = 2` of the missing
`sfmm.h`. -/
def IN_QUICK_LIST : Nat := 2

/-- Value of `EINVAL` in `errno.h`. -/
def EINVAL : Nat := 22

/-- Value of `ENOMEM` in `errno.h`. -/
def ENOMEM : Nat := 12

/-- Modelled from the spec: layout of `sf_block` in the missing `sfmm.h`; the
header word is followed by the in-band `next` link. -/
def NEXT_OFF : Nat := 8

/-- Modelled from the spec: layout of `sf_block` in the missing `sfmm.h`; the
`prev` link follows the `next` link. -/
def PREV_OFF : Nat := 16

/-- Modelled from the spec: `sizeof(sf_block)` in the missing `sfmm.h`, the
stride of the array `sf_free_list_heads`. -/
def SF_BLOCK_SZ : Nat := 24

/-- Build-time tunables and the placement of the allocator's objects: they come
from the missing `sfmm.h` and from the page provider, and are parameters. -/
structure Config where
  /-- the obfuscation constant `MAGIC` -/
  MAGIC : Nat
  /-- number of main free lists -/
  NUM_FREE_LISTS : Nat
  /-- number of quick lists -/
  NUM_QUICK_LISTS : Nat
  /-- address of `sf_free_list_heads[0]` -/
  heads : Nat
  /-- value of `sf_mem_start()` -/
  start : Nat
  /-- `sf_mem_grow` fails once the heap holds this many pages -/
  maxPages : Nat

/-- The mutable state: the memory, the heap extent, the quick-list table and the
statistics. -/
structure State where
  /-- the 64-bit word stored at a byte address -/
  mem : Nat → Nat
  /-- number of pages grown so far -/
  pages : Nat
  /-- the field `sf_quick_lists[i].first`, 0 for `NULL` -/
  qlFirst : Nat → Nat
  /-- the field `sf_quick_lists[i].length` -/
  qlLength : Nat → Int
  running_pl : Nat
  max_pl : Nat
  sf_errno : Nat
  /-- number of diagnostics written to `stderr` -/
  diag : Nat

/-! ## Header codec -/

/-- The macro `PACK`. -/
def PACK (pl_size block_size in_ql alloc : Nat) : Nat :=
  ((pl_size <<< 32) % WORD) ||| block_size ||| (in_ql <<< 1) ||| alloc

/-- The macro `GET_PL_SIZE`. -/
def GET_PL_SIZE (header : Nat) : Nat := header >>> 32

/-- The macro `GET_BLOCK_SIZE`: the mask is `~0xFFFFFFFF0000000F`. -/
def GET_BLOCK_SIZE (header : Nat) : Nat := header &&& 0x00000000FFFFFFF0

/-- The macro `OBF`. -/
def OBF (cfg : Config) (value : Nat) : Nat := value ^^^ cfg.MAGIC

/-- The macro `QL_INDEX`, in unsigned arithmetic. -/
def QL_INDEX (size : Nat) : Nat := wsub size 32 / 16

/-! ## Memory and the page provider -/

/-- Store one word. -/
def State.write (s : State) (a v : Nat) : State :=
  { s with mem := fun x => if x = a then v else s.mem x }

def sf_mem_start (cfg : Config) : Nat := cfg.start

def sf_mem_end (cfg : Config) (s : State) : Nat := cfg.start + PAGE_SZ * s.pages

/-- The macro `HEAP_SIZE`. -/
def HEAP_SIZE (cfg : Config) (s : State) : Nat := sf_mem_end cfg s - sf_mem_start cfg

/-- The page provider: the address of the new page, or `none` on exhaustion. -/
def sf_mem_grow (cfg : Config) (s : State) : Option (Nat × State) :=
  if s.pages < cfg.maxPages then
    some (sf_mem_end cfg s, { s with pages := s.pages + 1 })
  else none

/-- Address of the sentinel `sf_free_list_heads + i`. -/
def sentinel (cfg : Config) (i : Nat) : Nat := cfg.heads + SF_BLOCK_SZ * i

/-- The macro `NEXT_BLOCK`. -/
def NEXT_BLOCK (cfg : Config) (s : State) (block : Nat) : Nat :=
  wadd block (GET_BLOCK_SIZE (OBF cfg (s.mem block)))

/-- The macro `PREV_BLOCK`: the size is read from the footer below `block`. -/
def PREV_BLOCK (cfg : Config) (s : State) (block : Nat) : Nat :=
  wsub block (GET_BLOCK_SIZE (OBF cfg (s.mem (wsub block MROW))))

/-- The macro `FOOTER`. -/
def FOOTER (cfg : Config) (s : State) (block : Nat) : Nat :=
  wsub (wadd block (GET_BLOCK_SIZE (OBF cfg (s.mem block)))) MROW

/-! ## Statistics -/

def update_pl (s : State) (size : Nat) : State :=
  let r := wadd s.running_pl size
  { s with running_pl := r, max_pl := if r > s.max_pl then r else s.max_pl }

/-! ## Main lists -/

/-- Loop of `get_ml_index`: `k` iterations remain, `i` is the loop counter. -/
def get_ml_index_go (size : Nat) : Nat → Nat → Nat → Nat
  | 0, i, _ => i
  | k + 1, i, m => if size ≤ m then i else get_ml_index_go size k (i + 1) ((m <<< 1) % WORD)

/-- The function `get_ml_index`, for a build with at least one main list. -/
def get_ml_index (cfg : Config) (size : Nat) : Nat :=
  get_ml_index_go size (cfg.NUM_FREE_LISTS - 1) 0 32

def create_free_block (cfg : Config) (s : State) (block_size start_addr : Nat) : State :=
  let s1 := s.write start_addr (OBF cfg (PACK 0 block_size 0 0))
  s1.write (wsub (wadd start_addr block_size) MROW) (s1.mem start_addr)

def unlink_block (s : State) (block : Nat) : State :=
  let prev := s.mem (wadd block PREV_OFF)
  let next := s.mem (wadd block NEXT_OFF)
  let s1 := s.write (wadd block NEXT_OFF) 0
  let s2 := s1.write (wadd block PREV_OFF) 0
  let s3 := s2.write (wadd prev NEXT_OFF) next
  s3.write (wadd next PREV_OFF) prev

def insert_ml (cfg : Config) (s : State) (free_block : Nat) : State :=
  let block_size := GET_BLOCK_SIZE (OBF cfg (s.mem free_block))
  let index := get_ml_index cfg block_size
  let sent := sentinel cfg index
  let next := s.mem (wadd sent NEXT_OFF)
  let s1 := s.write (wadd sent NEXT_OFF) free_block
  let s2 := s1.write (wadd next PREV_OFF) free_block
  let s3 := s2.write (wadd free_block PREV_OFF) sent
  s3.write (wadd free_block NEXT_OFF) next

/-- The `do ... while` loop of `remove_ml`: the value of `cur` at loop exit. -/
def remove_ml_scan (s : State) (free_block sent : Nat) : Nat → Nat → Option Nat
  | 0, _ => none
  | k + 1, cur =>
    let cur1 := s.mem (wadd cur NEXT_OFF)
    if cur1 ≠ free_block ∧ cur1 ≠ sent then remove_ml_scan s free_block sent k cur1
    else some cur1

/-- The function `remove_ml`: the flag is `true` when the block was not found
(the C function returns -1). -/
def remove_ml (cfg : Config) (fuel : Nat) (s : State) (free_block : Nat) :
    Option (Bool × State) :=
  let block_size := GET_BLOCK_SIZE (OBF cfg (s.mem free_block))
  let index := get_ml_index cfg block_size
  let sent := sentinel cfg index
  match remove_ml_scan s free_block sent fuel sent with
  | none => none
  | some cur => if cur = sent then some (true, s) else some (false, unlink_block s cur)

/-- The inner `do ... while` loop of `find_fit`: the value of `cur` at exit. -/
def find_fit_scan (cfg : Config) (s : State) (sent block_size : Nat) : Nat → Nat → Option Nat
  | 0, _ => none
  | k + 1, cur =>
    let cur1 := s.mem (wadd cur NEXT_OFF)
    let curSize := GET_BLOCK_SIZE (OBF cfg (s.mem cur1))
    if cur1 ≠ sent ∧ curSize < block_size then find_fit_scan cfg s sent block_size k cur1
    else some cur1

/-- The outer `for` loop of `find_fit`: `n` lists remain, starting at list `i`. -/
def find_fit_lists (cfg : Config) (fuel : Nat) (s : State) (block_size : Nat) :
    Nat → Nat → Option Nat
  | 0, _ => some 0
  | n + 1, i =>
    let sent := sentinel cfg i
    match find_fit_scan cfg s sent block_size fuel sent with
    | none => none
    | some cur =>
      if cur ≠ sent ∧ GET_BLOCK_SIZE (OBF cfg (s.mem cur)) ≥ block_size then some cur
      else find_fit_lists cfg fuel s block_size n (i + 1)

/-- The function `find_fit`: `some 0` stands for `NULL`. -/
def find_fit (cfg : Config) (fuel : Nat) (s : State) (block_size : Nat) : Option Nat :=
  let index := get_ml_index cfg block_size
  find_fit_lists cfg fuel s block_size (cfg.NUM_FREE_LISTS - index) index

/-! ## Coalescing -/

/-- The function `coalesce`: the address of the merged block and the new state. -/
def coalesce (cfg : Config) (fuel : Nat) (s : State) (free_block : Nat) :
    Option (Nat × State) :=
  let prev := PREV_BLOCK cfg s free_block
  let prevHdr := OBF cfg (s.mem prev)
  let block_size := GET_BLOCK_SIZE (OBF cfg (s.mem free_block))
  let next := NEXT_BLOCK cfg s free_block
  let nextHdr := OBF cfg (s.mem next)
  let nextAlloc := nextHdr &&& THIS_BLOCK_ALLOCATED
  let prevAlloc := prevHdr &&& THIS_BLOCK_ALLOCATED
  if prevAlloc ≠ 0 ∧ nextAlloc ≠ 0 then some (free_block, s)
  else if prevAlloc ≠ 0 ∧ nextAlloc = 0 then
    let block_size := wadd block_size (GET_BLOCK_SIZE nextHdr)
    match remove_ml cfg fuel s next with
    | none => none
    | some (ret, s1) =>
      let s2 := if ret then { s1 with diag := s1.diag + 1 } else s1
      let s3 := s2.write free_block (OBF cfg (PACK 0 block_size 0 0))
      some (free_block, s3.write (FOOTER cfg s3 free_block) (s3.mem free_block))
  else if prevAlloc = 0 ∧ nextAlloc ≠ 0 then
    let block_size := wadd block_size (GET_BLOCK_SIZE prevHdr)
    match remove_ml cfg fuel s prev with
    | none => none
    | some (ret, s1) =>
      let s2 := if ret then { s1 with diag := s1.diag + 1 } else s1
      let s3 := s2.write prev (OBF cfg (PACK 0 block_size 0 0))
      some (prev, s3.write (FOOTER cfg s3 prev) (s3.mem prev))
  else
    let block_size := wadd block_size (wadd (GET_BLOCK_SIZE prevHdr) (GET_BLOCK_SIZE nextHdr))
    match remove_ml cfg fuel s next with
    | none => none
    | some (ret, s1) =>
      let s2 := if ret then { s1 with diag := s1.diag + 1 } else s1
      match remove_ml cfg fuel s2 prev with
      | none => none
      | some (ret1, s3) =>
        let s4 := if ret1 then { s3 with diag := s3.diag + 1 } else s3
        let s5 := s4.write prev (OBF cfg (PACK 0 block_size 0 0))
        some (prev, s5.write (FOOTER cfg s5 prev) (s5.mem prev))

/-! ## Quick lists

The C code converts the result of `QL_INDEX` to `int`; the model keeps the
index a natural number, which agrees with C for every block size from 32 up. -/

def popQL (s : State) (index : Nat) : Nat × State :=
  let first := s.qlFirst index
  if first = 0 then (0, s)
  else
    let s1 : State :=
      { s with qlFirst := fun j => if j = index then s.mem (wadd first NEXT_OFF) else s.qlFirst j }
    let s2 : State :=
      { s1 with qlLength := fun j => if j = index then s1.qlLength index - 1 else s1.qlLength j }
    (first, s2.write (wadd first NEXT_OFF) 0)

/-- The `while` loop of `flush_ql`. -/
def flush_ql_loop (cfg : Config) (fuel : Nat) (index : Nat) : Nat → State → Option State
  | 0, _ => none
  | k + 1, s =>
    let cur := s.qlFirst index
    if cur = 0 then some s
    else
      let s1 : State :=
        { s with qlFirst := fun j => if j = index then s.mem (wadd cur NEXT_OFF) else s.qlFirst j }
      let s2 := s1.write (wadd cur NEXT_OFF) 0
      match coalesce cfg fuel s2 cur with
      | none => none
      | some (cur1, s3) => flush_ql_loop cfg fuel index k (insert_ml cfg s3 cur1)

def flush_ql (cfg : Config) (fuel : Nat) (s : State) (index : Nat) : Option State :=
  if index > cfg.NUM_QUICK_LISTS then some { s with diag := s.diag + 1 }
  else flush_ql_loop cfg fuel index fuel s

def insert_ql (cfg : Config) (fuel : Nat) (s : State) (free_block : Nat) : Option State :=
  let header := OBF cfg (s.mem free_block)
  let block_size := GET_BLOCK_SIZE header
  let index := QL_INDEX block_size
  let length := s.qlLength index
  match (if length = 5 then flush_ql cfg fuel s index else some s) with
  | none => none
  | some s1 =>
    let s2 := s1.write free_block (OBF cfg (header ||| IN_QUICK_LIST ||| THIS_BLOCK_ALLOCATED))
    let prev_first := s2.qlFirst index
    let s3 : State :=
      { s2 with qlFirst := fun j => if j = index then free_block else s2.qlFirst j }
    let s4 := s3.write (wadd free_block NEXT_OFF) prev_first
    some { s4 with qlLength := fun j => if j = index then s4.qlLength index + 1 else s4.qlLength j }

/-! ## Heap lifecycle -/

/-- The second loop of `initialize_free_lists`, over the first `n` sentinels. -/
def init_main_lists (cfg : Config) : Nat → State → State
  | 0, s => s
  | n + 1, s =>
    let s1 := init_main_lists cfg n s
    let cur := sentinel cfg n
    (s1.write (wadd cur NEXT_OFF) cur).write (wadd cur PREV_OFF) cur

def initialize_free_lists (cfg : Config) (s : State) : State :=
  let s1 : State :=
    { s with qlLength := fun j => if j < cfg.NUM_QUICK_LISTS then 0 else s.qlLength j }
  init_main_lists cfg cfg.NUM_FREE_LISTS s1

/-- The function `initialize_heap`: the returned integer is 0 on success. -/
def initialize_heap (cfg : Config) (s : State) : Int × State :=
  match sf_mem_grow cfg s with
  | none => (-1, { s with sf_errno := ENOMEM })
  | some (_, s1) =>
    let prologue := wadd (sf_mem_start cfg) MROW
    let s2 := s1.write prologue (OBF cfg (PACK 0 (4 * MROW) 0 1))
    let s3 := s2.write (FOOTER cfg s2 prologue) (s2.mem prologue)
    let block_size := 4096 - EPILOGUE_SIZE - PROLOGUE_SIZE - MROW
    let free_block := wadd prologue (4 * MROW)
    let s4 := create_free_block cfg s3 block_size free_block
    let s5 := s4.write (NEXT_BLOCK cfg s4 free_block) (OBF cfg 1)
    (0, insert_ml cfg s5 free_block)

/-- The function `extend_heap`: the returned integer is 0 on success. -/
def extend_heap (cfg : Config) (fuel : Nat) (s : State) : Option (Int × State) :=
  match sf_mem_grow cfg s with
  | none => some (-1, { s with sf_errno := ENOMEM })
  | some (ret, s1) =>
    let free_block := wsub ret MROW
    let s2 := create_free_block cfg s1 PAGE_SZ free_block
    let s3 := s2.write (wsub (sf_mem_end cfg s2) MROW) (OBF cfg 1)
    match coalesce cfg fuel s3 free_block with
    | none => none
    | some (fb, s4) => some (0, insert_ml cfg s4 fb)

/-! ## Splitting and allocation of a block -/

/-- The function `create_malloc_block`: the payload pointer and the new state. -/
def create_malloc_block (cfg : Config) (s : State) (free_block pl_size : Nat) : Nat × State :=
  let block_size := GET_BLOCK_SIZE (OBF cfg (s.mem free_block))
  let fPtr := FOOTER cfg s free_block
  let s1 := s.write free_block (OBF cfg (PACK pl_size block_size 0 1))
  (wadd free_block MROW, s1.write fPtr (s1.mem free_block))

def split_free_block (cfg : Config) (s : State) (free_block block_size : Nat) : Nat × State :=
  let fb_size := GET_BLOCK_SIZE (OBF cfg (s.mem free_block))
  let frag_size := wsub fb_size block_size
  if frag_size < MIN_BLOCK_SIZE then (free_block, s)
  else
    let s1 := s.write free_block (OBF cfg (PACK 0 block_size 0 0))
    let s2 := s1.write (wsub (wadd free_block block_size) MROW) (s1.mem free_block)
    let nxtPtr := wadd free_block block_size
    let s3 := create_free_block cfg s2 frag_size nxtPtr
    (free_block, insert_ml cfg s3 nxtPtr)

/-- The function `split_malloc_block`; the block returned by `coalesce` is
discarded, as in the source, and the fragment pointer is inserted. -/
def split_malloc_block (cfg : Config) (fuel : Nat) (s : State) (block block_size pl_size : Nat) :
    Option (Nat × State) :=
  let b_size := GET_BLOCK_SIZE (OBF cfg (s.mem block))
  let frag_size := wsub b_size block_size
  if frag_size < MIN_BLOCK_SIZE then some (block, s)
  else
    let s1 := s.write block (OBF cfg (PACK pl_size block_size 0 1))
    let s2 := s1.write (wsub (wadd block block_size) MROW) (s1.mem block)
    let nxtPtr := wadd block block_size
    let s3 := create_free_block cfg s2 frag_size nxtPtr
    match coalesce cfg fuel s3 nxtPtr with
    | none => none
    | some (_, s4) => some (block, insert_ml cfg s4 nxtPtr)

/-! ## Validation -/

/-- The function `validate_pp`: 0 when the pointer is accepted, -1 otherwise. -/
def validate_pp (cfg : Config) (s : State) (pp : Nat) : Int :=
  if pp = 0 then -1
  else if pp % 16 ≠ 0 then -1
  else
    let hPtr := wsub pp MROW
    let header := OBF cfg (s.mem hPtr)
    let block_size := GET_BLOCK_SIZE header
    if block_size < MIN_BLOCK_SIZE ∨ block_size % 16 ≠ 0 then -1
    else if hPtr < sf_mem_start cfg then -1
    else
      let fPtr := wsub (wadd header block_size) MROW
      if fPtr > sf_mem_end cfg s then -1
      else
        let alloc := header &&& THIS_BLOCK_ALLOCATED
        let in_ql := header &&& IN_QUICK_LIST
        if alloc = 0 ∨ in_ql ≠ 0 then -1 else 0

/-! ## The allocator's entry points -/

/-- The block size computed at the top of `sf_malloc`. -/
def malloc_block_size (size : Nat) : Nat :=
  let block_size := wadd size (2 * MROW)
  let block_size := if block_size < 32 then 32 else block_size
  if block_size % 16 ≠ 0 then wadd block_size (16 - block_size % 16) else block_size

/-- The `do ... while` loop of `sf_malloc`: `some (0, s)` when the heap cannot be
extended, otherwise the unlinked fitting block. -/
def malloc_fit_loop (cfg : Config) (fuel : Nat) (block_size : Nat) :
    Nat → State → Option (Nat × State)
  | 0, _ => none
  | k + 1, s =>
    match find_fit cfg fuel s block_size with
    | none => none
    | some fit_block =>
      if fit_block = 0 then
        match extend_heap cfg fuel s with
        | none => none
        | some (ret, s1) =>
          if ret ≠ 0 then some (0, s1) else malloc_fit_loop cfg fuel block_size k s1
      else some (fit_block, unlink_block s fit_block)

/-- The initialisation at the top of `sf_malloc`, run when the heap is empty: the
integer is 0 unless the first page could not be grown. -/
def malloc_init (cfg : Config) (s : State) : Int × State :=
  if HEAP_SIZE cfg s = 0 then initialize_heap cfg (initialize_free_lists cfg s) else (0, s)

/-- The state in which the loop of `sf_malloc` finds its fit, before the block
is unlinked: the heap state after the page grows the request needed. -/
def malloc_fit_state (cfg : Config) (fuel : Nat) (block_size : Nat) :
    Nat → State → Option State
  | 0, _ => none
  | k + 1, s =>
    match find_fit cfg fuel s block_size with
    | none => none
    | some fit_block =>
      if fit_block = 0 then
        match extend_heap cfg fuel s with
        | none => none
        | some (ret, s1) =>
          if ret ≠ 0 then none else malloc_fit_state cfg fuel block_size k s1
      else some s

/-- The function `sf_malloc`: the returned pointer is 0 for `NULL`. -/
def sf_malloc (cfg : Config) (fuel : Nat) (s : State) (size : Nat) : Option (Nat × State) :=
  if size = 0 then some (0, s)
  else
    let init := malloc_init cfg s
    if init.1 ≠ 0 then some (0, init.2)
    else
      let s1 := init.2
      let block_size := malloc_block_size size
      let ql : Nat × State :=
        if block_size < QL_MAX_SIZE then popQL s1 (QL_INDEX block_size) else (0, s1)
      if block_size < QL_MAX_SIZE ∧ ql.1 ≠ 0 then
        let r := create_malloc_block cfg ql.2 ql.1 size
        some (r.1, update_pl r.2 size)
      else
        match malloc_fit_loop cfg fuel block_size fuel ql.2 with
        | none => none
        | some (fit_block, s2) =>
          if fit_block = 0 then some (0, s2)
          else
            let sp := split_free_block cfg s2 fit_block block_size
            let r := create_malloc_block cfg sp.2 sp.1 size
            some (r.1, update_pl r.2 size)

/-- How a call that may abort the process ends. -/
inductive Outcome (α : Type) where
  /-- the call returned -/
  | ret (a : α) (s : State)
  /-- the call reached `abort()` -/
  | abort
  /-- the fuel ran out -/
  | timeout

/-- The function `sf_free`. -/
def sf_free (cfg : Config) (fuel : Nat) (s : State) (pp : Nat) : Outcome Unit :=
  if validate_pp cfg s pp ≠ 0 then Outcome.abort
  else
    let hPtr := wsub pp MROW
    let header := OBF cfg (s.mem hPtr)
    let block_size := GET_BLOCK_SIZE header
    let pl_size := GET_PL_SIZE header
    let s1 := create_free_block cfg s block_size hPtr
    match coalesce cfg fuel s1 hPtr with
    | none => Outcome.timeout
    | some (free_block, s2) =>
      let block_size := GET_BLOCK_SIZE (OBF cfg (s2.mem free_block))
      let ins : Option State :=
        if block_size < QL_MAX_SIZE then insert_ql cfg fuel s2 free_block
        else some (insert_ml cfg s2 free_block)
      match ins with
      | none => Outcome.timeout
      | some s3 => Outcome.ret () (update_pl s3 (wsub 0 pl_size))

/-- The library function `memcpy` on the word-granular memory of a little-endian
machine, for a word-aligned destination and source: whole words are copied and
the last word keeps its bytes beyond the `n`-th. -/
def memcpy (s : State) (dst src n : Nat) : State :=
  { s with mem := fun x =>
      if dst ≤ x ∧ x < dst + n ∧ (x - dst) % 8 = 0 then
        let off := x - dst
        let r := n - off
        if r ≥ 8 then s.mem (src + off)
        else s.mem x / 2 ^ (8 * r) * 2 ^ (8 * r) + s.mem (src + off) % 2 ^ (8 * r)
      else s.mem x }

/-- The block size computed in the shrinking branch of `sf_realloc`. -/
def realloc_block_size (rsize : Nat) : Nat :=
  let block_size := wadd rsize (2 * MROW)
  if block_size % 16 ≠ 0 then wadd block_size (16 - rsize % 16) else block_size

/-- The function `sf_realloc`: the returned pointer is 0 for `NULL`. -/
def sf_realloc (cfg : Config) (fuel : Nat) (s : State) (pp rsize : Nat) : Outcome Nat :=
  if validate_pp cfg s pp ≠ 0 then Outcome.ret 0 { s with sf_errno := EINVAL }
  else if rsize = 0 then
    match sf_free cfg fuel s pp with
    | Outcome.ret _ s1 => Outcome.ret 0 s1
    | Outcome.abort => Outcome.abort
    | Outcome.timeout => Outcome.timeout
  else
    let hPtr := wsub pp MROW
    let header := OBF cfg (s.mem hPtr)
    let pl_size := GET_PL_SIZE header
    if rsize = pl_size then Outcome.ret pp s
    else if pl_size < rsize then
      match sf_malloc cfg fuel s rsize with
      | none => Outcome.timeout
      | some (ptr, s1) =>
        if ptr = 0 then Outcome.ret 0 s1
        else
          match sf_free cfg fuel (memcpy s1 ptr pp pl_size) pp with
          | Outcome.ret _ s3 => Outcome.ret ptr (update_pl s3 (wsub rsize pl_size))
          | Outcome.abort => Outcome.abort
          | Outcome.timeout => Outcome.timeout
    else
      match split_malloc_block cfg fuel s hPtr (realloc_block_size rsize) rsize with
      | none => Outcome.timeout
      | some (block, s1) => Outcome.ret (wadd block MROW) (update_pl s1 (wsub rsize pl_size))

/-! ## Walking the heap -/

/-- The loop of `sf_fragmentation`: the totals `(total_pl, total_size)` over the
blocks that are allocated and not in a quick list. -/
def frag_walk (cfg : Config) (s : State) (stop : Nat) : Nat → Nat → Nat → Nat → Option (Nat × Nat)
  | 0, _, _, _ => none
  | k + 1, curBlock, total_pl, total_size =>
    if curBlock = stop then some (total_pl, total_size)
    else
      let header := OBF cfg (s.mem curBlock)
      let block_size := GET_BLOCK_SIZE header
      let alloc := header &&& THIS_BLOCK_ALLOCATED
      let ql := header &&& IN_QUICK_LIST
      if ql ≠ 0 ∨ alloc = 0 then frag_walk cfg s stop k (wadd curBlock block_size) total_pl total_size
      else
        frag_walk cfg s stop k (wadd curBlock block_size)
          (wadd total_pl (GET_PL_SIZE header)) (wadd total_size block_size)

/-- The sum of the payload sizes that `sf_fragmentation` accumulates. -/
def total_payload (cfg : Config) (fuel : Nat) (s : State) : Option Nat :=
  (frag_walk cfg s (wsub (sf_mem_end cfg s) MROW) fuel (wadd (sf_mem_start cfg) (5 * MROW)) 0 0).map
    Prod.fst

/-- The state of the program before the first call: no page, empty quick lists,
zeroed statistics; the memory content is arbitrary. -/
def fresh (mem : Nat → Nat) : State :=
  { mem := mem, pages := 0, qlFirst := fun _ => 0, qlLength := fun _ => 0,
    running_pl := 0, max_pl := 0, sf_errno := 0, diag := 0 }

/-! ## Client programs

A client program is a sequence of calls into the allocator. -/

/-- One step of a client program. -/
inductive Call where
  /-- the call `sf_malloc(size)` -/
  | malloc (size : Nat)
  /-- the call `sf_free(pp)` -/
  | free (pp : Nat)
  /-- the call `sf_realloc(pp, rsize)` -/
  | realloc (pp rsize : Nat)

/-- Run one step: the value returned (0 for `sf_free`) and the new state; `none`
when the step aborts or runs out of fuel. -/
def step (cfg : Config) (fuel : Nat) (s : State) : Call → Option (Nat × State)
  | Call.malloc size => sf_malloc cfg fuel s size
  | Call.free pp =>
    match sf_free cfg fuel s pp with
    | Outcome.ret _ s1 => some (0, s1)
    | _ => none
  | Call.realloc pp rsize =>
    match sf_realloc cfg fuel s pp rsize with
    | Outcome.ret q s1 => some (q, s1)
    | _ => none

/-- Run a client program, collecting the returned values in order. -/
def run (cfg : Config) (fuel : Nat) : List Call → State → Option (List Nat × State)
  | [], s => some ([], s)
  | c :: cs, s =>
    match step cfg fuel s c with
    | none => none
    | some (r, s1) =>
      match run cfg fuel cs s1 with
      | none => none
      | some (rs, s2) => some (r :: rs, s2)

/-- The values returned by a client program. -/
def returns (cfg : Config) (fuel : Nat) (cs : List Call) (s : State) : Option (List Nat) :=
  (run cfg fuel cs s).map Prod.fst

/-- The state a client program ends in. -/
def final (cfg : Config) (fuel : Nat) (cs : List Call) (s : State) : Option State :=
  (run cfg fuel cs s).map Prod.snd

/-- A concrete build: ten main lists, twelve quick lists, the heap at `2 ^ 48`,
the list heads at `2 ^ 40`, at most twenty pages. -/
def cfgA : Config :=
  { MAGIC := 0xA5A5A5A55A5A5A5A, NUM_FREE_LISTS := 10, NUM_QUICK_LISTS := 12,
    heads := 2 ^ 40, start := 2 ^ 48, maxPages := 20 }

/-- The heap start of `cfgA`. -/
def baseA : Nat := 2 ^ 48

/-- The fresh state whose memory is all zero. -/
def fresh0 : State := fresh (fun _ => 0)

/-- The de-obfuscated header word of the block whose payload starts at `pp`. -/
def header_at (cfg : Config) (s : State) (pp : Nat) : Nat := OBF cfg (s.mem (wsub pp MROW))

/-! ## Well-formedness of the lists -/

/-- The `k`-th block that follows sentinel `i` along the `next` links. -/
def node (cfg : Config) (s : State) (i : Nat) : Nat → Nat
  | 0 => sentinel cfg i
  | k + 1 => s.mem (wadd (node cfg s i k) NEXT_OFF)

/-- The heap and the list heads lie in the address space, apart from each other. -/
def HeadsPlaced (cfg : Config) (s : State) : Prop :=
  sf_mem_end cfg s < WORD ∧
  ∀ i, i < cfg.NUM_FREE_LISTS →
    sentinel cfg i + SF_BLOCK_SZ ≤ WORD ∧
    (sentinel cfg i + SF_BLOCK_SZ ≤ sf_mem_start cfg ∨ sf_mem_end cfg s ≤ sentinel cfg i)

instance (cfg : Config) (s : State) : Decidable (HeadsPlaced cfg s) := by
  unfold HeadsPlaced; infer_instance

/-- Every list entry within `n` links of its sentinel is that sentinel or a block
that lies, with its link words, inside the heap. -/
def NodesPlaced (cfg : Config) (n : Nat) (s : State) : Prop :=
  ∀ i, i < cfg.NUM_FREE_LISTS → ∀ k, k < n →
    node cfg s i k = sentinel cfg i ∨
    (sf_mem_start cfg ≤ node cfg s i k ∧
      node cfg s i k + max SF_BLOCK_SZ (GET_BLOCK_SIZE (OBF cfg (s.mem (node cfg s i k))))
        ≤ sf_mem_end cfg s)

instance (cfg : Config) (n : Nat) (s : State) : Decidable (NodesPlaced cfg n s) := by
  unfold NodesPlaced; infer_instance

/-- Distinct list entries within `n` links of their sentinels do not share their
header and link words. -/
def NodesApart (cfg : Config) (n : Nat) (s : State) : Prop :=
  ∀ i, i < cfg.NUM_FREE_LISTS → ∀ k, k < n → ∀ j, j < cfg.NUM_FREE_LISTS → ∀ l, l < n →
    node cfg s i k = node cfg s j l ∨ node cfg s i k + SF_BLOCK_SZ ≤ node cfg s j l ∨
      node cfg s j l + SF_BLOCK_SZ ≤ node cfg s i k

instance (cfg : Config) (n : Nat) (s : State) : Decidable (NodesApart cfg n s) := by
  unfold NodesApart; infer_instance

/-- The `prev` link of each of the first `n` entries of a list is the entry before it. -/
def PrevMirrors (cfg : Config) (n : Nat) (s : State) : Prop :=
  ∀ i, i < cfg.NUM_FREE_LISTS → ∀ k, k < n →
    s.mem (wadd (node cfg s i (k + 1)) PREV_OFF) = node cfg s i k

instance (cfg : Config) (n : Nat) (s : State) : Decidable (PrevMirrors cfg n s) := by
  unfold PrevMirrors; infer_instance

/-- Well-formed main lists, as far as a scan with the given fuel can walk them. -/
def MainOK (cfg : Config) (fuel : Nat) (s : State) : Prop :=
  HeadsPlaced cfg s ∧ NodesPlaced cfg (fuel + 2) s ∧ NodesApart cfg (fuel + 2) s ∧
    PrevMirrors cfg (fuel + 1) s

instance (cfg : Config) (fuel : Nat) (s : State) : Decidable (MainOK cfg fuel s) := by
  unfold MainOK; infer_instance

/-- Well-formed quick lists, as far as their heads: the first block of quick
list `j`, for each of the sizes below `QL_MAX_SIZE`, is an address whose header
records the block size `32 + 16 * j` of that list. -/
def QuickOK (cfg : Config) (s : State) : Prop :=
  ∀ j, j < (QL_MAX_SIZE - 32) / 16 → s.qlFirst j ≠ 0 →
    s.qlFirst j < WORD ∧ GET_BLOCK_SIZE (OBF cfg (s.mem (s.qlFirst j))) = 32 + 16 * j

instance (cfg : Config) (s : State) : Decidable (QuickOK cfg s) := by
  unfold QuickOK; infer_instance

/-- Two addresses whose three-word areas coincide or are disjoint. -/
def Clear (x y : Nat) : Prop := x = y ∨ x + 24 ≤ y ∨ y + 24 ≤ x

/-- The `n`-th block of the heap, walking from the block after the prologue
and advancing by the block size in each header. -/
def blk (cfg : Config) (s : State) : Nat → Nat
  | 0 => sf_mem_start cfg + 5 * MROW
  | n + 1 => blk cfg s n + GET_BLOCK_SIZE (OBF cfg (s.mem (blk cfg s n)))

/-- The first block of each quick list is one of the first `n` blocks of the heap
walk. -/
def QuickOnHeap (cfg : Config) (n : Nat) (s : State) : Prop :=
  ∀ j, j < (QL_MAX_SIZE - 32) / 16 → s.qlFirst j ≠ 0 → ∃ m, m < n ∧ s.qlFirst j = blk cfg s m

instance (cfg : Config) (n : Nat) (s : State) : Decidable (QuickOnHeap cfg n s) := by
  unfold QuickOnHeap; infer_instance

/-- Every main-list entry that a scan with the given fuel can reach is its list's
sentinel or one of the first `n` blocks of the heap walk. -/
def MainOnHeap (cfg : Config) (fuel n : Nat) (s : State) : Prop :=
  ∀ i, i < cfg.NUM_FREE_LISTS → ∀ k, k < fuel + 1 →
    node cfg s i k = sentinel cfg i ∨ ∃ m, m < n ∧ node cfg s i k = blk cfg s m

instance (cfg : Config) (fuel n : Nat) (s : State) : Decidable (MainOnHeap cfg fuel n s) := by
  unfold MainOnHeap; infer_instance

/-! ## The block size of the specification -/

/-- Rounding up to a multiple of 16, over the natural numbers. -/
def round_up_16 (x : Nat) : Nat := (x + 15) / 16 * 16

/-- The block size as the specification words it, over the natural numbers:
`max(MIN_BLOCK, round_up_16(size + 2 * MROW))`. -/
def spec_block_size (size : Nat) : Nat := max MIN_BLOCK_SIZE (round_up_16 (size + 2 * MROW))

/-! ## Scenarios and specification-side definitions -/

/-- The byte stored at an address, on a little-endian machine. -/
def byte_at (s : State) (a : Nat) : Nat := (s.mem (a - a % 8) >>> (8 * (a % 8))) % 256

/-- Whether a call ended in `abort()`. -/
def aborted {α : Type} : Outcome α → Bool
  | Outcome.abort => true
  | _ => false

/-- The verdict of validation as the specification words it: the pointer is
non-null and a multiple of 16, the header is not before the heap start, the
block size is at least 32 and a multiple of 16, the footer address
`payload - MROW + block_size - MROW` lies before the heap end, and the header is
marked allocated and not in a quick list. -/
def validate_spec (cfg : Config) (s : State) (pp : Nat) : Prop :=
  pp ≠ 0 ∧ pp % 16 = 0 ∧ sf_mem_start cfg ≤ pp - MROW ∧
  MIN_BLOCK_SIZE ≤ GET_BLOCK_SIZE (header_at cfg s pp) ∧
  GET_BLOCK_SIZE (header_at cfg s pp) % 16 = 0 ∧
  pp - MROW + GET_BLOCK_SIZE (header_at cfg s pp) - MROW < sf_mem_end cfg s ∧
  header_at cfg s pp &&& THIS_BLOCK_ALLOCATED = 1 ∧ header_at cfg s pp &&& IN_QUICK_LIST = 0

instance (cfg : Config) (s : State) (pp : Nat) : Decidable (validate_spec cfg s pp) := by
  unfold validate_spec; infer_instance

/-- The build `cfgA` with the heap placed at `2 ^ 16`. -/
def cfgLow : Config :=
  { MAGIC := 0xA5A5A5A55A5A5A5A, NUM_FREE_LISTS := 10, NUM_QUICK_LISTS := 12,
    heads := 2 ^ 40, start := 2 ^ 16, maxPages := 20 }

/-- Seven allocations of 32 bytes, then the first six freed in address order. -/
def sixFreed : List Call :=
  [Call.malloc 32, Call.malloc 32, Call.malloc 32, Call.malloc 32, Call.malloc 32, Call.malloc 32,
   Call.malloc 32, Call.free (baseA + 48), Call.free (baseA + 96), Call.free (baseA + 144),
   Call.free (baseA + 192), Call.free (baseA + 240), Call.free (baseA + 288)]

/-- The result of the first `sf_malloc(4)` on the fresh heap of `cfgA`. -/
def alloc4 : Nat × State := (sf_malloc cfgA 3 fresh0 4).getD (0, fresh0)

/-- The result of the first `sf_malloc(100)` on the fresh heap of `cfgA`. -/
def alloc100 : Nat × State := (sf_malloc cfgA 3 fresh0 100).getD (0, fresh0)

/-- A heap with one block in quick list 0, between two allocated blocks. -/
def quickState : State :=
  (final cfgA 3 [Call.malloc 4, Call.malloc 4, Call.free (baseA + 48)] fresh0).getD fresh0

/-- A heap with one block in quick list 0, followed by a free block. -/
def mixedState : State :=
  (final cfgA 3 [Call.malloc 4, Call.malloc 4, Call.free (baseA + 48), Call.free (baseA + 80)]
    fresh0).getD fresh0

/-- The blocks linked from a quick-list head along the `next` links, up to the
`NULL` link. -/
def ql_members (s : State) : Nat → Nat → List Nat
  | 0, _ => []
  | k + 1, cur => if cur = 0 then [] else cur :: ql_members s k (s.mem (wadd cur NEXT_OFF))

/-- The blocks that follow a main-list entry along the `next` links, up to the
sentinel of list `i` or a `NULL` link. -/
def ml_members (cfg : Config) (s : State) (i : Nat) : Nat → Nat → List Nat
  | 0, _ => []
  | k + 1, cur =>
    let nxt := s.mem (wadd cur NEXT_OFF)
    if nxt = sentinel cfg i ∨ nxt = 0 then [] else nxt :: ml_members cfg s i k nxt

/-- The blocks of main list `i`. -/
def main_list (cfg : Config) (s : State) (fuel i : Nat) : List Nat :=
  ml_members cfg s i fuel (sentinel cfg i)

/-- The blocks visited by walking the heap from a block up to the epilogue at
`sf_mem_end - 8`, advancing by the block size in each header. -/
def heap_walk (cfg : Config) (s : State) : Nat → Nat → List Nat
  | 0, _ => []
  | k + 1, cur =>
    if cur + MROW ≥ sf_mem_end cfg s then []
    else cur :: heap_walk cfg s k (cur + GET_BLOCK_SIZE (OBF cfg (s.mem cur)))

/-- The blocks of the heap between the prologue and the epilogue. -/
def heap_blocks (cfg : Config) (s : State) (fuel : Nat) : List Nat :=
  heap_walk cfg s fuel (sf_mem_start cfg + 5 * MROW)

/-- The two flag bits of the word stored at an address, de-obfuscated: the pair
`(allocated, in_quick_list)`. -/
def flags_at (cfg : Config) (s : State) (a : Nat) : Nat × Nat :=
  (OBF cfg (s.mem a) &&& THIS_BLOCK_ALLOCATED, (OBF cfg (s.mem a) &&& IN_QUICK_LIST) / 2)

/-- Twelve allocations of 32 bytes, then every second block freed, five in all. -/
def altFreed5 : List Call :=
  List.replicate 12 (Call.malloc 32) ++
    [Call.free (baseA + 48), Call.free (baseA + 144), Call.free (baseA + 240),
     Call.free (baseA + 336), Call.free (baseA + 432)]

/-- The scenario `altFreed5` followed by a sixth free into the same quick list. -/
def altFreed : List Call := altFreed5 ++ [Call.free (baseA + 528)]

/-- Ten allocations of 32 bytes and one of 300 bytes; four shielded small blocks
and the tenth are freed, then the large block, then the ninth small block. -/
def shadowed : List Call :=
  List.replicate 10 (Call.malloc 32) ++
    [Call.malloc 300, Call.free (baseA + 48), Call.free (baseA + 144), Call.free (baseA + 240),
     Call.free (baseA + 336), Call.free (baseA + 480), Call.free (baseA + 528),
     Call.free (baseA + 432)]

/-- A heap with two allocated 32-byte blocks and nothing freed. -/
def pairState : State :=
  (final cfgA 3 [Call.malloc 4, Call.malloc 4] fresh0).getD fresh0

/-- The client program of `k` calls `sf_malloc(4)`. -/
def alloc4s (k : Nat) : List Call := List.replicate k (Call.malloc 4)

/-- The words of each block of the heap walk: the triple
`(address, de-obfuscated header, de-obfuscated footer)`. -/
def block_words (cfg : Config) (s : State) (fuel : Nat) : List (Nat × Nat × Nat) :=
  (heap_blocks cfg s fuel).map
    (fun a => (a, OBF cfg (s.mem a), OBF cfg (s.mem (FOOTER cfg s a))))

/-- The blocks of all main lists, list by list. -/
def main_lists (cfg : Config) (s : State) (fuel : Nat) : List (List Nat) :=
  (List.range cfg.NUM_FREE_LISTS).map (main_list cfg s fuel)

/-- A client stores the word `v` at the address `a` of a payload it holds. -/
def client_store (s : State) (a v : Nat) : State := s.write a v

/-- The state after `sixFreed` and `sf_malloc(250)`: the client holds the
payload of 250 bytes at offset 48. -/
def overlapState : State :=
  (final cfgA 20 (sixFreed ++ [Call.malloc 250]) fresh0).getD fresh0

/-- Six allocations of 32 bytes and one of 300 bytes; the six small blocks are
freed in address order, then the large one; then `sf_malloc(64)`, six calls
`sf_malloc(4)` and `sf_malloc(32)`. -/
def twiceGiven : List Call :=
  List.replicate 6 (Call.malloc 32) ++
    [Call.malloc 300, Call.free (baseA + 48), Call.free (baseA + 96), Call.free (baseA + 144),
     Call.free (baseA + 192), Call.free (baseA + 240), Call.free (baseA + 288),
     Call.free (baseA + 336), Call.malloc 64] ++
    List.replicate 6 (Call.malloc 4) ++ [Call.malloc 32]

/-- The state after `twiceGiven`. -/
def twiceState : State := (final cfgA 20 twiceGiven fresh0).getD fresh0

/-- One allocation of 3456 bytes and twelve of 32 bytes, which fill the first
page; then the last block and every second block below it are freed, six
blocks in all, from the highest address down. -/
def tailFlushed : List Call :=
  [Call.malloc 3456] ++ List.replicate 12 (Call.malloc 32) ++
    [Call.free (baseA + 4048), Call.free (baseA + 3952), Call.free (baseA + 3856),
     Call.free (baseA + 3760), Call.free (baseA + 3664), Call.free (baseA + 3568)]

/-- The state after `tailFlushed`. -/
def tailState : State := (final cfgA 20 tailFlushed fresh0).getD fresh0

/-! ## The main lists as sequences of blocks -/

/-- The blocks `xs` are linked in this order between `a` and `z`: the `next` link
of each entry, starting with `a`, is the entry after it, ending with `z`, and
the `prev` link of each is the entry before it. -/
def Chain (s : State) (z : Nat) : Nat → List Nat → Prop
  | a, [] => s.mem (a + 8) = z ∧ s.mem (z + 16) = a
  | a, x :: xs => s.mem (a + 8) = x ∧ s.mem (x + 16) = a ∧ Chain s z x xs

/-- Deciding `Chain`, entry by entry. -/
def Chain.dec (s : State) (z : Nat) : (a : Nat) → (xs : List Nat) → Decidable (Chain s z a xs)
  | a, [] => inferInstanceAs (Decidable (s.mem (a + 8) = z ∧ s.mem (z + 16) = a))
  | a, x :: xs =>
    have : Decidable (Chain s z x xs) := Chain.dec s z x xs
    inferInstanceAs (Decidable (s.mem (a + 8) = x ∧ s.mem (x + 16) = a ∧ Chain s z x xs))

instance (s : State) (z a : Nat) (xs : List Nat) : Decidable (Chain s z a xs) :=
  Chain.dec s z a xs

/-- Main list `i` is the circular list of the blocks `L i`, for every `i`. -/
def Linked (cfg : Config) (s : State) (L : Nat → List Nat) : Prop :=
  ∀ i, i < cfg.NUM_FREE_LISTS → Chain s (sentinel cfg i) (sentinel cfg i) (L i)

instance (cfg : Config) (s : State) (L : Nat → List Nat) : Decidable (Linked cfg s L) := by
  unfold Linked; infer_instance

/-- The block size recorded in the header at an address. -/
def size_at (cfg : Config) (s : State) (a : Nat) : Nat := GET_BLOCK_SIZE (OBF cfg (s.mem a))

/-- Every listed block lies between the prologue and the epilogue, is at least
32 bytes long and is listed in the main list of its size class. -/
def Placed (cfg : Config) (s : State) (L : Nat → List Nat) : Prop :=
  ∀ i, i < cfg.NUM_FREE_LISTS → ∀ x, x ∈ L i →
    sf_mem_start cfg + 40 ≤ x ∧ x + size_at cfg s x + 8 ≤ sf_mem_end cfg s ∧
    32 ≤ size_at cfg s x ∧ get_ml_index cfg (size_at cfg s x) = i

instance (cfg : Config) (s : State) (L : Nat → List Nat) : Decidable (Placed cfg s L) := by
  unfold Placed; infer_instance

/-- Listed blocks are distinct and their header and link words do not overlap. -/
def Separate (cfg : Config) (L : Nat → List Nat) : Prop :=
  (∀ i, i < cfg.NUM_FREE_LISTS → (L i).Nodup) ∧
  ∀ i, i < cfg.NUM_FREE_LISTS → ∀ j, j < cfg.NUM_FREE_LISTS →
    ∀ x, x ∈ L i → ∀ y, y ∈ L j → Clear x y

instance (cfg : Config) (L : Nat → List Nat) : Decidable (Separate cfg L) := by
  unfold Separate Clear; infer_instance

/-- The list heads lie in the address space, outside the region from the heap
start up to `hi`. -/
def HeadsOutside (cfg : Config) (hi : Nat) : Prop :=
  0 < cfg.NUM_FREE_LISTS ∧ hi < WORD ∧
  ∀ i, i < cfg.NUM_FREE_LISTS →
    sentinel cfg i + 24 ≤ WORD ∧ (sentinel cfg i + 24 ≤ sf_mem_start cfg ∨ hi ≤ sentinel cfg i)

instance (cfg : Config) (hi : Nat) : Decidable (HeadsOutside cfg hi) := by
  unfold HeadsOutside; infer_instance

/-- The last block before the epilogue, found through the footer below the
epilogue as `coalesce` finds it. -/
def last_block (cfg : Config) (s : State) : Nat :=
  PREV_BLOCK cfg s (sf_mem_end cfg s - MROW)

/-- The size of the last block when the header of that block is not marked
allocated, and 0 when it is: the reading of the header that `coalesce` makes
when `extend_heap` calls it. -/
def last_clear_size (cfg : Config) (s : State) : Nat :=
  if OBF cfg (s.mem (last_block cfg s)) &&& THIS_BLOCK_ALLOCATED = 0 then
    size_at cfg s (last_block cfg s)
  else 0

/-- The size `L` of the free main-list block that ends the heap: the size of
the last block before the epilogue when that block is linked in a main list,
and 0 otherwise, when the block is allocated or held in a quick list. -/
def last_free_size (cfg : Config) (s : State) (fuel : Nat) : Nat :=
  if (main_lists cfg s fuel).any (fun l => l.contains (last_block cfg s)) then
    size_at cfg s (last_block cfg s)
  else 0

/-- The number of pages that cover a deficit: `ceil(d / PAGE_SZ)`. -/
def pages_for (d : Nat) : Nat := (d + (PAGE_SZ - 1)) / PAGE_SZ

/-- Well-formed main lists: the list heads lie outside the heap region up to
`hi`, main list `i` links exactly the blocks `L i`, each of them a block of the
heap filed under its size class, and the listed blocks are apart from each
other. -/
def Lists (cfg : Config) (s : State) (hi : Nat) (L : Nat → List Nat) : Prop :=
  HeadsOutside cfg hi ∧ sf_mem_end cfg s ≤ hi ∧ Linked cfg s L ∧ Placed cfg s L ∧
    Separate cfg L

instance (cfg : Config) (s : State) (hi : Nat) (L : Nat → List Nat) :
    Decidable (Lists cfg s hi L) := by
  unfold Lists; infer_instance

/-- The heap of one page after `k` allocations of 4 bytes from the fresh heap:
one page is grown and the quick list of 32-byte blocks is empty; the prologue
header and footer at offsets 8 and 32 record 32 bytes, `allocated = 1`; the
blocks at offsets `40 + 32 * i`, `i < k`, carry the header and the footer of an
allocated block of 32 bytes with payload size 4; the block at offset
`40 + 32 * k` carries the header of a free block of `4048 - 32 * k` bytes, whose
footer is the word at offset 4080; the epilogue word at offset 4088 records
size 0, `allocated = 1`; and the main lists are well formed and hold that free
block alone, in the list of its size class. -/
def Carved (cfg : Config) (s : State) (k : Nat) : Prop :=
  s.pages = 1 ∧ s.qlFirst (QL_INDEX 32) = 0 ∧
  s.mem (sf_mem_start cfg + 8) = OBF cfg (PACK 0 32 0 1) ∧
  s.mem (sf_mem_start cfg + 32) = OBF cfg (PACK 0 32 0 1) ∧
  (∀ i, i < k → s.mem (sf_mem_start cfg + 40 + 32 * i) = OBF cfg (PACK 4 32 0 1) ∧
    s.mem (sf_mem_start cfg + 64 + 32 * i) = OBF cfg (PACK 4 32 0 1)) ∧
  s.mem (sf_mem_start cfg + 40 + 32 * k) = OBF cfg (PACK 0 (4048 - 32 * k) 0 0) ∧
  s.mem (sf_mem_start cfg + 4080) = OBF cfg (PACK 0 (4048 - 32 * k) 0 0) ∧
  s.mem (sf_mem_start cfg + 4088) = OBF cfg 1 ∧
  Lists cfg s (sf_mem_start cfg + 4096)
    (fun i => if i = get_ml_index cfg (4048 - 32 * k) then [sf_mem_start cfg + 40 + 32 * k]
      else [])

instance (cfg : Config) (s : State) (k : Nat) : Decidable (Carved cfg s k) := by
  unfold Carved; infer_instance

/-- The state in which `extend_heap` calls `coalesce`: one more page, with the
new free block written over the old epilogue and the new epilogue written. -/
def extend_pre (cfg : Config) (s : State) : State :=
  let s1 : State := { s with pages := s.pages + 1 }
  let s2 := create_free_block cfg s1 PAGE_SZ (wsub (sf_mem_end cfg s) MROW)
  s2.write (wsub (sf_mem_end cfg s2) MROW) (OBF cfg 1)

/-- The heap ends in the free block `P` of `S` bytes: the lists are well formed,
`P` is listed under its size class, its header and footer record `S` bytes and
`allocated = 0`, the epilogue follows it, every other listed block is smaller
than `b`, and the scans have fuel for every list. -/
def EndsFree (cfg : Config) (fuel : Nat) (s : State) (hi : Nat) (L : Nat → List Nat)
    (b P S : Nat) : Prop :=
  Lists cfg s hi L ∧ P ∈ L (get_ml_index cfg S) ∧ size_at cfg s P = S ∧
  P + S + 8 = sf_mem_end cfg s ∧ OBF cfg (s.mem P) &&& THIS_BLOCK_ALLOCATED = 0 ∧
  size_at cfg s (P + S - 8) = S ∧
  (∀ i, i < cfg.NUM_FREE_LISTS → ∀ x, x ∈ L i → x ≠ P → size_at cfg s x < b) ∧
  (∀ i, i < cfg.NUM_FREE_LISTS → ((L i).erase P).length + 2 ≤ fuel)

/-- The main lists of the heap after one `sf_malloc(4)` on the fresh heap of
`cfgA`: the remainder of the first page, alone in list 7. -/
def oneL : Nat → List Nat := fun i => if i = 7 then [baseA + 72] else []

/-! ## Preconditions and results of `coalesce` and `split_free_block` -/

/-- The block `B` is a free block in no main list, on a heap tiled by blocks whose
main lists are the well-formed lists `L`: `B` lies between the prologue and the
epilogue with header `PACK 0 size 0 0` and an equal footer; the footer below `B`
gives the block before it, which ends where `B` starts; every listed block is
marked free and is one of the two neighbours or lies outside the range from the
block before to the end of the block after; a neighbour marked free is listed
under its size class; the scans of `remove_ml` have fuel for every list; and the
block after `B` ends at or before the epilogue (it may be the epilogue).
The heap region up to `hi` is shorter than `2 ^ 32` bytes, so that block sizes
fit the size field. -/
def CoalesceOK (cfg : Config) (fuel : Nat) (s : State) (hi : Nat) (L : Nat → List Nat)
    (B : Nat) : Prop :=
  Lists cfg s hi L ∧ hi < sf_mem_start cfg + 2 ^ 32 ∧
  sf_mem_start cfg + 40 ≤ B ∧ 32 ≤ size_at cfg s B ∧
  B + size_at cfg s B + 8 ≤ sf_mem_end cfg s ∧
  OBF cfg (s.mem B) = PACK 0 (size_at cfg s B) 0 0 ∧
  s.mem (B + size_at cfg s B - 8) = s.mem B ∧
  sf_mem_start cfg + 8 ≤ PREV_BLOCK cfg s B ∧ 32 ≤ size_at cfg s (PREV_BLOCK cfg s B) ∧
  PREV_BLOCK cfg s B + size_at cfg s (PREV_BLOCK cfg s B) = B ∧
  (∀ i, i < cfg.NUM_FREE_LISTS → ∀ x, x ∈ L i →
    OBF cfg (s.mem x) &&& THIS_BLOCK_ALLOCATED = 0 ∧
    (x + size_at cfg s x ≤ PREV_BLOCK cfg s B ∨ x = PREV_BLOCK cfg s B ∨
      x = NEXT_BLOCK cfg s B ∨
      NEXT_BLOCK cfg s B + size_at cfg s (NEXT_BLOCK cfg s B) ≤ x)) ∧
  (OBF cfg (s.mem (PREV_BLOCK cfg s B)) &&& THIS_BLOCK_ALLOCATED = 0 →
    PREV_BLOCK cfg s B ∈ L (get_ml_index cfg (size_at cfg s (PREV_BLOCK cfg s B)))) ∧
  (OBF cfg (s.mem (NEXT_BLOCK cfg s B)) &&& THIS_BLOCK_ALLOCATED = 0 →
    NEXT_BLOCK cfg s B ∈ L (get_ml_index cfg (size_at cfg s (NEXT_BLOCK cfg s B)))) ∧
  (∀ i, i < cfg.NUM_FREE_LISTS → (L i).length ≤ fuel) ∧
  NEXT_BLOCK cfg s B + size_at cfg s (NEXT_BLOCK cfg s B) + 8 ≤ sf_mem_end cfg s

instance (cfg : Config) (fuel : Nat) (s : State) (hi : Nat) (L : Nat → List Nat) (B : Nat) :
    Decidable (CoalesceOK cfg fuel s hi L B) := by
  unfold CoalesceOK; infer_instance

/-- The heap after two calls `sf_malloc(4)` on the fresh heap of `cfgA`, with the
second block rewritten as a free block, as `sf_free` does before it calls
`coalesce`. -/
def freedState : State := create_free_block cfgA pairState 32 (baseA + 72)

/-- The main lists of `freedState`: the rest of the first page, alone in list 7. -/
def freedL : Nat → List Nat := fun i => if i = 7 then [baseA + 104] else []

/-- The lowest-addressed block among `B` and its neighbours marked free: the block
before `B` when its header is marked free, and `B` otherwise. -/
def merged_block (cfg : Config) (s : State) (B : Nat) : Nat :=
  if OBF cfg (s.mem (PREV_BLOCK cfg s B)) &&& THIS_BLOCK_ALLOCATED = 0 then PREV_BLOCK cfg s B
  else B

/-- The size of `B` plus the sizes of its neighbours marked free. -/
def merged_size (cfg : Config) (s : State) (B : Nat) : Nat :=
  size_at cfg s B +
    (if OBF cfg (s.mem (PREV_BLOCK cfg s B)) &&& THIS_BLOCK_ALLOCATED = 0 then
      size_at cfg s (PREV_BLOCK cfg s B) else 0) +
    (if OBF cfg (s.mem (NEXT_BLOCK cfg s B)) &&& THIS_BLOCK_ALLOCATED = 0 then
      size_at cfg s (NEXT_BLOCK cfg s B) else 0)

/-- The heap after one `sf_malloc(4)` on the fresh heap of `cfgA`, with the free
block taken from its list as `sf_malloc` does before it splits. -/
def takenState : State := unlink_block alloc4.2 (baseA + 72)

/-! ## Lemmas on the header codec, the memory and the lists -/

theorem OBF_OBF (cfg : Config) (x : Nat) : OBF cfg (OBF cfg x) = x := by
  unfold OBF
  exact Nat.xor_cancel_right _ _

theorem GET_BLOCK_SIZE_eq (h : Nat) : GET_BLOCK_SIZE h = h % 2 ^ 32 / 16 * 16 := by
  unfold GET_BLOCK_SIZE
  have hm : (0x00000000FFFFFFF0 : Nat) = (2 ^ 28 - 1) <<< 4 := by decide
  have hr : h % 2 ^ 32 / 16 * 16 = ((h % 2 ^ 32) >>> 4) <<< 4 := by
    rw [Nat.shiftLeft_eq, Nat.shiftRight_eq_div_pow]
  rw [hm, hr]
  apply Nat.eq_of_testBit_eq
  intro i
  simp only [Nat.testBit_and, Nat.testBit_shiftLeft, Nat.testBit_shiftRight,
    Nat.testBit_two_pow_sub_one, Nat.testBit_mod_two_pow]
  by_cases h4 : 4 ≤ i
  · have e : 4 + (i - 4) = i := by omega
    by_cases h32 : i < 32
    · have : i - 4 < 28 := by omega
      simp [h4, h32, this, e]
    · have : ¬ i - 4 < 28 := by omega
      simp [h4, h32, this, e]
  · simp [h4]

theorem GET_BLOCK_SIZE_mod (h : Nat) : GET_BLOCK_SIZE h % 16 = 0 := by
  rw [GET_BLOCK_SIZE_eq]; omega

theorem GET_BLOCK_SIZE_lt (h : Nat) : GET_BLOCK_SIZE h < 2 ^ 32 := by
  rw [GET_BLOCK_SIZE_eq]; omega

/-- The packed word as a sum, when every field fits. -/
theorem PACK_eq (pl bs ql al : Nat) (hpl : pl < 2 ^ 32) (hbs : bs < 2 ^ 32) (h16 : bs % 16 = 0)
    (hql : ql ≤ 1) (hal : al ≤ 1) : PACK pl bs ql al = pl * 2 ^ 32 + bs + 2 * ql + al := by
  unfold PACK WORD
  have e0 : (pl <<< 32) % 2 ^ 64 = 2 ^ 32 * pl := by
    rw [Nat.shiftLeft_eq, Nat.mod_eq_of_lt (by omega)]; ring
  have e1 : ql <<< 1 = 2 ^ 1 * ql := by rw [Nat.shiftLeft_eq]; ring
  have e2 : bs = 2 ^ 4 * (bs / 16) := by omega
  have a1 : 2 ^ 1 * ql + al = 2 ^ 1 * ql ||| al := Nat.mul_add_lt_is_or (by omega) ql
  have a2 : 2 ^ 4 * (bs / 16) + (2 ^ 1 * ql + al) = 2 ^ 4 * (bs / 16) ||| (2 ^ 1 * ql + al) :=
    Nat.mul_add_lt_is_or (by omega) (bs / 16)
  have a3 : 2 ^ 32 * pl + (bs + (2 ^ 1 * ql + al)) = 2 ^ 32 * pl ||| (bs + (2 ^ 1 * ql + al)) :=
    Nat.mul_add_lt_is_or (by omega) pl
  rw [e0, e1, Nat.or_assoc, Nat.or_assoc, ← a1]
  have a2' : bs ||| (2 ^ 1 * ql + al) = bs + (2 ^ 1 * ql + al) := by
    rw [e2]; rw [← a2]
  rw [a2', ← a3]
  omega

theorem GET_PL_SIZE_eq (h : Nat) : GET_PL_SIZE h = h / 2 ^ 32 := by
  unfold GET_PL_SIZE; rw [Nat.shiftRight_eq_div_pow]

theorem and_two_eq (h : Nat) : h &&& 2 = h / 2 % 2 * 2 := by
  have hr : h / 2 % 2 * 2 = 2 ^ 1 * ((h >>> 1) % 2 ^ 1) := by
    rw [Nat.shiftRight_eq_div_pow]; omega
  have hm : h &&& 2 = h &&& 2 ^ 1 := rfl
  rw [hr, hm]
  apply Nat.eq_of_testBit_eq
  intro i
  rw [Nat.testBit_and, Nat.testBit_two_pow, Nat.testBit_mul_pow_two, Nat.testBit_mod_two_pow,
    Nat.testBit_shiftRight]
  by_cases h1 : 1 = i
  · subst h1; simp
  · by_cases h2 : 1 ≤ i
    · have : ¬ i - 1 < 1 := by omega
      simp [h1, this]
    · simp [h1, h2]

theorem PACK_fields (pl bs ql al : Nat) (hpl : pl < 2 ^ 32) (hbs : bs < 2 ^ 32)
    (h16 : bs % 16 = 0) (hql : ql ≤ 1) (hal : al ≤ 1) :
    GET_PL_SIZE (PACK pl bs ql al) = pl ∧ GET_BLOCK_SIZE (PACK pl bs ql al) = bs ∧
    PACK pl bs ql al &&& THIS_BLOCK_ALLOCATED = al ∧
    PACK pl bs ql al &&& IN_QUICK_LIST = 2 * ql := by
  rw [GET_PL_SIZE_eq, GET_BLOCK_SIZE_eq, PACK_eq pl bs ql al hpl hbs h16 hql hal]
  unfold THIS_BLOCK_ALLOCATED IN_QUICK_LIST
  rw [Nat.and_one_is_mod, and_two_eq]
  refine ⟨by omega, by omega, by omega, by omega⟩

theorem write_mem (s : State) (a v x : Nat) :
    (s.write a v).mem x = if x = a then v else s.mem x := rfl

theorem write_mem_ne (s : State) {a x : Nat} (v : Nat) (h : x ≠ a) :
    (s.write a v).mem x = s.mem x := by
  rw [write_mem, if_neg h]

theorem write_mem_eq (s : State) (a v : Nat) : (s.write a v).mem a = v := by
  rw [write_mem, if_pos rfl]

theorem wadd_eq {a b : Nat} (h : a + b < WORD) : wadd a b = a + b := by
  unfold wadd; exact Nat.mod_eq_of_lt h

theorem wsub_eq {a b : Nat} (hb : b ≤ a) (ha : a < WORD) : wsub a b = a - b := by
  unfold wsub WORD at *; omega

theorem find_fit_scan_node (cfg : Config) (s : State) (i b : Nat) :
    ∀ fuel k c, find_fit_scan cfg s (sentinel cfg i) b fuel (node cfg s i k) = some c →
      ∃ l, k < l ∧ l ≤ k + fuel ∧ c = node cfg s i l := by
  intro fuel
  induction fuel with
  | zero => intro k c h; simp [find_fit_scan] at h
  | succ n ih =>
    intro k c h
    simp only [find_fit_scan] at h
    split at h
    · obtain ⟨l, h1, h2, h3⟩ := ih (k + 1) c h
      exact ⟨l, by omega, by omega, h3⟩
    · refine ⟨k + 1, by omega, by omega, ?_⟩
      simp only [Option.some.injEq] at h
      rw [← h]; rfl

theorem find_fit_lists_spec (cfg : Config) (fuel : Nat) (s : State) (b : Nat) :
    ∀ n i F, find_fit_lists cfg fuel s b n i = some F → F ≠ 0 →
      ∃ j, i ≤ j ∧ j < i + n ∧ ∃ k, 1 ≤ k ∧ k ≤ fuel ∧ F = node cfg s j k ∧
        F ≠ sentinel cfg j ∧ b ≤ GET_BLOCK_SIZE (OBF cfg (s.mem F)) := by
  intro n
  induction n with
  | zero => intro i F h hF; simp [find_fit_lists] at h; exact absurd h.symm hF
  | succ n ih =>
    intro i F h hF
    simp only [find_fit_lists] at h
    split at h
    · exact absurd h (by simp)
    · rename_i cur hcur
      split at h
      · rename_i hc
        simp only [Option.some.injEq] at h
        subst h
        obtain ⟨l, h1, h2, h3⟩ := find_fit_scan_node cfg s i b fuel 0 cur hcur
        exact ⟨i, le_refl _, by omega, l, by omega, by omega, h3, hc.1, hc.2⟩
      · obtain ⟨j, h1, h2, h3⟩ := ih (i + 1) F h hF
        exact ⟨j, by omega, by omega, h3⟩

theorem find_fit_spec (cfg : Config) (fuel : Nat) (s : State) (b F : Nat)
    (h : find_fit cfg fuel s b = some F) (hF : F ≠ 0) :
    ∃ j, j < cfg.NUM_FREE_LISTS ∧ ∃ k, 1 ≤ k ∧ k ≤ fuel ∧ F = node cfg s j k ∧
      F ≠ sentinel cfg j ∧ b ≤ GET_BLOCK_SIZE (OBF cfg (s.mem F)) := by
  unfold find_fit at h
  obtain ⟨j, h1, h2, h3⟩ := find_fit_lists_spec cfg fuel s b _ _ F h hF
  exact ⟨j, by omega, h3⟩

theorem malloc_fit_loop_spec (cfg : Config) (fuel b : Nat) :
    ∀ n s F s2, malloc_fit_loop cfg fuel b n s = some (F, s2) → F ≠ 0 →
      ∃ sf, malloc_fit_state cfg fuel b n s = some sf ∧ find_fit cfg fuel sf b = some F ∧
        s2 = unlink_block sf F := by
  intro n
  induction n with
  | zero => intro s F s2 h; simp [malloc_fit_loop] at h
  | succ n ih =>
    intro s F s2 h hF
    simp only [malloc_fit_loop] at h
    simp only [malloc_fit_state]
    split at h
    · exact absurd h (by simp)
    · rename_i fit hfit
      split at h
      · rename_i h0
        rw [if_pos h0]
        split at h
        · exact absurd h (by simp)
        · rename_i ret s1 hext
          split at h
          · rename_i hret
            simp only [Option.some.injEq, Prod.mk.injEq] at h
            exact absurd h.1.symm hF
          · rename_i hret
            rw [if_neg hret]
            exact ih s1 F s2 h hF
      · rename_i h0
        rw [if_neg h0]
        simp only [Option.some.injEq, Prod.mk.injEq] at h
        obtain ⟨h1, h2⟩ := h
        subst h1
        exact ⟨s, rfl, hfit, h2.symm⟩

theorem get_ml_index_go_le (size : Nat) : ∀ k i m, get_ml_index_go size k i m ≤ i + k := by
  intro k
  induction k with
  | zero => intro i m; simp [get_ml_index_go]
  | succ n ih =>
    intro i m
    simp only [get_ml_index_go]
    split
    · omega
    · have := ih (i + 1) ((m <<< 1) % WORD); omega

theorem get_ml_index_lt (cfg : Config) (size : Nat) (h : 0 < cfg.NUM_FREE_LISTS) :
    get_ml_index cfg size < cfg.NUM_FREE_LISTS := by
  unfold get_ml_index
  have := get_ml_index_go_le size (cfg.NUM_FREE_LISTS - 1) 0 32
  omega

theorem unlink_block_mem (s : State) (b x : Nat) :
    (unlink_block s b).mem x =
      if x = wadd (s.mem (wadd b NEXT_OFF)) PREV_OFF then s.mem (wadd b PREV_OFF)
      else if x = wadd (s.mem (wadd b PREV_OFF)) NEXT_OFF then s.mem (wadd b NEXT_OFF)
      else if x = wadd b PREV_OFF then 0
      else if x = wadd b NEXT_OFF then 0
      else s.mem x := rfl

theorem insert_ml_mem (cfg : Config) (s : State) (fb x : Nat) :
    (insert_ml cfg s fb).mem x =
      if x = wadd fb NEXT_OFF then
        s.mem (wadd (sentinel cfg (get_ml_index cfg (GET_BLOCK_SIZE (OBF cfg (s.mem fb))))) NEXT_OFF)
      else if x = wadd fb PREV_OFF then
        sentinel cfg (get_ml_index cfg (GET_BLOCK_SIZE (OBF cfg (s.mem fb))))
      else if x = wadd (s.mem (wadd (sentinel cfg (get_ml_index cfg
          (GET_BLOCK_SIZE (OBF cfg (s.mem fb))))) NEXT_OFF)) PREV_OFF then fb
      else if x = wadd (sentinel cfg (get_ml_index cfg (GET_BLOCK_SIZE (OBF cfg (s.mem fb)))))
          NEXT_OFF then fb
      else s.mem x := rfl

theorem create_free_block_mem (cfg : Config) (s : State) (bs a x : Nat) :
    (create_free_block cfg s bs a).mem x =
      if x = wsub (wadd a bs) MROW then
        (if a = a then OBF cfg (PACK 0 bs 0 0) else s.mem a)
      else if x = a then OBF cfg (PACK 0 bs 0 0) else s.mem x := rfl

theorem wadd_next {x : Nat} (h : x + 24 ≤ WORD) : wadd x NEXT_OFF = x + 8 := by
  unfold wadd NEXT_OFF WORD at *; omega

theorem wadd_prev {x : Nat} (h : x + 24 ≤ WORD) : wadd x PREV_OFF = x + 16 := by
  unfold wadd PREV_OFF WORD at *; omega

theorem WORD_eq : WORD = 18446744073709551616 := by unfold WORD; norm_num

/-- Under `MainOK`, every list entry is an address, and is the entry `(j, k)` or
keeps its three words clear of it. -/
theorem node_facts (cfg : Config) (fuel : Nat) (s : State) (hok : MainOK cfg fuel s)
    (j k : Nat) (hj : j < cfg.NUM_FREE_LISTS) (hk : k < fuel + 2)
    (i l : Nat) (hi : i < cfg.NUM_FREE_LISTS) (hl : l < fuel + 2) :
    node cfg s i l + 24 ≤ WORD ∧ Clear (node cfg s i l) (node cfg s j k) ∧
    (node cfg s i l = sentinel cfg i ∨
      (sf_mem_start cfg ≤ node cfg s i l ∧ node cfg s i l + 24 ≤ sf_mem_end cfg s)) := by
  obtain ⟨⟨hend, hheads⟩, hplaced, hapart, _⟩ := hok
  have h1 := hplaced i hi l hl
  have h2 := hapart i hi l hl j hj k hk
  have h3 := hheads i hi
  unfold SF_BLOCK_SZ at *
  refine ⟨?_, h2, ?_⟩
  · rcases h1 with h | ⟨_, h⟩
    · rw [h]; exact h3.1
    · have := le_max_left 24 (GET_BLOCK_SIZE (OBF cfg (s.mem (node cfg s i l)))); omega
  · rcases h1 with h | ⟨h0, h⟩
    · exact Or.inl h
    · have := le_max_left 24 (GET_BLOCK_SIZE (OBF cfg (s.mem (node cfg s i l)))); right; omega

theorem clear_ne_next {x y : Nat} (h : Clear x y) : y ≠ x + 8 := by
  unfold Clear at h; omega

theorem clear_ne_prev {x y : Nat} (h : Clear x y) : y ≠ x + 16 := by
  unfold Clear at h; omega

/-- Unlinking a block leaves its header word alone when its two list neighbours
are clear of it. -/
theorem unlink_block_header (s : State) (F : Nat) (hFW : F + 24 ≤ WORD)
    (hP : s.mem (wadd F PREV_OFF) + 24 ≤ WORD) (hN : s.mem (wadd F NEXT_OFF) + 24 ≤ WORD)
    (cP : Clear (s.mem (wadd F PREV_OFF)) F) (cN : Clear (s.mem (wadd F NEXT_OFF)) F) :
    (unlink_block s F).mem F = s.mem F := by
  rw [unlink_block_mem]
  generalize s.mem (wadd F PREV_OFF) = P at *
  generalize s.mem (wadd F NEXT_OFF) = N at *
  have q1 := clear_ne_prev cN
  have q2 := clear_ne_next cP
  have q3 : F ≠ F + 16 := by omega
  have q4 : F ≠ F + 8 := by omega
  rw [wadd_prev hN, wadd_next hP, wadd_prev hFW, wadd_next hFW,
    if_neg q1, if_neg q2, if_neg q3, if_neg q4]

/-- The header that `split_free_block` leaves on the block it was given records a
size of at least the requested one, when the list head that takes the fragment
and its first entry are clear of the block. -/
theorem split_free_block_header (cfg : Config) (u : State) (F b : Nat)
    (hb32 : 32 ≤ b) (hb16 : b % 16 = 0) (hbl : b < 2 ^ 32)
    (hbS : b ≤ GET_BLOCK_SIZE (OBF cfg (u.mem F)))
    (hFW : F + GET_BLOCK_SIZE (OBF cfg (u.mem F)) < WORD)
    (hN : 0 < cfg.NUM_FREE_LISTS)
    (hsent : ∀ i, i < cfg.NUM_FREE_LISTS → sentinel cfg i + 24 ≤ WORD ∧
      (sentinel cfg i + 24 ≤ F ∨ F + GET_BLOCK_SIZE (OBF cfg (u.mem F)) ≤ sentinel cfg i) ∧
      u.mem (sentinel cfg i + 8) + 24 ≤ WORD ∧ F ≠ u.mem (sentinel cfg i + 8) + 16) :
    b ≤ GET_BLOCK_SIZE (OBF cfg ((split_free_block cfg u F b).2.mem F)) := by
  have hS16 := GET_BLOCK_SIZE_mod (OBF cfg (u.mem F))
  have hSlt := GET_BLOCK_SIZE_lt (OBF cfg (u.mem F))
  have hW := WORD_eq
  unfold split_free_block
  generalize hS : GET_BLOCK_SIZE (OBF cfg (u.mem F)) = S at *
  have hfrag : wsub S b = S - b := wsub_eq hbS (by omega)
  simp only [hfrag]
  split
  · show b ≤ GET_BLOCK_SIZE (OBF cfg (u.mem F))
    rw [hS]; exact hbS
  · rename_i hfr
    unfold MIN_BLOCK_SIZE at hfr
    show b ≤ GET_BLOCK_SIZE (OBF cfg ((insert_ml cfg
      (create_free_block cfg ((u.write F (OBF cfg (PACK 0 b 0 0))).write
        (wsub (wadd F b) MROW) ((u.write F (OBF cfg (PACK 0 b 0 0))).mem F))
        (S - b) (wadd F b)) (wadd F b)).mem F))
    have t0 : F + b < WORD := by omega
    have hFb : wadd F b = F + b := wadd_eq t0
    have t1 : MROW ≤ F + b := by unfold MROW; omega
    have hft : wsub (F + b) MROW = F + b - 8 := wsub_eq t1 t0
    have t2 : F + b + (S - b) < WORD := by omega
    have t3 : MROW ≤ F + b + (S - b) := by unfold MROW; omega
    have hfe : wsub (wadd (F + b) (S - b)) MROW = F + S - 8 := by
      rw [wadd_eq t2, wsub_eq t3 t2]; unfold MROW; omega
    rw [hFb, hft]
    obtain ⟨s3, hs3⟩ : ∃ s3, s3 = create_free_block cfg
        ((u.write F (OBF cfg (PACK 0 b 0 0))).write (F + b - 8)
          ((u.write F (OBF cfg (PACK 0 b 0 0))).mem F)) (S - b) (F + b) := ⟨_, rfl⟩
    rw [← hs3]
    have h3F : s3.mem F = OBF cfg (PACK 0 b 0 0) := by
      have q1 : F ≠ F + S - 8 := by omega
      have q2 : F ≠ F + b := by omega
      have q3 : F ≠ F + b - 8 := by omega
      rw [hs3, create_free_block_mem, hfe, if_neg q1, if_neg q2, write_mem_ne _ _ q3,
        write_mem_eq]
    have h3out : ∀ x, (x < F ∨ F + S ≤ x) → s3.mem x = u.mem x := by
      intro x hx
      have q1 : x ≠ F + S - 8 := by omega
      have q2 : x ≠ F + b := by omega
      have q3 : x ≠ F + b - 8 := by omega
      have q4 : x ≠ F := by omega
      rw [hs3, create_free_block_mem, hfe, if_neg q1, if_neg q2, write_mem_ne _ _ q3,
        write_mem_ne _ _ q4]
    clear hs3
    rw [insert_ml_mem]
    have hj' := get_ml_index_lt cfg (GET_BLOCK_SIZE (OBF cfg (s3.mem (F + b)))) hN
    generalize get_ml_index cfg (GET_BLOCK_SIZE (OBF cfg (s3.mem (F + b)))) = j' at hj' ⊢
    obtain ⟨hs1, hs2, hs3, hs4⟩ := hsent j' hj'
    have r0 : sentinel cfg j' + 8 < F ∨ F + S ≤ sentinel cfg j' + 8 := by omega
    have hnx : s3.mem (sentinel cfg j' + 8) = u.mem (sentinel cfg j' + 8) := h3out _ r0
    have t5 : F + b + 24 ≤ WORD := by omega
    have q5 : F ≠ F + b + 8 := by omega
    have q6 : F ≠ F + b + 16 := by omega
    have q8 : F ≠ sentinel cfg j' + 8 := by omega
    rw [wadd_next hs1, hnx, wadd_next t5, wadd_prev t5, wadd_prev hs3, if_neg q5, if_neg q6,
      if_neg hs4, if_neg q8, h3F, OBF_OBF,
      (PACK_fields 0 b 0 0 (by norm_num) hbl hb16 (by norm_num) (by norm_num)).2.1]

/-- After a block is unlinked, a list head away from it points to what it pointed
to before, or to the successor of the block. -/
theorem unlink_block_first (s : State) (F x : Nat) (hFW : F + 24 ≤ WORD)
    (hP : s.mem (wadd F PREV_OFF) + 24 ≤ WORD) (hN : s.mem (wadd F NEXT_OFF) + 24 ≤ WORD)
    (hx : x + 24 ≤ F ∨ F + 24 ≤ x) (cN : Clear (s.mem (wadd F NEXT_OFF)) x) :
    (unlink_block s F).mem (x + 8) = s.mem (wadd F NEXT_OFF) ∨
      (unlink_block s F).mem (x + 8) = s.mem (x + 8) := by
  rw [unlink_block_mem]
  generalize s.mem (wadd F PREV_OFF) = P at *
  generalize s.mem (wadd F NEXT_OFF) = N at *
  have q1 : x + 8 ≠ N + 16 := by unfold Clear at cN; omega
  have q3 : x + 8 ≠ F + 16 := by omega
  have q4 : x + 8 ≠ F + 8 := by omega
  rw [wadd_prev hN, wadd_next hP, wadd_prev hFW, wadd_next hFW, if_neg q1]
  by_cases hc : x + 8 = P + 8
  · rw [if_pos hc]; exact Or.inl rfl
  · rw [if_neg hc, if_neg q3, if_neg q4]; exact Or.inr rfl

theorem clear_symm {x y : Nat} (h : Clear x y) : Clear y x := by
  unfold Clear at *; omega

set_option maxHeartbeats 1000000 in
/-- The block that `sf_malloc` takes from a well-formed main list still carries,
after it was unlinked and split, a header of at least the requested size. -/
theorem fit_header (cfg : Config) (fuel : Nat) (sf : State) (b F : Nat)
    (hok : MainOK cfg fuel sf) (hfit : find_fit cfg fuel sf b = some F) (hF : F ≠ 0)
    (hb32 : 32 ≤ b) (hb16 : b % 16 = 0) :
    (split_free_block cfg (unlink_block sf F) F b).1 = F ∧ F + 24 ≤ WORD ∧
    b ≤ GET_BLOCK_SIZE (OBF cfg ((split_free_block cfg (unlink_block sf F) F b).2.mem F)) := by
  obtain ⟨j, hj, k, hk1, hk2, hFn, hFs, hbS⟩ := find_fit_spec cfg fuel sf b F hfit hF
  have hbl : b < 2 ^ 32 := lt_of_le_of_lt hbS (GET_BLOCK_SIZE_lt _)
  have hnf := node_facts cfg fuel sf hok j k hj (by omega)
  have hok' := hok
  obtain ⟨⟨hend, hheads⟩, hplaced, hapart, hprev⟩ := hok
  have hFp := hplaced j hj k (by omega)
  rw [← hFn] at hFp hnf
  rcases hFp with h | ⟨hF1, hF2⟩
  · exact absurd h hFs
  have hmax1 := le_max_left SF_BLOCK_SZ (GET_BLOCK_SIZE (OBF cfg (sf.mem F)))
  have hmax2 := le_max_right SF_BLOCK_SZ (GET_BLOCK_SIZE (OBF cfg (sf.mem F)))
  have hP : sf.mem (wadd F PREV_OFF) = node cfg sf j (k - 1) := by
    have := hprev j hj (k - 1) (by omega)
    rw [show k - 1 + 1 = k by omega, ← hFn] at this
    exact this
  have hN : sf.mem (wadd F NEXT_OFF) = node cfg sf j (k + 1) := by
    rw [hFn]; rfl
  have fP := hnf j (k - 1) hj (by omega)
  have fN := hnf j (k + 1) hj (by omega)
  rw [← hP] at fP
  rw [← hN] at fN
  unfold SF_BLOCK_SZ at hmax1 hheads
  have hFW : F + 24 ≤ WORD := by omega
  have hFS : F + GET_BLOCK_SIZE (OBF cfg (sf.mem F)) < WORD := by omega
  have hu : (unlink_block sf F).mem F = sf.mem F :=
    unlink_block_header sf F hFW fP.1 fN.1 fP.2.1 fN.2.1
  refine ⟨?_, hFW, ?_⟩
  · unfold split_free_block; simp only; split <;> rfl
  · apply split_free_block_header cfg _ F b hb32 hb16 hbl
    · rw [hu]; exact hbS
    · rw [hu]; exact hFS
    · omega
    · intro i hi
      rw [hu]
      have hsi := hheads i hi
      have hFi : sentinel cfg i + 24 ≤ F ∨ F + 24 ≤ sentinel cfg i := by omega
      have hFi' : sentinel cfg i + 24 ≤ F ∨
          F + GET_BLOCK_SIZE (OBF cfg (sf.mem F)) ≤ sentinel cfg i := by omega
      have cNi : Clear (sf.mem (wadd F NEXT_OFF)) (sentinel cfg i) := by
        have := (node_facts cfg fuel sf hok' i 0 hi (by omega) j (k + 1) hj (by omega)).2.1
        rw [← hN] at this; exact this
      have f1 := hnf i 1 hi (by omega)
      have hn1 : node cfg sf i 1 = sf.mem (sentinel cfg i + 8) := by
        show sf.mem (wadd (sentinel cfg i) NEXT_OFF) = _
        rw [wadd_next hsi.1]
      rw [hn1] at f1
      refine ⟨hsi.1, hFi', ?_⟩
      rcases unlink_block_first sf F (sentinel cfg i) hFW fP.1 fN.1 hFi cNi with h | h <;> rw [h]
      · exact ⟨fN.1, clear_ne_prev fN.2.1⟩
      · exact ⟨f1.1, clear_ne_prev f1.2.1⟩

/-- The header and the footer that `create_malloc_block` writes. -/
theorem create_malloc_block_spec (cfg : Config) (s : State) (blk size : Nat)
    (hblk : blk < WORD) :
    (create_malloc_block cfg s blk size).1 = wadd blk MROW ∧
    wsub (create_malloc_block cfg s blk size).1 MROW = blk ∧
    OBF cfg ((create_malloc_block cfg s blk size).2.mem blk) =
      PACK size (GET_BLOCK_SIZE (OBF cfg (s.mem blk))) 0 1 ∧
    (create_malloc_block cfg s blk size).2.mem
        (wsub (wadd blk (GET_BLOCK_SIZE (OBF cfg (s.mem blk)))) MROW) =
      (create_malloc_block cfg s blk size).2.mem blk := by
  have hW := WORD_eq
  have h16 := GET_BLOCK_SIZE_mod (OBF cfg (s.mem blk))
  have hlt := GET_BLOCK_SIZE_lt (OBF cfg (s.mem blk))
  unfold create_malloc_block FOOTER
  generalize GET_BLOCK_SIZE (OBF cfg (s.mem blk)) = bs at *
  have hne : blk ≠ wsub (wadd blk bs) MROW := by
    unfold wsub wadd MROW WORD; omega
  refine ⟨rfl, ?_, ?_, ?_⟩
  · show wsub (wadd blk MROW) MROW = blk
    unfold wsub wadd MROW WORD; omega
  · show OBF cfg (((s.write blk (OBF cfg (PACK size bs 0 1))).write (wsub (wadd blk bs) MROW)
      ((s.write blk (OBF cfg (PACK size bs 0 1))).mem blk)).mem blk) = _
    rw [write_mem_ne _ _ hne, write_mem_eq, OBF_OBF]
  · show ((s.write blk (OBF cfg (PACK size bs 0 1))).write (wsub (wadd blk bs) MROW)
      ((s.write blk (OBF cfg (PACK size bs 0 1))).mem blk)).mem (wsub (wadd blk bs) MROW) =
      ((s.write blk (OBF cfg (PACK size bs 0 1))).write (wsub (wadd blk bs) MROW)
      ((s.write blk (OBF cfg (PACK size bs 0 1))).mem blk)).mem blk
    rw [write_mem_eq, write_mem_ne _ _ hne]

theorem malloc_block_size_small (size : Nat) (h0 : 0 < size) (hlt : size ≤ 2 ^ 64 - 32) :
    32 ≤ malloc_block_size size ∧ malloc_block_size size % 16 = 0 ∧
    size + 16 ≤ malloc_block_size size := by
  unfold malloc_block_size wadd MROW WORD
  simp only
  split <;> split <;> omega

theorem QL_INDEX_small (b : Nat) (h32 : 32 ≤ b) (h16 : b % 16 = 0) (hlt : b < QL_MAX_SIZE) :
    QL_INDEX b < (QL_MAX_SIZE - 32) / 16 ∧ 32 + 16 * QL_INDEX b = b := by
  unfold QL_INDEX wsub QL_MAX_SIZE WORD at *
  omega

theorem update_pl_mem (s : State) (n : Nat) : (update_pl s n).mem = s.mem := rfl

theorem popQL_fst (s : State) (i : Nat) : (popQL s i).1 = s.qlFirst i := by
  unfold popQL
  by_cases h : s.qlFirst i = 0
  · simp only [h, if_true]
  · simp only [h, if_false]

theorem popQL_empty (s : State) (i : Nat) (h : s.qlFirst i = 0) : popQL s i = (0, s) := by
  unfold popQL; simp only [h, if_true]

theorem popQL_mem (s : State) (i : Nat) :
    (popQL s i).2.mem (s.qlFirst i) = s.mem (s.qlFirst i) := by
  unfold popQL
  by_cases h0 : s.qlFirst i = 0
  · simp only [h0, if_true]
  · have hne : s.qlFirst i ≠ wadd (s.qlFirst i) NEXT_OFF := by
      unfold wadd NEXT_OFF WORD at *; omega
    simp only [h0, if_false]
    rw [write_mem_ne _ _ hne]

/-- What `sf_malloc` returns on well-formed lists: the payload of a block whose
header packs the request, with a size that covers the computed block size, and
whose footer repeats the header. -/
theorem sf_malloc_block (cfg : Config) (fuel : Nat) (s : State) (size p : Nat) (s' : State)
    (hsize : 0 < size) (hlt : size ≤ 2 ^ 64 - 32)
    (hq : QuickOK cfg (malloc_init cfg s).2)
    (hm : ∀ sf, malloc_fit_state cfg fuel (malloc_block_size size) fuel (malloc_init cfg s).2
      = some sf → MainOK cfg fuel sf)
    (hr : sf_malloc cfg fuel s size = some (p, s')) (hp : p ≠ 0) :
    ∃ bs, header_at cfg s' p = PACK size bs 0 1 ∧ bs % 16 = 0 ∧ bs < 2 ^ 32 ∧
      malloc_block_size size ≤ bs ∧ wadd (wsub p MROW) MROW = p ∧
      s'.mem (wsub (wadd (wsub p MROW) bs) MROW) = s'.mem (wsub p MROW) := by
  obtain ⟨hb32, hb16, hbsz⟩ := malloc_block_size_small size hsize hlt
  unfold sf_malloc at hr
  rw [if_neg (by omega)] at hr
  simp only at hr
  split at hr
  · simp only [Option.some.injEq, Prod.mk.injEq] at hr; exact absurd hr.1.symm hp
  generalize malloc_init cfg s = ini at *
  generalize hb : malloc_block_size size = b at *
  by_cases hql : b < QL_MAX_SIZE ∧ ini.2.qlFirst (QL_INDEX b) ≠ 0
  · -- the block comes from a quick list
    obtain ⟨hlt224, hne⟩ := hql
    have e1 : (if b < QL_MAX_SIZE then popQL ini.2 (QL_INDEX b) else (0, ini.2)) =
        popQL ini.2 (QL_INDEX b) := if_pos hlt224
    rw [e1] at hr
    have hcond : b < QL_MAX_SIZE ∧ (popQL ini.2 (QL_INDEX b)).1 ≠ 0 :=
      ⟨hlt224, by rw [popQL_fst]; exact hne⟩
    rw [if_pos hcond] at hr
    simp only [Option.some.injEq, Prod.mk.injEq] at hr
    obtain ⟨hp1, hs1⟩ := hr
    obtain ⟨hi, hib⟩ := QL_INDEX_small b hb32 hb16 hlt224
    obtain ⟨hW, hbs⟩ := hq _ hi hne
    have hc := create_malloc_block_spec cfg (popQL ini.2 (QL_INDEX b)).2
      (popQL ini.2 (QL_INDEX b)).1 size (by rw [popQL_fst]; exact hW)
    have hsz : GET_BLOCK_SIZE (OBF cfg ((popQL ini.2 (QL_INDEX b)).2.mem
        (popQL ini.2 (QL_INDEX b)).1)) = b := by
      rw [popQL_fst, popQL_mem, hbs, hib]
    rw [hp1, hsz] at hc
    obtain ⟨c1, c2, c3, c4⟩ := hc
    refine ⟨b, ?_, hb16, by unfold QL_MAX_SIZE at hlt224; omega, le_refl _, ?_, ?_⟩
    · unfold header_at; rw [← hs1, c2, update_pl_mem]; exact c3
    · rw [c2]; exact c1.symm
    · rw [← hs1, c2, update_pl_mem]; exact c4
  · -- the block comes from a main list
    have hstart : (if b < QL_MAX_SIZE then popQL ini.2 (QL_INDEX b) else (0, ini.2)) =
        (0, ini.2) := by
      by_cases h224 : b < QL_MAX_SIZE
      · rw [if_pos h224]
        by_cases h0 : ini.2.qlFirst (QL_INDEX b) = 0
        · rw [popQL_empty _ _ h0]
        · exact absurd ⟨h224, h0⟩ hql
      · rw [if_neg h224]
    rw [hstart] at hr
    have hcond : ¬ (b < QL_MAX_SIZE ∧ ((0 : Nat), ini.2).1 ≠ 0) := fun h => h.2 rfl
    rw [if_neg hcond] at hr
    split at hr
    · exact absurd hr (by simp)
    · rename_i F s2 hloop
      split at hr
      · simp only [Option.some.injEq, Prod.mk.injEq] at hr; exact absurd hr.1.symm hp
      · rename_i hF
        simp only [Option.some.injEq, Prod.mk.injEq] at hr
        obtain ⟨hp1, hs1⟩ := hr
        obtain ⟨sf, hsf, hfit, hs2⟩ := malloc_fit_loop_spec cfg fuel b fuel ini.2 F s2 hloop hF
        obtain ⟨f1, f2, f3⟩ := fit_header cfg fuel sf b F (hm sf hsf) hfit hF hb32 hb16
        rw [← hs2] at f1 f3
        have hc := create_malloc_block_spec cfg (split_free_block cfg s2 F b).2
          (split_free_block cfg s2 F b).1 size
          (by rw [f1]; exact lt_of_lt_of_le (by omega) f2)
        rw [hp1] at hc
        obtain ⟨c1, c2, c3, c4⟩ := hc
        have f3' : b ≤ GET_BLOCK_SIZE (OBF cfg ((split_free_block cfg s2 F b).2.mem
            (split_free_block cfg s2 F b).1)) := by
          rw [f1]; exact f3
        refine ⟨_, ?_, GET_BLOCK_SIZE_mod _, GET_BLOCK_SIZE_lt _, f3', ?_, ?_⟩
        · unfold header_at; rw [← hs1, c2, update_pl_mem]; exact c3
        · rw [c2]; exact c1.symm
        · rw [← hs1, c2, update_pl_mem]; exact c4

/-- Every block of the heap walk sits at an offset congruent to 8 modulo 16. -/
theorem blk_offset (cfg : Config) (s : State) (n : Nat) :
    (blk cfg s n - sf_mem_start cfg) % 16 = 8 ∧ sf_mem_start cfg ≤ blk cfg s n := by
  induction n with
  | zero => unfold blk MROW; omega
  | succ n ih =>
    have := GET_BLOCK_SIZE_mod (OBF cfg (s.mem (blk cfg s n)))
    show (blk cfg s n + GET_BLOCK_SIZE (OBF cfg (s.mem (blk cfg s n))) - sf_mem_start cfg) % 16 = 8
      ∧ sf_mem_start cfg ≤ blk cfg s n + GET_BLOCK_SIZE (OBF cfg (s.mem (blk cfg s n)))
    omega

theorem blk_payload_aligned (cfg : Config) (s : State) (n : Nat) (hstart : cfg.start % 16 = 0) :
    wadd (blk cfg s n) MROW % 16 = 0 := by
  have := blk_offset cfg s n
  unfold sf_mem_start at this
  unfold wadd MROW WORD at *
  omega

theorem split_free_block_fst (cfg : Config) (s : State) (F b : Nat) :
    (split_free_block cfg s F b).1 = F := by
  unfold split_free_block; simp only; split <;> rfl

/-- The pointer `sf_malloc` returns is a multiple of 16 when the listed blocks are
blocks of the heap walk. -/
theorem sf_malloc_aligned (cfg : Config) (fuel n : Nat) (s : State) (size p : Nat) (s' : State)
    (hstart : cfg.start % 16 = 0)
    (hq : QuickOnHeap cfg n (malloc_init cfg s).2)
    (hm : ∀ sf, malloc_fit_state cfg fuel (malloc_block_size size) fuel (malloc_init cfg s).2
      = some sf → MainOnHeap cfg fuel n sf)
    (hmax : size ≤ 2 ^ 64 - 32)
    (hr : sf_malloc cfg fuel s size = some (p, s')) : p % 16 = 0 := by
  unfold sf_malloc at hr
  split at hr
  · simp only [Option.some.injEq, Prod.mk.injEq] at hr; rw [← hr.1]
  rename_i hsize
  obtain ⟨hb32, hb16, _⟩ := malloc_block_size_small size (Nat.pos_of_ne_zero hsize) hmax
  simp only at hr
  split at hr
  · simp only [Option.some.injEq, Prod.mk.injEq] at hr; rw [← hr.1]
  generalize malloc_init cfg s = ini at *
  generalize malloc_block_size size = b at *
  by_cases hql : b < QL_MAX_SIZE ∧ ini.2.qlFirst (QL_INDEX b) ≠ 0
  · obtain ⟨hlt224, hne⟩ := hql
    have e1 : (if b < QL_MAX_SIZE then popQL ini.2 (QL_INDEX b) else (0, ini.2)) =
        popQL ini.2 (QL_INDEX b) := if_pos hlt224
    rw [e1] at hr
    have hcond : b < QL_MAX_SIZE ∧ (popQL ini.2 (QL_INDEX b)).1 ≠ 0 :=
      ⟨hlt224, by rw [popQL_fst]; exact hne⟩
    rw [if_pos hcond] at hr
    simp only [Option.some.injEq, Prod.mk.injEq] at hr
    obtain ⟨hp1, _⟩ := hr
    obtain ⟨m, _, hbm⟩ := hq _ (QL_INDEX_small b hb32 hb16 hlt224).1 hne
    rw [← hp1]
    show wadd (popQL ini.2 (QL_INDEX b)).1 MROW % 16 = 0
    rw [popQL_fst, hbm]
    exact blk_payload_aligned cfg ini.2 m hstart
  · have hstart' : (if b < QL_MAX_SIZE then popQL ini.2 (QL_INDEX b) else (0, ini.2)) =
        (0, ini.2) := by
      by_cases h224 : b < QL_MAX_SIZE
      · rw [if_pos h224]
        by_cases h0 : ini.2.qlFirst (QL_INDEX b) = 0
        · rw [popQL_empty _ _ h0]
        · exact absurd ⟨h224, h0⟩ hql
      · rw [if_neg h224]
    rw [hstart'] at hr
    have hcond : ¬ (b < QL_MAX_SIZE ∧ ((0 : Nat), ini.2).1 ≠ 0) := fun h => h.2 rfl
    rw [if_neg hcond] at hr
    split at hr
    · exact absurd hr (by simp)
    · rename_i F s2 hloop
      split at hr
      · simp only [Option.some.injEq, Prod.mk.injEq] at hr; rw [← hr.1]
      · rename_i hF
        simp only [Option.some.injEq, Prod.mk.injEq] at hr
        obtain ⟨hp1, _⟩ := hr
        obtain ⟨sf, hsf, hfit, _⟩ := malloc_fit_loop_spec cfg fuel b fuel ini.2 F s2 hloop hF
        obtain ⟨j, hj, k, _, hk2, hFn, hFs, _⟩ := find_fit_spec cfg fuel sf b F hfit hF
        rcases hm sf hsf j hj k (by omega) with h | ⟨m, _, hbm⟩
        · exact absurd (hFn.trans h) hFs
        · rw [← hp1]
          show wadd (split_free_block cfg s2 F b).1 MROW % 16 = 0
          rw [split_free_block_fst, hFn, hbm]
          exact blk_payload_aligned cfg sf m hstart

theorem validate_pp_aligned (cfg : Config) (s : State) (pp : Nat)
    (h : validate_pp cfg s pp = 0) : pp % 16 = 0 := by
  unfold validate_pp at h
  split at h
  · exact absurd h (by decide)
  split at h
  · exact absurd h (by decide)
  · rename_i h16; exact not_not.mp h16

theorem split_malloc_block_fst (cfg : Config) (fuel : Nat) (s : State) (blk0 b pl r : Nat)
    (s1 : State) (h : split_malloc_block cfg fuel s blk0 b pl = some (r, s1)) : r = blk0 := by
  unfold split_malloc_block at h
  simp only at h
  split at h
  · simp only [Option.some.injEq, Prod.mk.injEq] at h; exact h.1.symm
  · split at h
    · exact absurd h (by simp)
    · simp only [Option.some.injEq, Prod.mk.injEq] at h; exact h.1.symm

/-- The pointer `sf_realloc` returns is a multiple of 16 when the listed blocks are
blocks of the heap walk. -/
theorem sf_realloc_aligned (cfg : Config) (fuel n : Nat) (s : State) (pp size q : Nat)
    (s' : State) (hstart : cfg.start % 16 = 0)
    (hq : QuickOnHeap cfg n (malloc_init cfg s).2)
    (hm : ∀ sf, malloc_fit_state cfg fuel (malloc_block_size size) fuel (malloc_init cfg s).2
      = some sf → MainOnHeap cfg fuel n sf)
    (hmax : size ≤ 2 ^ 64 - 32)
    (hr : sf_realloc cfg fuel s pp size = Outcome.ret q s') : q % 16 = 0 := by
  unfold sf_realloc at hr
  split at hr
  · injection hr with h1 _; rw [← h1]
  rename_i hval
  have hpp := validate_pp_aligned cfg s pp (not_not.mp hval)
  split at hr
  · split at hr
    · injection hr with h1 _; rw [← h1]
    · exact Outcome.noConfusion hr
    · exact Outcome.noConfusion hr
  simp only at hr
  split at hr
  · injection hr with h1 _; rw [← h1]; exact hpp
  split at hr
  · split at hr
    · exact Outcome.noConfusion hr
    · rename_i ptr s1 hmal
      split at hr
      · injection hr with h1 _; rw [← h1]
      · split at hr
        · injection hr with h1 _
          rw [← h1]
          exact sf_malloc_aligned cfg fuel n s size ptr s1 hstart hq hm hmax hmal
        · exact Outcome.noConfusion hr
        · exact Outcome.noConfusion hr
  · split at hr
    · exact Outcome.noConfusion hr
    · rename_i blk0 s1 hsp
      injection hr with h1 _
      rw [← h1, split_malloc_block_fst cfg fuel s _ _ _ blk0 s1 hsp]
      unfold wadd wsub MROW WORD
      omega

theorem PACK_quick (b : Nat) :
    PACK 0 b 0 0 ||| IN_QUICK_LIST ||| THIS_BLOCK_ALLOCATED = PACK 0 b 1 1 := by
  unfold PACK IN_QUICK_LIST THIS_BLOCK_ALLOCATED
  simp

/-- Coalescing a block whose two neighbours are allocated returns it unchanged. -/
theorem coalesce_both_allocated (cfg : Config) (fuel : Nat) (s : State) (fb : Nat)
    (hprev : OBF cfg (s.mem (PREV_BLOCK cfg s fb)) &&& THIS_BLOCK_ALLOCATED ≠ 0)
    (hnext : OBF cfg (s.mem (NEXT_BLOCK cfg s fb)) &&& THIS_BLOCK_ALLOCATED ≠ 0) :
    coalesce cfg fuel s fb = some (fb, s) := by
  unfold coalesce
  simp only
  rw [if_pos ⟨hprev, hnext⟩]

/-- What `create_free_block` leaves in memory. -/
theorem create_free_block_mem2 (cfg : Config) (s : State) (bs a x : Nat) :
    (create_free_block cfg s bs a).mem x =
      if x = wsub (wadd a bs) MROW ∨ x = a then OBF cfg (PACK 0 bs 0 0) else s.mem x := by
  rw [create_free_block_mem]
  by_cases h1 : x = wsub (wadd a bs) MROW
  · rw [if_pos h1, if_pos rfl, if_pos (Or.inl h1)]
  · rw [if_neg h1]
    by_cases h2 : x = a
    · rw [if_pos h2, if_pos (Or.inr h2)]
    · rw [if_neg h2, if_neg (fun h => h.elim h1 h2)]

/-- The checks of `validate_pp` pass on an allocated block that lies in the heap,
when the sum of its header word and its size does not exceed the heap end. -/
theorem validate_pp_ok (cfg : Config) (t : State) (B n b : Nat)
    (hn : n < 2 ^ 32) (hb32 : 32 ≤ b) (hb16 : b % 16 = 0) (hbl : b < 2 ^ 32)
    (hBa : B % 16 = 8) (hBs : sf_mem_start cfg ≤ B) (hBe : B + 8 < WORD)
    (hplace : n * 4294967296 + 2 * b ≤ sf_mem_end cfg t)
    (hhdr : t.mem B = OBF cfg (PACK n b 0 1)) :
    validate_pp cfg t (B + 8) = 0 := by
  have hW := WORD_eq
  obtain ⟨f1, f2, f3, f4⟩ := PACK_fields n b 0 1 hn hbl hb16 (by norm_num) (by norm_num)
  have hP := PACK_eq n b 0 1 hn hbl hb16 (by norm_num) (by norm_num)
  have e1 : wsub (B + 8) MROW = B := by unfold wsub MROW WORD at *; omega
  unfold validate_pp
  rw [if_neg (by omega), if_neg (by omega)]
  simp only [e1, hhdr, OBF_OBF, f2, f3, f4]
  have c1 : ¬ (b < MIN_BLOCK_SIZE ∨ b % 16 ≠ 0) := by unfold MIN_BLOCK_SIZE; omega
  have c2 : ¬ (B < sf_mem_start cfg) := by omega
  have c3 : ¬ (wsub (wadd (PACK n b 0 1) b) MROW > sf_mem_end cfg t) := by
    rw [hP]; unfold wsub wadd MROW WORD at *; omega
  rw [if_neg c1, if_neg c2, if_neg c3]
  simp

/-- Freeing an allocated block smaller than `QL_MAX_SIZE` whose two neighbours
are allocated, while its quick list does not hold five entries: the block is
pushed on the quick list of its size and nothing else changes. -/
theorem sf_free_quick (cfg : Config) (fuel : Nat) (t : State) (B n b : Nat)
    (hn : n < 2 ^ 32) (hb32 : 32 ≤ b) (hb16 : b % 16 = 0) (hb : b < QL_MAX_SIZE)
    (hBa : B % 16 = 8) (hBs : sf_mem_start cfg ≤ B) (hBe : B + b < WORD)
    (hplace : n * 4294967296 + 2 * b ≤ sf_mem_end cfg t)
    (hhdr : t.mem B = OBF cfg (PACK n b 0 1))
    (hlen : t.qlLength (QL_INDEX b) ≠ 5)
    (hpsz : GET_BLOCK_SIZE (OBF cfg (t.mem (B - 8))) ≠ 0)
    (hpsz2 : GET_BLOCK_SIZE (OBF cfg (t.mem (B - 8))) ≤ B)
    (hprev : OBF cfg (t.mem (B - GET_BLOCK_SIZE (OBF cfg (t.mem (B - 8)))))
      &&& THIS_BLOCK_ALLOCATED ≠ 0)
    (hnext : OBF cfg (t.mem (B + b)) &&& THIS_BLOCK_ALLOCATED ≠ 0) :
    ∃ S, sf_free cfg fuel t (B + 8) = Outcome.ret () (update_pl S (wsub 0 n)) ∧
      (∀ x, S.mem x = if x = B + 8 then t.qlFirst (QL_INDEX b)
        else if x = B then OBF cfg (PACK 0 b 1 1)
        else if x = B + b - 8 then OBF cfg (PACK 0 b 0 0) else t.mem x) ∧
      (∀ j, S.qlFirst j = if j = QL_INDEX b then B else t.qlFirst j) ∧
      (∀ j, S.qlLength j = if j = QL_INDEX b then t.qlLength (QL_INDEX b) + 1
        else t.qlLength j) ∧
      S.pages = t.pages := by
  have hbl : b < 2 ^ 32 := by unfold QL_MAX_SIZE at hb; omega
  have hval := validate_pp_ok cfg t B n b hn hb32 hb16 hbl hBa hBs
    (by unfold WORD at *; omega) hplace hhdr
  obtain ⟨f1, f2, f3, f4⟩ := PACK_fields n b 0 1 hn hbl hb16 (by norm_num) (by norm_num)
  obtain ⟨g1, g2, g3, g4⟩ := PACK_fields 0 b 0 0 (by norm_num) hbl hb16 (by norm_num)
    (by norm_num)
  have e1 : wsub (B + 8) MROW = B := by unfold wsub MROW WORD at *; omega
  have e2 : wsub B MROW = B - 8 := by unfold wsub MROW WORD at *; omega
  have e3 : wadd B b = B + b := wadd_eq hBe
  have e4 : wsub (B + b) MROW = B + b - 8 := by unfold wsub MROW WORD at *; omega
  have e5 : wadd B NEXT_OFF = B + 8 := by unfold wadd NEXT_OFF WORD at *; omega
  -- the block rewritten as a free block
  have m1 : ∀ x, (create_free_block cfg t b B).mem x =
      if x = B + b - 8 ∨ x = B then OBF cfg (PACK 0 b 0 0) else t.mem x := by
    intro x; rw [create_free_block_mem2, e3, e4]
  have m1B : (create_free_block cfg t b B).mem B = OBF cfg (PACK 0 b 0 0) := by
    rw [m1, if_pos (Or.inr rfl)]
  generalize hfsz : GET_BLOCK_SIZE (OBF cfg (t.mem (B - 8))) = fsz at *
  have n1 : ¬ (B - 8 = B + b - 8 ∨ B - 8 = B) := by omega
  have n2 : ¬ (B - fsz = B + b - 8 ∨ B - fsz = B) := by omega
  have n3 : ¬ (B + b = B + b - 8 ∨ B + b = B) := by omega
  have hco : coalesce cfg fuel (create_free_block cfg t b B) B =
      some (B, create_free_block cfg t b B) := by
    apply coalesce_both_allocated
    · unfold PREV_BLOCK
      rw [e2, m1 (B - 8), if_neg n1, hfsz]
      have e6 : wsub B fsz = B - fsz := wsub_eq hpsz2 (by omega)
      rw [e6, m1 (B - fsz), if_neg n2]
      exact hprev
    · unfold NEXT_BLOCK
      rw [m1B, OBF_OBF, g2, e3, m1 (B + b), if_neg n3]
      exact hnext
  unfold sf_free
  rw [if_neg (by rw [hval]; decide)]
  simp only [e1, hhdr, OBF_OBF, f1, f2, hco, m1B, g2, if_pos hb]
  unfold insert_ql
  simp only [m1B, OBF_OBF, g2]
  have hlen' : ¬ ((create_free_block cfg t b B).qlLength (QL_INDEX b) = 5) := hlen
  rw [if_neg hlen']
  simp only [PACK_quick, e5]
  refine ⟨_, rfl, ?_, ?_, ?_, rfl⟩
  · intro x
    show (if x = B + 8 then _ else if x = B then _ else (create_free_block cfg t b B).mem x) = _
    rw [m1 x]
    by_cases h1 : x = B + 8
    · rw [if_pos h1, if_pos h1]; rfl
    · rw [if_neg h1, if_neg h1]
      by_cases h2 : x = B
      · rw [if_pos h2, if_pos h2]
      · rw [if_neg h2, if_neg h2]
        by_cases h3 : x = B + b - 8
        · rw [if_pos h3, if_pos (Or.inl h3)]
        · rw [if_neg h3, if_neg (fun h => h.elim h3 h2)]
  · intro j; rfl
  · intro j; rfl

/-- Allocation from a non-empty quick list: the first block of the list is
popped and rewritten as an allocated block. -/
theorem sf_malloc_quick (cfg : Config) (fuel : Nat) (s : State) (n B : Nat)
    (hinit : HEAP_SIZE cfg s ≠ 0) (hn0 : 0 < n) (hn : n < 2 ^ 32)
    (hb : malloc_block_size n < QL_MAX_SIZE)
    (hB : s.qlFirst (QL_INDEX (malloc_block_size n)) = B) (hB0 : B ≠ 0)
    (hBe : B + malloc_block_size n < WORD)
    (hhdr : s.mem B = OBF cfg (PACK 0 (malloc_block_size n) 1 1)) :
    ∃ s1, sf_malloc cfg fuel s n = some (B + 8, s1) ∧
      (∀ x, s1.mem x = if x = B + malloc_block_size n - 8 ∨ x = B then
          OBF cfg (PACK n (malloc_block_size n) 0 1)
        else if x = B + 8 then 0 else s.mem x) ∧
      (∀ j, s1.qlFirst j = if j = QL_INDEX (malloc_block_size n) then s.mem (B + 8)
        else s.qlFirst j) ∧
      (∀ j, s1.qlLength j = if j = QL_INDEX (malloc_block_size n) then
          s.qlLength (QL_INDEX (malloc_block_size n)) - 1
        else s.qlLength j) ∧
      s1.pages = s.pages := by
  obtain ⟨hb32, hb16, _⟩ := malloc_block_size_small n hn0 (by omega)
  generalize hbdef : malloc_block_size n = b at *
  have hbl : b < 2 ^ 32 := by unfold QL_MAX_SIZE at hb; omega
  obtain ⟨g1, g2, g3, g4⟩ := PACK_fields 0 b 1 1 (by norm_num) hbl hb16 (by norm_num)
    (by norm_num)
  have e3 : wadd B b = B + b := wadd_eq hBe
  have e4 : wsub (B + b) MROW = B + b - 8 := by unfold wsub MROW WORD at *; omega
  have e5 : wadd B NEXT_OFF = B + 8 := by unfold wadd NEXT_OFF WORD at *; omega
  have e6 : wadd B MROW = B + 8 := by unfold wadd MROW WORD at *; omega
  have hmi : malloc_init cfg s = (0, s) := by unfold malloc_init; rw [if_neg hinit]
  have hpop1 : (popQL s (QL_INDEX b)).1 = B := by rw [popQL_fst, hB]
  have hcond : b < QL_MAX_SIZE ∧ (popQL s (QL_INDEX b)).1 ≠ 0 := ⟨hb, by rw [hpop1]; exact hB0⟩
  have hpm : ∀ x, (popQL s (QL_INDEX b)).2.mem x = if x = B + 8 then 0 else s.mem x := by
    intro x
    unfold popQL
    simp only [hB, hB0, if_false, e5]
    rfl
  have hne : B ≠ B + 8 := by omega
  unfold sf_malloc
  rw [if_neg (by omega)]
  simp only [hmi, hbdef]
  rw [if_neg (by decide), if_pos hb, if_pos hcond]
  refine ⟨update_pl (create_malloc_block cfg (popQL s (QL_INDEX b)).2
    (popQL s (QL_INDEX b)).1 n).2 n, ?_, ?_, ?_, ?_, ?_⟩
  · have : (create_malloc_block cfg (popQL s (QL_INDEX b)).2 (popQL s (QL_INDEX b)).1 n).1 =
        B + 8 := by
      show wadd (popQL s (QL_INDEX b)).1 MROW = B + 8
      rw [hpop1, e6]
    rw [this]
  · intro x
    rw [update_pl_mem, hpop1]
    unfold create_malloc_block FOOTER
    simp only [hpm B, if_neg hne, hhdr, OBF_OBF, g2, e3, e4]
    show (if x = B + b - 8 then (if B = B then _ else _) else if x = B then _ else
      (popQL s (QL_INDEX b)).2.mem x) = _
    rw [hpm x, if_pos rfl]
    by_cases h1 : x = B + b - 8
    · rw [if_pos h1, if_pos (Or.inl h1)]
    · rw [if_neg h1]
      by_cases h2 : x = B
      · rw [if_pos h2, if_pos (Or.inr h2)]
      · have h3 : ¬ (x = B + b - 8 ∨ x = B) := fun h => h.elim h1 h2
        rw [if_neg h2, if_neg h3]
  · intro j
    unfold popQL
    simp only [hB, hB0, if_false, e5]
    rfl
  · intro j
    unfold popQL
    simp only [hB, hB0, if_false]
    rfl
  · unfold popQL
    simp only [hB, hB0, if_false]
    rfl

/-! ## Lemmas on linked sequences -/

theorem chain_nil (s : State) (z a : Nat) :
    Chain s z a [] ↔ s.mem (a + 8) = z ∧ s.mem (z + 16) = a := Iff.rfl

theorem chain_cons (s : State) (z a x : Nat) (xs : List Nat) :
    Chain s z a (x :: xs) ↔ s.mem (a + 8) = x ∧ s.mem (x + 16) = a ∧ Chain s z x xs := Iff.rfl

/-- A chain survives a change of memory that keeps its link words. -/
theorem chain_frame (s s' : State) (z : Nat) : ∀ (xs : List Nat) (a : Nat), Chain s z a xs →
    (∀ c, c ∈ a :: xs → s'.mem (c + 8) = s.mem (c + 8)) →
    (∀ c, c ∈ z :: xs → s'.mem (c + 16) = s.mem (c + 16)) → Chain s' z a xs := by
  intro xs
  induction xs with
  | nil =>
    intro a h hn hp
    obtain ⟨h1, h2⟩ := h
    exact ⟨by rw [hn a (by simp)]; exact h1, by rw [hp z (by simp)]; exact h2⟩
  | cons x xs ih =>
    intro a h hn hp
    obtain ⟨h1, h2, h3⟩ := h
    refine ⟨by rw [hn a (by simp)]; exact h1, by rw [hp x (by simp)]; exact h2, ?_⟩
    exact ih x h3 (fun c hc => hn c (List.mem_cons_of_mem _ hc))
      (fun c hc => hp c (by
        rcases List.mem_cons.1 hc with h | h
        · simp [h]
        · simp [h]))

/-- A chain through `xs ++ y :: ys` is a chain to `y` followed by a chain from `y`. -/
theorem chain_append (s : State) (z y : Nat) (ys : List Nat) : ∀ (xs : List Nat) (a : Nat),
    Chain s z a (xs ++ y :: ys) ↔ Chain s y a xs ∧ Chain s z y ys := by
  intro xs
  induction xs with
  | nil =>
    intro a
    show (s.mem (a + 8) = y ∧ s.mem (y + 16) = a ∧ Chain s z y ys) ↔
      (s.mem (a + 8) = y ∧ s.mem (y + 16) = a) ∧ Chain s z y ys
    tauto
  | cons x xs ih =>
    intro a
    show (s.mem (a + 8) = x ∧ s.mem (x + 16) = a ∧ Chain s z x (xs ++ y :: ys)) ↔
      (s.mem (a + 8) = x ∧ s.mem (x + 16) = a ∧ Chain s y x xs) ∧ Chain s z y ys
    rw [ih x]
    tauto

/-- The `prev` link of the end of a chain is the start or one of its entries. -/
theorem chain_end_prev (s : State) (z : Nat) : ∀ (xs : List Nat) (a : Nat), Chain s z a xs →
    s.mem (z + 16) ∈ a :: xs := by
  intro xs
  induction xs with
  | nil => intro a h; rw [h.2]; simp
  | cons x xs ih =>
    intro a h
    exact List.mem_cons_of_mem _ (ih x h.2.2)

/-- The `next` link of the start of a chain is its first entry, or its end. -/
theorem chain_start_next (s : State) (z a : Nat) (xs : List Nat) (h : Chain s z a xs) :
    s.mem (a + 8) = (xs ++ [z]).head (by simp) := by
  cases xs with
  | nil => exact h.1
  | cons x xs => exact h.1

/-- Redirecting the end of a chain: the last entry gets the new end as its `next`
link, and the new end that entry as its `prev` link. -/
theorem chain_retarget (s s' : State) (P z' : Nat) : ∀ (xs : List Nat) (a : Nat),
    Chain s P a xs → (a :: xs).Nodup →
    s'.mem (s.mem (P + 16) + 8) = z' → s'.mem (z' + 16) = s.mem (P + 16) →
    (∀ c, c ∈ a :: xs → c ≠ s.mem (P + 16) → s'.mem (c + 8) = s.mem (c + 8)) →
    (∀ c, c ∈ xs → s'.mem (c + 16) = s.mem (c + 16)) → Chain s' z' a xs := by
  intro xs
  induction xs with
  | nil =>
    intro a h _ h1 h2 _ _
    obtain ⟨_, hb⟩ := h
    rw [hb] at h1 h2
    exact ⟨h1, h2⟩
  | cons x xs ih =>
    intro a h hnd h1 h2 hn hp
    obtain ⟨ha, hb, hc⟩ := h
    have hmem := chain_end_prev s P xs x hc
    have hane : a ≠ s.mem (P + 16) := by
      intro e
      rw [← e] at hmem
      exact (List.nodup_cons.1 hnd).1 hmem
    refine ⟨by rw [hn a (by simp) hane]; exact ha, by rw [hp x (by simp)]; exact hb, ?_⟩
    exact ih x hc (List.nodup_cons.1 hnd).2 h1 h2
      (fun c hc' hne => hn c (List.mem_cons_of_mem _ hc') hne)
      (fun c hc' => hp c (List.mem_cons_of_mem _ hc'))

/-- Moving the start of a chain: the new start takes over the `next` link, and
the first entry (or the end) gets the new start as its `prev` link. -/
theorem chain_restart (s s' : State) (z a a' : Nat) (xs : List Nat) (h : Chain s z a xs)
    (h1 : s'.mem (a' + 8) = s.mem (a + 8)) (h2 : s'.mem (s.mem (a + 8) + 16) = a')
    (hn : ∀ c, c ∈ xs → s'.mem (c + 8) = s.mem (c + 8))
    (hp : ∀ c, c ∈ z :: xs → c ≠ s.mem (a + 8) → s'.mem (c + 16) = s.mem (c + 16))
    (hnd : (xs ++ [z]).Nodup) : Chain s' z a' xs := by
  cases xs with
  | nil =>
    obtain ⟨ha, _⟩ := h
    rw [ha] at h1 h2
    exact ⟨h1, h2⟩
  | cons x xs =>
    obtain ⟨ha, hb, hc⟩ := h
    rw [ha] at h1 h2 hp
    refine ⟨h1, h2, ?_⟩
    have hnd' : x ∉ xs ++ [z] := by
      have := List.nodup_cons.1 (by simpa using hnd : (x :: (xs ++ [z])).Nodup)
      exact this.1
    refine chain_frame s s' z xs x hc hn (fun c hc' => hp c ?_ ?_)
    · rcases List.mem_cons.1 hc' with h | h
      · simp [h]
      · simp [h]
    · intro e
      apply hnd'
      rw [← e]
      rcases List.mem_cons.1 hc' with h | h
      · simp [h]
      · simp [h]

/-! ## Memory after unlinking and inserting -/

/-- List heads and listed blocks keep their three words apart from each other
and lie in the address space. -/
theorem cells_clear (cfg : Config) (s : State) (L : Nat → List Nat) (hi : Nat)
    (hh : HeadsOutside cfg hi) (hend : sf_mem_end cfg s ≤ hi) (hp : Placed cfg s L)
    (hs : Separate cfg L) (i j : Nat) (hi' : i < cfg.NUM_FREE_LISTS)
    (hj : j < cfg.NUM_FREE_LISTS) (c d : Nat) (hc : c ∈ sentinel cfg i :: L i)
    (hd : d ∈ sentinel cfg j :: L j) : Clear c d ∧ c + 24 ≤ WORD := by
  obtain ⟨_, hhi, hheads⟩ := hh
  have h1 := hheads i hi'
  have h2 := hheads j hj
  unfold Clear
  rcases List.mem_cons.1 hc with hc | hc <;> rcases List.mem_cons.1 hd with hd | hd
  · subst hc; subst hd
    refine ⟨?_, h1.1⟩
    unfold sentinel SF_BLOCK_SZ at *
    omega
  · subst hc
    have := hp j hj d hd
    refine ⟨?_, h1.1⟩
    omega
  · subst hd
    have := hp i hi' c hc
    omega
  · have h3 := hp i hi' c hc
    have := hs.2 i hi' j hj c hc d hd
    unfold Clear at this
    omega

/-- The `next` word of a cell after `unlink_block`. -/
theorem unlink_next_word (s : State) (P c : Nat) (hP : P + 24 ≤ WORD)
    (hp : s.mem (P + 16) + 24 ≤ WORD) (hn : s.mem (P + 8) + 24 ≤ WORD)
    (cP : Clear c P) (cn : Clear c (s.mem (P + 8))) (hne : c ≠ P) :
    (unlink_block s P).mem (c + 8) =
      if c = s.mem (P + 16) then s.mem (P + 8) else s.mem (c + 8) := by
  rw [unlink_block_mem, wadd_prev hP, wadd_next hP, wadd_prev hn, wadd_next hp]
  generalize s.mem (P + 16) = prev at *
  generalize s.mem (P + 8) = next at *
  unfold Clear at cP cn
  have q1 : c + 8 ≠ next + 16 := by omega
  have q3 : c + 8 ≠ P + 16 := by omega
  have q4 : c + 8 ≠ P + 8 := by omega
  rw [if_neg q1, if_neg q3, if_neg q4]
  by_cases h : c = prev
  · rw [if_pos h, if_pos (by omega)]
  · rw [if_neg h, if_neg (by omega)]

/-- The `prev` word of a cell after `unlink_block`. -/
theorem unlink_prev_word (s : State) (P c : Nat) (hP : P + 24 ≤ WORD)
    (hp : s.mem (P + 16) + 24 ≤ WORD) (hn : s.mem (P + 8) + 24 ≤ WORD)
    (cP : Clear c P) (cp : Clear c (s.mem (P + 16))) (hne : c ≠ P) :
    (unlink_block s P).mem (c + 16) =
      if c = s.mem (P + 8) then s.mem (P + 16) else s.mem (c + 16) := by
  rw [unlink_block_mem, wadd_prev hP, wadd_next hP, wadd_prev hn, wadd_next hp]
  generalize s.mem (P + 16) = prev at *
  generalize s.mem (P + 8) = next at *
  unfold Clear at cP cp
  by_cases h : c = next
  · rw [if_pos h, if_pos (by omega)]
  · have q2 : c + 16 ≠ prev + 8 := by omega
    have q3 : c + 16 ≠ P + 16 := by omega
    have q4 : c + 16 ≠ P + 8 := by omega
    rw [if_neg h, if_neg (by omega), if_neg q2, if_neg q3, if_neg q4]

/-- A word that is no link word of the unlinked block or of its two list
neighbours is left alone by `unlink_block`. -/
theorem unlink_other_word (s : State) (P x : Nat) (hP : P + 24 ≤ WORD)
    (hp : s.mem (P + 16) + 24 ≤ WORD) (hn : s.mem (P + 8) + 24 ≤ WORD)
    (h1 : x ≠ P + 8) (h2 : x ≠ P + 16) (h3 : x ≠ s.mem (P + 16) + 8)
    (h4 : x ≠ s.mem (P + 8) + 16) : (unlink_block s P).mem x = s.mem x := by
  rw [unlink_block_mem, wadd_prev hP, wadd_next hP, wadd_prev hn, wadd_next hp,
    if_neg h4, if_neg h3, if_neg h2, if_neg h1]

/-- Unlinking an entry of a chain leaves the chain of the other entries. -/
theorem chain_unlink (s : State) (z a P : Nat) (l1 l2 : List Nat)
    (hc : Chain s z a (l1 ++ P :: l2))
    (hnd : (a :: (l1 ++ P :: l2)).Nodup) (hz : z ∉ l1 ++ P :: l2)
    (hcl : ∀ c, c ∈ a :: z :: (l1 ++ P :: l2) → ∀ d, d ∈ a :: z :: (l1 ++ P :: l2) →
      Clear c d ∧ c + 24 ≤ WORD) :
    Chain (unlink_block s P) z a (l1 ++ l2) := by
  obtain ⟨c1, c2⟩ := (chain_append s z P l2 l1 a).1 hc
  have hPm : P ∈ a :: z :: (l1 ++ P :: l2) := by simp
  have hPW := (hcl P hPm P hPm).2
  have hprev := chain_end_prev s P l1 a c1
  have hprevm : s.mem (P + 16) ∈ a :: z :: (l1 ++ P :: l2) := by
    rcases List.mem_cons.1 hprev with h | h
    · simp [h]
    · simp [h]
  have hnext := chain_start_next s z P l2 c2
  have hnextm : s.mem (P + 8) ∈ a :: z :: (l1 ++ P :: l2) := by
    rw [hnext]
    cases l2 with
    | nil => simp
    | cons y l2 => simp
  have hpW := (hcl _ hprevm _ hprevm).2
  have hnW := (hcl _ hnextm _ hnextm).2
  have hnd1 : (a :: l1).Nodup := by
    have := hnd
    rw [← List.cons_append] at this
    exact (List.nodup_append.1 this).1
  have hPl1 : P ∉ a :: l1 := by
    have := hnd
    rw [← List.cons_append] at this
    have h3 := (List.nodup_append.1 this).2.2
    intro hm
    exact h3 hm (by simp)
  have hprevP : s.mem (P + 16) ≠ P := fun e => hPl1 (e ▸ hprev)
  have hPz : P ≠ z := fun e => hz (by simp [← e])
  -- words of the cells
  have nextw : ∀ c, c ∈ a :: z :: (l1 ++ P :: l2) → c ≠ P →
      (unlink_block s P).mem (c + 8) =
        if c = s.mem (P + 16) then s.mem (P + 8) else s.mem (c + 8) := fun c hm hne =>
    unlink_next_word s P c hPW hpW hnW (hcl c hm P hPm).1 (hcl c hm _ hnextm).1 hne
  have prevw : ∀ c, c ∈ a :: z :: (l1 ++ P :: l2) → c ≠ P →
      (unlink_block s P).mem (c + 16) =
        if c = s.mem (P + 8) then s.mem (P + 16) else s.mem (c + 16) := fun c hm hne =>
    unlink_prev_word s P c hPW hpW hnW (hcl c hm P hPm).1 (hcl c hm _ hprevm).1 hne
  have inA : ∀ c, c ∈ a :: l1 → c ∈ a :: z :: (l1 ++ P :: l2) := by
    intro c hm
    rcases List.mem_cons.1 hm with h | h
    · simp [h]
    · simp [h]
  have neA : ∀ c, c ∈ a :: l1 → c ≠ P := fun c hm e => hPl1 (e ▸ hm)
  -- the first part, redirected to the entry after `P`
  have first : Chain (unlink_block s P) (s.mem (P + 8)) a l1 := by
    refine chain_retarget s _ P _ l1 a c1 hnd1 ?_ ?_ ?_ ?_
    · rw [nextw _ hprevm hprevP, if_pos rfl]
    · have hne : s.mem (P + 8) ≠ P := by
        intro e
        rw [hnext] at e
        cases l2 with
        | nil => exact hPz (by simpa using e.symm)
        | cons y l2 =>
          have : y = P := by simpa using e
          have h4 := hnd
          rw [this] at h4
          have h5 : (l1 ++ P :: P :: l2).Nodup := (List.nodup_cons.1 h4).2
          have h6 := (List.nodup_append.1 h5).2.1
          exact (List.nodup_cons.1 h6).1 (by simp)
      rw [prevw _ hnextm hne, if_pos rfl]
    · intro c hm hne
      rw [nextw c (inA c hm) (neA c hm), if_neg hne]
    · intro c hm
      have hmA : c ∈ a :: l1 := List.mem_cons_of_mem _ hm
      rw [prevw c (inA c hmA) (neA c hmA)]
      have : c ≠ s.mem (P + 8) := by
        intro e
        rw [hnext] at e
        cases l2 with
        | nil =>
          apply hz
          have : c = z := by simpa using e
          rw [← this]; simp [hm]
        | cons y l2 =>
          have hy : c = y := by simpa using e
          have h5 : (l1 ++ P :: y :: l2).Nodup := (List.nodup_cons.1 hnd).2
          have h6 := (List.nodup_append.1 h5).2.2
          exact h6 hm (by simp [hy])
      rw [if_neg this]
  cases l2 with
  | nil =>
    rw [List.append_nil]
    have : s.mem (P + 8) = z := by simpa using hnext
    rw [this] at first
    exact first
  | cons y l2 =>
    have hy : s.mem (P + 8) = y := by simpa using hnext
    rw [hy] at first
    refine (chain_append _ z y l2 l1 a).2 ⟨first, ?_⟩
    obtain ⟨_, _, c3⟩ := c2
    have h5 : (l1 ++ P :: y :: l2).Nodup := (List.nodup_cons.1 hnd).2
    have h6 : (P :: y :: l2).Nodup := (List.nodup_append.1 h5).2.1
    have h7 : (y :: l2).Nodup := (List.nodup_cons.1 h6).2
    have hdis := (List.nodup_append.1 (by rw [← List.cons_append] at hnd; exact hnd)).2.2
    refine chain_frame s _ z l2 y c3 ?_ ?_
    · intro c hm
      have hmem : c ∈ a :: z :: (l1 ++ P :: y :: l2) := by
        rcases List.mem_cons.1 hm with h | h
        · simp [h]
        · simp [h]
      have hcP : c ≠ P := by
        intro e
        rw [e] at hm
        exact (List.nodup_cons.1 h6).1 hm
      rw [nextw c hmem hcP]
      have : c ≠ s.mem (P + 16) := by
        intro e
        rw [← e] at hprev
        exact hdis hprev (List.mem_cons_of_mem _ hm)
      rw [if_neg this]
    · intro c hm
      have hmem : c ∈ a :: z :: (l1 ++ P :: y :: l2) := by
        rcases List.mem_cons.1 hm with h | h
        · simp [h]
        · simp [h]
      have hcP : c ≠ P := by
        intro e
        rcases List.mem_cons.1 hm with h | h
        · exact hPz (e ▸ h)
        · rw [e] at h
          exact (List.nodup_cons.1 h6).1 (List.mem_cons_of_mem _ h)
      rw [prevw c hmem hcP]
      have : c ≠ s.mem (P + 8) := by
        rw [hy]
        intro e
        rcases List.mem_cons.1 hm with h | h
        · apply hz
          rw [← h, e]; simp
        · rw [e] at h
          exact (List.nodup_cons.1 h7).1 h
      rw [if_neg this]

/-- A word that `insert_ml` does not write. -/
theorem insert_other_word (cfg : Config) (s : State) (F x : Nat) (hF : F + 24 ≤ WORD)
    (hS : sentinel cfg (get_ml_index cfg (size_at cfg s F)) + 24 ≤ WORD)
    (hN : s.mem (sentinel cfg (get_ml_index cfg (size_at cfg s F)) + 8) + 24 ≤ WORD)
    (h1 : x ≠ F + 8) (h2 : x ≠ F + 16)
    (h3 : x ≠ s.mem (sentinel cfg (get_ml_index cfg (size_at cfg s F)) + 8) + 16)
    (h4 : x ≠ sentinel cfg (get_ml_index cfg (size_at cfg s F)) + 8) :
    (insert_ml cfg s F).mem x = s.mem x := by
  unfold size_at at *
  rw [insert_ml_mem, wadd_next hF, wadd_prev hF, wadd_next hS, wadd_prev hN,
    if_neg h1, if_neg h2, if_neg h3, if_neg h4]

/-- The four words that `insert_ml` writes. -/
theorem insert_words (cfg : Config) (s : State) (F : Nat) (hF : F + 24 ≤ WORD)
    (hS : sentinel cfg (get_ml_index cfg (size_at cfg s F)) + 24 ≤ WORD)
    (hN : s.mem (sentinel cfg (get_ml_index cfg (size_at cfg s F)) + 8) + 24 ≤ WORD)
    (cS : sentinel cfg (get_ml_index cfg (size_at cfg s F)) + 24 ≤ F ∨
      F + 24 ≤ sentinel cfg (get_ml_index cfg (size_at cfg s F)))
    (cN : s.mem (sentinel cfg (get_ml_index cfg (size_at cfg s F)) + 8) + 24 ≤ F ∨
      F + 24 ≤ s.mem (sentinel cfg (get_ml_index cfg (size_at cfg s F)) + 8))
    (cSN : Clear (sentinel cfg (get_ml_index cfg (size_at cfg s F)))
      (s.mem (sentinel cfg (get_ml_index cfg (size_at cfg s F)) + 8))) :
    (insert_ml cfg s F).mem (F + 8) =
      s.mem (sentinel cfg (get_ml_index cfg (size_at cfg s F)) + 8) ∧
    (insert_ml cfg s F).mem (F + 16) = sentinel cfg (get_ml_index cfg (size_at cfg s F)) ∧
    (insert_ml cfg s F).mem
      (s.mem (sentinel cfg (get_ml_index cfg (size_at cfg s F)) + 8) + 16) = F ∧
    (insert_ml cfg s F).mem (sentinel cfg (get_ml_index cfg (size_at cfg s F)) + 8) = F := by
  unfold size_at at *
  generalize hz : sentinel cfg (get_ml_index cfg (GET_BLOCK_SIZE (OBF cfg (s.mem F)))) = z at *
  have e : ∀ x, (insert_ml cfg s F).mem x =
      if x = F + 8 then s.mem (z + 8) else if x = F + 16 then z
      else if x = s.mem (z + 8) + 16 then F else if x = z + 8 then F else s.mem x := by
    intro x
    rw [insert_ml_mem, hz, wadd_next hF, wadd_prev hF, wadd_next hS, wadd_prev hN]
  generalize s.mem (z + 8) = n at *
  unfold Clear at cSN
  refine ⟨?_, ?_, ?_, ?_⟩
  · rw [e, if_pos rfl]
  · rw [e, if_neg (by omega), if_pos rfl]
  · rw [e, if_neg (by omega), if_neg (by omega), if_pos rfl]
  · rw [e, if_neg (by omega), if_neg (by omega), if_neg (by omega), if_pos rfl]

/-- Inserting a block at the head of a circular list. -/
theorem chain_insert (cfg : Config) (s : State) (F : Nat) (xs : List Nat)
    (hc : Chain s (sentinel cfg (get_ml_index cfg (size_at cfg s F)))
      (sentinel cfg (get_ml_index cfg (size_at cfg s F))) xs)
    (hnd : (sentinel cfg (get_ml_index cfg (size_at cfg s F)) :: xs).Nodup)
    (hF : F + 24 ≤ WORD)
    (hcl : ∀ c, c ∈ sentinel cfg (get_ml_index cfg (size_at cfg s F)) :: xs →
      c + 24 ≤ WORD ∧ (c + 24 ≤ F ∨ F + 24 ≤ c) ∧
      ∀ d, d ∈ sentinel cfg (get_ml_index cfg (size_at cfg s F)) :: xs → Clear c d) :
    Chain (insert_ml cfg s F) (sentinel cfg (get_ml_index cfg (size_at cfg s F)))
      (sentinel cfg (get_ml_index cfg (size_at cfg s F))) (F :: xs) := by
  have hzm : sentinel cfg (get_ml_index cfg (size_at cfg s F)) ∈
      sentinel cfg (get_ml_index cfg (size_at cfg s F)) :: xs := by simp
  have hnext := chain_start_next s _ _ xs hc
  have hnm : s.mem (sentinel cfg (get_ml_index cfg (size_at cfg s F)) + 8) ∈
      sentinel cfg (get_ml_index cfg (size_at cfg s F)) :: xs := by
    rw [hnext]
    cases xs with
    | nil => simp
    | cons y ys => simp
  have hS := (hcl _ hzm).1
  have hN := (hcl _ hnm).1
  obtain ⟨w1, w2, w3, w4⟩ := insert_words cfg s F hF hS hN (hcl _ hzm).2.1 (hcl _ hnm).2.1
    ((hcl _ hzm).2.2 _ hnm)
  have other := insert_other_word cfg s F
  generalize hz : sentinel cfg (get_ml_index cfg (size_at cfg s F)) = z at *
  refine ⟨w4, w2, ?_⟩
  refine chain_restart s _ z z F xs hc w1 w3 ?_ ?_ ?_
  · intro c hm
    have hcm : c ∈ z :: xs := List.mem_cons_of_mem _ hm
    have h1 := hcl c hcm
    have h2 := h1.2.2 _ hnm
    have h3 := h1.2.2 _ hzm
    have hne : c ≠ z := fun e => (List.nodup_cons.1 hnd).1 (e ▸ hm)
    unfold Clear at h2 h3
    exact other (c + 8) hF hS hN (by omega) (by omega) (by omega) (by omega)
  · intro c hm hne
    have h1 := hcl c hm
    have h2 := h1.2.2 _ hnm
    have h3 := h1.2.2 _ hzm
    unfold Clear at h2 h3
    exact other (c + 16) hF hS hN (by omega) (by omega) (by omega) (by omega)
  · have : (xs ++ [z]).Nodup := by
      rw [List.nodup_append]
      refine ⟨(List.nodup_cons.1 hnd).2, by simp, ?_⟩
      intro a ha hb
      have : a = z := by simpa using hb
      exact (List.nodup_cons.1 hnd).1 (this ▸ ha)
    exact this

/-! ## Well-formed lists under the list operations -/

theorem lists_cells (cfg : Config) (s : State) (hi : Nat) (L : Nat → List Nat)
    (h : Lists cfg s hi L) (i j : Nat) (hi' : i < cfg.NUM_FREE_LISTS)
    (hj : j < cfg.NUM_FREE_LISTS) (c d : Nat) (hc : c ∈ sentinel cfg i :: L i)
    (hd : d ∈ sentinel cfg j :: L j) : Clear c d ∧ c + 24 ≤ WORD :=
  cells_clear cfg s L hi h.1 h.2.1 h.2.2.2.1 h.2.2.2.2 i j hi' hj c d hc hd

/-- A list head is no listed block. -/
theorem sentinel_not_listed (cfg : Config) (s : State) (hi : Nat) (L : Nat → List Nat)
    (h : Lists cfg s hi L) (i j : Nat) (hi' : i < cfg.NUM_FREE_LISTS)
    (hj : j < cfg.NUM_FREE_LISTS) : sentinel cfg i ∉ L j := by
  intro hm
  obtain ⟨⟨_, _, hheads⟩, hend, _, hp, _⟩ := h
  have h1 := hheads i hi'
  have h2 := hp j hj _ hm
  omega

/-- A block is listed in one list only. -/
theorem listed_once (cfg : Config) (s : State) (hi : Nat) (L : Nat → List Nat)
    (h : Lists cfg s hi L) (i j : Nat) (hi' : i < cfg.NUM_FREE_LISTS)
    (hj : j < cfg.NUM_FREE_LISTS) (x : Nat) (hx : x ∈ L i) (hx' : x ∈ L j) : i = j := by
  have h1 := (h.2.2.2.1 i hi' x hx).2.2.2
  have h2 := (h.2.2.2.1 j hj x hx').2.2.2
  omega

/-- The cells of two different lists are different. -/
theorem cells_disjoint (cfg : Config) (s : State) (hi : Nat) (L : Nat → List Nat)
    (h : Lists cfg s hi L) (i j : Nat) (hi' : i < cfg.NUM_FREE_LISTS)
    (hj : j < cfg.NUM_FREE_LISTS) (hne : i ≠ j) (c : Nat) (hc : c ∈ sentinel cfg i :: L i) :
    c ∉ sentinel cfg j :: L j := by
  intro hd
  rcases List.mem_cons.1 hc with hc | hc <;> rcases List.mem_cons.1 hd with hd | hd
  · rw [hc] at hd
    unfold sentinel SF_BLOCK_SZ at hd
    omega
  · rw [hc] at hd
    exact sentinel_not_listed cfg s hi L h i j hi' hj hd
  · rw [hd] at hc
    exact sentinel_not_listed cfg s hi L h j i hj hi' hc
  · exact hne (listed_once cfg s hi L h i j hi' hj c hc hd)

/-- Well-formed lists survive a change of the state that keeps the words of the
list heads and of the listed blocks and does not shrink the heap. -/
theorem lists_frame (cfg : Config) (s s' : State) (hi : Nat) (L : Nat → List Nat)
    (h : Lists cfg s hi L)
    (hm : ∀ i, i < cfg.NUM_FREE_LISTS → ∀ c, c ∈ sentinel cfg i :: L i →
      s'.mem (c + 8) = s.mem (c + 8) ∧ s'.mem (c + 16) = s.mem (c + 16))
    (hh : ∀ i, i < cfg.NUM_FREE_LISTS → ∀ x, x ∈ L i → s'.mem x = s.mem x)
    (he : sf_mem_end cfg s ≤ sf_mem_end cfg s') (he' : sf_mem_end cfg s' ≤ hi) :
    Lists cfg s' hi L := by
  obtain ⟨h1, h2, h3, h4, h5⟩ := h
  refine ⟨h1, he', ?_, ?_, h5⟩
  · intro i hi'
    exact chain_frame s s' _ (L i) _ (h3 i hi') (fun c hc => (hm i hi' c hc).1)
      (fun c hc => (hm i hi' c hc).2)
  · intro i hi' x hx
    have := h4 i hi' x hx
    unfold size_at at *
    rw [hh i hi' x hx]
    omega

/-- Well-formed lists survive a store to a word that is no word of a list head
or of a listed block. -/
theorem lists_write (cfg : Config) (s : State) (hi : Nat) (L : Nat → List Nat)
    (h : Lists cfg s hi L) (a v : Nat)
    (ha : ∀ i, i < cfg.NUM_FREE_LISTS → ∀ c, c ∈ sentinel cfg i :: L i →
      a ≠ c ∧ a ≠ c + 8 ∧ a ≠ c + 16) : Lists cfg (s.write a v) hi L := by
  refine lists_frame cfg s _ hi L h ?_ ?_ (le_refl _) h.2.1
  · intro i hi' c hc
    have := ha i hi' c hc
    exact ⟨write_mem_ne s v (by omega), write_mem_ne s v (by omega)⟩
  · intro i hi' x hx
    have := ha i hi' x (List.mem_cons_of_mem _ hx)
    exact write_mem_ne s v (by omega)

/-- Unlinking a listed block leaves well-formed lists without it, and changes no
word other than link words of list heads and listed blocks. -/
theorem lists_unlink (cfg : Config) (s : State) (hi : Nat) (L : Nat → List Nat)
    (h : Lists cfg s hi L) (k P : Nat) (hk : k < cfg.NUM_FREE_LISTS) (hP : P ∈ L k) :
    Lists cfg (unlink_block s P) hi (fun i => (L i).erase P) ∧
    (∀ x, (∀ i, i < cfg.NUM_FREE_LISTS → ∀ c, c ∈ sentinel cfg i :: L i →
        x ≠ c + 8 ∧ x ≠ c + 16) → (unlink_block s P).mem x = s.mem x) := by
  have hcells := lists_cells cfg s hi L h
  obtain ⟨h1, h2, h3, h4, h5⟩ := id h
  have hPc : P ∈ sentinel cfg k :: L k := List.mem_cons_of_mem _ hP
  have hPW := (hcells k k hk hk P P hPc hPc).2
  obtain ⟨l1, l2, hl1, hL, herase⟩ := List.exists_erase_eq hP
  have hck := h3 k hk
  rw [hL] at hck
  obtain ⟨c1, c2⟩ := (chain_append s _ P l2 l1 _).1 hck
  have hprev : s.mem (P + 16) ∈ sentinel cfg k :: L k := by
    have := chain_end_prev s P l1 _ c1
    rw [hL]
    rcases List.mem_cons.1 this with e | e
    · simp [e]
    · simp [e]
  have hnext : s.mem (P + 8) ∈ sentinel cfg k :: L k := by
    rw [chain_start_next s _ P l2 c2, hL]
    cases l2 with
    | nil => simp
    | cons y l2 => simp
  have hpW := (hcells k k hk hk _ _ hprev hprev).2
  have hnW := (hcells k k hk hk _ _ hnext hnext).2
  have frame : ∀ x, (∀ i, i < cfg.NUM_FREE_LISTS → ∀ c, c ∈ sentinel cfg i :: L i →
      x ≠ c + 8 ∧ x ≠ c + 16) → (unlink_block s P).mem x = s.mem x := by
    intro x hx
    exact unlink_other_word s P x hPW hpW hnW (hx k hk P hPc).1 (hx k hk P hPc).2
      (hx k hk _ hprev).1 (hx k hk _ hnext).2
  have hdr : ∀ i, i < cfg.NUM_FREE_LISTS → ∀ x, x ∈ L i →
      (unlink_block s P).mem x = s.mem x := by
    intro i hi' x hx
    apply frame
    intro j hj c hc
    have := (hcells i j hi' hj x c (List.mem_cons_of_mem _ hx) hc).1
    unfold Clear at this
    omega
  have hnd : (sentinel cfg k :: L k).Nodup :=
    List.nodup_cons.2 ⟨sentinel_not_listed cfg s hi L h k k hk hk, h5.1 k hk⟩
  refine ⟨⟨h1, h2, ?_, ?_, ?_⟩, frame⟩
  · intro i hi'
    by_cases hik : i = k
    · subst hik
      show Chain _ _ _ ((L i).erase P)
      rw [herase]
      refine chain_unlink s _ _ P l1 l2 hck (by rw [← hL]; exact hnd)
        (by rw [← hL]; exact sentinel_not_listed cfg s hi L h i i hk hk) ?_
      intro c hc d hd
      have hc' : c ∈ sentinel cfg i :: L i := by
        rw [hL]
        rcases List.mem_cons.1 hc with e | e
        · simp [e]
        · exact e
      have hd' : d ∈ sentinel cfg i :: L i := by
        rw [hL]
        rcases List.mem_cons.1 hd with e | e
        · simp [e]
        · exact e
      exact hcells i i hk hk c d hc' hd'
    · have hPi : P ∉ L i := fun hm => hik (listed_once cfg s hi L h i k hi' hk P hm hP)
      show Chain _ _ _ ((L i).erase P)
      rw [List.erase_of_not_mem hPi]
      have hdis := cells_disjoint cfg s hi L h i k hi' hk hik
      refine chain_frame s _ _ (L i) _ (h3 i hi') ?_ ?_
      · intro c hc
        have hcP : c ≠ P := fun e => hdis c hc (e ▸ hPc)
        rw [unlink_next_word s P c hPW hpW hnW (hcells i k hi' hk c P hc hPc).1
          (hcells i k hi' hk c _ hc hnext).1 hcP]
        have hcp : c ≠ s.mem (P + 16) := fun e => hdis c hc (e ▸ hprev)
        rw [if_neg hcp]
      · intro c hc
        have hcP : c ≠ P := fun e => hdis c hc (e ▸ hPc)
        rw [unlink_prev_word s P c hPW hpW hnW (hcells i k hi' hk c P hc hPc).1
          (hcells i k hi' hk c _ hc hprev).1 hcP]
        have hcn : c ≠ s.mem (P + 8) := fun e => hdis c hc (e ▸ hnext)
        rw [if_neg hcn]
  · intro i hi' x hx
    have hx' : x ∈ L i := List.mem_of_mem_erase hx
    have := h4 i hi' x hx'
    unfold size_at at *
    rw [hdr i hi' x hx']
    exact this
  · refine ⟨fun i hi' => (h5.1 i hi').erase P, ?_⟩
    intro i hi' j hj x hx y hy
    exact h5.2 i hi' j hj x (List.mem_of_mem_erase hx) y (List.mem_of_mem_erase hy)

/-- Inserting a block that is apart from the listed blocks leaves well-formed
lists with the block at the head of the list of its size class, and changes no
word other than the block's link words and link words of list heads and listed
blocks. -/
theorem lists_insert (cfg : Config) (s : State) (hi : Nat) (L : Nat → List Nat)
    (h : Lists cfg s hi L) (F : Nat) (hF1 : sf_mem_start cfg + 40 ≤ F)
    (hF2 : F + size_at cfg s F + 8 ≤ sf_mem_end cfg s) (hF3 : 32 ≤ size_at cfg s F)
    (hFc : ∀ i, i < cfg.NUM_FREE_LISTS → ∀ x, x ∈ L i → x + 24 ≤ F ∨ F + 24 ≤ x) :
    Lists cfg (insert_ml cfg s F) hi
      (fun i => if i = get_ml_index cfg (size_at cfg s F) then F :: L i else L i) ∧
    (∀ x, x ≠ F + 8 → x ≠ F + 16 →
      (∀ i, i < cfg.NUM_FREE_LISTS → ∀ c, c ∈ sentinel cfg i :: L i →
        x ≠ c + 8 ∧ x ≠ c + 16) → (insert_ml cfg s F).mem x = s.mem x) := by
  have hcells := lists_cells cfg s hi L h
  obtain ⟨h1, h2, h3, h4, h5⟩ := id h
  have hN := h1.1
  have hk := get_ml_index_lt cfg (size_at cfg s F) hN
  have hFW : F + 24 ≤ WORD := by have := h1.2.1; omega
  have hFcell : ∀ i, i < cfg.NUM_FREE_LISTS → ∀ c, c ∈ sentinel cfg i :: L i →
      c + 24 ≤ F ∨ F + 24 ≤ c := by
    intro i hi' c hc
    rcases List.mem_cons.1 hc with e | e
    · have := h1.2.2 i hi'
      rw [e]; omega
    · exact hFc i hi' c e
  have hzc : sentinel cfg (get_ml_index cfg (size_at cfg s F)) ∈
      sentinel cfg (get_ml_index cfg (size_at cfg s F)) ::
        L (get_ml_index cfg (size_at cfg s F)) := by simp
  have hnext : s.mem (sentinel cfg (get_ml_index cfg (size_at cfg s F)) + 8) ∈
      sentinel cfg (get_ml_index cfg (size_at cfg s F)) ::
        L (get_ml_index cfg (size_at cfg s F)) := by
    rw [chain_start_next s _ _ _ (h3 _ hk)]
    cases L (get_ml_index cfg (size_at cfg s F)) with
    | nil => simp
    | cons y ys => simp
  have hSW := (hcells _ _ hk hk _ _ hzc hzc).2
  have hNW := (hcells _ _ hk hk _ _ hnext hnext).2
  have frame : ∀ x, x ≠ F + 8 → x ≠ F + 16 →
      (∀ i, i < cfg.NUM_FREE_LISTS → ∀ c, c ∈ sentinel cfg i :: L i →
        x ≠ c + 8 ∧ x ≠ c + 16) → (insert_ml cfg s F).mem x = s.mem x := by
    intro x hx1 hx2 hx
    exact insert_other_word cfg s F x hFW hSW hNW hx1 hx2 (hx _ hk _ hnext).2 (hx _ hk _ hzc).1
  have hdrF : (insert_ml cfg s F).mem F = s.mem F := by
    refine frame F (by omega) (by omega) ?_
    intro i hi' c hc
    have := hFcell i hi' c hc
    omega
  have hdr : ∀ i, i < cfg.NUM_FREE_LISTS → ∀ x, x ∈ L i →
      (insert_ml cfg s F).mem x = s.mem x := by
    intro i hi' x hx
    have := hFc i hi' x hx
    refine frame x (by omega) (by omega) ?_
    intro j hj c hc
    have := (hcells i j hi' hj x c (List.mem_cons_of_mem _ hx) hc).1
    unfold Clear at this
    omega
  have hnd : (sentinel cfg (get_ml_index cfg (size_at cfg s F)) ::
      L (get_ml_index cfg (size_at cfg s F))).Nodup :=
    List.nodup_cons.2 ⟨sentinel_not_listed cfg s hi L h _ _ hk hk, h5.1 _ hk⟩
  have hFnot : ∀ i, i < cfg.NUM_FREE_LISTS → F ∉ L i := by
    intro i hi' hm
    have := hFc i hi' F hm
    omega
  refine ⟨⟨h1, h2, ?_, ?_, ?_⟩, frame⟩
  · intro i hi'
    by_cases hik : i = get_ml_index cfg (size_at cfg s F)
    · show Chain _ _ _ (if i = _ then F :: L i else L i)
      rw [if_pos hik, hik]
      refine chain_insert cfg s F _ (h3 _ hk) hnd hFW ?_
      intro c hc
      exact ⟨(hcells _ _ hk hk c c hc hc).2, hFcell _ hk c hc,
        fun d hd => (hcells _ _ hk hk c d hc hd).1⟩
    · show Chain _ _ _ (if i = _ then F :: L i else L i)
      rw [if_neg hik]
      have hdis := cells_disjoint cfg s hi L h i _ hi' hk hik
      refine chain_frame s _ _ (L i) _ (h3 i hi') ?_ ?_
      · intro c hc
        have a1 := hFcell i hi' c hc
        have a2 := (hcells i _ hi' hk c _ hc hnext).1
        have a3 : c ≠ sentinel cfg (get_ml_index cfg (size_at cfg s F)) :=
          fun e => hdis c hc (e ▸ hzc)
        unfold Clear at a2
        exact insert_other_word cfg s F (c + 8) hFW hSW hNW (by omega) (by omega) (by omega)
          (by omega)
      · intro c hc
        have a1 := hFcell i hi' c hc
        have a2 := (hcells i _ hi' hk c _ hc hzc).1
        have a3 : c ≠ s.mem (sentinel cfg (get_ml_index cfg (size_at cfg s F)) + 8) :=
          fun e => hdis c hc (e ▸ hnext)
        unfold Clear at a2
        exact insert_other_word cfg s F (c + 16) hFW hSW hNW (by omega) (by omega) (by omega)
          (by omega)
  · intro i hi' x hx
    have hx' : x = F ∧ i = get_ml_index cfg (size_at cfg s F) ∨ x ∈ L i := by
      by_cases hik : i = get_ml_index cfg (size_at cfg s F)
      · simp only [if_pos hik] at hx
        rcases List.mem_cons.1 hx with e | e
        · exact Or.inl ⟨e, hik⟩
        · exact Or.inr e
      · simp only [if_neg hik] at hx
        exact Or.inr hx
    have hend : sf_mem_end cfg (insert_ml cfg s F) = sf_mem_end cfg s := rfl
    rcases hx' with ⟨e, hik⟩ | e
    · subst e
      unfold size_at at *
      rw [hdrF, hend]
      exact ⟨hF1, hF2, hF3, hik.symm⟩
    · have := h4 i hi' x e
      unfold size_at at *
      rw [hdr i hi' x e, hend]
      exact this
  · have hmem : ∀ i, i < cfg.NUM_FREE_LISTS → ∀ x,
        x ∈ (if i = get_ml_index cfg (size_at cfg s F) then F :: L i else L i) →
        x = F ∨ x ∈ L i := by
      intro i _ x hx
      by_cases hik : i = get_ml_index cfg (size_at cfg s F)
      · rw [if_pos hik] at hx
        exact List.mem_cons.1 hx
      · rw [if_neg hik] at hx
        exact Or.inr hx
    refine ⟨?_, ?_⟩
    · intro i hi'
      show (if i = _ then F :: L i else L i).Nodup
      by_cases hik : i = get_ml_index cfg (size_at cfg s F)
      · rw [if_pos hik]
        exact List.nodup_cons.2 ⟨hFnot i hi', h5.1 i hi'⟩
      · rw [if_neg hik]
        exact h5.1 i hi'
    · intro i hi' j hj x hx y hy
      rcases hmem i hi' x hx with e1 | e1 <;> rcases hmem j hj y hy with e2 | e2
      · left; rw [e1, e2]
      · have := hFc j hj y e2
        unfold Clear; rw [e1]; omega
      · have := hFc i hi' x e1
        unfold Clear; rw [e2]; omega
      · exact h5.2 i hi' j hj x e1 y e2

/-! ## The scans of `find_fit` and `remove_ml` on well-formed lists -/

theorem get_ml_index_go_ge (size : Nat) : ∀ k i m, i ≤ get_ml_index_go size k i m := by
  intro k
  induction k with
  | zero => intro i m; simp [get_ml_index_go]
  | succ n ih =>
    intro i m
    simp only [get_ml_index_go]
    split
    · omega
    · have := ih (i + 1) ((m <<< 1) % WORD); omega

theorem get_ml_index_go_mono (a c : Nat) (hac : a ≤ c) :
    ∀ k i m, get_ml_index_go a k i m ≤ get_ml_index_go c k i m := by
  intro k
  induction k with
  | zero => intro i m; simp [get_ml_index_go]
  | succ n ih =>
    intro i m
    simp only [get_ml_index_go]
    by_cases h1 : c ≤ m
    · rw [if_pos h1, if_pos (by omega)]
    · rw [if_neg h1]
      by_cases h2 : a ≤ m
      · rw [if_pos h2]
        have := get_ml_index_go_ge c n (i + 1) ((m <<< 1) % WORD)
        omega
      · rw [if_neg h2]
        exact ih (i + 1) _

/-- A larger block is filed in the same or a later main list. -/
theorem get_ml_index_mono (cfg : Config) (a c : Nat) (hac : a ≤ c) :
    get_ml_index cfg a ≤ get_ml_index cfg c :=
  get_ml_index_go_mono a c hac _ _ _

/-- The scan of `find_fit` runs past blocks that are too small, up to the list
head. -/
theorem scan_skip (cfg : Config) (s : State) (sent b : Nat) : ∀ (xs : List Nat) (a fuel : Nat),
    Chain s sent a xs → (∀ c, c ∈ a :: xs → c + 24 ≤ WORD) →
    (∀ x, x ∈ xs → x ≠ sent ∧ size_at cfg s x < b) → xs.length + 1 ≤ fuel →
    find_fit_scan cfg s sent b fuel a = some sent := by
  intro xs
  induction xs with
  | nil =>
    intro a fuel hc hW _ hf
    obtain ⟨f, rfl⟩ : ∃ f, fuel = f + 1 := ⟨fuel - 1, by simp at hf; omega⟩
    simp only [find_fit_scan]
    rw [wadd_next (hW a (by simp)), hc.1]
    simp
  | cons x xs ih =>
    intro a fuel hc hW hs hf
    obtain ⟨f, rfl⟩ : ∃ f, fuel = f + 1 := ⟨fuel - 1, by simp at hf; omega⟩
    simp only [find_fit_scan]
    rw [wadd_next (hW a (by simp)), hc.1]
    have h1 := hs x (by simp)
    unfold size_at at h1
    rw [if_pos h1]
    exact ih x f hc.2.2 (fun c hm => hW c (List.mem_cons_of_mem _ hm))
      (fun y hy => hs y (List.mem_cons_of_mem _ hy)) (by simp at hf; omega)

/-- The scan of `find_fit` stops at a first entry that is large enough. -/
theorem scan_hit (cfg : Config) (s : State) (sent b a F f : Nat) (xs : List Nat)
    (hc : Chain s sent a (F :: xs)) (hW : a + 24 ≤ WORD) (hb : b ≤ size_at cfg s F) :
    find_fit_scan cfg s sent b (f + 1) a = some F := by
  simp only [find_fit_scan]
  rw [wadd_next hW, hc.1]
  unfold size_at at hb
  rw [if_neg (by omega)]

/-- The scan of `remove_ml` finds a listed block. -/
theorem remove_scan_finds (s : State) (sent P : Nat) (l2 : List Nat) :
    ∀ (l1 : List Nat) (a fuel : Nat), Chain s sent a (l1 ++ P :: l2) →
    (∀ c, c ∈ a :: l1 → c + 24 ≤ WORD) → P ∉ l1 → sent ∉ l1 → l1.length + 1 ≤ fuel →
    remove_ml_scan s P sent fuel a = some P := by
  intro l1
  induction l1 with
  | nil =>
    intro a fuel hc hW _ _ hf
    obtain ⟨f, rfl⟩ : ∃ f, fuel = f + 1 := ⟨fuel - 1, by simp at hf; omega⟩
    simp only [remove_ml_scan]
    rw [wadd_next (hW a (by simp))]
    have : s.mem (a + 8) = P := hc.1
    rw [this]
    simp
  | cons x l1 ih =>
    intro a fuel hc hW hP hs hf
    obtain ⟨f, rfl⟩ : ∃ f, fuel = f + 1 := ⟨fuel - 1, by simp at hf; omega⟩
    simp only [remove_ml_scan]
    rw [wadd_next (hW a (by simp))]
    have hx : s.mem (a + 8) = x := hc.1
    rw [hx]
    have h1 : x ≠ P ∧ x ≠ sent :=
      ⟨fun e => hP (by simp [e]), fun e => hs (by simp [e])⟩
    rw [if_pos h1]
    exact ih x f hc.2.2 (fun c hm => hW c (List.mem_cons_of_mem _ hm))
      (fun hm => hP (List.mem_cons_of_mem _ hm)) (fun hm => hs (List.mem_cons_of_mem _ hm))
      (by simp at hf; omega)

theorem find_fit_lists_none (cfg : Config) (fuel : Nat) (s : State) (b : Nat) :
    ∀ n i, (∀ j, i ≤ j → j < i + n →
      find_fit_scan cfg s (sentinel cfg j) b fuel (sentinel cfg j) = some (sentinel cfg j)) →
    find_fit_lists cfg fuel s b n i = some 0 := by
  intro n
  induction n with
  | zero => intro i _; rfl
  | succ n ih =>
    intro i h
    simp only [find_fit_lists]
    rw [h i (le_refl _) (by omega)]
    simp only [ne_eq, not_true_eq_false, false_and, if_false]
    exact ih (i + 1) (fun j h1 h2 => h j (by omega) (by omega))

theorem find_fit_lists_hit (cfg : Config) (fuel : Nat) (s : State) (b m F : Nat)
    (hF : F ≠ sentinel cfg m) (hb : b ≤ size_at cfg s F)
    (hm : find_fit_scan cfg s (sentinel cfg m) b fuel (sentinel cfg m) = some F) :
    ∀ n i, i ≤ m → m < i + n → (∀ j, i ≤ j → j < m →
      find_fit_scan cfg s (sentinel cfg j) b fuel (sentinel cfg j) = some (sentinel cfg j)) →
    find_fit_lists cfg fuel s b n i = some F := by
  intro n
  induction n with
  | zero => intro i h1 h2; omega
  | succ n ih =>
    intro i h1 h2 h
    simp only [find_fit_lists]
    by_cases him : i = m
    · subst him
      rw [hm]
      unfold size_at at hb
      simp only
      rw [if_pos ⟨hF, hb⟩]
    · rw [h i (le_refl _) (by omega)]
      simp only [ne_eq, not_true_eq_false, false_and, if_false]
      exact ih (i + 1) (by omega) (by omega) (fun j h3 h4 => h j (by omega) h4)

/-- On well-formed lists whose blocks are all too small, `find_fit` returns
`NULL`. -/
theorem find_fit_none (cfg : Config) (fuel : Nat) (s : State) (hi : Nat) (L : Nat → List Nat)
    (b : Nat) (h : Lists cfg s hi L)
    (hs : ∀ i, i < cfg.NUM_FREE_LISTS → ∀ x, x ∈ L i → size_at cfg s x < b)
    (hf : ∀ i, i < cfg.NUM_FREE_LISTS → (L i).length + 1 ≤ fuel) :
    find_fit cfg fuel s b = some 0 := by
  unfold find_fit
  have hk := get_ml_index_lt cfg b h.1.1
  refine find_fit_lists_none cfg fuel s b _ _ ?_
  intro j _ hj
  have hj' : j < cfg.NUM_FREE_LISTS := by omega
  refine scan_skip cfg s _ b (L j) _ fuel (h.2.2.1 j hj') ?_ ?_ (hf j hj')
  · intro c hc
    exact (lists_cells cfg s hi L h j j hj' hj' c c hc hc).2
  · intro x hx
    exact ⟨fun e => sentinel_not_listed cfg s hi L h j j hj' hj' (e ▸ hx), hs j hj' x hx⟩

/-- On well-formed lists where only the block `P` is large enough and `P` is the
first entry of its list, `find_fit` returns `P`. -/
theorem find_fit_head (cfg : Config) (fuel : Nat) (s : State) (hi : Nat) (L : Nat → List Nat)
    (b P : Nat) (rest : List Nat) (h : Lists cfg s hi L)
    (hP : L (get_ml_index cfg (size_at cfg s P)) = P :: rest) (hb : b ≤ size_at cfg s P)
    (hs : ∀ i, i < cfg.NUM_FREE_LISTS → ∀ x, x ∈ L i → x ≠ P → size_at cfg s x < b)
    (hf : ∀ i, i < cfg.NUM_FREE_LISTS → (L i).length + 1 ≤ fuel) :
    find_fit cfg fuel s b = some P := by
  unfold find_fit
  have hk := get_ml_index_lt cfg b h.1.1
  have hm := get_ml_index_lt cfg (size_at cfg s P) h.1.1
  have hmono := get_ml_index_mono cfg b (size_at cfg s P) hb
  have hPm : P ∈ L (get_ml_index cfg (size_at cfg s P)) := by rw [hP]; simp
  obtain ⟨f, hfe⟩ : ∃ f, fuel = f + 1 := ⟨fuel - 1, by have := hf _ hm; omega⟩
  refine find_fit_lists_hit cfg fuel s b (get_ml_index cfg (size_at cfg s P)) P ?_ hb ?_ _ _
    hmono (by omega) ?_
  · exact fun e => sentinel_not_listed cfg s hi L h _ _ hm hm (e ▸ hPm)
  · have hc := h.2.2.1 _ hm
    rw [hP] at hc
    rw [hfe]
    exact scan_hit cfg s _ b _ P f rest hc
      (lists_cells cfg s hi L h _ _ hm hm (sentinel cfg (get_ml_index cfg (size_at cfg s P)))
        (sentinel cfg (get_ml_index cfg (size_at cfg s P))) (by simp) (by simp)).2 hb
  · intro j _ hj
    have hj' : j < cfg.NUM_FREE_LISTS := by omega
    refine scan_skip cfg s _ b (L j) _ fuel (h.2.2.1 j hj') ?_ ?_ (hf j hj')
    · intro c hc
      exact (lists_cells cfg s hi L h j j hj' hj' c c hc hc).2
    · intro x hx
      refine ⟨fun e => sentinel_not_listed cfg s hi L h j j hj' hj' (e ▸ hx), hs j hj' x hx ?_⟩
      intro e
      have := listed_once cfg s hi L h j _ hj' hm x hx (e ▸ hPm)
      omega

/-! ## Extending the heap -/

theorem write_pages (s : State) (a v : Nat) : (s.write a v).pages = s.pages := rfl

theorem create_free_block_pages (cfg : Config) (s : State) (bs a : Nat) :
    (create_free_block cfg s bs a).pages = s.pages := rfl

theorem unlink_block_pages (s : State) (b : Nat) : (unlink_block s b).pages = s.pages := rfl

theorem insert_ml_pages (cfg : Config) (s : State) (fb : Nat) :
    (insert_ml cfg s fb).pages = s.pages := rfl

theorem sf_mem_end_pages (cfg : Config) (s s' : State) (h : s'.pages = s.pages) :
    sf_mem_end cfg s' = sf_mem_end cfg s := by
  unfold sf_mem_end; rw [h]

theorem sf_mem_grow_some (cfg : Config) (s : State) (h : s.pages < cfg.maxPages) :
    sf_mem_grow cfg s = some (sf_mem_end cfg s, { s with pages := s.pages + 1 }) := by
  unfold sf_mem_grow
  rw [if_pos h]

/-- A match on a pair that is present takes the second alternative. -/
theorem match_pair_reduce {γ : Type} (a : Nat) (b : State) (A : γ) (B : Nat → State → γ) :
    flush_ql_loop.match_1 (fun _ => γ) (some (a, b)) (fun _ => A) B = B a b := rfl

/-- The result of `extend_heap` from the result of its call of `coalesce`. -/
theorem extend_heap_of_coalesce (cfg : Config) (fuel : Nat) (s : State) (fb : Nat) (s4 : State)
    (h : s.pages < cfg.maxPages)
    (hc : coalesce cfg fuel (extend_pre cfg s) (wsub (sf_mem_end cfg s) MROW) = some (fb, s4)) :
    extend_heap cfg fuel s = some (0, insert_ml cfg s4 fb) := by
  unfold extend_pre at hc
  dsimp only at hc
  rw [extend_heap, sf_mem_grow_some cfg s h]
  refine Eq.trans (match_pair_reduce (sf_mem_end cfg s) { s with pages := s.pages + 1 }
    (some ((-1 : Int), { s with sf_errno := ENOMEM }))
    (fun ret s1 =>
      let free_block := wsub ret MROW
      let s2 := create_free_block cfg s1 PAGE_SZ free_block
      let s3 := s2.write (wsub (sf_mem_end cfg s2) MROW) (OBF cfg 1)
      flush_ql_loop.match_1 (fun _ => Option (Int × State)) (coalesce cfg fuel s3 free_block)
        (fun _ => none) (fun fb s4 => some (0, insert_ml cfg s4 fb)))) ?_
  dsimp only
  rw [hc]

theorem extend_pre_pages (cfg : Config) (s : State) :
    (extend_pre cfg s).pages = s.pages + 1 := by
  unfold extend_pre
  simp only [write_pages, create_free_block_pages]

/-- The memory and the extent of the state in which `extend_heap` calls
`coalesce`. -/
theorem extend_pre_spec (cfg : Config) (s : State) (h8 : 8 ≤ sf_mem_end cfg s)
    (hW : sf_mem_end cfg s + 4096 < WORD) :
    (∀ x, (extend_pre cfg s).mem x =
      if x = sf_mem_end cfg s + 4088 then OBF cfg 1
      else if x = sf_mem_end cfg s + 4080 then OBF cfg (PACK 0 4096 0 0)
      else if x = sf_mem_end cfg s - 8 then OBF cfg (PACK 0 4096 0 0) else s.mem x) ∧
    sf_mem_end cfg (extend_pre cfg s) = sf_mem_end cfg s + 4096 ∧
    wsub (sf_mem_end cfg s) MROW = sf_mem_end cfg s - 8 := by
  have e1 : wsub (sf_mem_end cfg s) MROW = sf_mem_end cfg s - 8 := by
    unfold wsub MROW WORD at *; omega
  have e2 : sf_mem_end cfg (extend_pre cfg s) = sf_mem_end cfg s + 4096 := by
    unfold sf_mem_end
    rw [extend_pre_pages]
    unfold PAGE_SZ; omega
  refine ⟨?_, e2, e1⟩
  intro x
  have e3 : wsub (sf_mem_end cfg s + 4096) MROW = sf_mem_end cfg s + 4088 := by
    unfold wsub MROW WORD at *; omega
  have e4 : wsub (wadd (sf_mem_end cfg s - 8) PAGE_SZ) MROW = sf_mem_end cfg s + 4080 := by
    unfold wsub wadd MROW PAGE_SZ WORD at *; omega
  have e5 : sf_mem_end cfg (create_free_block cfg { s with pages := s.pages + 1 } PAGE_SZ
      (wsub (sf_mem_end cfg s) MROW)) = sf_mem_end cfg s + 4096 := by
    unfold sf_mem_end
    rw [create_free_block_pages]
    show cfg.start + PAGE_SZ * (s.pages + 1) = _
    unfold PAGE_SZ; omega
  unfold extend_pre
  dsimp only
  rw [write_mem, e5, e3, create_free_block_mem2, e1, e4]
  by_cases h1 : x = sf_mem_end cfg s + 4088
  · rw [if_pos h1, if_pos h1]
  · rw [if_neg h1, if_neg h1]
    by_cases h2 : x = sf_mem_end cfg s + 4080
    · rw [if_pos (Or.inl h2), if_pos h2]; rfl
    · rw [if_neg h2]
      by_cases h3 : x = sf_mem_end cfg s - 8
      · rw [if_pos (Or.inr h3), if_pos h3]; rfl
      · rw [if_neg (fun h => h.elim h2 h3), if_neg h3]

/-- A word at or above the footer below the epilogue, inside the region that the
list heads avoid, is no word of a list head or of a listed block. -/
theorem high_word (cfg : Config) (s : State) (hi : Nat) (L : Nat → List Nat)
    (h : Lists cfg s hi L) (hpg : 0 < s.pages) (x : Nat) (h1 : sf_mem_end cfg s ≤ x + 16)
    (h2 : x < hi) (i : Nat) (hi' : i < cfg.NUM_FREE_LISTS) (c : Nat)
    (hc : c ∈ sentinel cfg i :: L i) : x ≠ c ∧ x ≠ c + 8 ∧ x ≠ c + 16 := by
  have hend : sf_mem_start cfg + 4096 ≤ sf_mem_end cfg s := by
    unfold sf_mem_end sf_mem_start PAGE_SZ; omega
  rcases List.mem_cons.1 hc with hc | hc
  · have := h.1.2.2 i hi'
    rw [hc]; omega
  · have := h.2.2.2.1 i hi' c hc
    omega

/-- The header word of a listed block is no link word of a list head or of a
listed block. -/
theorem node_word (cfg : Config) (s : State) (hi : Nat) (L : Nat → List Nat)
    (h : Lists cfg s hi L) (k x : Nat) (hk : k < cfg.NUM_FREE_LISTS) (hx : x ∈ L k)
    (i : Nat) (hi' : i < cfg.NUM_FREE_LISTS) (c : Nat) (hc : c ∈ sentinel cfg i :: L i) :
    x ≠ c + 8 ∧ x ≠ c + 16 := by
  have := (lists_cells cfg s hi L h k i hk hi' x c (List.mem_cons_of_mem _ hx) hc).1
  unfold Clear at this
  omega

/-- Well-formed lists stay well formed in the state in which `extend_heap` calls
`coalesce`. -/
theorem lists_extend_pre (cfg : Config) (s : State) (hi : Nat) (L : Nat → List Nat)
    (h : Lists cfg s hi L) (hpg : 0 < s.pages) (hhi : sf_mem_end cfg s + 4096 ≤ hi) :
    Lists cfg (extend_pre cfg s) hi L := by
  have hend : sf_mem_start cfg + 4096 ≤ sf_mem_end cfg s := by
    unfold sf_mem_end sf_mem_start PAGE_SZ; omega
  have hW : sf_mem_end cfg s + 4096 < WORD := by have := h.1.2.1; omega
  obtain ⟨m, e, _⟩ := extend_pre_spec cfg s (by omega) hW
  have key : ∀ i, i < cfg.NUM_FREE_LISTS → ∀ c, c ∈ sentinel cfg i :: L i →
      c + 24 ≤ sf_mem_end cfg s - 8 ∨ sf_mem_end cfg s + 4096 ≤ c := by
    intro i hi' c hc
    rcases List.mem_cons.1 hc with hc | hc
    · have := h.1.2.2 i hi'
      rw [hc]; omega
    · have := h.2.2.2.1 i hi' c hc
      omega
  refine lists_frame cfg s _ hi L h ?_ ?_ (by omega) (by omega)
  · intro i hi' c hc
    have := key i hi' c hc
    have a1 : ¬ (c + 8 = sf_mem_end cfg s + 4088) := by omega
    have a2 : ¬ (c + 8 = sf_mem_end cfg s + 4080) := by omega
    have a3 : ¬ (c + 8 = sf_mem_end cfg s - 8) := by omega
    have b1 : ¬ (c + 16 = sf_mem_end cfg s + 4088) := by omega
    have b2 : ¬ (c + 16 = sf_mem_end cfg s + 4080) := by omega
    have b3 : ¬ (c + 16 = sf_mem_end cfg s - 8) := by omega
    rw [m, m, if_neg a1, if_neg a2, if_neg a3, if_neg b1, if_neg b2, if_neg b3]
    exact ⟨rfl, rfl⟩
  · intro i hi' x hx
    have := key i hi' x (List.mem_cons_of_mem _ hx)
    have a1 : ¬ (x = sf_mem_end cfg s + 4088) := by omega
    have a2 : ¬ (x = sf_mem_end cfg s + 4080) := by omega
    have a3 : ¬ (x = sf_mem_end cfg s - 8) := by omega
    rw [m, if_neg a1, if_neg a2, if_neg a3]

/-- The function `remove_ml` finds a listed block and unlinks it. -/
theorem remove_ml_listed (cfg : Config) (fuel : Nat) (t : State) (hi : Nat)
    (L : Nat → List Nat) (h : Lists cfg t hi L) (P : Nat)
    (hP : P ∈ L (get_ml_index cfg (size_at cfg t P)))
    (hf : (L (get_ml_index cfg (size_at cfg t P))).length ≤ fuel) :
    remove_ml cfg fuel t P = some (false, unlink_block t P) := by
  have hk := get_ml_index_lt cfg (size_at cfg t P) h.1.1
  obtain ⟨l1, l2, hl1, hL, _⟩ := List.exists_erase_eq hP
  have hc := h.2.2.1 _ hk
  rw [hL] at hc
  have hsn := sentinel_not_listed cfg t hi L h _ _ hk hk
  have hscan := remove_scan_finds t (sentinel cfg (get_ml_index cfg (size_at cfg t P))) P l2 l1
    _ fuel hc ?_ hl1 ?_ ?_
  · unfold remove_ml
    unfold size_at at hscan hsn
    simp only [hscan]
    have hne : P ≠ sentinel cfg (get_ml_index cfg (GET_BLOCK_SIZE (OBF cfg (t.mem P)))) :=
      fun e => hsn (e ▸ hP)
    rw [if_neg hne]
  · intro c hc'
    refine (lists_cells cfg t hi L h _ _ hk hk c c ?_ ?_).2 <;>
    · rw [hL]
      rcases List.mem_cons.1 hc' with e | e
      · simp [e]
      · simp [e]
  · intro hm
    apply hsn
    rw [hL]; simp [hm]
  · have : l1.length + 1 ≤ (L (get_ml_index cfg (size_at cfg t P))).length := by
      rw [hL]; simp
    omega

/-- The function `coalesce` when the block before is free and the block after is
allocated: the block before is taken from its list and grows by the block. -/
theorem coalesce_prev_free (cfg : Config) (fuel : Nat) (t : State) (fb : Nat) (u : State)
    (hprev : OBF cfg (t.mem (PREV_BLOCK cfg t fb)) &&& THIS_BLOCK_ALLOCATED = 0)
    (hnext : OBF cfg (t.mem (NEXT_BLOCK cfg t fb)) &&& THIS_BLOCK_ALLOCATED ≠ 0)
    (hrem : remove_ml cfg fuel t (PREV_BLOCK cfg t fb) = some (false, u)) :
    coalesce cfg fuel t fb = some (PREV_BLOCK cfg t fb,
      ((u.write (PREV_BLOCK cfg t fb) (OBF cfg (PACK 0
          (wadd (GET_BLOCK_SIZE (OBF cfg (t.mem fb)))
            (GET_BLOCK_SIZE (OBF cfg (t.mem (PREV_BLOCK cfg t fb))))) 0 0))).write
        (FOOTER cfg (u.write (PREV_BLOCK cfg t fb) (OBF cfg (PACK 0
          (wadd (GET_BLOCK_SIZE (OBF cfg (t.mem fb)))
            (GET_BLOCK_SIZE (OBF cfg (t.mem (PREV_BLOCK cfg t fb))))) 0 0)))
          (PREV_BLOCK cfg t fb))
        ((u.write (PREV_BLOCK cfg t fb) (OBF cfg (PACK 0
          (wadd (GET_BLOCK_SIZE (OBF cfg (t.mem fb)))
            (GET_BLOCK_SIZE (OBF cfg (t.mem (PREV_BLOCK cfg t fb))))) 0 0))).mem
          (PREV_BLOCK cfg t fb)))) := by
  unfold coalesce
  simp only
  have c1 : ¬ (OBF cfg (t.mem (PREV_BLOCK cfg t fb)) &&& THIS_BLOCK_ALLOCATED ≠ 0 ∧
      OBF cfg (t.mem (NEXT_BLOCK cfg t fb)) &&& THIS_BLOCK_ALLOCATED ≠ 0) :=
    fun h => h.1 hprev
  have c2 : ¬ (OBF cfg (t.mem (PREV_BLOCK cfg t fb)) &&& THIS_BLOCK_ALLOCATED ≠ 0 ∧
      OBF cfg (t.mem (NEXT_BLOCK cfg t fb)) &&& THIS_BLOCK_ALLOCATED = 0) :=
    fun h => h.1 hprev
  have c3 : OBF cfg (t.mem (PREV_BLOCK cfg t fb)) &&& THIS_BLOCK_ALLOCATED = 0 ∧
      OBF cfg (t.mem (NEXT_BLOCK cfg t fb)) &&& THIS_BLOCK_ALLOCATED ≠ 0 := ⟨hprev, hnext⟩
  rw [if_neg c1, if_neg c2, if_pos c3]
  simp only [hrem]
  rfl

/-- The lists after the last block, free and listed, has absorbed a page: the
block is taken from its list, its header and footer are rewritten with the new
size, and it goes to the front of the list of that size. -/
theorem merge_tail_lists (cfg : Config) (fuel : Nat) (pre : State) (hi : Nat)
    (L : Nat → List Nat) (b P S V : Nat)
    (hL : Lists cfg pre hi L) (hPm : P ∈ L (get_ml_index cfg S))
    (hszp : size_at cfg pre P = S)
    (hend : sf_mem_end cfg pre = P + S + 4096 + 8) (hpg : 0 < pre.pages)
    (hV1 : GET_BLOCK_SIZE (OBF cfg V) = S + 4096)
    (hV2 : OBF cfg V &&& THIS_BLOCK_ALLOCATED = 0)
    (hsmall : ∀ i, i < cfg.NUM_FREE_LISTS → ∀ x, x ∈ L i → x ≠ P → size_at cfg pre x < b)
    (hlen : ∀ i, i < cfg.NUM_FREE_LISTS → ((L i).erase P).length + 2 ≤ fuel) :
    EndsFree cfg fuel
      (insert_ml cfg (((unlink_block pre P).write P V).write (P + S + 4088) V) P) hi
      (fun i => if i = get_ml_index cfg (S + 4096) then P :: (L i).erase P else (L i).erase P)
      b P (S + 4096) := by
  have hN := hL.1.1
  have hk := get_ml_index_lt cfg S hN
  have hPl := hL.2.2.2.1 _ hk P hPm
  rw [hszp] at hPl
  have hhi := hL.2.1
  obtain ⟨hLU, frameU⟩ := lists_unlink cfg pre hi L hL _ P hk hPm
  have sub : ∀ i, ∀ c, c ∈ sentinel cfg i :: (L i).erase P → c ∈ sentinel cfg i :: L i := by
    intro i c hc
    rcases List.mem_cons.1 hc with e1 | e1
    · simp [e1]
    · exact List.mem_cons_of_mem _ (List.mem_of_mem_erase e1)
  have hPc : P ∈ sentinel cfg (get_ml_index cfg S) :: L (get_ml_index cfg S) :=
    List.mem_cons_of_mem _ hPm
  have notP : ∀ i, i < cfg.NUM_FREE_LISTS → ∀ c, c ∈ sentinel cfg i :: (L i).erase P →
      c ≠ P := by
    intro i hi' c hc e1
    rcases List.mem_cons.1 hc with e2 | e2
    · exact sentinel_not_listed cfg pre hi L hL i _ hi' hk (e2 ▸ e1 ▸ hPm)
    · rw [e1] at e2
      exact ((List.Nodup.mem_erase_iff (hL.2.2.2.2.1 i hi')).1 e2).1 rfl
  have apartP : ∀ i, i < cfg.NUM_FREE_LISTS → ∀ c, c ∈ sentinel cfg i :: (L i).erase P →
      c + 24 ≤ P ∨ P + 24 ≤ c := by
    intro i hi' c hc
    have h1 := (lists_cells cfg pre hi L hL i _ hi' hk c P (sub i c hc) hPc).1
    have h2 := notP i hi' c hc
    unfold Clear at h1
    omega
  have hLw : Lists cfg ((unlink_block pre P).write P V) hi (fun i => (L i).erase P) := by
    refine lists_write cfg _ hi _ hLU P V ?_
    intro i hi' c hc
    have := apartP i hi' c hc
    omega
  have hendw : sf_mem_end cfg ((unlink_block pre P).write P V) = P + S + 4096 + 8 := by
    rw [← hend]
    apply sf_mem_end_pages
    rw [write_pages, unlink_block_pages]
  have hpgw : 0 < ((unlink_block pre P).write P V).pages := by
    rw [write_pages, unlink_block_pages]
    exact hpg
  have hLS : Lists cfg (((unlink_block pre P).write P V).write (P + S + 4088) V) hi
      (fun i => (L i).erase P) := by
    refine lists_write cfg _ hi _ hLw _ V ?_
    intro i hi' c hc
    exact high_word cfg _ hi _ hLw hpgw _ (by omega) (by omega) i hi' c hc
  have hendS : sf_mem_end cfg (((unlink_block pre P).write P V).write (P + S + 4088) V) =
      P + S + 4096 + 8 := by
    rw [← hendw]
    apply sf_mem_end_pages
    rw [write_pages]
  have hpgS : 0 < (((unlink_block pre P).write P V).write (P + S + 4088) V).pages := by
    rw [write_pages]
    exact hpgw
  have mS4P : (((unlink_block pre P).write P V).write (P + S + 4088) V).mem P = V := by
    rw [write_mem_ne _ _ (by omega), write_mem_eq]
  have mS4A : (((unlink_block pre P).write P V).write (P + S + 4088) V).mem (P + S + 4088) = V :=
    write_mem_eq _ _ _
  have hsz4 : size_at cfg (((unlink_block pre P).write P V).write (P + S + 4088) V) P =
      S + 4096 := by
    unfold size_at
    rw [mS4P, hV1]
  obtain ⟨hLI, frameI⟩ := lists_insert cfg _ hi _ hLS P (by omega)
    (by rw [hsz4, hendS]; omega) (by rw [hsz4]; omega)
    (fun i hi' x hx => apartP i hi' x (List.mem_cons_of_mem _ hx))
  rw [hsz4] at hLI
  have nolinkP : ∀ i, i < cfg.NUM_FREE_LISTS → ∀ c, c ∈ sentinel cfg i :: (L i).erase P →
      P ≠ c + 8 ∧ P ≠ c + 16 := by
    intro i hi' c hc
    have := apartP i hi' c hc
    omega
  have nolinkA : ∀ i, i < cfg.NUM_FREE_LISTS → ∀ c, c ∈ sentinel cfg i :: (L i).erase P →
      P + S + 4088 ≠ c + 8 ∧ P + S + 4088 ≠ c + 16 := by
    intro i hi' c hc
    exact (high_word cfg _ hi _ hLS hpgS (P + S + 4088) (by omega) (by omega) i hi' c hc).2
  have mIP : (insert_ml cfg (((unlink_block pre P).write P V).write (P + S + 4088) V) P).mem P
      = V := by
    rw [frameI P (by omega) (by omega) nolinkP, mS4P]
  have mIA : (insert_ml cfg (((unlink_block pre P).write P V).write (P + S + 4088) V) P).mem
      (P + S + 4088) = V := by
    rw [frameI _ (by omega) (by omega) nolinkA, mS4A]
  have hendI : sf_mem_end cfg
      (insert_ml cfg (((unlink_block pre P).write P V).write (P + S + 4088) V) P) =
      P + S + 4096 + 8 := by
    rw [← hendS]
    apply sf_mem_end_pages
    rw [insert_ml_pages]
  refine ⟨hLI, ?_, ?_, ?_, ?_, ?_, ?_, ?_⟩
  · show P ∈ (if get_ml_index cfg (S + 4096) = get_ml_index cfg (S + 4096) then
      P :: (L (get_ml_index cfg (S + 4096))).erase P
      else (L (get_ml_index cfg (S + 4096))).erase P)
    rw [if_pos rfl]; simp
  · unfold size_at
    rw [mIP, hV1]
  · rw [hendI]; omega
  · rw [mIP]; exact hV2
  · unfold size_at
    have e0 : P + (S + 4096) - 8 = P + S + 4088 := by omega
    rw [e0, mIA, hV1]
  · intro i hi' x hx hxP
    have hxe : x ∈ (L i).erase P := by
      by_cases hik : i = get_ml_index cfg (S + 4096)
      · simp only [if_pos hik] at hx
        rcases List.mem_cons.1 hx with e1 | e1
        · exact absurd e1 hxP
        · exact e1
      · simp only [if_neg hik] at hx
        exact hx
    have hxL : x ∈ L i := List.mem_of_mem_erase hxe
    have hxpl := hL.2.2.2.1 i hi' x hxL
    have hap := apartP i hi' x (List.mem_cons_of_mem _ hxe)
    have e1 : (insert_ml cfg (((unlink_block pre P).write P V).write (P + S + 4088) V) P).mem x
        = (((unlink_block pre P).write P V).write (P + S + 4088) V).mem x :=
      frameI x (by omega) (by omega)
        (fun j hj c hc => node_word cfg _ hi _ hLS i x hi' hxe j hj c hc)
    have e2 : (((unlink_block pre P).write P V).write (P + S + 4088) V).mem x = pre.mem x := by
      rw [write_mem_ne _ _ (by omega), write_mem_ne _ _ hxP]
      exact frameU x (fun j hj c hc => node_word cfg pre hi L hL i x hi' hxL j hj c hc)
    have := hsmall i hi' x hxL hxP
    unfold size_at
    unfold size_at at this
    rw [e1, e2]
    exact this
  · intro i hi'
    have hPn : P ∉ (L i).erase P := fun hm =>
      ((List.Nodup.mem_erase_iff (hL.2.2.2.2.1 i hi')).1 hm).1 rfl
    have : (if i = get_ml_index cfg (S + 4096) then P :: (L i).erase P
        else (L i).erase P).erase P = (L i).erase P := by
      by_cases hik : i = get_ml_index cfg (S + 4096)
      · rw [if_pos hik]; simp
      · rw [if_neg hik, List.erase_of_not_mem hPn]
    show (List.erase (if i = get_ml_index cfg (S + 4096) then P :: (L i).erase P
        else (L i).erase P) P).length + 2 ≤ fuel
    rw [this]
    exact hlen i hi'

/-- What `coalesce` returns for the new page when the block before it is free and
listed: that block, with the page added to its size in header and footer. -/
theorem coalesce_new_page (cfg : Config) (fuel : Nat) (s : State) (hi : Nat)
    (L : Nat → List Nat) (b P S : Nat) (h : EndsFree cfg fuel s hi L b P S)
    (hpg0 : 0 < s.pages) (hhi : sf_mem_end cfg s + 4096 ≤ hi)
    (hbig : hi < sf_mem_start cfg + 2 ^ 32) :
    coalesce cfg fuel (extend_pre cfg s) (sf_mem_end cfg s - 8) =
      some (P, (((unlink_block (extend_pre cfg s) P).write P
        (OBF cfg (PACK 0 (4096 + S) 0 0))).write (P + S + 4088)
        (OBF cfg (PACK 0 (4096 + S) 0 0)))) ∧
    size_at cfg (extend_pre cfg s) P = S := by
  obtain ⟨hL, hPm, hsz, hend, halloc, hftr, hsmall, hlen⟩ := h
  have hN := hL.1.1
  have hk := get_ml_index_lt cfg S hN
  have hPl := hL.2.2.2.1 _ hk P hPm
  rw [hsz] at hPl
  have hS16 : S % 16 = 0 := by rw [← hsz]; exact GET_BLOCK_SIZE_mod _
  have hSlt : S < 2 ^ 32 := by rw [← hsz]; exact GET_BLOCK_SIZE_lt _
  have hWe := WORD_eq
  have hW : sf_mem_end cfg s + 4096 < WORD := by have := hL.1.2.1; omega
  obtain ⟨m, e, ew⟩ := extend_pre_spec cfg s (by omega) hW
  have hLpre := lists_extend_pre cfg s hi L hL hpg0 hhi
  have mP : (extend_pre cfg s).mem P = s.mem P := by
    rw [m, if_neg (by omega), if_neg (by omega), if_neg (by omega)]
  have mF : (extend_pre cfg s).mem (sf_mem_end cfg s - 16) = s.mem (P + S - 8) := by
    have e0 : sf_mem_end cfg s - 16 = P + S - 8 := by omega
    rw [m, if_neg (by omega), if_neg (by omega), if_neg (by omega), e0]
  have mE : (extend_pre cfg s).mem (sf_mem_end cfg s - 8) = OBF cfg (PACK 0 4096 0 0) := by
    rw [m, if_neg (by omega), if_neg (by omega), if_pos rfl]
  have mN : (extend_pre cfg s).mem (sf_mem_end cfg s + 4088) = OBF cfg 1 := by
    rw [m, if_pos rfl]
  obtain ⟨_, p2, _, _⟩ := PACK_fields 0 4096 0 0 (by norm_num) (by norm_num) (by norm_num)
    (by norm_num) (by norm_num)
  have hszp : size_at cfg (extend_pre cfg s) P = S := by
    unfold size_at; rw [mP]; exact hsz
  have hszp' : GET_BLOCK_SIZE (OBF cfg ((extend_pre cfg s).mem P)) = S := hszp
  have hPB : PREV_BLOCK cfg (extend_pre cfg s) (sf_mem_end cfg s - 8) = P := by
    unfold PREV_BLOCK
    have e1 : wsub (sf_mem_end cfg s - 8) MROW = sf_mem_end cfg s - 16 := by
      rw [wsub_eq (by unfold MROW; omega) (by omega)]; unfold MROW; omega
    unfold size_at at hftr
    rw [e1, mF, hftr, wsub_eq (by omega) (by omega)]
    omega
  have hNB : NEXT_BLOCK cfg (extend_pre cfg s) (sf_mem_end cfg s - 8) =
      sf_mem_end cfg s + 4088 := by
    unfold NEXT_BLOCK
    rw [mE, OBF_OBF, p2, wadd_eq (by omega)]
    omega
  have hlenk : (L (get_ml_index cfg S)).length ≤ fuel := by
    have h1 := hlen _ hk
    have h2 := List.length_erase_of_mem hPm
    omega
  have hrem := remove_ml_listed cfg fuel (extend_pre cfg s) hi L hLpre P
    (by rw [hszp]; exact hPm) (by rw [hszp]; exact hlenk)
  have hco := coalesce_prev_free cfg fuel (extend_pre cfg s) (sf_mem_end cfg s - 8)
    (unlink_block (extend_pre cfg s) P)
    (by rw [hPB, mP]; exact halloc)
    (by rw [hNB, mN, OBF_OBF]; decide)
    (by rw [hPB]; exact hrem)
  have hadd : wadd 4096 S = 4096 + S := wadd_eq (by omega)
  obtain ⟨_, q2, _, _⟩ := PACK_fields 0 (4096 + S) 0 0 (by norm_num) (by omega) (by omega)
    (by norm_num) (by norm_num)
  have hfoot : FOOTER cfg ((unlink_block (extend_pre cfg s) P).write P
      (OBF cfg (PACK 0 (4096 + S) 0 0))) P = P + S + 4088 := by
    unfold FOOTER
    rw [write_mem_eq, OBF_OBF, q2, wadd_eq (by omega), wsub_eq (by unfold MROW; omega) (by omega)]
    unfold MROW; omega
  rw [hPB, mE, OBF_OBF, p2, hszp', hadd, hfoot, write_mem_eq] at hco
  exact ⟨hco, hszp⟩

/-- One more page when the heap ends in a listed free block: `extend_heap`
succeeds, and the heap again ends in that block, grown by a page and now first in
the list of its size class. -/
theorem extend_free (cfg : Config) (fuel : Nat) (s : State) (hi : Nat) (L : Nat → List Nat)
    (b P S : Nat) (h : EndsFree cfg fuel s hi L b P S) (hpg0 : 0 < s.pages)
    (hpg : s.pages < cfg.maxPages) (hhi : sf_mem_end cfg s + 4096 ≤ hi)
    (hbig : hi < sf_mem_start cfg + 2 ^ 32) :
    ∃ s' L', extend_heap cfg fuel s = some (0, s') ∧
      EndsFree cfg fuel s' hi L' b P (S + 4096) ∧ s'.pages = s.pages + 1 ∧
      sf_mem_end cfg s' = sf_mem_end cfg s + 4096 ∧
      ∃ rest, L' (get_ml_index cfg (S + 4096)) = P :: rest := by
  obtain ⟨hco, hszp⟩ := coalesce_new_page cfg fuel s hi L b P S h hpg0 hhi hbig
  obtain ⟨hL, hPm, hsz, hend, halloc, hftr, hsmall, hlen⟩ := h
  have hN := hL.1.1
  have hk := get_ml_index_lt cfg S hN
  have hPl := hL.2.2.2.1 _ hk P hPm
  rw [hsz] at hPl
  have hS16 : S % 16 = 0 := by rw [← hsz]; exact GET_BLOCK_SIZE_mod _
  have hWe := WORD_eq
  have hW : sf_mem_end cfg s + 4096 < WORD := by have := hL.1.2.1; omega
  obtain ⟨m, e, ew⟩ := extend_pre_spec cfg s (by omega) hW
  have hLpre := lists_extend_pre cfg s hi L hL hpg0 hhi
  have hpp := extend_pre_pages cfg s
  obtain ⟨_, q2, q3, _⟩ := PACK_fields 0 (4096 + S) 0 0 (by norm_num) (by omega) (by omega)
    (by norm_num) (by norm_num)
  have hext := extend_heap_of_coalesce cfg fuel s P _ hpg (by rw [ew]; exact hco)
  have hsmall' : ∀ i, i < cfg.NUM_FREE_LISTS → ∀ x, x ∈ L i → x ≠ P →
      size_at cfg (extend_pre cfg s) x < b := by
    intro i hi' x hx hxP
    have hxpl := hL.2.2.2.1 i hi' x hx
    have e3 : (extend_pre cfg s).mem x = s.mem x := by
      rw [m, if_neg (by omega), if_neg (by omega), if_neg (by omega)]
    have := hsmall i hi' x hx hxP
    unfold size_at
    unfold size_at at this
    rw [e3]
    exact this
  have hmerge := merge_tail_lists cfg fuel (extend_pre cfg s) hi L b P S
    (OBF cfg (PACK 0 (4096 + S) 0 0)) hLpre hPm hszp (by rw [e]; omega) (by omega)
    (by rw [OBF_OBF, q2]; omega) (by rw [OBF_OBF]; exact q3) hsmall' hlen
  refine ⟨_, _, hext, hmerge, ?_, ?_, ⟨_, if_pos rfl⟩⟩
  · rw [insert_ml_pages, write_pages, write_pages, unlink_block_pages]
    exact hpp
  · rw [← e]
    apply sf_mem_end_pages
    rw [insert_ml_pages, write_pages, write_pages, unlink_block_pages]

/-- One more page when the last block of the heap is allocated: `extend_heap`
succeeds, the page becomes a free block of its own, first in the list of its size
class, and the heap ends in it. -/
theorem extend_allocated (cfg : Config) (fuel : Nat) (s : State) (hi : Nat)
    (L : Nat → List Nat) (b : Nat) (hL : Lists cfg s hi L) (hpg0 : 0 < s.pages)
    (hpg : s.pages < cfg.maxPages) (hhi : sf_mem_end cfg s + 4096 ≤ hi)
    (hlb : last_block cfg s + 40 ≤ sf_mem_end cfg s)
    (halloc : OBF cfg (s.mem (last_block cfg s)) &&& THIS_BLOCK_ALLOCATED ≠ 0)
    (hsmall : ∀ i, i < cfg.NUM_FREE_LISTS → ∀ x, x ∈ L i → size_at cfg s x < b)
    (hlen : ∀ i, i < cfg.NUM_FREE_LISTS → (L i).length + 2 ≤ fuel) :
    ∃ s' L', extend_heap cfg fuel s = some (0, s') ∧
      EndsFree cfg fuel s' hi L' b (sf_mem_end cfg s - 8) 4096 ∧ s'.pages = s.pages + 1 ∧
      sf_mem_end cfg s' = sf_mem_end cfg s + 4096 ∧
      ∃ rest, L' (get_ml_index cfg 4096) = (sf_mem_end cfg s - 8) :: rest := by
  have hN := hL.1.1
  have hWe := WORD_eq
  have hhiW := hL.1.2.1
  have hW : sf_mem_end cfg s + 4096 < WORD := by omega
  have hstart : sf_mem_start cfg + 4096 ≤ sf_mem_end cfg s := by
    unfold sf_mem_end sf_mem_start PAGE_SZ; omega
  obtain ⟨m, e, ew⟩ := extend_pre_spec cfg s (by omega) hW
  have hLpre := lists_extend_pre cfg s hi L hL hpg0 hhi
  have hpp := extend_pre_pages cfg s
  have mF : (extend_pre cfg s).mem (sf_mem_end cfg s - 16) = s.mem (sf_mem_end cfg s - 16) := by
    rw [m, if_neg (by omega), if_neg (by omega), if_neg (by omega)]
  have mE : (extend_pre cfg s).mem (sf_mem_end cfg s - 8) = OBF cfg (PACK 0 4096 0 0) := by
    rw [m, if_neg (by omega), if_neg (by omega), if_pos rfl]
  have mA : (extend_pre cfg s).mem (sf_mem_end cfg s + 4080) = OBF cfg (PACK 0 4096 0 0) := by
    rw [m, if_neg (by omega), if_pos rfl]
  have mN : (extend_pre cfg s).mem (sf_mem_end cfg s + 4088) = OBF cfg 1 := by
    rw [m, if_pos rfl]
  have mB : (extend_pre cfg s).mem (last_block cfg s) = s.mem (last_block cfg s) := by
    rw [m, if_neg (by omega), if_neg (by omega), if_neg (by omega)]
  obtain ⟨_, p2, p3, _⟩ := PACK_fields 0 4096 0 0 (by norm_num) (by norm_num) (by norm_num)
    (by norm_num) (by norm_num)
  have e1 : wsub (sf_mem_end cfg s - 8) 8 = sf_mem_end cfg s - 16 := by
    rw [wsub_eq (by omega) (by omega)]; omega
  have hPB : PREV_BLOCK cfg (extend_pre cfg s) (sf_mem_end cfg s - 8) = last_block cfg s := by
    unfold last_block PREV_BLOCK MROW
    rw [e1, mF]
  have hNB : NEXT_BLOCK cfg (extend_pre cfg s) (sf_mem_end cfg s - 8) =
      sf_mem_end cfg s + 4088 := by
    unfold NEXT_BLOCK
    rw [mE, OBF_OBF, p2, wadd_eq (by omega)]
    omega
  have hco := coalesce_both_allocated cfg fuel (extend_pre cfg s) (sf_mem_end cfg s - 8)
    (by rw [hPB, mB]; exact halloc)
    (by rw [hNB, mN, OBF_OBF]; decide)
  have hext := extend_heap_of_coalesce cfg fuel s _ _ hpg (by rw [ew]; exact hco)
  have hszE : size_at cfg (extend_pre cfg s) (sf_mem_end cfg s - 8) = 4096 := by
    unfold size_at; rw [mE, OBF_OBF]; exact p2
  have apart : ∀ i, i < cfg.NUM_FREE_LISTS → ∀ x, x ∈ L i →
      x + 40 ≤ sf_mem_end cfg s := by
    intro i hi' x hx
    have := hL.2.2.2.1 i hi' x hx
    omega
  obtain ⟨hLI, frameI⟩ := lists_insert cfg (extend_pre cfg s) hi L hLpre (sf_mem_end cfg s - 8)
    (by omega) (by rw [hszE, e]; omega) (by rw [hszE]; omega)
    (fun i hi' x hx => by have := apart i hi' x hx; omega)
  rw [hszE] at hLI
  have hpgp : 0 < (extend_pre cfg s).pages := by omega
  have mIE : (insert_ml cfg (extend_pre cfg s) (sf_mem_end cfg s - 8)).mem
      (sf_mem_end cfg s - 8) = OBF cfg (PACK 0 4096 0 0) := by
    rw [frameI _ (by omega) (by omega)
      (fun i hi' c hc => (high_word cfg s hi L hL hpg0 _ (by omega) (by omega) i hi' c hc).2), mE]
  have mIA : (insert_ml cfg (extend_pre cfg s) (sf_mem_end cfg s - 8)).mem
      (sf_mem_end cfg s + 4080) = OBF cfg (PACK 0 4096 0 0) := by
    rw [frameI _ (by omega) (by omega)
      (fun i hi' c hc => (high_word cfg _ hi L hLpre hpgp _ (by omega) (by omega) i hi' c hc).2),
      mA]
  have hendI : sf_mem_end cfg (insert_ml cfg (extend_pre cfg s) (sf_mem_end cfg s - 8)) =
      sf_mem_end cfg s + 4096 := by
    rw [← e]
    apply sf_mem_end_pages
    rw [insert_ml_pages]
  refine ⟨_, _, hext, ⟨hLI, ?_, ?_, ?_, ?_, ?_, ?_, ?_⟩, ?_, hendI, ⟨_, if_pos rfl⟩⟩
  · show sf_mem_end cfg s - 8 ∈ (if get_ml_index cfg 4096 = get_ml_index cfg 4096 then
      (sf_mem_end cfg s - 8) :: L (get_ml_index cfg 4096) else L (get_ml_index cfg 4096))
    rw [if_pos rfl]; simp
  · unfold size_at
    rw [mIE, OBF_OBF]; exact p2
  · rw [hendI]; omega
  · rw [mIE, OBF_OBF]; exact p3
  · unfold size_at
    have e0 : sf_mem_end cfg s - 8 + 4096 - 8 = sf_mem_end cfg s + 4080 := by omega
    rw [e0, mIA, OBF_OBF]; exact p2
  · intro i hi' x hx hxE
    have hxL : x ∈ L i := by
      by_cases hik : i = get_ml_index cfg 4096
      · simp only [if_pos hik] at hx
        rcases List.mem_cons.1 hx with e1 | e1
        · exact absurd e1 hxE
        · exact e1
      · simp only [if_neg hik] at hx
        exact hx
    have hxa := apart i hi' x hxL
    have e2 : (insert_ml cfg (extend_pre cfg s) (sf_mem_end cfg s - 8)).mem x =
        (extend_pre cfg s).mem x :=
      frameI x (by omega) (by omega)
        (fun j hj c hc => node_word cfg _ hi L hLpre i x hi' hxL j hj c hc)
    have e3 : (extend_pre cfg s).mem x = s.mem x := by
      rw [m, if_neg (by omega), if_neg (by omega), if_neg (by omega)]
    have := hsmall i hi' x hxL
    unfold size_at
    unfold size_at at this
    rw [e2, e3]
    exact this
  · intro i hi'
    have hEn : sf_mem_end cfg s - 8 ∉ L i := fun hm => by
      have := apart i hi' _ hm
      omega
    have : (if i = get_ml_index cfg 4096 then (sf_mem_end cfg s - 8) :: L i
        else L i).erase (sf_mem_end cfg s - 8) = L i := by
      by_cases hik : i = get_ml_index cfg 4096
      · rw [if_pos hik]; simp
      · rw [if_neg hik, List.erase_of_not_mem hEn]
    show (List.erase (if i = get_ml_index cfg 4096 then (sf_mem_end cfg s - 8) :: L i
        else L i) (sf_mem_end cfg s - 8)).length + 2 ≤ fuel
    rw [this]
    exact hlen i hi'
  · rw [insert_ml_pages]
    exact hpp

theorem length_le_erase (l : List Nat) (a : Nat) : l.length ≤ (l.erase a).length + 1 := by
  by_cases h : a ∈ l
  · have := List.length_erase_of_mem h
    omega
  · rw [List.erase_of_not_mem h]
    omega

/-- The loop of `sf_malloc` on a heap that ends in a listed free block `P` of size
`S`, every other listed block being too small: the loop grows the heap `j` times,
where `j` is the first number of pages that brings `P` to the requested block
size, and then takes `P`. -/
theorem fit_loop_grows (cfg : Config) (fuel hi b P : Nat)
    (hbig : hi < sf_mem_start cfg + 2 ^ 32) :
    ∀ j s L S f, EndsFree cfg fuel s hi L b P S →
      (b ≤ S → ∃ rest, L (get_ml_index cfg S) = P :: rest) →
      0 < s.pages → s.pages + j ≤ cfg.maxPages → sf_mem_end cfg s + 4096 * j ≤ hi →
      b ≤ S + 4096 * j → (0 < j → S + 4096 * (j - 1) < b) → j + 1 ≤ f →
      ∃ s' L', malloc_fit_loop cfg fuel b f s = some (P, unlink_block s' P) ∧
        EndsFree cfg fuel s' hi L' b P (S + 4096 * j) ∧ s'.pages = s.pages + j := by
  intro j
  induction j with
  | zero =>
    intro s L S f h hhead hpg0 _ _ hb _ hf
    obtain ⟨f', rfl⟩ : ∃ f', f = f' + 1 := ⟨f - 1, by omega⟩
    obtain ⟨rest, hrest⟩ := hhead (by omega)
    have hh := h
    obtain ⟨hL, hPm, hsz, hend, halloc, hftr, hsmall, hlen⟩ := hh
    have hk := get_ml_index_lt cfg S hL.1.1
    have hPl := hL.2.2.2.1 _ hk P hPm
    have hfind := find_fit_head cfg fuel s hi L b P rest hL (by rw [hsz]; exact hrest)
      (by rw [hsz]; omega) hsmall
      (fun i hi' => by have := hlen i hi'; have := length_le_erase (L i) P; omega)
    have hP0 : P ≠ 0 := by omega
    refine ⟨s, L, ?_, h, rfl⟩
    simp only [malloc_fit_loop, hfind]
    rw [if_neg hP0]
  | succ j ih =>
    intro s L S f h _ hpg0 hpg hhi hb hlt hf
    obtain ⟨f', rfl⟩ : ∃ f', f = f' + 1 := ⟨f - 1, by omega⟩
    have hSb : S < b := by have := hlt (by omega); omega
    have hh := h
    obtain ⟨hL, hPm, hsz, hend, halloc, hftr, hsmall, hlen⟩ := hh
    have hfind := find_fit_none cfg fuel s hi L b hL
      (fun i hi' x hx => by
        by_cases hxP : x = P
        · rw [hxP, hsz]; exact hSb
        · exact hsmall i hi' x hx hxP)
      (fun i hi' => by have := hlen i hi'; have := length_le_erase (L i) P; omega)
    obtain ⟨s1, L1, hext, h1, hp1, he1, hhead1⟩ :=
      extend_free cfg fuel s hi L b P S h hpg0 (by omega) (by omega) hbig
    obtain ⟨s', L', hloop, hE, hp⟩ := ih s1 L1 (S + 4096) f' h1 (fun _ => hhead1)
      (by omega) (by omega) (by omega) (by omega)
      (fun hj => by
        have := hlt (by omega)
        have e : S + 4096 + 4096 * (j - 1) = S + 4096 * (j + 1 - 1) := by omega
        rw [e]; exact this)
      (by omega)
    have e : S + 4096 + 4096 * j = S + 4096 * (j + 1) := by omega
    rw [e] at hE
    refine ⟨s', L', ?_, hE, by omega⟩
    simp only [malloc_fit_loop, hfind, hext]
    simpa using hloop

theorem split_free_block_pages (cfg : Config) (s : State) (F b : Nat) :
    (split_free_block cfg s F b).2.pages = s.pages := by
  unfold split_free_block; simp only; split <;> rfl

theorem create_malloc_block_pages (cfg : Config) (s : State) (F n : Nat) :
    (create_malloc_block cfg s F n).2.pages = s.pages := rfl

theorem update_pl_pages (s : State) (n : Nat) : (update_pl s n).pages = s.pages := rfl

/-- The call `sf_malloc` on an initialised heap whose quick list for the request
is empty, once its loop has found a block: the block is split and handed out. -/
theorem sf_malloc_of_loop (cfg : Config) (fuel : Nat) (s : State) (n F : Nat) (s2 : State)
    (hn : 0 < n) (hpg : 0 < s.pages)
    (hq : malloc_block_size n < QL_MAX_SIZE → s.qlFirst (QL_INDEX (malloc_block_size n)) = 0)
    (hloop : malloc_fit_loop cfg fuel (malloc_block_size n) fuel s = some (F, s2))
    (hF : F ≠ 0) :
    sf_malloc cfg fuel s n = some
      ((create_malloc_block cfg (split_free_block cfg s2 F (malloc_block_size n)).2
          (split_free_block cfg s2 F (malloc_block_size n)).1 n).1,
        update_pl (create_malloc_block cfg (split_free_block cfg s2 F (malloc_block_size n)).2
          (split_free_block cfg s2 F (malloc_block_size n)).1 n).2 n) := by
  have hinit : malloc_init cfg s = (0, s) := by
    unfold malloc_init
    rw [if_neg]
    unfold HEAP_SIZE sf_mem_end sf_mem_start PAGE_SZ
    omega
  have hql : (if malloc_block_size n < QL_MAX_SIZE then popQL s (QL_INDEX (malloc_block_size n))
      else (0, s)) = (0, s) := by
    by_cases h224 : malloc_block_size n < QL_MAX_SIZE
    · rw [if_pos h224, popQL_empty _ _ (hq h224)]
    · rw [if_neg h224]
  unfold sf_malloc
  rw [if_neg (by omega)]
  simp only [hinit, hql, hloop]
  simp [hF]

theorem chain_first (s : State) (z a : Nat) (xs : List Nat) (h : Chain s z a xs) :
    s.mem (a + 8) ∈ z :: xs := by
  cases xs with
  | nil => rw [h.1]; simp
  | cons x xs => rw [h.1]; simp

/-- The block the loop of `sf_malloc` takes from the end of the heap keeps, after
`split_free_block`, a header whose size covers the requested block size. -/
theorem taken_block_header (cfg : Config) (fuel : Nat) (s : State) (hi : Nat)
    (L : Nat → List Nat) (b P S : Nat) (h : EndsFree cfg fuel s hi L b P S)
    (hb32 : 32 ≤ b) (hb16 : b % 16 = 0) (hbS : b ≤ S) :
    b ≤ GET_BLOCK_SIZE (OBF cfg ((split_free_block cfg (unlink_block s P) P b).2.mem P)) := by
  obtain ⟨hL, hPm, hsz, hend, halloc, hftr, hsmall, hlen⟩ := h
  have hN := hL.1.1
  have hk := get_ml_index_lt cfg S hN
  have hPl := hL.2.2.2.1 _ hk P hPm
  rw [hsz] at hPl
  have hSlt : S < 2 ^ 32 := by rw [← hsz]; exact GET_BLOCK_SIZE_lt _
  obtain ⟨hLU, frameU⟩ := lists_unlink cfg s hi L hL _ P hk hPm
  have hu : (unlink_block s P).mem P = s.mem P :=
    frameU P (fun j hj c hc => node_word cfg s hi L hL _ P hk hPm j hj c hc)
  have hszu : GET_BLOCK_SIZE (OBF cfg ((unlink_block s P).mem P)) = S := by
    rw [hu]; exact hsz
  have hWe := WORD_eq
  have hhiW := hL.1.2.1
  have hhi := hL.2.1
  have hPc : P ∈ sentinel cfg (get_ml_index cfg S) :: L (get_ml_index cfg S) :=
    List.mem_cons_of_mem _ hPm
  apply split_free_block_header cfg _ P b hb32 hb16 (by omega)
  · rw [hszu]; exact hbS
  · rw [hszu]; omega
  · exact hN
  · intro i hi'
    rw [hszu]
    have hs := hL.1.2.2 i hi'
    have hmem := chain_first _ _ _ _ (hLU.2.2.1 i hi')
    have hmemL : (unlink_block s P).mem (sentinel cfg i + 8) ∈ sentinel cfg i :: L i := by
      rcases List.mem_cons.1 hmem with e1 | e1
      · rw [e1]; simp
      · exact List.mem_cons_of_mem _ (List.mem_of_mem_erase e1)
    have hne : (unlink_block s P).mem (sentinel cfg i + 8) ≠ P := by
      intro e1
      rcases List.mem_cons.1 hmem with e2 | e2
      · have e3 : sentinel cfg i = P := e2.symm.trans e1
        exact sentinel_not_listed cfg s hi L hL i _ hi' hk (by rw [e3]; exact hPm)
      · rw [e1] at e2
        exact ((List.Nodup.mem_erase_iff (hL.2.2.2.2.1 i hi')).1 e2).1 rfl
    obtain ⟨h1, h2⟩ := lists_cells cfg s hi L hL i _ hi' hk _ P hmemL hPc
    unfold Clear at h1
    refine ⟨hs.1, by omega, h2, by omega⟩

/-- The call `sf_malloc` once its loop has taken the block that ends the heap:
the call returns the payload of that block, and the header of the block records a
size that covers the requested block size. -/
theorem malloc_after_loop (cfg : Config) (fuel : Nat) (s : State) (hi n P : Nat) (s1 : State)
    (L1 : Nat → List Nat) (S1 : Nat) (hn : 0 < n) (hnl : n ≤ 2 ^ 64 - 32) (hpg0 : 0 < s.pages)
    (hq : malloc_block_size n < QL_MAX_SIZE → s.qlFirst (QL_INDEX (malloc_block_size n)) = 0)
    (hloop : malloc_fit_loop cfg fuel (malloc_block_size n) fuel s =
      some (P, unlink_block s1 P))
    (hE : EndsFree cfg fuel s1 hi L1 (malloc_block_size n) P S1)
    (hbS : malloc_block_size n ≤ S1) :
    ∃ p s', sf_malloc cfg fuel s n = some (p, s') ∧ p ≠ 0 ∧ s'.pages = s1.pages ∧
      malloc_block_size n ≤ GET_BLOCK_SIZE (header_at cfg s' p) := by
  obtain ⟨hb32, hb16, hbsz⟩ := malloc_block_size_small n hn hnl
  have hhd := taken_block_header cfg fuel s1 hi L1 _ P S1 hE hb32 hb16 hbS
  obtain ⟨hL, hPm, hsz, hend, halloc, hftr, hsmall, hlen⟩ := hE
  have hk := get_ml_index_lt cfg S1 hL.1.1
  have hPl := hL.2.2.2.1 _ hk P hPm
  have hWe := WORD_eq
  have hhiW := hL.1.2.1
  have hhi := hL.2.1
  have hP0 : P ≠ 0 := by omega
  have hr := sf_malloc_of_loop cfg fuel s n P _ hn hpg0 hq hloop hP0
  have hfst := split_free_block_fst cfg (unlink_block s1 P) P (malloc_block_size n)
  obtain ⟨c1, c2, c3, _⟩ := create_malloc_block_spec cfg
    (split_free_block cfg (unlink_block s1 P) P (malloc_block_size n)).2 P n (by omega)
  rw [hfst] at hr
  have hlt := GET_BLOCK_SIZE_lt (OBF cfg
    ((split_free_block cfg (unlink_block s1 P) P (malloc_block_size n)).2.mem P))
  have h16 := GET_BLOCK_SIZE_mod (OBF cfg
    ((split_free_block cfg (unlink_block s1 P) P (malloc_block_size n)).2.mem P))
  obtain ⟨_, q2, _, _⟩ := PACK_fields n (GET_BLOCK_SIZE (OBF cfg
    ((split_free_block cfg (unlink_block s1 P) P (malloc_block_size n)).2.mem P))) 0 1
    (by omega) hlt h16 (by norm_num) (by norm_num)
  refine ⟨_, _, hr, ?_, ?_, ?_⟩
  · rw [c1, wadd_eq (by unfold MROW; omega)]; unfold MROW; omega
  · rw [update_pl_pages, create_malloc_block_pages, split_free_block_pages, unlink_block_pages]
  · unfold header_at
    rw [c2, update_pl_mem, c3, q2]
    exact hhd

/-! ## Size classes, first fit and the block size of `sf_realloc` -/

theorem shift_one (m : Nat) (h : 2 * m < 2 ^ 64) : (m <<< 1) % WORD = 2 * m := by
  rw [Nat.shiftLeft_eq, WORD_eq]
  omega

/-- The loop of `get_ml_index` stops at the first doubling of `m` that reaches
`size`, as long as the doublings it compares with fit in a word. -/
theorem get_ml_index_go_hit (size : Nat) : ∀ k i m j, j < k →
    (∀ t, t < k → m * 2 ^ t < 2 ^ 64) → size ≤ m * 2 ^ j → (∀ t, t < j → m * 2 ^ t < size) →
    get_ml_index_go size k i m = i + j := by
  intro k
  induction k with
  | zero => intro i m j hj; omega
  | succ k ih =>
    intro i m j hj hfit hle hgt
    rw [get_ml_index_go]
    cases j with
    | zero =>
      rw [if_pos (by simpa using hle)]
      rfl
    | succ j =>
      have h0 := hgt 0 (by omega)
      rw [if_neg (by simpa using h0)]
      have h1 := hfit 1 (by omega)
      rw [shift_one m (by omega)]
      rw [ih (i + 1) (2 * m) j (by omega)
        (fun t ht => by have := hfit (t + 1) (by omega); rw [pow_succ] at this; nlinarith)
        (by rw [pow_succ] at hle; nlinarith)
        (fun t ht => by have := hgt (t + 1) (by omega); rw [pow_succ] at this; nlinarith)]
      omega

/-- The loop of `get_ml_index` runs to its end when no doubling reaches `size`. -/
theorem get_ml_index_go_miss (size : Nat) : ∀ k i m,
    (∀ t, t < k → m * 2 ^ t < 2 ^ 64) → (∀ t, t < k → m * 2 ^ t < size) →
    get_ml_index_go size k i m = i + k := by
  intro k
  induction k with
  | zero => intro i m _ _; rfl
  | succ k ih =>
    intro i m hfit hgt
    rw [get_ml_index_go]
    have h0 := hgt 0 (by omega)
    rw [if_neg (by simpa using h0)]
    cases k with
    | zero => rfl
    | succ k =>
      have h1 := hfit 1 (by omega)
      rw [shift_one m (by omega)]
      rw [ih (i + 1) (2 * m)
        (fun t ht => by have := hfit (t + 1) (by omega); rw [pow_succ] at this; nlinarith)
        (fun t ht => by have := hgt (t + 1) (by omega); rw [pow_succ] at this; nlinarith)]
      omega

theorem class_bound_fits (t : Nat) (h : t ≤ 58) : 32 * 2 ^ t < 2 ^ 64 := by
  have : 2 ^ t ≤ 2 ^ 58 := Nat.pow_le_pow_right (by norm_num) h
  omega

/-- The scan of `find_fit` runs past the entries that are too small and stops at
the first one that is large enough. -/
theorem scan_first (cfg : Config) (s : State) (sent b F : Nat) (post : List Nat) :
    ∀ (pre : List Nat) (a fuel : Nat), Chain s sent a (pre ++ F :: post) →
    (∀ c, c ∈ a :: pre → c + 24 ≤ WORD) →
    (∀ x, x ∈ pre → x ≠ sent ∧ size_at cfg s x < b) → b ≤ size_at cfg s F →
    pre.length + 1 ≤ fuel → find_fit_scan cfg s sent b fuel a = some F := by
  intro pre
  induction pre with
  | nil =>
    intro a fuel hc hW _ hb hf
    obtain ⟨f, rfl⟩ : ∃ f, fuel = f + 1 := ⟨fuel - 1, by simp at hf; omega⟩
    exact scan_hit cfg s sent b a F f post hc (hW a (by simp)) hb
  | cons x pre ih =>
    intro a fuel hc hW hs hb hf
    obtain ⟨f, rfl⟩ : ∃ f, fuel = f + 1 := ⟨fuel - 1, by simp at hf; omega⟩
    simp only [find_fit_scan]
    have hx : s.mem (a + 8) = x := hc.1
    rw [wadd_next (hW a (by simp)), hx]
    have h1 := hs x (by simp)
    unfold size_at at h1
    rw [if_pos h1]
    exact ih x f hc.2.2 (fun c hm => hW c (List.mem_cons_of_mem _ hm))
      (fun y hy => hs y (List.mem_cons_of_mem _ hy)) hb (by simp at hf; omega)

/-- A list with an entry that satisfies `p` splits at the first such entry. -/
theorem first_split (p : Nat → Prop) : ∀ (l : List Nat), (∃ x, x ∈ l ∧ p x) →
    ∃ pre F post, l = pre ++ F :: post ∧ (∀ x, x ∈ pre → ¬ p x) ∧ p F := by
  intro l
  induction l with
  | nil => intro h; obtain ⟨x, hx, _⟩ := h; simp at hx
  | cons a l ih =>
    intro h
    by_cases ha : p a
    · exact ⟨[], a, l, rfl, by simp, ha⟩
    · obtain ⟨x, hx, hp⟩ := h
      have hxl : x ∈ l := by
        rcases List.mem_cons.1 hx with e | e
        · exact absurd (e ▸ hp) ha
        · exact e
      obtain ⟨pre, F, post, e, h1, h2⟩ := ih ⟨x, hxl, hp⟩
      refine ⟨a :: pre, F, post, by rw [e]; rfl, ?_, h2⟩
      intro y hy
      rcases List.mem_cons.1 hy with e1 | e1
      · rw [e1]; exact ha
      · exact h1 y e1

/-- On well-formed lists, `find_fit` returns the first large enough entry of the
first list, from the class of the request upwards, that has one. -/
theorem find_fit_first (cfg : Config) (fuel : Nat) (s : State) (hi : Nat) (L : Nat → List Nat)
    (b : Nat) (h : Lists cfg s hi L)
    (hf : ∀ i, i < cfg.NUM_FREE_LISTS → (L i).length + 1 ≤ fuel)
    (m : Nat) (pre : List Nat) (F : Nat) (post : List Nat)
    (hm1 : get_ml_index cfg b ≤ m) (hm2 : m < cfg.NUM_FREE_LISTS)
    (hL : L m = pre ++ F :: post) (hpre : ∀ x, x ∈ pre → size_at cfg s x < b)
    (hF : b ≤ size_at cfg s F)
    (hlow : ∀ j, get_ml_index cfg b ≤ j → j < m → ∀ x, x ∈ L j → size_at cfg s x < b) :
    find_fit cfg fuel s b = some F := by
  unfold find_fit
  have hFm : F ∈ L m := by rw [hL]; simp
  have hlen : pre.length + 1 ≤ fuel := by
    have := hf m hm2
    rw [hL] at this
    simp at this
    omega
  refine find_fit_lists_hit cfg fuel s b m F ?_ hF ?_ _ _ hm1 (by omega) ?_
  · exact fun e => sentinel_not_listed cfg s hi L h m m hm2 hm2 (e ▸ hFm)
  · have hc := h.2.2.1 m hm2
    rw [hL] at hc
    refine scan_first cfg s _ b F post pre _ fuel hc ?_ ?_ hF hlen
    · intro c hc'
      refine (lists_cells cfg s hi L h m m hm2 hm2 c c ?_ ?_).2 <;>
      · rcases List.mem_cons.1 hc' with e | e
        · rw [e]; simp
        · rw [hL]; simp [e]
    · intro x hx
      have hxm : x ∈ L m := by rw [hL]; simp [hx]
      exact ⟨fun e => sentinel_not_listed cfg s hi L h m m hm2 hm2 (e ▸ hxm), hpre x hx⟩
  · intro j hj1 hj2
    have hj' : j < cfg.NUM_FREE_LISTS := by omega
    refine scan_skip cfg s _ b (L j) _ fuel (h.2.2.1 j hj') ?_ ?_ (hf j hj')
    · intro c hc
      exact (lists_cells cfg s hi L h j j hj' hj' c c hc hc).2
    · intro x hx
      exact ⟨fun e => sentinel_not_listed cfg s hi L h j j hj' hj' (e ▸ hx), hlow j hj1 hj2 x hx⟩

/-- A listed block that is large enough for the request is filed in the class of
the request or in a higher one. -/
theorem fit_class_ge (cfg : Config) (s : State) (hi : Nat) (L : Nat → List Nat) (b i x : Nat)
    (h : Lists cfg s hi L) (hi' : i < cfg.NUM_FREE_LISTS) (hx : x ∈ L i)
    (hb : b ≤ size_at cfg s x) : get_ml_index cfg b ≤ i := by
  have := (h.2.2.2.1 i hi' x hx).2.2.2
  rw [← this]
  exact get_ml_index_mono cfg b _ hb

theorem realloc_block_size_small (rsize : Nat) (h1 : 1 ≤ rsize) (h2 : rsize ≤ 2 ^ 64 - 32) :
    realloc_block_size rsize = round_up_16 (rsize + 2 * MROW) ∧
    realloc_block_size rsize = malloc_block_size rsize := by
  unfold realloc_block_size malloc_block_size round_up_16 wadd MROW WORD
  simp only
  constructor
  · split <;> omega
  · split_ifs <;> omega

theorem header_payload_lt (cfg : Config) (w : Nat) (hM : cfg.MAGIC < 2 ^ 64) (hw : w < 2 ^ 64) :
    GET_PL_SIZE (OBF cfg w) < 2 ^ 32 := by
  have : OBF cfg w < 2 ^ 64 := Nat.xor_lt_two_pow hw hM
  rw [GET_PL_SIZE_eq]
  omega

/-- The shrinking branch of `sf_realloc`: a valid pointer, a request that is not 0
and below the payload size in the header. -/
theorem sf_realloc_shrinks (cfg : Config) (fuel : Nat) (s : State) (pp rsize : Nat)
    (hv : validate_pp cfg s pp = 0) (h1 : 1 ≤ rsize)
    (hbr : rsize < GET_PL_SIZE (header_at cfg s pp)) :
    sf_realloc cfg fuel s pp rsize =
      match split_malloc_block cfg fuel s (wsub pp MROW) (realloc_block_size rsize) rsize with
      | none => Outcome.timeout
      | some (block, s1) =>
        Outcome.ret (wadd block MROW)
          (update_pl s1 (wsub rsize (GET_PL_SIZE (header_at cfg s pp)))) := by
  unfold header_at at hbr ⊢
  unfold sf_realloc
  rw [if_neg (by rw [hv]; exact fun h => h rfl), if_neg (by omega)]
  simp only
  rw [if_neg (by omega), if_neg (by omega)]

/-! ## Splitting and coalescing on well-formed lists -/

/-- The state `split_free_block` returns when it splits, with the addresses
written out. -/
theorem split_free_block_eq (cfg : Config) (u : State) (F R S : Nat)
    (hS : size_at cfg u F = S) (hRS : R ≤ S) (hfrag : 32 ≤ S - R) (h8 : 8 ≤ R)
    (hW : F + S < WORD) :
    split_free_block cfg u F R = (F, insert_ml cfg
      ((((u.write F (OBF cfg (PACK 0 R 0 0))).write (F + R - 8) (OBF cfg (PACK 0 R 0 0))).write
        (F + R) (OBF cfg (PACK 0 (S - R) 0 0))).write (F + S - 8)
        (OBF cfg (PACK 0 (S - R) 0 0))) (F + R)) := by
  have hWe := WORD_eq
  have hSlt : S < 2 ^ 32 := by rw [← hS]; exact GET_BLOCK_SIZE_lt _
  have e1 : wsub S R = S - R := wsub_eq hRS (by omega)
  have e2 : wadd F R = F + R := wadd_eq (by omega)
  have e3 : wsub (F + R) MROW = F + R - 8 := by
    rw [wsub_eq (by unfold MROW; omega) (by omega)]; rfl
  have e4 : wadd (F + R) (S - R) = F + S := by
    rw [wadd_eq (by omega)]; omega
  have e5 : wsub (F + S) MROW = F + S - 8 := by
    rw [wsub_eq (by unfold MROW; omega) (by omega)]; rfl
  unfold size_at at hS
  unfold split_free_block
  simp only
  rw [hS, e1, if_neg (by unfold MIN_BLOCK_SIZE; omega), e2, e3, write_mem_eq]
  unfold create_free_block
  simp only
  rw [e4, e5, write_mem_eq]

/-- The function `split_free_block` returns the block as it is when the rest
would be smaller than the minimum block size. -/
theorem split_free_block_whole (cfg : Config) (u : State) (F R S : Nat)
    (hS : size_at cfg u F = S) (hRS : R ≤ S) (hfrag : S - R < 32) :
    split_free_block cfg u F R = (F, u) := by
  have hWe := WORD_eq
  have hSlt : S < 2 ^ 32 := by rw [← hS]; exact GET_BLOCK_SIZE_lt _
  have e1 : wsub S R = S - R := wsub_eq hRS (by omega)
  unfold size_at at hS
  unfold split_free_block
  simp only
  rw [hS, e1, if_pos (by unfold MIN_BLOCK_SIZE; omega)]

/-- The lists and the memory after the writes of a split: the two headers and
footers are in place, the rest is filed under its class, and the listed blocks
keep their words. -/
theorem split_lists (cfg : Config) (u : State) (hi : Nat) (L : Nat → List Nat)
    (F R S H H2 : Nat) (hL : Lists cfg u hi L)
    (hF1 : sf_mem_start cfg + 40 ≤ F) (hF2 : F + S + 8 ≤ sf_mem_end cfg u)
    (hR32 : 32 ≤ R) (hRS : R ≤ S) (hfrag : 32 ≤ S - R)
    (hH2 : GET_BLOCK_SIZE (OBF cfg H2) = S - R)
    (hout : ∀ i, i < cfg.NUM_FREE_LISTS → ∀ x, x ∈ L i →
      x + size_at cfg u x ≤ F ∨ F + S ≤ x) :
    Lists cfg (insert_ml cfg ((((u.write F H).write (F + R - 8) H).write (F + R) H2).write
        (F + S - 8) H2) (F + R)) hi
      (fun i => if i = get_ml_index cfg (S - R) then (F + R) :: L i else L i) ∧
    (insert_ml cfg ((((u.write F H).write (F + R - 8) H).write (F + R) H2).write
        (F + S - 8) H2) (F + R)).mem F = H ∧
    (insert_ml cfg ((((u.write F H).write (F + R - 8) H).write (F + R) H2).write
        (F + S - 8) H2) (F + R)).mem (F + R - 8) = H ∧
    (insert_ml cfg ((((u.write F H).write (F + R - 8) H).write (F + R) H2).write
        (F + S - 8) H2) (F + R)).mem (F + R) = H2 ∧
    (insert_ml cfg ((((u.write F H).write (F + R - 8) H).write (F + R) H2).write
        (F + S - 8) H2) (F + R)).mem (F + S - 8) = H2 := by
  have hN := hL.1.1
  have hhiW := hL.1.2.1
  have hhi := hL.2.1
  have cell : ∀ i, i < cfg.NUM_FREE_LISTS → ∀ c, c ∈ sentinel cfg i :: L i →
      c + 24 ≤ F ∨ F + S ≤ c := by
    intro i hi' c hc
    rcases List.mem_cons.1 hc with e | e
    · have := hL.1.2.2 i hi'
      rw [e]; omega
    · have h1 := hout i hi' c e
      have h2 := hL.2.2.2.1 i hi' c e
      omega
  have inner : ∀ a, F ≤ a → a < F + S → ∀ i, i < cfg.NUM_FREE_LISTS → ∀ c,
      c ∈ sentinel cfg i :: L i → a ≠ c ∧ a ≠ c + 8 ∧ a ≠ c + 16 := by
    intro a h1 h2 i hi' c hc
    have := cell i hi' c hc
    omega
  have hL1 := lists_write cfg u hi L hL F H (inner F (by omega) (by omega))
  have hL2 := lists_write cfg _ hi L hL1 (F + R - 8) H (inner _ (by omega) (by omega))
  have hL3 := lists_write cfg _ hi L hL2 (F + R) H2 (inner _ (by omega) (by omega))
  have hL4 := lists_write cfg _ hi L hL3 (F + S - 8) H2 (inner _ (by omega) (by omega))
  have m1 : ((((u.write F H).write (F + R - 8) H).write (F + R) H2).write (F + S - 8) H2).mem F
      = H := by
    rw [write_mem_ne _ _ (by omega), write_mem_ne _ _ (by omega), write_mem_ne _ _ (by omega),
      write_mem_eq]
  have m2 : ((((u.write F H).write (F + R - 8) H).write (F + R) H2).write (F + S - 8) H2).mem
      (F + R - 8) = H := by
    rw [write_mem_ne _ _ (by omega), write_mem_ne _ _ (by omega), write_mem_eq]
  have m3 : ((((u.write F H).write (F + R - 8) H).write (F + R) H2).write (F + S - 8) H2).mem
      (F + R) = H2 := by
    rw [write_mem_ne _ _ (by omega), write_mem_eq]
  have m4 : ((((u.write F H).write (F + R - 8) H).write (F + R) H2).write (F + S - 8) H2).mem
      (F + S - 8) = H2 := write_mem_eq _ _ _
  have hend4 : sf_mem_end cfg ((((u.write F H).write (F + R - 8) H).write (F + R) H2).write
      (F + S - 8) H2) = sf_mem_end cfg u := by
    apply sf_mem_end_pages
    rw [write_pages, write_pages, write_pages, write_pages]
  have hsz : size_at cfg ((((u.write F H).write (F + R - 8) H).write (F + R) H2).write
      (F + S - 8) H2) (F + R) = S - R := by
    unfold size_at; rw [m3, hH2]
  obtain ⟨hLI, frameI⟩ := lists_insert cfg _ hi L hL4 (F + R) (by omega)
    (by rw [hsz, hend4]; omega) (by rw [hsz]; omega)
    (fun i hi' x hx => by have := cell i hi' x (List.mem_cons_of_mem _ hx); omega)
  rw [hsz] at hLI
  have nolink : ∀ a, F ≤ a → a < F + S → ∀ i, i < cfg.NUM_FREE_LISTS → ∀ c,
      c ∈ sentinel cfg i :: L i → a ≠ c + 8 ∧ a ≠ c + 16 :=
    fun a h1 h2 i hi' c hc => (inner a h1 h2 i hi' c hc).2
  refine ⟨hLI, ?_, ?_, ?_, ?_⟩
  · rw [frameI F (by omega) (by omega) (nolink F (by omega) (by omega)), m1]
  · rw [frameI _ (by omega) (by omega) (nolink _ (by omega) (by omega)), m2]
  · rw [frameI _ (by omega) (by omega) (nolink _ (by omega) (by omega)), m3]
  · rw [frameI _ (by omega) (by omega) (nolink _ (by omega) (by omega)), m4]

/-- The function `coalesce` when the block before is allocated and the block after
is free: the block after is taken from its list and the block grows by it. -/
theorem coalesce_next_free (cfg : Config) (fuel : Nat) (t : State) (fb : Nat) (u : State)
    (hprev : OBF cfg (t.mem (PREV_BLOCK cfg t fb)) &&& THIS_BLOCK_ALLOCATED ≠ 0)
    (hnext : OBF cfg (t.mem (NEXT_BLOCK cfg t fb)) &&& THIS_BLOCK_ALLOCATED = 0)
    (hrem : remove_ml cfg fuel t (NEXT_BLOCK cfg t fb) = some (false, u)) :
    coalesce cfg fuel t fb = some (fb,
      ((u.write fb (OBF cfg (PACK 0
          (wadd (GET_BLOCK_SIZE (OBF cfg (t.mem fb)))
            (GET_BLOCK_SIZE (OBF cfg (t.mem (NEXT_BLOCK cfg t fb))))) 0 0))).write
        (FOOTER cfg (u.write fb (OBF cfg (PACK 0
          (wadd (GET_BLOCK_SIZE (OBF cfg (t.mem fb)))
            (GET_BLOCK_SIZE (OBF cfg (t.mem (NEXT_BLOCK cfg t fb))))) 0 0))) fb)
        ((u.write fb (OBF cfg (PACK 0
          (wadd (GET_BLOCK_SIZE (OBF cfg (t.mem fb)))
            (GET_BLOCK_SIZE (OBF cfg (t.mem (NEXT_BLOCK cfg t fb))))) 0 0))).mem fb))) := by
  unfold coalesce
  simp only
  have c1 : ¬ (OBF cfg (t.mem (PREV_BLOCK cfg t fb)) &&& THIS_BLOCK_ALLOCATED ≠ 0 ∧
      OBF cfg (t.mem (NEXT_BLOCK cfg t fb)) &&& THIS_BLOCK_ALLOCATED ≠ 0) :=
    fun h => h.2 hnext
  have c2 : OBF cfg (t.mem (PREV_BLOCK cfg t fb)) &&& THIS_BLOCK_ALLOCATED ≠ 0 ∧
      OBF cfg (t.mem (NEXT_BLOCK cfg t fb)) &&& THIS_BLOCK_ALLOCATED = 0 := ⟨hprev, hnext⟩
  rw [if_neg c1, if_pos c2]
  simp only [hrem, Bool.false_eq_true, if_false]

/-- The function `coalesce` when the blocks before and after are both free: both
are taken from their lists, the block after first, and the block before grows by
the block and the block after. -/
theorem coalesce_both_free (cfg : Config) (fuel : Nat) (t : State) (fb : Nat) (u1 u2 : State)
    (hprev : OBF cfg (t.mem (PREV_BLOCK cfg t fb)) &&& THIS_BLOCK_ALLOCATED = 0)
    (hnext : OBF cfg (t.mem (NEXT_BLOCK cfg t fb)) &&& THIS_BLOCK_ALLOCATED = 0)
    (hrem1 : remove_ml cfg fuel t (NEXT_BLOCK cfg t fb) = some (false, u1))
    (hrem2 : remove_ml cfg fuel u1 (PREV_BLOCK cfg t fb) = some (false, u2)) :
    coalesce cfg fuel t fb = some (PREV_BLOCK cfg t fb,
      ((u2.write (PREV_BLOCK cfg t fb) (OBF cfg (PACK 0
          (wadd (GET_BLOCK_SIZE (OBF cfg (t.mem fb)))
            (wadd (GET_BLOCK_SIZE (OBF cfg (t.mem (PREV_BLOCK cfg t fb))))
              (GET_BLOCK_SIZE (OBF cfg (t.mem (NEXT_BLOCK cfg t fb)))))) 0 0))).write
        (FOOTER cfg (u2.write (PREV_BLOCK cfg t fb) (OBF cfg (PACK 0
          (wadd (GET_BLOCK_SIZE (OBF cfg (t.mem fb)))
            (wadd (GET_BLOCK_SIZE (OBF cfg (t.mem (PREV_BLOCK cfg t fb))))
              (GET_BLOCK_SIZE (OBF cfg (t.mem (NEXT_BLOCK cfg t fb)))))) 0 0)))
          (PREV_BLOCK cfg t fb))
        ((u2.write (PREV_BLOCK cfg t fb) (OBF cfg (PACK 0
          (wadd (GET_BLOCK_SIZE (OBF cfg (t.mem fb)))
            (wadd (GET_BLOCK_SIZE (OBF cfg (t.mem (PREV_BLOCK cfg t fb))))
              (GET_BLOCK_SIZE (OBF cfg (t.mem (NEXT_BLOCK cfg t fb)))))) 0 0))).mem
          (PREV_BLOCK cfg t fb)))) := by
  unfold coalesce
  simp only
  have c1 : ¬ (OBF cfg (t.mem (PREV_BLOCK cfg t fb)) &&& THIS_BLOCK_ALLOCATED ≠ 0 ∧
      OBF cfg (t.mem (NEXT_BLOCK cfg t fb)) &&& THIS_BLOCK_ALLOCATED ≠ 0) :=
    fun h => h.1 hprev
  have c2 : ¬ (OBF cfg (t.mem (PREV_BLOCK cfg t fb)) &&& THIS_BLOCK_ALLOCATED ≠ 0 ∧
      OBF cfg (t.mem (NEXT_BLOCK cfg t fb)) &&& THIS_BLOCK_ALLOCATED = 0) :=
    fun h => h.1 hprev
  have c3 : ¬ (OBF cfg (t.mem (PREV_BLOCK cfg t fb)) &&& THIS_BLOCK_ALLOCATED = 0 ∧
      OBF cfg (t.mem (NEXT_BLOCK cfg t fb)) &&& THIS_BLOCK_ALLOCATED ≠ 0) :=
    fun h => h.2 hnext
  rw [if_neg c1, if_neg c2, if_neg c3]
  simp only [hrem1, Bool.false_eq_true, if_false, hrem2]

/-- Well-formedness of the lists looks at the lists of the build only. -/
theorem lists_congr (cfg : Config) (s : State) (hi : Nat) (L L' : Nat → List Nat)
    (h : Lists cfg s hi L) (e : ∀ i, i < cfg.NUM_FREE_LISTS → L' i = L i) :
    Lists cfg s hi L' := by
  obtain ⟨h1, h2, h3, h4, h5, h6⟩ := h
  refine ⟨h1, h2, ?_, ?_, ?_, ?_⟩
  · intro i hi'
    rw [e i hi']; exact h3 i hi'
  · intro i hi' x hx
    rw [e i hi'] at hx; exact h4 i hi' x hx
  · intro i hi'
    rw [e i hi']; exact h5 i hi'
  · intro i hi' j hj x hx y hy
    rw [e i hi'] at hx
    rw [e j hj] at hy
    exact h6 i hi' j hj x hx y hy

/-- Header and footer of a merged block of `T` bytes at `R`, written into a state
whose listed blocks and list heads lie outside the block: the lists stay well
formed, and only the two words change. -/
theorem merged_writes (cfg : Config) (t : State) (hi : Nat) (L : Nat → List Nat) (R T V : Nat)
    (hL : Lists cfg t hi L) (hT : 16 ≤ T) (hW : R + T < WORD)
    (hV : GET_BLOCK_SIZE (OBF cfg V) = T)
    (hclear : ∀ i, i < cfg.NUM_FREE_LISTS → ∀ c, c ∈ sentinel cfg i :: L i →
      c + 24 ≤ R ∨ R + T ≤ c) :
    (t.write R V).write (FOOTER cfg (t.write R V) R) ((t.write R V).mem R) =
      (t.write R V).write (R + T - 8) V ∧
    Lists cfg ((t.write R V).write (R + T - 8) V) hi L ∧
    ((t.write R V).write (R + T - 8) V).mem R = V ∧
    ((t.write R V).write (R + T - 8) V).mem (R + T - 8) = V ∧
    (∀ a, a ≠ R → a ≠ R + T - 8 → ((t.write R V).write (R + T - 8) V).mem a = t.mem a) := by
  have hfoot : FOOTER cfg (t.write R V) R = R + T - 8 := by
    unfold FOOTER
    rw [write_mem_eq, hV, wadd_eq hW, wsub_eq (by unfold MROW; omega) hW]
    rfl
  have hL1 := lists_write cfg t hi L hL R V (fun i hi' c hc => by
    have := hclear i hi' c hc; omega)
  have hL2 := lists_write cfg _ hi L hL1 (R + T - 8) V (fun i hi' c hc => by
    have := hclear i hi' c hc; omega)
  refine ⟨by rw [hfoot, write_mem_eq], hL2, ?_, write_mem_eq _ _ _, ?_⟩
  · rw [write_mem_ne _ _ (by omega), write_mem_eq]
  · intro a h1 h2
    rw [write_mem_ne _ _ h2, write_mem_ne _ _ h1]

theorem next_block_eq (cfg : Config) (fuel : Nat) (s : State) (hi : Nat) (L : Nat → List Nat)
    (B : Nat) (h : CoalesceOK cfg fuel s hi L B) :
    NEXT_BLOCK cfg s B = B + size_at cfg s B := by
  obtain ⟨hL, _, _, _, hB3, _⟩ := h
  have := hL.1.2.1
  have := hL.2.1
  unfold NEXT_BLOCK size_at
  exact wadd_eq (by unfold size_at at hB3; omega)

/-- A block marked allocated is in no list. -/
theorem allocated_not_listed (cfg : Config) (fuel : Nat) (s : State) (hi : Nat)
    (L : Nat → List Nat) (B x : Nat) (h : CoalesceOK cfg fuel s hi L B)
    (hx : OBF cfg (s.mem x) &&& THIS_BLOCK_ALLOCATED ≠ 0) (i : Nat)
    (hi' : i < cfg.NUM_FREE_LISTS) : x ∉ L i :=
  fun hm => hx (h.2.2.2.2.2.2.2.2.2.2.1 i hi' x hm).1

/-- The function `coalesce` between two allocated neighbours returns the block and
changes nothing. -/
theorem coalesce_case_none (cfg : Config) (fuel : Nat) (s : State) (hi : Nat)
    (L : Nat → List Nat) (B : Nat) (h : CoalesceOK cfg fuel s hi L B)
    (hp : OBF cfg (s.mem (PREV_BLOCK cfg s B)) &&& THIS_BLOCK_ALLOCATED ≠ 0)
    (hn : OBF cfg (s.mem (NEXT_BLOCK cfg s B)) &&& THIS_BLOCK_ALLOCATED ≠ 0) :
    ∃ s', coalesce cfg fuel s B = some (B, s') ∧
      Lists cfg s' hi (fun i => ((L i).erase (NEXT_BLOCK cfg s B)).erase (PREV_BLOCK cfg s B)) ∧
      OBF cfg (s'.mem B) = PACK 0 (size_at cfg s B) 0 0 ∧
      s'.mem (B + size_at cfg s B - 8) = s'.mem B ∧
      (∀ a, (a < B ∨ B + size_at cfg s B ≤ a) →
        (∀ i, i < cfg.NUM_FREE_LISTS → ∀ c, c ∈ sentinel cfg i :: L i →
          a ≠ c + 8 ∧ a ≠ c + 16) → s'.mem a = s.mem a) := by
  have hnp := allocated_not_listed cfg fuel s hi L B _ h hp
  have hnn := allocated_not_listed cfg fuel s hi L B _ h hn
  obtain ⟨hL, _, _, _, _, hBh, hBf, _⟩ := h
  have hN := hL.1.1
  refine ⟨s, coalesce_both_allocated cfg fuel s B hp hn, ?_, hBh, hBf, fun _ _ _ => rfl⟩
  refine lists_congr cfg s hi L _ hL (fun i hi' => ?_)
  show ((L i).erase (NEXT_BLOCK cfg s B)).erase (PREV_BLOCK cfg s B) = L i
  rw [List.erase_of_not_mem (hnn i hi'), List.erase_of_not_mem (hnp i hi')]

/-- The function `coalesce` when only the block after is free: the block absorbs
it. -/
theorem coalesce_case_next (cfg : Config) (fuel : Nat) (s : State) (hi : Nat)
    (L : Nat → List Nat) (B : Nat) (h : CoalesceOK cfg fuel s hi L B)
    (hp : OBF cfg (s.mem (PREV_BLOCK cfg s B)) &&& THIS_BLOCK_ALLOCATED ≠ 0)
    (hn : OBF cfg (s.mem (NEXT_BLOCK cfg s B)) &&& THIS_BLOCK_ALLOCATED = 0) :
    ∃ s', coalesce cfg fuel s B = some (B, s') ∧
      Lists cfg s' hi (fun i => ((L i).erase (NEXT_BLOCK cfg s B)).erase (PREV_BLOCK cfg s B)) ∧
      OBF cfg (s'.mem B) =
        PACK 0 (size_at cfg s B + size_at cfg s (NEXT_BLOCK cfg s B)) 0 0 ∧
      s'.mem (B + (size_at cfg s B + size_at cfg s (NEXT_BLOCK cfg s B)) - 8) = s'.mem B ∧
      (∀ a, (a < B ∨ B + (size_at cfg s B + size_at cfg s (NEXT_BLOCK cfg s B)) ≤ a) →
        (∀ i, i < cfg.NUM_FREE_LISTS → ∀ c, c ∈ sentinel cfg i :: L i →
          a ≠ c + 8 ∧ a ≠ c + 16) → s'.mem a = s.mem a) := by
  have hnp := allocated_not_listed cfg fuel s hi L B _ h hp
  have hNe := next_block_eq cfg fuel s hi L B h
  obtain ⟨hL, hbig, hB1, hB2, hB3, hBh, hBf, hP1, hP3, hP2, hlisted, hPfree, hNfree, hfuel, hN3⟩ := h
  have hN := hL.1.1
  have hWe := WORD_eq
  have hhiW := hL.1.2.1
  have hhi := hL.2.1
  have hNm := hNfree hn
  have hk := get_ml_index_lt cfg (size_at cfg s (NEXT_BLOCK cfg s B)) hN
  have hNpl := hL.2.2.2.1 _ hk _ hNm
  have hB16 : size_at cfg s B % 16 = 0 := GET_BLOCK_SIZE_mod _
  have hN16 : size_at cfg s (NEXT_BLOCK cfg s B) % 16 = 0 := GET_BLOCK_SIZE_mod _
  have hrem := remove_ml_listed cfg fuel s hi L hL _ hNm (hfuel _ hk)
  have hco := coalesce_next_free cfg fuel s B _ hp hn hrem
  have hadd : wadd (GET_BLOCK_SIZE (OBF cfg (s.mem B)))
      (GET_BLOCK_SIZE (OBF cfg (s.mem (NEXT_BLOCK cfg s B)))) =
      size_at cfg s B + size_at cfg s (NEXT_BLOCK cfg s B) := by
    unfold size_at at hNpl hB3 ⊢
    exact wadd_eq (by omega)
  rw [hadd] at hco
  obtain ⟨_, q2, _, _⟩ := PACK_fields 0 (size_at cfg s B + size_at cfg s (NEXT_BLOCK cfg s B))
    0 0 (by norm_num) (by omega) (by omega) (by norm_num) (by norm_num)
  obtain ⟨hLU, frameU⟩ := lists_unlink cfg s hi L hL _ _ hk hNm
  have hclear : ∀ i, i < cfg.NUM_FREE_LISTS → ∀ c,
      c ∈ sentinel cfg i :: (L i).erase (NEXT_BLOCK cfg s B) →
      c + 24 ≤ B ∨ B + (size_at cfg s B + size_at cfg s (NEXT_BLOCK cfg s B)) ≤ c := by
    intro i hi' c hc
    rcases List.mem_cons.1 hc with e | e
    · have := hL.1.2.2 i hi'
      rw [e]; omega
    · have hcl : c ∈ L i := List.mem_of_mem_erase e
      have hcN : c ≠ NEXT_BLOCK cfg s B :=
        ((List.Nodup.mem_erase_iff (hL.2.2.2.2.1 i hi')).1 e).1
      have hcP : c ≠ PREV_BLOCK cfg s B := fun e1 => hnp i hi' (e1 ▸ hcl)
      have h1 := (hlisted i hi' c hcl).2
      have h2 := hL.2.2.2.1 i hi' c hcl
      omega
  obtain ⟨w1, w2, w3, w4, w5⟩ := merged_writes cfg (unlink_block s (NEXT_BLOCK cfg s B)) hi _ B
    (size_at cfg s B + size_at cfg s (NEXT_BLOCK cfg s B))
    (OBF cfg (PACK 0 (size_at cfg s B + size_at cfg s (NEXT_BLOCK cfg s B)) 0 0))
    hLU (by omega) (by omega) (by rw [OBF_OBF]; exact q2) hclear
  rw [w1] at hco
  refine ⟨_, hco, ?_, by rw [w3, OBF_OBF], by rw [w4, w3], ?_⟩
  · refine lists_congr cfg _ hi _ _ w2 (fun i hi' => ?_)
    show ((L i).erase (NEXT_BLOCK cfg s B)).erase (PREV_BLOCK cfg s B) =
      (L i).erase (NEXT_BLOCK cfg s B)
    exact List.erase_of_not_mem (fun hm => hnp i hi' (List.mem_of_mem_erase hm))
  · intro a ha hlink
    rw [w5 a (by omega) (by omega)]
    exact frameU a hlink

/-- The function `coalesce` when only the block before is free: that block
absorbs the block. -/
theorem coalesce_case_prev (cfg : Config) (fuel : Nat) (s : State) (hi : Nat)
    (L : Nat → List Nat) (B : Nat) (h : CoalesceOK cfg fuel s hi L B)
    (hp : OBF cfg (s.mem (PREV_BLOCK cfg s B)) &&& THIS_BLOCK_ALLOCATED = 0)
    (hn : OBF cfg (s.mem (NEXT_BLOCK cfg s B)) &&& THIS_BLOCK_ALLOCATED ≠ 0) :
    ∃ s', coalesce cfg fuel s B = some (PREV_BLOCK cfg s B, s') ∧
      Lists cfg s' hi (fun i => ((L i).erase (NEXT_BLOCK cfg s B)).erase (PREV_BLOCK cfg s B)) ∧
      OBF cfg (s'.mem (PREV_BLOCK cfg s B)) =
        PACK 0 (size_at cfg s B + size_at cfg s (PREV_BLOCK cfg s B)) 0 0 ∧
      s'.mem (PREV_BLOCK cfg s B +
          (size_at cfg s B + size_at cfg s (PREV_BLOCK cfg s B)) - 8) =
        s'.mem (PREV_BLOCK cfg s B) ∧
      (∀ a, (a < PREV_BLOCK cfg s B ∨ PREV_BLOCK cfg s B +
          (size_at cfg s B + size_at cfg s (PREV_BLOCK cfg s B)) ≤ a) →
        (∀ i, i < cfg.NUM_FREE_LISTS → ∀ c, c ∈ sentinel cfg i :: L i →
          a ≠ c + 8 ∧ a ≠ c + 16) → s'.mem a = s.mem a) := by
  have hnn := allocated_not_listed cfg fuel s hi L B _ h hn
  have hNe := next_block_eq cfg fuel s hi L B h
  obtain ⟨hL, hbig, hB1, hB2, hB3, hBh, hBf, hP1, hP3, hP2, hlisted, hPfree, hNfree, hfuel, hN3⟩ := h
  have hN := hL.1.1
  have hWe := WORD_eq
  have hhiW := hL.1.2.1
  have hhi := hL.2.1
  have hPm := hPfree hp
  have hk := get_ml_index_lt cfg (size_at cfg s (PREV_BLOCK cfg s B)) hN
  have hB16 : size_at cfg s B % 16 = 0 := GET_BLOCK_SIZE_mod _
  have hP16 : size_at cfg s (PREV_BLOCK cfg s B) % 16 = 0 := GET_BLOCK_SIZE_mod _
  have hrem := remove_ml_listed cfg fuel s hi L hL _ hPm (hfuel _ hk)
  have hco := coalesce_prev_free cfg fuel s B _ hp hn hrem
  have hadd : wadd (GET_BLOCK_SIZE (OBF cfg (s.mem B)))
      (GET_BLOCK_SIZE (OBF cfg (s.mem (PREV_BLOCK cfg s B)))) =
      size_at cfg s B + size_at cfg s (PREV_BLOCK cfg s B) := by
    unfold size_at at hP2 hB3 ⊢
    exact wadd_eq (by omega)
  rw [hadd] at hco
  obtain ⟨_, q2, _, _⟩ := PACK_fields 0 (size_at cfg s B + size_at cfg s (PREV_BLOCK cfg s B))
    0 0 (by norm_num) (by omega) (by omega) (by norm_num) (by norm_num)
  obtain ⟨hLU, frameU⟩ := lists_unlink cfg s hi L hL _ _ hk hPm
  have hclear : ∀ i, i < cfg.NUM_FREE_LISTS → ∀ c,
      c ∈ sentinel cfg i :: (L i).erase (PREV_BLOCK cfg s B) →
      c + 24 ≤ PREV_BLOCK cfg s B ∨ PREV_BLOCK cfg s B +
        (size_at cfg s B + size_at cfg s (PREV_BLOCK cfg s B)) ≤ c := by
    intro i hi' c hc
    rcases List.mem_cons.1 hc with e | e
    · have := hL.1.2.2 i hi'
      rw [e]; omega
    · have hcl : c ∈ L i := List.mem_of_mem_erase e
      have hcP : c ≠ PREV_BLOCK cfg s B :=
        ((List.Nodup.mem_erase_iff (hL.2.2.2.2.1 i hi')).1 e).1
      have hcN : c ≠ NEXT_BLOCK cfg s B := fun e1 => hnn i hi' (e1 ▸ hcl)
      have h1 := (hlisted i hi' c hcl).2
      have h2 := hL.2.2.2.1 i hi' c hcl
      omega
  obtain ⟨w1, w2, w3, w4, w5⟩ := merged_writes cfg (unlink_block s (PREV_BLOCK cfg s B)) hi _
    (PREV_BLOCK cfg s B) (size_at cfg s B + size_at cfg s (PREV_BLOCK cfg s B))
    (OBF cfg (PACK 0 (size_at cfg s B + size_at cfg s (PREV_BLOCK cfg s B)) 0 0))
    hLU (by omega) (by omega) (by rw [OBF_OBF]; exact q2) hclear
  rw [w1] at hco
  refine ⟨_, hco, ?_, by rw [w3, OBF_OBF], by rw [w4, w3], ?_⟩
  · refine lists_congr cfg _ hi _ _ w2 (fun i hi' => ?_)
    show ((L i).erase (NEXT_BLOCK cfg s B)).erase (PREV_BLOCK cfg s B) =
      (L i).erase (PREV_BLOCK cfg s B)
    rw [List.erase_of_not_mem (hnn i hi')]
  · intro a ha hlink
    rw [w5 a (by omega) (by omega)]
    exact frameU a hlink

/-- The function `coalesce` between two free neighbours: the block before absorbs
the block and the block after. -/
theorem coalesce_case_both (cfg : Config) (fuel : Nat) (s : State) (hi : Nat)
    (L : Nat → List Nat) (B : Nat) (h : CoalesceOK cfg fuel s hi L B)
    (hp : OBF cfg (s.mem (PREV_BLOCK cfg s B)) &&& THIS_BLOCK_ALLOCATED = 0)
    (hn : OBF cfg (s.mem (NEXT_BLOCK cfg s B)) &&& THIS_BLOCK_ALLOCATED = 0) :
    ∃ s', coalesce cfg fuel s B = some (PREV_BLOCK cfg s B, s') ∧
      Lists cfg s' hi (fun i => ((L i).erase (NEXT_BLOCK cfg s B)).erase (PREV_BLOCK cfg s B)) ∧
      OBF cfg (s'.mem (PREV_BLOCK cfg s B)) =
        PACK 0 (size_at cfg s B + size_at cfg s (PREV_BLOCK cfg s B) +
          size_at cfg s (NEXT_BLOCK cfg s B)) 0 0 ∧
      s'.mem (PREV_BLOCK cfg s B + (size_at cfg s B + size_at cfg s (PREV_BLOCK cfg s B) +
          size_at cfg s (NEXT_BLOCK cfg s B)) - 8) = s'.mem (PREV_BLOCK cfg s B) ∧
      (∀ a, (a < PREV_BLOCK cfg s B ∨ PREV_BLOCK cfg s B +
          (size_at cfg s B + size_at cfg s (PREV_BLOCK cfg s B) +
            size_at cfg s (NEXT_BLOCK cfg s B)) ≤ a) →
        (∀ i, i < cfg.NUM_FREE_LISTS → ∀ c, c ∈ sentinel cfg i :: L i →
          a ≠ c + 8 ∧ a ≠ c + 16) → s'.mem a = s.mem a) := by
  have hNe := next_block_eq cfg fuel s hi L B h
  obtain ⟨hL, hbig, hB1, hB2, hB3, hBh, hBf, hP1, hP3, hP2, hlisted, hPfree, hNfree, hfuel, hN3⟩ := h
  have hN := hL.1.1
  have hWe := WORD_eq
  have hhiW := hL.1.2.1
  have hhi := hL.2.1
  have hPm := hPfree hp
  have hNm := hNfree hn
  have hkP := get_ml_index_lt cfg (size_at cfg s (PREV_BLOCK cfg s B)) hN
  have hkN := get_ml_index_lt cfg (size_at cfg s (NEXT_BLOCK cfg s B)) hN
  have hNpl := hL.2.2.2.1 _ hkN _ hNm
  have hB16 : size_at cfg s B % 16 = 0 := GET_BLOCK_SIZE_mod _
  have hP16 : size_at cfg s (PREV_BLOCK cfg s B) % 16 = 0 := GET_BLOCK_SIZE_mod _
  have hN16 : size_at cfg s (NEXT_BLOCK cfg s B) % 16 = 0 := GET_BLOCK_SIZE_mod _
  have hPN : PREV_BLOCK cfg s B ≠ NEXT_BLOCK cfg s B := by omega
  have hrem1 := remove_ml_listed cfg fuel s hi L hL _ hNm (hfuel _ hkN)
  obtain ⟨hLU1, frameU1⟩ := lists_unlink cfg s hi L hL _ _ hkN hNm
  have hmP : (unlink_block s (NEXT_BLOCK cfg s B)).mem (PREV_BLOCK cfg s B) =
      s.mem (PREV_BLOCK cfg s B) :=
    frameU1 _ (fun j hj c hc => node_word cfg s hi L hL _ _ hkP hPm j hj c hc)
  have hszu : size_at cfg (unlink_block s (NEXT_BLOCK cfg s B)) (PREV_BLOCK cfg s B) =
      size_at cfg s (PREV_BLOCK cfg s B) := by
    unfold size_at; rw [hmP]
  have hPm1 : PREV_BLOCK cfg s B ∈
      (L (get_ml_index cfg (size_at cfg s (PREV_BLOCK cfg s B)))).erase (NEXT_BLOCK cfg s B) :=
    (List.mem_erase_of_ne hPN).2 hPm
  have hrem2 := remove_ml_listed cfg fuel (unlink_block s (NEXT_BLOCK cfg s B)) hi
    (fun i => (L i).erase (NEXT_BLOCK cfg s B)) hLU1 (PREV_BLOCK cfg s B)
    (by rw [hszu]; exact hPm1)
    (by
      rw [hszu]
      have := hfuel _ hkP
      have := List.length_erase_le (NEXT_BLOCK cfg s B)
        (L (get_ml_index cfg (size_at cfg s (PREV_BLOCK cfg s B))))
      show ((L (get_ml_index cfg (size_at cfg s (PREV_BLOCK cfg s B)))).erase
        (NEXT_BLOCK cfg s B)).length ≤ fuel
      omega)
  have hco := coalesce_both_free cfg fuel s B _ _ hp hn hrem1 hrem2
  have hadd : wadd (GET_BLOCK_SIZE (OBF cfg (s.mem B)))
      (wadd (GET_BLOCK_SIZE (OBF cfg (s.mem (PREV_BLOCK cfg s B))))
        (GET_BLOCK_SIZE (OBF cfg (s.mem (NEXT_BLOCK cfg s B))))) =
      size_at cfg s B + size_at cfg s (PREV_BLOCK cfg s B) +
        size_at cfg s (NEXT_BLOCK cfg s B) := by
    unfold size_at at hP2 hB3 hNpl hNe ⊢
    rw [wadd_eq (a := GET_BLOCK_SIZE (OBF cfg (s.mem (PREV_BLOCK cfg s B)))) (by omega),
      wadd_eq (by omega)]
    omega
  rw [hadd] at hco
  obtain ⟨_, q2, _, _⟩ := PACK_fields 0 (size_at cfg s B + size_at cfg s (PREV_BLOCK cfg s B) +
    size_at cfg s (NEXT_BLOCK cfg s B)) 0 0 (by norm_num) (by omega) (by omega) (by norm_num)
    (by norm_num)
  obtain ⟨hLU2, frameU2⟩ := lists_unlink cfg (unlink_block s (NEXT_BLOCK cfg s B)) hi
    (fun i => (L i).erase (NEXT_BLOCK cfg s B)) hLU1 _ (PREV_BLOCK cfg s B) hkP hPm1
  have hclear : ∀ i, i < cfg.NUM_FREE_LISTS → ∀ c,
      c ∈ sentinel cfg i :: ((L i).erase (NEXT_BLOCK cfg s B)).erase (PREV_BLOCK cfg s B) →
      c + 24 ≤ PREV_BLOCK cfg s B ∨ PREV_BLOCK cfg s B +
        (size_at cfg s B + size_at cfg s (PREV_BLOCK cfg s B) +
          size_at cfg s (NEXT_BLOCK cfg s B)) ≤ c := by
    intro i hi' c hc
    rcases List.mem_cons.1 hc with e | e
    · have := hL.1.2.2 i hi'
      rw [e]; omega
    · have hnd := hL.2.2.2.2.1 i hi'
      have e1 := (List.Nodup.mem_erase_iff (List.Nodup.erase _ hnd)).1 e
      have e2 := (List.Nodup.mem_erase_iff hnd).1 e1.2
      have h1 := (hlisted i hi' c e2.2).2
      have h2 := hL.2.2.2.1 i hi' c e2.2
      have hcP := e1.1
      have hcN := e2.1
      omega
  obtain ⟨w1, w2, w3, w4, w5⟩ := merged_writes cfg
    (unlink_block (unlink_block s (NEXT_BLOCK cfg s B)) (PREV_BLOCK cfg s B)) hi _
    (PREV_BLOCK cfg s B) (size_at cfg s B + size_at cfg s (PREV_BLOCK cfg s B) +
      size_at cfg s (NEXT_BLOCK cfg s B))
    (OBF cfg (PACK 0 (size_at cfg s B + size_at cfg s (PREV_BLOCK cfg s B) +
      size_at cfg s (NEXT_BLOCK cfg s B)) 0 0))
    hLU2 (by omega) (by omega) (by rw [OBF_OBF]; exact q2) hclear
  rw [w1] at hco
  refine ⟨_, hco, w2, by rw [w3, OBF_OBF], by rw [w4, w3], ?_⟩
  intro a ha hlink
  rw [w5 a (by omega) (by omega)]
  rw [frameU2 a (fun i hi' c hc => hlink i hi' c (by
    rcases List.mem_cons.1 hc with e | e
    · rw [e]; simp
    · exact List.mem_cons_of_mem _ (List.mem_of_mem_erase e)))]
  exact frameU1 a hlink

/-- The words of a neighbour marked allocated are outside the merged block and are
no link words of a listed block or a list head, so `coalesce` leaves them as
they are. -/
theorem neighbours_untouched (cfg : Config) (fuel : Nat) (s s' : State) (hi : Nat)
    (L : Nat → List Nat) (B R T : Nat) (h : CoalesceOK cfg fuel s hi L B)
    (frame : ∀ a, (a < R ∨ R + T ≤ a) →
      (∀ i, i < cfg.NUM_FREE_LISTS → ∀ c, c ∈ sentinel cfg i :: L i →
        a ≠ c + 8 ∧ a ≠ c + 16) → s'.mem a = s.mem a)
    (hRp : OBF cfg (s.mem (PREV_BLOCK cfg s B)) &&& THIS_BLOCK_ALLOCATED ≠ 0 → B ≤ R)
    (hRn : OBF cfg (s.mem (NEXT_BLOCK cfg s B)) &&& THIS_BLOCK_ALLOCATED ≠ 0 →
      R + T ≤ NEXT_BLOCK cfg s B) :
    (OBF cfg (s.mem (PREV_BLOCK cfg s B)) &&& THIS_BLOCK_ALLOCATED ≠ 0 →
      ∀ a, PREV_BLOCK cfg s B ≤ a → a < B → s'.mem a = s.mem a) ∧
    (OBF cfg (s.mem (NEXT_BLOCK cfg s B)) &&& THIS_BLOCK_ALLOCATED ≠ 0 →
      ∀ a, NEXT_BLOCK cfg s B ≤ a →
        (a < NEXT_BLOCK cfg s B + size_at cfg s (NEXT_BLOCK cfg s B) ∨
          a = NEXT_BLOCK cfg s B) → s'.mem a = s.mem a) := by
  have hNe := next_block_eq cfg fuel s hi L B h
  have hnl := fun x hx i hi' => allocated_not_listed cfg fuel s hi L B x h hx i hi'
  obtain ⟨hL, hbig, hB1, hB2, hB3, hBh, hBf, hP1, hP3, hP2, hlisted, hPfree, hNfree, hfuel, hN3⟩ := h
  have hhi := hL.2.1
  constructor
  · intro hp a h1 h2
    have hR := hRp hp
    refine frame a (Or.inl (by omega)) ?_
    intro i hi' c hc
    rcases List.mem_cons.1 hc with e | e
    · have := hL.1.2.2 i hi'
      rw [e]; omega
    · have hcP : c ≠ PREV_BLOCK cfg s B := fun e1 => hnl _ hp i hi' (e1 ▸ e)
      have h3 := (hlisted i hi' c e).2
      have h4 := hL.2.2.2.1 i hi' c e
      omega
  · intro hn a h1 h2
    have hR := hRn hn
    refine frame a (Or.inr (by omega)) ?_
    intro i hi' c hc
    rcases List.mem_cons.1 hc with e | e
    · have := hL.1.2.2 i hi'
      rw [e]; omega
    · have hcN : c ≠ NEXT_BLOCK cfg s B := fun e1 => hnl _ hn i hi' (e1 ▸ e)
      have h3 := (hlisted i hi' c e).2
      have h4 := hL.2.2.2.1 i hi' c e
      omega

/-- The result of `coalesce`, from the facts of the case at hand. -/
theorem coalesce_finish (cfg : Config) (fuel : Nat) (s s' : State) (hi : Nat)
    (L : Nat → List Nat) (B R T : Nat) (h : CoalesceOK cfg fuel s hi L B)
    (hco : coalesce cfg fuel s B = some (R, s'))
    (hLs : Lists cfg s' hi
      (fun i => ((L i).erase (NEXT_BLOCK cfg s B)).erase (PREV_BLOCK cfg s B)))
    (hh : OBF cfg (s'.mem R) = PACK 0 T 0 0) (hf : s'.mem (R + T - 8) = s'.mem R)
    (frame : ∀ a, (a < R ∨ R + T ≤ a) →
      (∀ i, i < cfg.NUM_FREE_LISTS → ∀ c, c ∈ sentinel cfg i :: L i →
        a ≠ c + 8 ∧ a ≠ c + 16) → s'.mem a = s.mem a)
    (hT : T < 2 ^ 32 ∧ T % 16 = 0)
    (hRp : OBF cfg (s.mem (PREV_BLOCK cfg s B)) &&& THIS_BLOCK_ALLOCATED ≠ 0 → B ≤ R)
    (hRn : OBF cfg (s.mem (NEXT_BLOCK cfg s B)) &&& THIS_BLOCK_ALLOCATED ≠ 0 →
      R + T ≤ NEXT_BLOCK cfg s B) :
    ∃ s', coalesce cfg fuel s B = some (R, s') ∧
      PREV_BLOCK cfg s B < B ∧ B < NEXT_BLOCK cfg s B ∧
      OBF cfg (s'.mem R) = PACK 0 T 0 0 ∧
      GET_PL_SIZE (OBF cfg (s'.mem R)) = 0 ∧ GET_BLOCK_SIZE (OBF cfg (s'.mem R)) = T ∧
      OBF cfg (s'.mem R) &&& THIS_BLOCK_ALLOCATED = 0 ∧
      OBF cfg (s'.mem R) &&& IN_QUICK_LIST = 0 ∧
      s'.mem (R + T - 8) = s'.mem R ∧
      Lists cfg s' hi
        (fun i => ((L i).erase (NEXT_BLOCK cfg s B)).erase (PREV_BLOCK cfg s B)) ∧
      (∀ i, i < cfg.NUM_FREE_LISTS →
        PREV_BLOCK cfg s B ∉ ((L i).erase (NEXT_BLOCK cfg s B)).erase (PREV_BLOCK cfg s B) ∧
        NEXT_BLOCK cfg s B ∉ ((L i).erase (NEXT_BLOCK cfg s B)).erase (PREV_BLOCK cfg s B)) ∧
      (OBF cfg (s.mem (PREV_BLOCK cfg s B)) &&& THIS_BLOCK_ALLOCATED ≠ 0 →
        ∀ a, PREV_BLOCK cfg s B ≤ a → a < B → s'.mem a = s.mem a) ∧
      (OBF cfg (s.mem (NEXT_BLOCK cfg s B)) &&& THIS_BLOCK_ALLOCATED ≠ 0 →
        ∀ a, NEXT_BLOCK cfg s B ≤ a →
          (a < NEXT_BLOCK cfg s B + size_at cfg s (NEXT_BLOCK cfg s B) ∨
            a = NEXT_BLOCK cfg s B) → s'.mem a = s.mem a) := by
  have hNe := next_block_eq cfg fuel s hi L B h
  obtain ⟨u1, u2⟩ := neighbours_untouched cfg fuel s s' hi L B R T h frame hRp hRn
  obtain ⟨p1, p2, p3, p4⟩ := PACK_fields 0 T 0 0 (by norm_num) hT.1 hT.2 (by norm_num)
    (by norm_num)
  have hnd := h.1.2.2.2.2.1
  have hP3 := h.2.2.2.2.2.2.2.2.1
  have hP2 := h.2.2.2.2.2.2.2.2.2.1
  have hB2 := h.2.2.2.1
  refine ⟨s', hco, by omega, by omega, hh, by rw [hh]; exact p1, by rw [hh]; exact p2,
    by rw [hh]; exact p3, by rw [hh]; exact p4, hf, hLs, ?_, u1, u2⟩
  intro i hi'
  constructor
  · intro hm
    exact ((List.Nodup.mem_erase_iff (List.Nodup.erase _ (hnd i hi'))).1 hm).1 rfl
  · intro hm
    exact ((List.Nodup.mem_erase_iff (hnd i hi')).1 (List.mem_of_mem_erase hm)).1 rfl

/-! ## The first page and allocations carved from it -/

theorem init_main_lists_pages (cfg : Config) (n : Nat) (s : State) :
    (init_main_lists cfg n s).pages = s.pages := by
  induction n with
  | zero => rfl
  | succ n ih => exact ih

theorem init_main_lists_qlFirst (cfg : Config) (n : Nat) (s : State) :
    (init_main_lists cfg n s).qlFirst = s.qlFirst := by
  induction n with
  | zero => rfl
  | succ n ih => exact ih

theorem init_main_lists_mem (cfg : Config) (n : Nat) (s : State)
    (hw : ∀ i, i < n → sentinel cfg i + 24 ≤ WORD) :
    (∀ i, i < n → (init_main_lists cfg n s).mem (sentinel cfg i + 8) = sentinel cfg i ∧
      (init_main_lists cfg n s).mem (sentinel cfg i + 16) = sentinel cfg i) ∧
    (∀ a, (∀ i, i < n → a ≠ sentinel cfg i + 8 ∧ a ≠ sentinel cfg i + 16) →
      (init_main_lists cfg n s).mem a = s.mem a) := by
  induction n with
  | zero => exact ⟨fun i h => absurd h (Nat.not_lt_zero i), fun a _ => rfl⟩
  | succ n ih =>
    obtain ⟨ih1, ih2⟩ := ih (fun i h => hw i (by omega))
    have hn := hw n (by omega)
    have e1 : wadd (sentinel cfg n) NEXT_OFF = sentinel cfg n + 8 := wadd_next hn
    have e2 : wadd (sentinel cfg n) PREV_OFF = sentinel cfg n + 16 := wadd_prev hn
    have hm : ∀ x, (init_main_lists cfg (n + 1) s).mem x =
        if x = sentinel cfg n + 16 then sentinel cfg n
        else if x = sentinel cfg n + 8 then sentinel cfg n
        else (init_main_lists cfg n s).mem x := by
      intro x
      rw [init_main_lists]
      simp only [write_mem, e1, e2]
    constructor
    · intro i hi
      rw [hm, hm]
      by_cases h : i = n
      · subst h; simp
      · have hlt : i < n := by omega
        have hs : sentinel cfg i + 24 ≤ sentinel cfg n := by
          unfold sentinel SF_BLOCK_SZ; omega
        rw [if_neg (by omega), if_neg (by omega), if_neg (by omega), if_neg (by omega)]
        exact ih1 i hlt
    · intro a ha
      rw [hm, if_neg (ha n (by omega)).2, if_neg (ha n (by omega)).1]
      exact ih2 a (fun i h => ha i (by omega))

theorem lists_empty (cfg : Config) (s : State) (hi : Nat) (hh : HeadsOutside cfg hi)
    (he : sf_mem_end cfg s ≤ hi)
    (hc : ∀ i, i < cfg.NUM_FREE_LISTS → s.mem (sentinel cfg i + 8) = sentinel cfg i ∧
      s.mem (sentinel cfg i + 16) = sentinel cfg i) :
    Lists cfg s hi (fun _ => []) :=
  ⟨hh, he, fun i hi' => hc i hi', fun _ _ x hx => absurd hx (List.not_mem_nil x),
    fun _ _ => List.nodup_nil, fun _ _ _ _ x hx => absurd hx (List.not_mem_nil x)⟩

theorem heap_word (cfg : Config) (hi : Nat) (hh : HeadsOutside cfg hi) (x : Nat)
    (h1 : sf_mem_start cfg ≤ x) (h2 : x < hi) (i : Nat) (hi' : i < cfg.NUM_FREE_LISTS) :
    x ≠ sentinel cfg i ∧ x ≠ sentinel cfg i + 8 ∧ x ≠ sentinel cfg i + 16 := by
  have := hh.2.2 i hi'
  omega

theorem create_malloc_block_eq (cfg : Config) (s : State) (F n bs : Nat)
    (hS : size_at cfg s F = bs) (h8 : 8 ≤ bs) (hW : F + bs < WORD) :
    create_malloc_block cfg s F n =
      (F + 8, (s.write F (OBF cfg (PACK n bs 0 1))).write (F + bs - 8)
        (OBF cfg (PACK n bs 0 1))) := by
  have hWe := WORD_eq
  have e1 : wadd F MROW = F + 8 := wadd_eq (by unfold MROW; omega)
  have e2 : wadd F bs = F + bs := wadd_eq hW
  have e3 : wsub (F + bs) MROW = F + bs - 8 := by
    rw [wsub_eq (by unfold MROW; omega) hW]; rfl
  unfold size_at at hS
  unfold create_malloc_block FOOTER
  simp only
  rw [hS, e1, e2, e3, write_mem_eq]

theorem initialize_heap_eq (cfg : Config) (t : State) (hpg : t.pages < cfg.maxPages)
    (hW : sf_mem_start cfg + 4096 < WORD) :
    initialize_heap cfg t = (0, insert_ml cfg
      (((((({ t with pages := t.pages + 1 } : State).write (sf_mem_start cfg + 8)
        (OBF cfg (PACK 0 32 0 1))).write (sf_mem_start cfg + 32)
        (OBF cfg (PACK 0 32 0 1))).write (sf_mem_start cfg + 40)
        (OBF cfg (PACK 0 4048 0 0))).write (sf_mem_start cfg + 4080)
        (OBF cfg (PACK 0 4048 0 0))).write (sf_mem_start cfg + 4088) (OBF cfg 1))
      (sf_mem_start cfg + 40)) := by
  have hWe := WORD_eq
  have e1 : wadd (sf_mem_start cfg) MROW = sf_mem_start cfg + 8 :=
    wadd_eq (by unfold MROW; omega)
  have e0 : 4 * MROW = 32 := rfl
  have e2 : GET_BLOCK_SIZE (PACK 0 32 0 1) = 32 := by decide
  have e3 : wadd (sf_mem_start cfg + 8) 32 = sf_mem_start cfg + 40 := by
    rw [wadd_eq (by omega)]
  have e4 : wsub (sf_mem_start cfg + 40) MROW = sf_mem_start cfg + 32 := by
    rw [wsub_eq (by unfold MROW; omega) (by omega)]; unfold MROW; omega
  have e5 : 4096 - EPILOGUE_SIZE - PROLOGUE_SIZE - MROW = 4048 := rfl
  have e6 : wadd (sf_mem_start cfg + 40) 4048 = sf_mem_start cfg + 4088 := by
    rw [wadd_eq (by omega)]
  have e7 : wsub (sf_mem_start cfg + 4088) MROW = sf_mem_start cfg + 4080 := by
    rw [wsub_eq (by unfold MROW; omega) (by omega)]; unfold MROW; omega
  have e8 : GET_BLOCK_SIZE (PACK 0 4048 0 0) = 4048 := by decide
  have n1 : sf_mem_start cfg + 40 ≠ sf_mem_start cfg + 4080 := by omega
  unfold initialize_heap
  rw [sf_mem_grow_some _ _ hpg]
  simp only
  unfold FOOTER NEXT_BLOCK create_free_block
  simp only
  rw [e1, e0, write_mem_eq, OBF_OBF, e2, e3, e4, e5, e6, e7, write_mem_eq,
    write_mem_ne _ _ n1, write_mem_eq, OBF_OBF, e8, e6]

/-- One allocation of 4 bytes from a heap of one page whose only free block is
`F`, of `S` bytes, ending at the epilogue. -/
theorem carve_one (cfg : Config) (fuel : Nat) (s : State) (F S : Nat) (hpg : s.pages = 1)
    (hq : s.qlFirst (QL_INDEX 32) = 0)
    (hL : Lists cfg s (sf_mem_start cfg + 4096)
      (fun i => if i = get_ml_index cfg S then [F] else []))
    (hF : s.mem F = OBF cfg (PACK 0 S 0 0)) (hS64 : 64 ≤ S) (hS16 : S % 16 = 0)
    (hFS : F + S + 8 = sf_mem_start cfg + 4096) (hF40 : sf_mem_start cfg + 40 ≤ F)
    (hfuel : 2 ≤ fuel) :
    ∃ s', sf_malloc cfg fuel s 4 = some (F + 8, s') ∧ s'.pages = 1 ∧
      s'.qlFirst (QL_INDEX 32) = 0 ∧ s'.mem F = OBF cfg (PACK 4 32 0 1) ∧
      s'.mem (F + 24) = OBF cfg (PACK 4 32 0 1) ∧
      s'.mem (F + 32) = OBF cfg (PACK 0 (S - 32) 0 0) ∧
      s'.mem (F + S - 8) = OBF cfg (PACK 0 (S - 32) 0 0) ∧
      Lists cfg s' (sf_mem_start cfg + 4096)
        (fun i => if i = get_ml_index cfg (S - 32) then [F + 32] else []) ∧
      (∀ a, sf_mem_start cfg ≤ a → a < sf_mem_start cfg + 4096 → (a < F ∨ F + S ≤ a) →
        s'.mem a = s.mem a) := by
  have hWe := WORD_eq
  obtain ⟨hN, hhiW, hout⟩ := hL.1
  have hh := hL.1
  have hSlt : S < 2 ^ 32 := by omega
  have hsz : size_at cfg s F = S := by
    unfold size_at
    rw [hF, OBF_OBF]
    exact (PACK_fields 0 S 0 0 (by norm_num) hSlt hS16 (by norm_num) (by norm_num)).2.1
  have hk := get_ml_index_lt cfg S hN
  have hFm : F ∈ (fun i => if i = get_ml_index cfg S then [F] else []) (get_ml_index cfg S) := by
    simp
  have hmem : ∀ i c, c ∈ sentinel cfg i :: (fun i => if i = get_ml_index cfg S then [F] else []) i →
      c = sentinel cfg i ∨ c = F := by
    intro i c hc
    rcases List.mem_cons.1 hc with e | e
    · exact Or.inl e
    · right
      have e2 : c ∈ (if i = get_ml_index cfg S then [F] else []) := e
      split_ifs at e2
      · simpa using e2
      · simp at e2
  have hcell : ∀ x, sf_mem_start cfg ≤ x → x < sf_mem_start cfg + 4096 → x ≠ F + 8 →
      x ≠ F + 16 → ∀ i, i < cfg.NUM_FREE_LISTS →
      ∀ c, c ∈ sentinel cfg i :: (fun i => if i = get_ml_index cfg S then [F] else []) i →
        x ≠ c + 8 ∧ x ≠ c + 16 := by
    intro x h1 h2 h3 h4 i hi' c hc
    have hw := heap_word cfg _ hh x h1 h2 i hi'
    rcases hmem i c hc with e | e
    · rw [e]; exact ⟨hw.2.1, hw.2.2⟩
    · rw [e]; exact ⟨h3, h4⟩
  -- the fit
  have hfind : find_fit cfg fuel s 32 = some F := by
    apply find_fit_head cfg fuel s _ _ 32 F [] hL
    · rw [hsz]; simp
    · rw [hsz]; omega
    · intro i hi' x hx hne
      exfalso
      have e2 : x ∈ (if i = get_ml_index cfg S then [F] else []) := hx
      split_ifs at e2
      · simp at e2; exact hne e2
      · simp at e2
    · intro i hi'
      show (if i = get_ml_index cfg S then [F] else []).length + 1 ≤ fuel
      split_ifs
      · simp; omega
      · simp; omega
  have hF0 : F ≠ 0 := by omega
  have hb : malloc_block_size 4 = 32 := by decide
  have hloop : malloc_fit_loop cfg fuel (malloc_block_size 4) fuel s =
      some (F, unlink_block s F) := by
    obtain ⟨f, rfl⟩ : ∃ f, fuel = f + 1 := ⟨fuel - 1, by omega⟩
    rw [hb, malloc_fit_loop]
    simp only [hfind, hF0, if_false]
  have hr := sf_malloc_of_loop cfg fuel s 4 F _ (by norm_num) (by omega)
    (fun _ => by rw [hb]; exact hq) hloop hF0
  rw [hb] at hr
  -- the unlinked state
  obtain ⟨hLU, frameU⟩ := lists_unlink cfg s _ _ hL _ F hk hFm
  have hLU0 : Lists cfg (unlink_block s F) (sf_mem_start cfg + 4096) (fun _ => []) := by
    apply lists_congr cfg _ _ _ _ hLU
    intro i _
    show ([] : List Nat) = (if i = get_ml_index cfg S then [F] else []).erase F
    split_ifs <;> simp
  have huF : (unlink_block s F).mem F = s.mem F :=
    frameU F (hcell F (by omega) (by omega) (by omega) (by omega))
  have hszu : size_at cfg (unlink_block s F) F = S := by
    unfold size_at; rw [huF]; exact hsz
  have hsp := split_free_block_eq cfg (unlink_block s F) F 32 S hszu (by omega) (by omega)
    (by omega) (by omega)
  have e24 : F + 32 - 8 = F + 24 := by omega
  rw [e24] at hsp
  -- the four writes
  have hw1 : ∀ a, sf_mem_start cfg ≤ a → a < sf_mem_start cfg + 4096 →
      ∀ i, i < cfg.NUM_FREE_LISTS → ∀ c, c ∈ sentinel cfg i :: (fun _ : Nat => ([] : List Nat)) i →
        a ≠ c ∧ a ≠ c + 8 ∧ a ≠ c + 16 := by
    intro a h1 h2 i hi' c hc
    have hw := heap_word cfg _ hh a h1 h2 i hi'
    have e : c = sentinel cfg i := by simpa using hc
    rw [e]; exact hw
  have hLW := lists_write cfg _ _ _
    (lists_write cfg _ _ _
      (lists_write cfg _ _ _
        (lists_write cfg _ _ _ hLU0 F (OBF cfg (PACK 0 32 0 0)) (hw1 F (by omega) (by omega)))
        (F + 24) (OBF cfg (PACK 0 32 0 0)) (hw1 _ (by omega) (by omega)))
      (F + 32) (OBF cfg (PACK 0 (S - 32) 0 0)) (hw1 _ (by omega) (by omega)))
    (F + S - 8) (OBF cfg (PACK 0 (S - 32) 0 0)) (hw1 _ (by omega) (by omega))
  generalize hWdef : ((((unlink_block s F).write F (OBF cfg (PACK 0 32 0 0))).write (F + 24)
      (OBF cfg (PACK 0 32 0 0))).write (F + 32) (OBF cfg (PACK 0 (S - 32) 0 0))).write
      (F + S - 8) (OBF cfg (PACK 0 (S - 32) 0 0)) = W at hLW hsp
  have hWm : ∀ a, W.mem a = if a = F + S - 8 then OBF cfg (PACK 0 (S - 32) 0 0)
      else if a = F + 32 then OBF cfg (PACK 0 (S - 32) 0 0)
      else if a = F + 24 then OBF cfg (PACK 0 32 0 0)
      else if a = F then OBF cfg (PACK 0 32 0 0) else (unlink_block s F).mem a := by
    intro a; rw [← hWdef]; simp only [write_mem]
  have hWp : W.pages = 1 := by rw [← hWdef]; simp only [write_pages, unlink_block_pages]; exact hpg
  have hWq : W.qlFirst = s.qlFirst := by rw [← hWdef]; rfl
  have hszW : size_at cfg W (F + 32) = S - 32 := by
    unfold size_at
    rw [hWm, if_neg (by omega), if_pos rfl, OBF_OBF]
    exact (PACK_fields 0 (S - 32) 0 0 (by norm_num) (by omega) (by omega) (by norm_num)
      (by norm_num)).2.1
  have hendW : sf_mem_end cfg W = sf_mem_start cfg + 4096 := by
    unfold sf_mem_end sf_mem_start PAGE_SZ; rw [hWp]
  obtain ⟨hLI, frameI⟩ := lists_insert cfg W _ _ hLW (F + 32) (by omega)
    (by rw [hszW, hendW]; omega) (by rw [hszW]; omega)
    (fun i _ x hx => absurd hx (List.not_mem_nil x))
  rw [hszW] at hLI
  generalize hIdef : insert_ml cfg W (F + 32) = I at hLI frameI hsp
  have hIp : I.pages = 1 := by rw [← hIdef, insert_ml_pages]; exact hWp
  have hIq : I.qlFirst = s.qlFirst := by rw [← hIdef]; exact hWq
  have hIm : ∀ a, sf_mem_start cfg ≤ a → a < sf_mem_start cfg + 4096 → a ≠ F + 40 →
      a ≠ F + 48 → I.mem a = W.mem a := by
    intro a h1 h2 h3 h4
    apply frameI a (by omega) (by omega)
    intro i hi' c hc
    have := hw1 a h1 h2 i hi' c hc
    exact ⟨this.2.1, this.2.2⟩
  have hszI : size_at cfg I F = 32 := by
    unfold size_at
    rw [hIm F (by omega) (by omega) (by omega) (by omega), hWm, if_neg (by omega),
      if_neg (by omega), if_neg (by omega), if_pos rfl, OBF_OBF]
    decide
  have hcm := create_malloc_block_eq cfg I F 4 32 hszI (by omega) (by omega)
  rw [e24] at hcm
  rw [hsp] at hr
  simp only at hr
  rw [hcm] at hr
  simp only at hr
  have hmemI : ∀ i c, c ∈ sentinel cfg i ::
      (fun i => if i = get_ml_index cfg (S - 32) then [F + 32] else []) i →
      c = sentinel cfg i ∨ c = F + 32 := by
    intro i c hc
    rcases List.mem_cons.1 hc with e | e
    · exact Or.inl e
    · right
      have e2 : c ∈ (if i = get_ml_index cfg (S - 32) then [F + 32] else []) := e
      split_ifs at e2
      · simpa using e2
      · simp at e2
  have hw2 : ∀ a, sf_mem_start cfg ≤ a → a < F + 32 →
      ∀ i, i < cfg.NUM_FREE_LISTS → ∀ c, c ∈ sentinel cfg i ::
        (fun i => if i = get_ml_index cfg (S - 32) then [F + 32] else []) i →
        a ≠ c ∧ a ≠ c + 8 ∧ a ≠ c + 16 := by
    intro a h1 h2 i hi' c hc
    have hw := heap_word cfg _ hh a h1 (by omega) i hi'
    rcases hmemI i c hc with e | e
    · rw [e]; exact hw
    · rw [e]; omega
  have hLC := lists_write cfg _ _ _
    (lists_write cfg _ _ _ hLI F (OBF cfg (PACK 4 32 0 1)) (hw2 F (by omega) (by omega)))
    (F + 24) (OBF cfg (PACK 4 32 0 1)) (hw2 _ (by omega) (by omega))
  refine ⟨_, hr, ?_, ?_, ?_, ?_, ?_, ?_, ?_, ?_⟩
  · rw [update_pl_pages, write_pages, write_pages]; exact hIp
  · have : (update_pl ((I.write F (OBF cfg (PACK 4 32 0 1))).write (F + 24)
        (OBF cfg (PACK 4 32 0 1))) 4).qlFirst = I.qlFirst := rfl
    rw [this, hIq]; exact hq
  · rw [update_pl_mem, write_mem_ne _ _ (by omega), write_mem_eq]
  · rw [update_pl_mem, write_mem_eq]
  · rw [update_pl_mem, write_mem_ne _ _ (by omega), write_mem_ne _ _ (by omega),
      hIm _ (by omega) (by omega) (by omega) (by omega), hWm, if_neg (by omega), if_pos rfl]
  · rw [update_pl_mem, write_mem_ne _ _ (by omega), write_mem_ne _ _ (by omega),
      hIm _ (by omega) (by omega) (by omega) (by omega), hWm, if_pos rfl]
  · exact lists_frame cfg _ _ _ _ hLC (fun _ _ _ _ => ⟨rfl, rfl⟩) (fun _ _ _ _ => rfl)
      (le_of_eq rfl) (by
        have : sf_mem_end cfg (update_pl ((I.write F (OBF cfg (PACK 4 32 0 1))).write (F + 24)
          (OBF cfg (PACK 4 32 0 1))) 4) = sf_mem_end cfg I := rfl
        rw [this]; unfold sf_mem_end sf_mem_start PAGE_SZ; rw [hIp])
  · intro a h1 h2 h3
    rw [update_pl_mem, write_mem_ne _ _ (by omega), write_mem_ne _ _ (by omega),
      hIm _ h1 h2 (by omega) (by omega), hWm, if_neg (by omega), if_neg (by omega),
      if_neg (by omega), if_neg (by omega)]
    exact frameU a (hcell a h1 h2 (by omega) (by omega))

/-- The initialisation that the first call of `sf_malloc` runs on the fresh
heap succeeds and lays out the first page. -/
theorem carved_init (cfg : Config) (mem : Nat → Nat)
    (hh : HeadsOutside cfg (sf_mem_start cfg + 4096)) (hpg : 0 < cfg.maxPages) :
    (malloc_init cfg (fresh mem)).1 = 0 ∧ Carved cfg (malloc_init cfg (fresh mem)).2 0 := by
  have hWe := WORD_eq
  obtain ⟨hN, hhiW, hout⟩ := hh
  have hheap : HEAP_SIZE cfg (fresh mem) = 0 := by
    unfold HEAP_SIZE sf_mem_end sf_mem_start
    have : (fresh mem).pages = 0 := rfl
    rw [this]; omega
  have htp : (initialize_free_lists cfg (fresh mem)).pages = 0 := by
    unfold initialize_free_lists
    simp only
    rw [init_main_lists_pages]; rfl
  have htq : (initialize_free_lists cfg (fresh mem)).qlFirst = fun _ => 0 := by
    unfold initialize_free_lists
    simp only
    rw [init_main_lists_qlFirst]; rfl
  have htm : ∀ i, i < cfg.NUM_FREE_LISTS →
      (initialize_free_lists cfg (fresh mem)).mem (sentinel cfg i + 8) = sentinel cfg i ∧
      (initialize_free_lists cfg (fresh mem)).mem (sentinel cfg i + 16) = sentinel cfg i := by
    unfold initialize_free_lists
    simp only
    exact (init_main_lists_mem cfg _ _ (fun i h => (hout i h).1)).1
  have hinit : malloc_init cfg (fresh mem) =
      initialize_heap cfg (initialize_free_lists cfg (fresh mem)) := by
    unfold malloc_init
    rw [if_pos hheap]
  rw [hinit]
  generalize initialize_free_lists cfg (fresh mem) = t at htp htq htm
  rw [initialize_heap_eq cfg t (by omega) (by omega)]
  refine ⟨rfl, ?_⟩
  show Carved cfg (insert_ml cfg _ _) 0
  have hT : Lists cfg ({ t with pages := t.pages + 1 } : State) (sf_mem_start cfg + 4096)
      (fun _ => []) := by
    refine lists_empty cfg ({ t with pages := t.pages + 1 } : State) _ ⟨hN, hhiW, hout⟩ ?_ htm
    show sf_mem_start cfg + PAGE_SZ * (t.pages + 1) ≤ _
    rw [htp]; unfold PAGE_SZ; omega
  have hw1 : ∀ a, sf_mem_start cfg ≤ a → a < sf_mem_start cfg + 4096 →
      ∀ i, i < cfg.NUM_FREE_LISTS → ∀ c, c ∈ sentinel cfg i :: (fun _ : Nat => ([] : List Nat)) i →
        a ≠ c ∧ a ≠ c + 8 ∧ a ≠ c + 16 := by
    intro a h1 h2 i hi' c hc
    have hw := heap_word cfg _ ⟨hN, hhiW, hout⟩ a h1 h2 i hi'
    have e : c = sentinel cfg i := by simpa using hc
    rw [e]; exact hw
  have hLW := lists_write cfg _ _ _
    (lists_write cfg _ _ _
      (lists_write cfg _ _ _
        (lists_write cfg _ _ _
          (lists_write cfg _ _ _ hT (sf_mem_start cfg + 8) (OBF cfg (PACK 0 32 0 1))
            (hw1 _ (by omega) (by omega)))
          (sf_mem_start cfg + 32) (OBF cfg (PACK 0 32 0 1)) (hw1 _ (by omega) (by omega)))
        (sf_mem_start cfg + 40) (OBF cfg (PACK 0 4048 0 0)) (hw1 _ (by omega) (by omega)))
      (sf_mem_start cfg + 4080) (OBF cfg (PACK 0 4048 0 0)) (hw1 _ (by omega) (by omega)))
    (sf_mem_start cfg + 4088) (OBF cfg 1) (hw1 _ (by omega) (by omega))
  generalize hWdef : ((((({ t with pages := t.pages + 1 } : State).write (sf_mem_start cfg + 8)
        (OBF cfg (PACK 0 32 0 1))).write (sf_mem_start cfg + 32)
        (OBF cfg (PACK 0 32 0 1))).write (sf_mem_start cfg + 40)
        (OBF cfg (PACK 0 4048 0 0))).write (sf_mem_start cfg + 4080)
        (OBF cfg (PACK 0 4048 0 0))).write (sf_mem_start cfg + 4088) (OBF cfg 1) = W at hLW
  have hWm : ∀ a, W.mem a = if a = sf_mem_start cfg + 4088 then OBF cfg 1
      else if a = sf_mem_start cfg + 4080 then OBF cfg (PACK 0 4048 0 0)
      else if a = sf_mem_start cfg + 40 then OBF cfg (PACK 0 4048 0 0)
      else if a = sf_mem_start cfg + 32 then OBF cfg (PACK 0 32 0 1)
      else if a = sf_mem_start cfg + 8 then OBF cfg (PACK 0 32 0 1) else t.mem a := by
    intro a; rw [← hWdef]; simp only [write_mem]
  have hWp : W.pages = 1 := by
    rw [← hWdef]; simp only [write_pages]; rw [htp]
  have hWq : W.qlFirst = t.qlFirst := by rw [← hWdef]; rfl
  have hszW : size_at cfg W (sf_mem_start cfg + 40) = 4048 := by
    unfold size_at
    rw [hWm, if_neg (by omega), if_neg (by omega), if_pos rfl, OBF_OBF]
    decide
  have hendW : sf_mem_end cfg W = sf_mem_start cfg + 4096 := by
    unfold sf_mem_end sf_mem_start PAGE_SZ; rw [hWp]
  obtain ⟨hLI, frameI⟩ := lists_insert cfg W _ _ hLW (sf_mem_start cfg + 40) (by omega)
    (by have := hszW; have := hendW; omega) (by have := hszW; omega)
    (fun i _ x hx => absurd hx (List.not_mem_nil x))
  rw [hszW] at hLI
  have hIm : ∀ a, sf_mem_start cfg ≤ a → a < sf_mem_start cfg + 4096 →
      a ≠ sf_mem_start cfg + 48 → a ≠ sf_mem_start cfg + 56 →
      (insert_ml cfg W (sf_mem_start cfg + 40)).mem a = W.mem a := by
    intro a h1 h2 h3 h4
    apply frameI a (by omega) (by omega)
    intro i hi' c hc
    have := hw1 a h1 h2 i hi' c hc
    exact ⟨this.2.1, this.2.2⟩
  refine ⟨?_, ?_, ?_, ?_, ?_, ?_, ?_, ?_, ?_⟩
  · rw [insert_ml_pages]; exact hWp
  · have : (insert_ml cfg W (sf_mem_start cfg + 40)).qlFirst = W.qlFirst := rfl
    rw [this, hWq, htq]
  · rw [hIm _ (by omega) (by omega) (by omega) (by omega), hWm, if_neg (by omega),
      if_neg (by omega), if_neg (by omega), if_neg (by omega), if_pos rfl]
  · rw [hIm _ (by omega) (by omega) (by omega) (by omega), hWm, if_neg (by omega),
      if_neg (by omega), if_neg (by omega), if_pos rfl]
  · intro i h; omega
  · rw [hIm _ (by omega) (by omega) (by omega) (by omega), hWm, if_neg (by omega),
      if_neg (by omega), if_pos (by omega)]
  · rw [hIm _ (by omega) (by omega) (by omega) (by omega), hWm, if_neg (by omega),
      if_pos rfl]
  · rw [hIm _ (by omega) (by omega) (by omega) (by omega), hWm, if_pos rfl]
  · exact hLI

/-- One more allocation of 4 bytes from the carved heap. -/
theorem carved_step (cfg : Config) (fuel : Nat) (s : State) (j : Nat) (h : Carved cfg s j)
    (hj : j < 125) (hfuel : 2 ≤ fuel) :
    ∃ s', sf_malloc cfg fuel s 4 = some (sf_mem_start cfg + 48 + 32 * j, s') ∧
      Carved cfg s' (j + 1) := by
  obtain ⟨hpg, hq, hp1, hp2, hblk, hF, hFf, hep, hL⟩ := h
  have hWe := WORD_eq
  obtain ⟨s', hr, c1, c2, c3, c4, c5, c6, c7, c8⟩ := carve_one cfg fuel s
    (sf_mem_start cfg + 40 + 32 * j) (4048 - 32 * j) hpg hq hL hF (by omega) (by omega)
    (by omega) (by omega) hfuel
  have e1 : sf_mem_start cfg + 40 + 32 * j + 8 = sf_mem_start cfg + 48 + 32 * j := by omega
  have e2 : sf_mem_start cfg + 40 + 32 * j + 24 = sf_mem_start cfg + 64 + 32 * j := by omega
  have e3 : sf_mem_start cfg + 40 + 32 * j + 32 = sf_mem_start cfg + 40 + 32 * (j + 1) := by
    omega
  have e4 : 4048 - 32 * j - 32 = 4048 - 32 * (j + 1) := by omega
  have e5 : sf_mem_start cfg + 40 + 32 * j + (4048 - 32 * j) - 8 = sf_mem_start cfg + 4080 := by
    omega
  rw [e1] at hr
  rw [e2] at c4
  rw [e3, e4] at c5 c7
  rw [e4, e5] at c6
  refine ⟨s', hr, c1, c2, ?_, ?_, ?_, c5, c6, ?_, c7⟩
  · rw [c8 _ (by omega) (by omega) (by omega)]; exact hp1
  · rw [c8 _ (by omega) (by omega) (by omega)]; exact hp2
  · intro i hi'
    by_cases h : i = j
    · rw [h]; exact ⟨c3, c4⟩
    · obtain ⟨b1, b2⟩ := hblk i (by omega)
      rw [c8 _ (by omega) (by omega) (by omega), c8 _ (by omega) (by omega) (by omega)]
      exact ⟨b1, b2⟩
  · rw [c8 _ (by omega) (by omega) (by omega)]; exact hep

/-- Allocations of 4 bytes in a row carve the free block from its start. -/
theorem carved_run (cfg : Config) (fuel : Nat) (hfuel : 2 ≤ fuel) (m : Nat) :
    ∀ (s : State) (j : Nat), Carved cfg s j → j + m ≤ 125 →
      ∃ s', run cfg fuel (alloc4s m) s =
          some ((List.range m).map (fun i => sf_mem_start cfg + 48 + 32 * (j + i)), s') ∧
        Carved cfg s' (j + m) := by
  induction m with
  | zero => intro s j h _; exact ⟨s, rfl, h⟩
  | succ m ih =>
    intro s j h hjm
    obtain ⟨s1, hr1, hc1⟩ := carved_step cfg fuel s j h (by omega) hfuel
    obtain ⟨s2, hr2, hc2⟩ := ih s1 (j + 1) hc1 (by omega)
    refine ⟨s2, ?_, ?_⟩
    · have e : alloc4s (m + 1) = Call.malloc 4 :: alloc4s m := rfl
      rw [e, run]
      have hs : step cfg fuel s (Call.malloc 4) = sf_malloc cfg fuel s 4 := rfl
      rw [hs, hr1]
      simp only [hr2]
      rw [List.range_succ_eq_map, List.map_cons, List.map_map]
      have e0 : (fun i => sf_mem_start cfg + 48 + 32 * (j + i)) ∘ Nat.succ =
          fun i => sf_mem_start cfg + 48 + 32 * (j + 1 + i) := by
        funext i
        simp only [Function.comp]
        omega
      rw [e0]
      rfl
    · have e : j + (m + 1) = j + 1 + m := by omega
      rw [e]; exact hc2

/-- The first call of `sf_malloc` on the fresh heap continues from the
initialised state. -/
theorem sf_malloc_after_init (cfg : Config) (fuel : Nat) (s s0 : State) (n : Nat)
    (hn : n ≠ 0) (h1 : malloc_init cfg s = (0, s0)) (h2 : malloc_init cfg s0 = (0, s0)) :
    sf_malloc cfg fuel s n = sf_malloc cfg fuel s0 n := by
  unfold sf_malloc
  rw [if_neg hn, if_neg hn, h1, h2]

/-! ## Allocation from a main list followed by `sf_free` -/

theorem remove_ml_keeps (cfg : Config) (fuel : Nat) (s : State) (x : Nat) (r : Bool)
    (s1 : State) (h : remove_ml cfg fuel s x = some (r, s1)) :
    s1.pages = s.pages ∧ s1.qlFirst = s.qlFirst ∧ s1.qlLength = s.qlLength := by
  unfold remove_ml at h
  simp only at h
  split at h
  · exact absurd h (by simp)
  · split at h
    · simp only [Option.some.injEq, Prod.mk.injEq] at h
      obtain ⟨_, e⟩ := h
      rw [← e]; exact ⟨rfl, rfl, rfl⟩
    · simp only [Option.some.injEq, Prod.mk.injEq] at h
      obtain ⟨_, e⟩ := h
      rw [← e]; exact ⟨rfl, rfl, rfl⟩

theorem coalesce_keeps (cfg : Config) (fuel : Nat) (s : State) (B R : Nat) (s1 : State)
    (h : coalesce cfg fuel s B = some (R, s1)) :
    s1.pages = s.pages ∧ s1.qlFirst = s.qlFirst ∧ s1.qlLength = s.qlLength := by
  unfold coalesce at h
  simp only at h
  split at h
  · simp only [Option.some.injEq, Prod.mk.injEq] at h
    obtain ⟨_, e⟩ := h
    rw [← e]; exact ⟨rfl, rfl, rfl⟩
  · split at h
    · split at h
      · exact absurd h (by simp)
      · rename_i ret u hrem
        obtain ⟨k1, k2, k3⟩ := remove_ml_keeps cfg fuel s _ ret u hrem
        simp only [Option.some.injEq, Prod.mk.injEq] at h
        obtain ⟨_, e⟩ := h
        rw [← e]
        cases ret <;> exact ⟨k1, k2, k3⟩
    · split at h
      · split at h
        · exact absurd h (by simp)
        · rename_i ret u hrem
          obtain ⟨k1, k2, k3⟩ := remove_ml_keeps cfg fuel s _ ret u hrem
          simp only [Option.some.injEq, Prod.mk.injEq] at h
          obtain ⟨_, e⟩ := h
          rw [← e]
          cases ret <;> exact ⟨k1, k2, k3⟩
      · split at h
        · exact absurd h (by simp)
        · rename_i ret u hrem
          split at h
          · exact absurd h (by simp)
          · rename_i ret1 u1 hrem1
            obtain ⟨k1, k2, k3⟩ := remove_ml_keeps cfg fuel s _ ret u hrem
            obtain ⟨j1, j2, j3⟩ := remove_ml_keeps cfg fuel _ _ ret1 u1 hrem1
            simp only [Option.some.injEq, Prod.mk.injEq] at h
            obtain ⟨_, e⟩ := h
            rw [← e]
            cases ret <;> cases ret1 <;>
              exact ⟨j1.trans k1, j2.trans k2, j3.trans k3⟩

/-- The call `sf_free` on a valid block once `coalesce` has returned a block of
at least `QL_MAX_SIZE` bytes: the block is inserted in a main list. -/
theorem sf_free_main (cfg : Config) (fuel : Nat) (t : State) (B n b R : Nat) (t2 : State)
    (hn : n < 2 ^ 32) (hb32 : 32 ≤ b) (hb16 : b % 16 = 0) (hbl : b < 2 ^ 32)
    (hBa : B % 16 = 8) (hBs : sf_mem_start cfg ≤ B) (hBe : B + 8 < WORD)
    (hplace : n * 4294967296 + 2 * b ≤ sf_mem_end cfg t)
    (hhdr : t.mem B = OBF cfg (PACK n b 0 1))
    (hco : coalesce cfg fuel (create_free_block cfg t b B) B = some (R, t2))
    (hT : ¬ GET_BLOCK_SIZE (OBF cfg (t2.mem R)) < QL_MAX_SIZE) :
    sf_free cfg fuel t (B + 8) = Outcome.ret () (update_pl (insert_ml cfg t2 R) (wsub 0 n)) := by
  have hval := validate_pp_ok cfg t B n b hn hb32 hb16 hbl hBa hBs hBe hplace hhdr
  obtain ⟨f1, f2, f3, f4⟩ := PACK_fields n b 0 1 hn hbl hb16 (by norm_num) (by norm_num)
  have e1 : wsub (B + 8) MROW = B := by unfold wsub MROW WORD at *; omega
  unfold sf_free
  rw [if_neg (by rw [hval]; decide)]
  simp only [e1, hhdr, OBF_OBF, f1, f2, hco, if_neg hT]

/-- A heap address inside the listed block `F` is no header or link word of a
list head or of another listed block. -/
theorem inside_block (cfg : Config) (s : State) (hi : Nat) (L : Nat → List Nat) (F S : Nat)
    (hL : Lists cfg s hi L) (hF1 : sf_mem_start cfg ≤ F) (hF2 : F + S ≤ sf_mem_end cfg s)
    (hout : ∀ i, i < cfg.NUM_FREE_LISTS → ∀ x, x ∈ L i → x ≠ F →
      x + size_at cfg s x ≤ F ∨ F + S ≤ x)
    (a : Nat) (h1 : F ≤ a) (h2 : a < F + S) (i : Nat) (hi' : i < cfg.NUM_FREE_LISTS) (c : Nat)
    (hc : c ∈ sentinel cfg i :: (L i).erase F) : a ≠ c ∧ a ≠ c + 8 ∧ a ≠ c + 16 := by
  have hhi := hL.2.1
  rcases List.mem_cons.1 hc with e | e
  · rw [e]
    exact heap_word cfg hi hL.1 a (by omega) (by omega) i hi'
  · have hcl : c ∈ L i := List.mem_of_mem_erase e
    have hcF : c ≠ F := ((List.Nodup.mem_erase_iff (hL.2.2.2.2.1 i hi')).1 e).1
    have h3 := hout i hi' c hcl hcF
    have h4 := hL.2.2.2.1 i hi' c hcl
    omega

/-- The loop of `sf_malloc` when `find_fit` finds a block at once. -/
theorem fit_loop_found (cfg : Config) (fuel : Nat) (s : State) (b F : Nat)
    (hfind : find_fit cfg fuel s b = some F) (hF0 : F ≠ 0) (hfuel : 1 ≤ fuel) :
    malloc_fit_loop cfg fuel b fuel s = some (F, unlink_block s F) := by
  obtain ⟨f, rfl⟩ : ∃ f, fuel = f + 1 := ⟨fuel - 1, by omega⟩
  rw [malloc_fit_loop]
  simp only [hfind, hF0, if_false]

/-- The call `sf_malloc` served by the listed block `F` of `S` bytes, which is
split: the block of the request starts at `F` and the rest is listed. -/
theorem malloc_split (cfg : Config) (fuel : Nat) (s : State) (hi : Nat) (L : Nat → List Nat)
    (n F S : Nat) (hL : Lists cfg s hi L) (hpg : 0 < s.pages) (hn0 : 0 < n) (hn : n < 2 ^ 32)
    (hq : malloc_block_size n < QL_MAX_SIZE → s.qlFirst (QL_INDEX (malloc_block_size n)) = 0)
    (hfind : find_fit cfg fuel s (malloc_block_size n) = some F)
    (hFm : F ∈ L (get_ml_index cfg S)) (hS : size_at cfg s F = S)
    (hfrag : 32 ≤ S - malloc_block_size n) (hbS : malloc_block_size n ≤ S)
    (hout : ∀ i, i < cfg.NUM_FREE_LISTS → ∀ x, x ∈ L i → x ≠ F →
      x + size_at cfg s x ≤ F ∨ F + S ≤ x)
    (hfuel : 1 ≤ fuel) :
    ∃ s1, sf_malloc cfg fuel s n = some (F + 8, s1) ∧
      Lists cfg s1 hi (fun i => if i = get_ml_index cfg (S - malloc_block_size n) then
        (F + malloc_block_size n) :: (L i).erase F else (L i).erase F) ∧
      s1.mem F = OBF cfg (PACK n (malloc_block_size n) 0 1) ∧
      s1.mem (F + malloc_block_size n) = OBF cfg (PACK 0 (S - malloc_block_size n) 0 0) ∧
      s1.mem (F + S - 8) = OBF cfg (PACK 0 (S - malloc_block_size n) 0 0) ∧
      (∀ a, (a < F ∨ F + S ≤ a) →
        (∀ i, i < cfg.NUM_FREE_LISTS → ∀ c, c ∈ sentinel cfg i :: L i →
          a ≠ c + 8 ∧ a ≠ c + 16) → s1.mem a = s.mem a) ∧
      s1.qlFirst = s.qlFirst ∧ s1.qlLength = s.qlLength ∧ s1.pages = s.pages := by
  have hWe := WORD_eq
  obtain ⟨hN, hhiW, hheads⟩ := hL.1
  have hhi := hL.2.1
  obtain ⟨hb32, hb16, _⟩ := malloc_block_size_small n hn0 (by omega)
  have hk := get_ml_index_lt cfg S hN
  have hFp := hL.2.2.2.1 _ hk F hFm
  rw [hS] at hFp
  have hSlt : S < 2 ^ 32 := by rw [← hS]; exact GET_BLOCK_SIZE_lt _
  have hS16 : S % 16 = 0 := by rw [← hS]; exact GET_BLOCK_SIZE_mod _
  have hF0 : F ≠ 0 := by omega
  have hloop := fit_loop_found cfg fuel s _ F hfind hF0 hfuel
  have hr := sf_malloc_of_loop cfg fuel s n F _ hn0 hpg hq hloop hF0
  obtain ⟨hLU, frameU⟩ := lists_unlink cfg s hi L hL _ F hk hFm
  have huF : (unlink_block s F).mem F = s.mem F :=
    frameU F (fun j hj c hc => node_word cfg s hi L hL _ F hk hFm j hj c hc)
  have hszu : size_at cfg (unlink_block s F) F = S := by
    unfold size_at; rw [huF]; exact hS
  have hsp := split_free_block_eq cfg (unlink_block s F) F (malloc_block_size n) S hszu hbS
    hfrag (by omega) (by omega)
  have hin := inside_block cfg s hi L F S hL (by omega) (by omega) hout
  have hLW := lists_write cfg _ _ _
    (lists_write cfg _ _ _
      (lists_write cfg _ _ _
        (lists_write cfg _ _ _ hLU F (OBF cfg (PACK 0 (malloc_block_size n) 0 0))
          (hin F (by omega) (by omega)))
        (F + malloc_block_size n - 8) (OBF cfg (PACK 0 (malloc_block_size n) 0 0))
        (hin _ (by omega) (by omega)))
      (F + malloc_block_size n) (OBF cfg (PACK 0 (S - malloc_block_size n) 0 0))
      (hin _ (by omega) (by omega)))
    (F + S - 8) (OBF cfg (PACK 0 (S - malloc_block_size n) 0 0)) (hin _ (by omega) (by omega))
  generalize hWdef : ((((unlink_block s F).write F (OBF cfg (PACK 0 (malloc_block_size n) 0 0))).write
      (F + malloc_block_size n - 8) (OBF cfg (PACK 0 (malloc_block_size n) 0 0))).write
      (F + malloc_block_size n) (OBF cfg (PACK 0 (S - malloc_block_size n) 0 0))).write
      (F + S - 8) (OBF cfg (PACK 0 (S - malloc_block_size n) 0 0)) = W at hLW hsp
  have hWm : ∀ a, W.mem a =
      if a = F + S - 8 then OBF cfg (PACK 0 (S - malloc_block_size n) 0 0)
      else if a = F + malloc_block_size n then OBF cfg (PACK 0 (S - malloc_block_size n) 0 0)
      else if a = F + malloc_block_size n - 8 then OBF cfg (PACK 0 (malloc_block_size n) 0 0)
      else if a = F then OBF cfg (PACK 0 (malloc_block_size n) 0 0)
      else (unlink_block s F).mem a := by
    intro a; rw [← hWdef]; simp only [write_mem]
  have hWp : W.pages = s.pages := by rw [← hWdef]; rfl
  have hWq : W.qlFirst = s.qlFirst := by rw [← hWdef]; rfl
  have hWl : W.qlLength = s.qlLength := by rw [← hWdef]; rfl
  have hszW : size_at cfg W (F + malloc_block_size n) = S - malloc_block_size n := by
    unfold size_at
    rw [hWm, if_neg (by omega), if_pos rfl, OBF_OBF]
    exact (PACK_fields 0 (S - malloc_block_size n) 0 0 (by norm_num) (by omega) (by omega)
      (by norm_num) (by norm_num)).2.1
  have hendW : sf_mem_end cfg W = sf_mem_end cfg s := sf_mem_end_pages cfg s W hWp
  obtain ⟨hLI, frameI⟩ := lists_insert cfg W _ _ hLW (F + malloc_block_size n) (by omega)
    (by rw [hszW, hendW]; omega) (by rw [hszW]; exact hfrag)
    (fun i hi' x hx => by
      have := hin (F + malloc_block_size n) (by omega) (by omega) i hi' x
        (List.mem_cons_of_mem _ hx)
      have hcl : x ∈ L i := List.mem_of_mem_erase hx
      have hcF : x ≠ F := ((List.Nodup.mem_erase_iff (hL.2.2.2.2.1 i hi')).1 hx).1
      have h3 := hout i hi' x hcl hcF
      have h4 := hL.2.2.2.1 i hi' x hcl
      omega)
  rw [hszW] at hLI
  generalize hIdef : insert_ml cfg W (F + malloc_block_size n) = I at hLI frameI hsp
  have hIp : I.pages = s.pages := by rw [← hIdef, insert_ml_pages]; exact hWp
  have hIq : I.qlFirst = s.qlFirst := by rw [← hIdef]; exact hWq
  have hIl : I.qlLength = s.qlLength := by rw [← hIdef]; exact hWl
  have hIm : ∀ a, F ≤ a → a < F + S → a ≠ F + malloc_block_size n + 8 →
      a ≠ F + malloc_block_size n + 16 → I.mem a = W.mem a := by
    intro a h1 h2 h3 h4
    apply frameI a h3 h4
    intro i hi' c hc
    have := hin a h1 h2 i hi' c hc
    exact ⟨this.2.1, this.2.2⟩
  have hszI : size_at cfg I F = malloc_block_size n := by
    unfold size_at
    rw [hIm F (by omega) (by omega) (by omega) (by omega), hWm, if_neg (by omega),
      if_neg (by omega), if_neg (by omega), if_pos rfl, OBF_OBF]
    exact (PACK_fields 0 (malloc_block_size n) 0 0 (by norm_num) (by omega) hb16
      (by norm_num) (by norm_num)).2.1
  have hcm := create_malloc_block_eq cfg I F n (malloc_block_size n) hszI (by omega) (by omega)
  rw [hsp] at hr
  simp only at hr
  rw [hcm] at hr
  simp only at hr
  have hinI : ∀ a, F ≤ a → a < F + malloc_block_size n → ∀ i, i < cfg.NUM_FREE_LISTS →
      ∀ c, c ∈ sentinel cfg i :: (fun i => if i = get_ml_index cfg (S - malloc_block_size n) then
        (F + malloc_block_size n) :: (L i).erase F else (L i).erase F) i →
      a ≠ c ∧ a ≠ c + 8 ∧ a ≠ c + 16 := by
    intro a h1 h2 i hi' c hc
    by_cases hc1 : c = F + malloc_block_size n
    · rw [hc1]; omega
    · apply hin a h1 (by omega) i hi' c
      rcases List.mem_cons.1 hc with e | e
      · rw [e]; exact List.mem_cons_self _ _
      · apply List.mem_cons_of_mem
        have e2 : c ∈ (if i = get_ml_index cfg (S - malloc_block_size n) then
          (F + malloc_block_size n) :: (L i).erase F else (L i).erase F) := e
        split_ifs at e2
        · rcases List.mem_cons.1 e2 with e3 | e3
          · exact absurd e3 hc1
          · exact e3
        · exact e2
  have hLC := lists_write cfg _ _ _
    (lists_write cfg _ _ _ hLI F (OBF cfg (PACK n (malloc_block_size n) 0 1))
      (hinI F (by omega) (by omega)))
    (F + malloc_block_size n - 8) (OBF cfg (PACK n (malloc_block_size n) 0 1))
    (hinI _ (by omega) (by omega))
  refine ⟨_, hr, ?_, ?_, ?_, ?_, ?_, ?_, ?_, ?_⟩
  · exact lists_frame cfg _ _ _ _ hLC (fun _ _ _ _ => ⟨rfl, rfl⟩) (fun _ _ _ _ => rfl)
      (le_of_eq rfl) (by
        have : sf_mem_end cfg (update_pl ((I.write F (OBF cfg (PACK n (malloc_block_size n) 0 1))).write
          (F + malloc_block_size n - 8) (OBF cfg (PACK n (malloc_block_size n) 0 1))) n) =
            sf_mem_end cfg I := rfl
        rw [this, sf_mem_end_pages cfg s I hIp]; exact hhi)
  · rw [update_pl_mem, write_mem_ne _ _ (by omega), write_mem_eq]
  · rw [update_pl_mem, write_mem_ne _ _ (by omega), write_mem_ne _ _ (by omega),
      hIm _ (by omega) (by omega) (by omega) (by omega), hWm, if_neg (by omega), if_pos rfl]
  · rw [update_pl_mem, write_mem_ne _ _ (by omega), write_mem_ne _ _ (by omega),
      hIm _ (by omega) (by omega) (by omega) (by omega), hWm, if_pos rfl]
  · intro a ha hlink
    have hlink2 : ∀ i, i < cfg.NUM_FREE_LISTS → ∀ c, c ∈ sentinel cfg i :: (L i).erase F →
        a ≠ c + 8 ∧ a ≠ c + 16 := by
      intro i hi' c hc
      apply hlink i hi' c
      rcases List.mem_cons.1 hc with e | e
      · rw [e]; exact List.mem_cons_self _ _
      · exact List.mem_cons_of_mem _ (List.mem_of_mem_erase e)
    rw [update_pl_mem, write_mem_ne _ _ (by omega), write_mem_ne _ _ (by omega),
      frameI a (by omega) (by omega) hlink2, hWm, if_neg (by omega), if_neg (by omega),
      if_neg (by omega), if_neg (by omega)]
    exact frameU a hlink
  · exact hIq
  · exact hIl
  · exact hIp

/-- The call `sf_malloc` served by the listed block `F` of `S` bytes, when the
rest would be smaller than the minimum block size: the whole block is handed
out. -/
theorem malloc_whole (cfg : Config) (fuel : Nat) (s : State) (hi : Nat) (L : Nat → List Nat)
    (n F S : Nat) (hL : Lists cfg s hi L) (hpg : 0 < s.pages) (hn0 : 0 < n) (hn : n < 2 ^ 32)
    (hq : malloc_block_size n < QL_MAX_SIZE → s.qlFirst (QL_INDEX (malloc_block_size n)) = 0)
    (hfind : find_fit cfg fuel s (malloc_block_size n) = some F)
    (hFm : F ∈ L (get_ml_index cfg S)) (hS : size_at cfg s F = S)
    (hfrag : S - malloc_block_size n < 32) (hbS : malloc_block_size n ≤ S)
    (hout : ∀ i, i < cfg.NUM_FREE_LISTS → ∀ x, x ∈ L i → x ≠ F →
      x + size_at cfg s x ≤ F ∨ F + S ≤ x)
    (hfuel : 1 ≤ fuel) :
    ∃ s1, sf_malloc cfg fuel s n = some (F + 8, s1) ∧
      Lists cfg s1 hi (fun i => (L i).erase F) ∧
      s1.mem F = OBF cfg (PACK n S 0 1) ∧
      (∀ a, (a < F ∨ F + S ≤ a) →
        (∀ i, i < cfg.NUM_FREE_LISTS → ∀ c, c ∈ sentinel cfg i :: L i →
          a ≠ c + 8 ∧ a ≠ c + 16) → s1.mem a = s.mem a) ∧
      s1.qlFirst = s.qlFirst ∧ s1.qlLength = s.qlLength ∧ s1.pages = s.pages := by
  have hWe := WORD_eq
  obtain ⟨hN, hhiW, hheads⟩ := hL.1
  have hhi := hL.2.1
  obtain ⟨hb32, hb16, _⟩ := malloc_block_size_small n hn0 (by omega)
  have hk := get_ml_index_lt cfg S hN
  have hFp := hL.2.2.2.1 _ hk F hFm
  rw [hS] at hFp
  have hF0 : F ≠ 0 := by omega
  have hloop := fit_loop_found cfg fuel s _ F hfind hF0 hfuel
  have hr := sf_malloc_of_loop cfg fuel s n F _ hn0 hpg hq hloop hF0
  obtain ⟨hLU, frameU⟩ := lists_unlink cfg s hi L hL _ F hk hFm
  have huF : (unlink_block s F).mem F = s.mem F :=
    frameU F (fun j hj c hc => node_word cfg s hi L hL _ F hk hFm j hj c hc)
  have hszu : size_at cfg (unlink_block s F) F = S := by
    unfold size_at; rw [huF]; exact hS
  have hsp := split_free_block_whole cfg (unlink_block s F) F (malloc_block_size n) S hszu hbS
    hfrag
  have hin := inside_block cfg s hi L F S hL (by omega) (by omega) hout
  have hcm := create_malloc_block_eq cfg (unlink_block s F) F n S hszu (by omega) (by omega)
  rw [hsp] at hr
  simp only at hr
  rw [hcm] at hr
  simp only at hr
  have hLC := lists_write cfg _ _ _
    (lists_write cfg _ _ _ hLU F (OBF cfg (PACK n S 0 1)) (hin F (by omega) (by omega)))
    (F + S - 8) (OBF cfg (PACK n S 0 1)) (hin _ (by omega) (by omega))
  refine ⟨_, hr, ?_, ?_, ?_, rfl, rfl, rfl⟩
  · exact lists_frame cfg _ _ _ _ hLC (fun _ _ _ _ => ⟨rfl, rfl⟩) (fun _ _ _ _ => rfl)
      (le_of_eq rfl) (by
        have : sf_mem_end cfg (update_pl (((unlink_block s F).write F
          (OBF cfg (PACK n S 0 1))).write (F + S - 8) (OBF cfg (PACK n S 0 1))) n) =
            sf_mem_end cfg s := rfl
        rw [this]; exact hhi)
  · rw [update_pl_mem, write_mem_ne _ _ (by omega), write_mem_eq]
  · intro a ha hlink
    rw [update_pl_mem, write_mem_ne _ _ (by omega), write_mem_ne _ _ (by omega)]
    exact frameU a hlink

/-- The call `sf_free` on a valid allocated block whose rewriting as a free
block satisfies the precondition of `coalesce`, when the block before it is
marked allocated and the merged block has at least `QL_MAX_SIZE` bytes: the
merged block starts at the block and is inserted at the front of the main list
of its size class. -/
theorem free_to_main (cfg : Config) (fuel : Nat) (t : State) (hi : Nat) (L1 : Nat → List Nat)
    (F n b S : Nat) (hn : n < 2 ^ 32) (hb16 : b % 16 = 0) (hFa : F % 16 = 8)
    (hplace : n * 4294967296 + 2 * b ≤ sf_mem_end cfg t)
    (hhdr : t.mem F = OBF cfg (PACK n b 0 1))
    (hC : CoalesceOK cfg fuel (create_free_block cfg t b F) hi L1 F)
    (hb : size_at cfg (create_free_block cfg t b F) F = b)
    (hp : OBF cfg ((create_free_block cfg t b F).mem
      (PREV_BLOCK cfg (create_free_block cfg t b F) F)) &&& THIS_BLOCK_ALLOCATED ≠ 0)
    (hm : merged_size cfg (create_free_block cfg t b F) F = S) (hS224 : QL_MAX_SIZE ≤ S) :
    ∃ s2, sf_free cfg fuel t (F + 8) = Outcome.ret () s2 ∧
      Lists cfg s2 hi (fun i => if i = get_ml_index cfg S then
        F :: ((L1 i).erase (NEXT_BLOCK cfg (create_free_block cfg t b F) F)).erase
          (PREV_BLOCK cfg (create_free_block cfg t b F) F)
        else ((L1 i).erase (NEXT_BLOCK cfg (create_free_block cfg t b F) F)).erase
          (PREV_BLOCK cfg (create_free_block cfg t b F) F)) ∧
      s2.mem F = OBF cfg (PACK 0 S 0 0) ∧ s2.mem (F + S - 8) = OBF cfg (PACK 0 S 0 0) ∧
      (∀ a, (a < F ∨ F + S ≤ a) →
        (∀ i, i < cfg.NUM_FREE_LISTS → ∀ c, c ∈ sentinel cfg i :: L1 i →
          a ≠ c + 8 ∧ a ≠ c + 16) → s2.mem a = (create_free_block cfg t b F).mem a) ∧
      s2.qlFirst = t.qlFirst ∧ s2.qlLength = t.qlLength ∧ s2.pages = t.pages := by
  have hWe := WORD_eq
  have hNe := next_block_eq cfg fuel _ hi L1 F hC
  have hh := hC
  obtain ⟨hL, hbig, hB1, hB2, hB3, hBh, hBf, hP1, hP3, hP2, hlisted, hPfree, hNfree, hfuel,
    hN3⟩ := hh
  obtain ⟨hN, hhiW, hheads⟩ := hL.1
  have hhi := hL.2.1
  have hnp := allocated_not_listed cfg fuel _ hi L1 F _ hC hp
  have hN16 : size_at cfg (create_free_block cfg t b F)
      (NEXT_BLOCK cfg (create_free_block cfg t b F) F) % 16 = 0 := GET_BLOCK_SIZE_mod _
  rw [hb] at hB2 hB3 hNe
  -- the result of coalesce
  have hco : ∃ s', coalesce cfg fuel (create_free_block cfg t b F) F = some (F, s') ∧
      Lists cfg s' hi (fun i => ((L1 i).erase (NEXT_BLOCK cfg (create_free_block cfg t b F) F)).erase
        (PREV_BLOCK cfg (create_free_block cfg t b F) F)) ∧
      OBF cfg (s'.mem F) = PACK 0 S 0 0 ∧ s'.mem (F + S - 8) = s'.mem F ∧
      (∀ a, (a < F ∨ F + S ≤ a) →
        (∀ i, i < cfg.NUM_FREE_LISTS → ∀ c, c ∈ sentinel cfg i :: L1 i →
          a ≠ c + 8 ∧ a ≠ c + 16) → s'.mem a = (create_free_block cfg t b F).mem a) ∧
      F + S + 8 ≤ sf_mem_end cfg (create_free_block cfg t b F) ∧
      F + S ≤ NEXT_BLOCK cfg (create_free_block cfg t b F) F +
        size_at cfg (create_free_block cfg t b F)
          (NEXT_BLOCK cfg (create_free_block cfg t b F) F) := by
    by_cases hnx : OBF cfg ((create_free_block cfg t b F).mem
        (NEXT_BLOCK cfg (create_free_block cfg t b F) F)) &&& THIS_BLOCK_ALLOCATED = 0
    · have eT : S = b + size_at cfg (create_free_block cfg t b F)
          (NEXT_BLOCK cfg (create_free_block cfg t b F) F) := by
        rw [← hm]; unfold merged_size; rw [if_neg hp, if_pos hnx, hb]; rfl
      obtain ⟨s', h1, h2, h3, h4, h5⟩ := coalesce_case_next cfg fuel _ hi L1 F hC hp hnx
      rw [hb] at h3 h4 h5
      rw [← eT] at h3 h4 h5
      exact ⟨s', h1, h2, h3, h4, h5, by omega, by omega⟩
    · have eT : S = b := by
        rw [← hm]; unfold merged_size; rw [if_neg hp, if_neg hnx, hb]; rfl
      obtain ⟨s', h1, h2, h3, h4, h5⟩ := coalesce_case_none cfg fuel _ hi L1 F hC hp hnx
      subst eT
      rw [hb] at h3 h4 h5
      exact ⟨s', h1, h2, h3, h4, h5, by omega, by omega⟩
  obtain ⟨s', hco, hLs, h1, h2, frame, hend, hcov⟩ := hco
  obtain ⟨k1, k2, k3⟩ := coalesce_keeps cfg fuel _ F F s' hco
  have hS16 : S % 16 = 0 := by
    rw [← hm]; unfold merged_size
    have := GET_BLOCK_SIZE_mod (OBF cfg ((create_free_block cfg t b F).mem F))
    have hh2 : size_at cfg (create_free_block cfg t b F) F % 16 = 0 := this
    split_ifs <;> omega
  have hSlt : S < 2 ^ 32 := by omega
  obtain ⟨_, q2, _, _⟩ := PACK_fields 0 S 0 0 (by norm_num) hSlt hS16 (by norm_num)
    (by norm_num)
  have hszs : size_at cfg s' F = S := by unfold size_at; rw [h1]; exact q2
  have hfree := sf_free_main cfg fuel t F n b F s' hn hB2 hb16 (by omega) hFa (by omega)
    (by omega) hplace hhdr hco (by
      have e : GET_BLOCK_SIZE (OBF cfg (s'.mem F)) = S := hszs
      rw [e]; omega)
  have hends : sf_mem_end cfg s' = sf_mem_end cfg (create_free_block cfg t b F) :=
    sf_mem_end_pages cfg _ s' k1
  have hsep : ∀ i, i < cfg.NUM_FREE_LISTS → ∀ x,
      x ∈ ((L1 i).erase (NEXT_BLOCK cfg (create_free_block cfg t b F) F)).erase
        (PREV_BLOCK cfg (create_free_block cfg t b F) F) → x + 24 ≤ F ∨ F + 24 ≤ x := by
    intro i hi' x hx
    have hx1 := List.mem_of_mem_erase hx
    have hxN : x ≠ NEXT_BLOCK cfg (create_free_block cfg t b F) F :=
      ((List.Nodup.mem_erase_iff (hL.2.2.2.2.1 i hi')).1 hx1).1
    have hxl : x ∈ L1 i := List.mem_of_mem_erase hx1
    have hxP : x ≠ PREV_BLOCK cfg (create_free_block cfg t b F) F :=
      fun e => hnp i hi' (e ▸ hxl)
    have h3 := (hlisted i hi' x hxl).2
    have h4 := hL.2.2.2.1 i hi' x hxl
    omega
  obtain ⟨hLI, frameI⟩ := lists_insert cfg s' hi _ hLs F hB1 (by rw [hszs, hends]; omega)
    (by rw [hszs]; unfold QL_MAX_SIZE at hS224; omega) hsep
  rw [hszs] at hLI
  have hown : ∀ a, F ≤ a → a < F + S → ∀ i, i < cfg.NUM_FREE_LISTS → ∀ c,
      c ∈ sentinel cfg i :: ((L1 i).erase (NEXT_BLOCK cfg (create_free_block cfg t b F) F)).erase
        (PREV_BLOCK cfg (create_free_block cfg t b F) F) → a ≠ c + 8 ∧ a ≠ c + 16 := by
    intro a ha1 ha2 i hi' c hc
    rcases List.mem_cons.1 hc with e | e
    · have := heap_word cfg hi hL.1 a (by omega) (by omega) i hi'
      rw [e]; exact ⟨this.2.1, this.2.2⟩
    · have hx1 := List.mem_of_mem_erase e
      have hxN : c ≠ NEXT_BLOCK cfg (create_free_block cfg t b F) F :=
        ((List.Nodup.mem_erase_iff (hL.2.2.2.2.1 i hi')).1 hx1).1
      have hxl : c ∈ L1 i := List.mem_of_mem_erase hx1
      have hxP : c ≠ PREV_BLOCK cfg (create_free_block cfg t b F) F :=
        fun e => hnp i hi' (e ▸ hxl)
      have h3 := (hlisted i hi' c hxl).2
      have h4 := hL.2.2.2.1 i hi' c hxl
      omega
  unfold QL_MAX_SIZE at hS224
  refine ⟨_, hfree, ?_, ?_, ?_, ?_, ?_, ?_, ?_⟩
  · exact lists_frame cfg _ _ _ _ hLI (fun _ _ _ _ => ⟨rfl, rfl⟩) (fun _ _ _ _ => rfl)
      (le_of_eq rfl) (by
        have : sf_mem_end cfg (update_pl (insert_ml cfg s' F) (wsub 0 n)) = sf_mem_end cfg s' :=
          rfl
        rw [this]; exact hLs.2.1)
  · rw [update_pl_mem, frameI F (by omega) (by omega) (hown F (by omega) (by omega)),
      ← h1, OBF_OBF]
  · rw [update_pl_mem, frameI _ (by omega) (by omega) (hown _ (by omega) (by omega)), h2,
      ← h1, OBF_OBF]
  · intro a ha hlink
    have hlink2 : ∀ i, i < cfg.NUM_FREE_LISTS → ∀ c,
        c ∈ sentinel cfg i :: ((L1 i).erase (NEXT_BLOCK cfg (create_free_block cfg t b F) F)).erase
          (PREV_BLOCK cfg (create_free_block cfg t b F) F) → a ≠ c + 8 ∧ a ≠ c + 16 := by
      intro i hi' c hc
      apply hlink i hi' c
      rcases List.mem_cons.1 hc with e | e
      · rw [e]; exact List.mem_cons_self _ _
      · exact List.mem_cons_of_mem _ (List.mem_of_mem_erase (List.mem_of_mem_erase e))
    rw [update_pl_mem, frameI a (by omega) (by omega) hlink2]
    exact frame a ha hlink
  · exact k2
  · exact k3
  · exact k1

/-- The words of a state after `create_free_block`, with the addresses written
out. -/
theorem freed_words (cfg : Config) (t : State) (b F : Nat) (h8 : 8 ≤ b) (hW : F + b < WORD)
    (x : Nat) : (create_free_block cfg t b F).mem x =
      if x = F + b - 8 ∨ x = F then OBF cfg (PACK 0 b 0 0) else t.mem x := by
  have e3 : wadd F b = F + b := wadd_eq hW
  have e4 : wsub (F + b) MROW = F + b - 8 := by
    rw [wsub_eq (by unfold MROW; omega) hW]; rfl
  rw [create_free_block_mem2, e3, e4]

/-- An address in the block before `F` or in the block after the free block `F`
is no link word of a list head or of a listed block. -/
theorem beside_block (cfg : Config) (s : State) (hi : Nat) (L : Nat → List Nat) (F S P E : Nat)
    (hL : Lists cfg s hi L) (hP : sf_mem_start cfg ≤ P) (hPF : P ≤ F) (hE : F + S ≤ E)
    (hEhi : E ≤ hi) (hS : 24 ≤ S)
    (hout : ∀ i, i < cfg.NUM_FREE_LISTS → ∀ x, x ∈ L i → x ≠ F →
      x + size_at cfg s x ≤ P ∨ E ≤ x)
    (a : Nat) (ha : (P ≤ a ∧ a < F) ∨ (F + S ≤ a ∧ a < E)) (i : Nat)
    (hi' : i < cfg.NUM_FREE_LISTS) (c : Nat) (hc : c ∈ sentinel cfg i :: L i) :
    a ≠ c + 8 ∧ a ≠ c + 16 := by
  rcases List.mem_cons.1 hc with e | e
  · have := heap_word cfg hi hL.1 a (by omega) (by omega) i hi'
    rw [e]; exact ⟨this.2.1, this.2.2⟩
  · by_cases hcF : c = F
    · rw [hcF]; omega
    · have h3 := hout i hi' c e hcF
      have h4 := hL.2.2.2.1 i hi' c e
      omega

theorem length_erase_le_self (l : List Nat) (a : Nat) : (l.erase a).length ≤ l.length :=
  List.Sublist.length_le (List.erase_sublist a l)

/-- The state in which `sf_free` calls `coalesce`, for a block handed out at the
start of the formerly listed block `F`: the precondition of `coalesce` holds, the
block before `F` is marked allocated, and the block with its neighbours marked
free has the size `S` of the former block. -/
theorem freed_ok (cfg : Config) (fuel : Nat) (s s1 : State) (hi : Nat)
    (L L1 : Nat → List Nat) (F S psz b : Nat)
    (hL : Lists cfg s hi L) (hbig : hi < sf_mem_start cfg + 2 ^ 32)
    (hFm : F ∈ L (get_ml_index cfg S)) (hS : size_at cfg s F = S) (hS224 : 224 ≤ S)
    (hpsz : size_at cfg s (F - 8) = psz) (hp32 : 32 ≤ psz)
    (hP1 : sf_mem_start cfg + 8 + psz ≤ F) (hPh : size_at cfg s (F - psz) = psz)
    (hprev : OBF cfg (s.mem (F - psz)) &&& THIS_BLOCK_ALLOCATED ≠ 0)
    (hnext : OBF cfg (s.mem (F + S)) &&& THIS_BLOCK_ALLOCATED ≠ 0)
    (hN3 : F + S + size_at cfg s (F + S) + 8 ≤ sf_mem_end cfg s)
    (hfree : ∀ i, i < cfg.NUM_FREE_LISTS → ∀ x, x ∈ L i →
      OBF cfg (s.mem x) &&& THIS_BLOCK_ALLOCATED = 0)
    (hout : ∀ i, i < cfg.NUM_FREE_LISTS → ∀ x, x ∈ L i → x ≠ F →
      x + size_at cfg s x ≤ F - psz ∨ F + S + size_at cfg s (F + S) ≤ x)
    (hb32 : 32 ≤ b) (hb16 : b % 16 = 0) (hbS : b ≤ S)
    (hL1 : Lists cfg s1 hi L1) (p1 : s1.pages = s.pages)
    (frame1 : ∀ a, (a < F ∨ F + S ≤ a) →
      (∀ i, i < cfg.NUM_FREE_LISTS → ∀ c, c ∈ sentinel cfg i :: L i →
        a ≠ c + 8 ∧ a ≠ c + 16) → s1.mem a = s.mem a)
    (hmem1 : ∀ i, i < cfg.NUM_FREE_LISTS → ∀ c, c ∈ L1 i →
      (c = F + b ∧ 32 ≤ S - b) ∨ c ∈ (L i).erase F)
    (hsplit : 32 ≤ S - b → s1.mem (F + b) = OBF cfg (PACK 0 (S - b) 0 0) ∧
      F + b ∈ L1 (get_ml_index cfg (S - b)))
    (hwhole : S - b < 32 → b = S)
    (hlen : ∀ i, i < cfg.NUM_FREE_LISTS → (L1 i).length ≤ fuel) :
    CoalesceOK cfg fuel (create_free_block cfg s1 b F) hi L1 F ∧
    size_at cfg (create_free_block cfg s1 b F) F = b ∧
    OBF cfg ((create_free_block cfg s1 b F).mem
      (PREV_BLOCK cfg (create_free_block cfg s1 b F) F)) &&& THIS_BLOCK_ALLOCATED ≠ 0 ∧
    merged_size cfg (create_free_block cfg s1 b F) F = S ∧
    PREV_BLOCK cfg (create_free_block cfg s1 b F) F = F - psz ∧
    NEXT_BLOCK cfg (create_free_block cfg s1 b F) F = F + b ∧
    (∀ a, (a < F ∨ F + S ≤ a) → (create_free_block cfg s1 b F).mem a = s1.mem a) := by
  have hWe := WORD_eq
  obtain ⟨hN, hhiW, hheads⟩ := hL.1
  have hhi := hL.2.1
  have hk := get_ml_index_lt cfg S hN
  have hFp := hL.2.2.2.1 _ hk F hFm
  rw [hS] at hFp
  have hSlt : S < 2 ^ 32 := by rw [← hS]; exact GET_BLOCK_SIZE_lt _
  have hS16 : S % 16 = 0 := by rw [← hS]; exact GET_BLOCK_SIZE_mod _
  have hout1 : ∀ i, i < cfg.NUM_FREE_LISTS → ∀ x, x ∈ L i → x ≠ F →
      x + size_at cfg s x ≤ F ∨ F + S ≤ x := by
    intro i hi' x hx hne
    have := hout i hi' x hx hne
    omega
  have hbeside := beside_block cfg s hi L F S (F - psz) (F + S + size_at cfg s (F + S)) hL
    (by omega) (by omega) (by omega) (by omega) (by omega) hout
  have hin := inside_block cfg s hi L F S hL (by omega) (by omega) hout1
  have hend1 : sf_mem_end cfg s1 = sf_mem_end cfg s := sf_mem_end_pages cfg s s1 p1
  have hw := freed_words cfg s1 b F (by omega) (by omega)
  have tp : (create_free_block cfg s1 b F).pages = s1.pages := rfl
  generalize create_free_block cfg s1 b F = t at hw tp ⊢
  have tend : sf_mem_end cfg t = sf_mem_end cfg s := by
    rw [sf_mem_end_pages cfg s1 t tp]; exact hend1
  obtain ⟨_, g2, g3, _⟩ := PACK_fields 0 b 0 0 (by norm_num) (by omega) hb16 (by norm_num)
    (by norm_num)
  have tF : t.mem F = OBF cfg (PACK 0 b 0 0) := by rw [hw, if_pos (Or.inr rfl)]
  have tout : ∀ a, (a < F ∨ F + b ≤ a) → t.mem a = s1.mem a := by
    intro a ha
    rw [hw, if_neg (by omega)]
  have tlow : ∀ a, F - psz ≤ a → a < F → t.mem a = s.mem a := by
    intro a h1 h2
    rw [tout a (Or.inl h2)]
    exact frame1 a (Or.inl h2) (hbeside a (Or.inl ⟨h1, h2⟩))
  have thigh : ∀ a, F + S ≤ a → a < F + S + size_at cfg s (F + S) → t.mem a = s.mem a := by
    intro a h1 h2
    rw [tout a (Or.inr (by omega))]
    exact frame1 a (Or.inr h1) (hbeside a (Or.inr ⟨h1, h2⟩))
  have szb : size_at cfg t F = b := by
    unfold size_at; rw [tF, OBF_OBF]; exact g2
  have ePrev : PREV_BLOCK cfg t F = F - psz := by
    unfold PREV_BLOCK
    have e : wsub F MROW = F - 8 := by
      rw [wsub_eq (by unfold MROW; omega) (by omega)]; rfl
    have e2 : GET_BLOCK_SIZE (OBF cfg (s.mem (F - 8))) = psz := hpsz
    rw [e, tlow (F - 8) (by omega) (by omega), e2, wsub_eq (by omega) (by omega)]
  have eNext : NEXT_BLOCK cfg t F = F + b := by
    unfold NEXT_BLOCK
    have e2 : GET_BLOCK_SIZE (OBF cfg (t.mem F)) = b := szb
    rw [e2, wadd_eq (by omega)]
  have tP : t.mem (F - psz) = s.mem (F - psz) := tlow _ (le_refl _) (by omega)
  have szP : size_at cfg t (F - psz) = psz := by
    unfold size_at; rw [tP]; exact hPh
  -- the block after
  have hnx : (32 ≤ S - b ∧ t.mem (F + b) = OBF cfg (PACK 0 (S - b) 0 0) ∧
      size_at cfg t (F + b) = S - b ∧
      OBF cfg (t.mem (F + b)) &&& THIS_BLOCK_ALLOCATED = 0 ∧
      F + b ∈ L1 (get_ml_index cfg (S - b))) ∨
      (b = S ∧ t.mem (F + b) = s.mem (F + S) ∧ size_at cfg t (F + b) = size_at cfg s (F + S) ∧
        OBF cfg (t.mem (F + b)) &&& THIS_BLOCK_ALLOCATED ≠ 0) := by
    by_cases hsp : 32 ≤ S - b
    · left
      obtain ⟨m2, hR⟩ := hsplit hsp
      have tR : t.mem (F + b) = OBF cfg (PACK 0 (S - b) 0 0) := by
        rw [tout _ (Or.inr (le_refl _)), m2]
      obtain ⟨_, r2, r3, _⟩ := PACK_fields 0 (S - b) 0 0 (by norm_num) (by omega) (by omega)
        (by norm_num) (by norm_num)
      refine ⟨hsp, tR, ?_, ?_, hR⟩
      · unfold size_at; rw [tR, OBF_OBF]; exact r2
      · rw [tR, OBF_OBF]; exact r3
    · right
      have e := hwhole (by omega)
      subst e
      by_cases h0 : size_at cfg s (F + b) = 0
      · have tN : t.mem (F + b) = s.mem (F + b) := by
          rw [tout _ (Or.inr (le_refl _))]
          apply frame1 _ (Or.inr (le_refl _))
          intro i hi' c hc
          rcases List.mem_cons.1 hc with e | e
          · have := heap_word cfg hi hL.1 (F + b) (by omega) (by omega) i hi'
            rw [e]; exact ⟨this.2.1, this.2.2⟩
          · by_cases hcF : c = F
            · rw [hcF]; omega
            · have h3 := hout i hi' c e hcF
              have h4 := hL.2.2.2.1 i hi' c e
              omega
        refine ⟨rfl, tN, ?_, ?_⟩
        · unfold size_at; rw [tN]
        · rw [tN]; exact hnext
      · have tN : t.mem (F + b) = s.mem (F + b) := thigh _ (le_refl _) (by omega)
        refine ⟨rfl, tN, ?_, ?_⟩
        · unfold size_at; rw [tN]
        · rw [tN]; exact hnext
  have tlisted : ∀ i, i < cfg.NUM_FREE_LISTS → ∀ x, x ∈ (L i).erase F →
      t.mem x = s.mem x ∧
      (x + size_at cfg s x ≤ F - psz ∨ F + S + size_at cfg s (F + S) ≤ x) ∧ x ∈ L i := by
    intro i hi' x hx
    have hxl : x ∈ L i := List.mem_of_mem_erase hx
    have hxF : x ≠ F := ((List.Nodup.mem_erase_iff (hL.2.2.2.2.1 i hi')).1 hx).1
    have h3 := hout i hi' x hxl hxF
    have h4 := hL.2.2.2.1 i hi' x hxl
    refine ⟨?_, h3, hxl⟩
    rw [tout x (by omega)]
    exact frame1 x (by omega) (fun j hj c hc => node_word cfg s hi L hL i x hi' hxl j hj c hc)
  have hLt : Lists cfg t hi L1 := by
    have hno : ∀ a, (a = F + b - 8 ∨ a = F) → ∀ i, i < cfg.NUM_FREE_LISTS → ∀ c,
        c ∈ sentinel cfg i :: L1 i → a ≠ c ∧ a ≠ c + 8 ∧ a ≠ c + 16 := by
      intro a ha i hi' c hc
      rcases List.mem_cons.1 hc with e | e
      · rw [e]
        exact heap_word cfg hi hL.1 a (by omega) (by omega) i hi'
      · rcases hmem1 i hi' c e with h | h
        · omega
        · exact hin a (by omega) (by omega) i hi' c (List.mem_cons_of_mem _ h)
    apply lists_frame cfg s1 t hi L1 hL1
    · intro i hi' c hc
      have h1 := hno (F + b - 8) (Or.inl rfl) i hi' c hc
      have h2 := hno F (Or.inr rfl) i hi' c hc
      rw [hw, hw, if_neg (by omega), if_neg (by omega)]
      exact ⟨rfl, rfl⟩
    · intro i hi' x hx
      have h1 := hno (F + b - 8) (Or.inl rfl) i hi' x (List.mem_cons_of_mem _ hx)
      have h2 := hno F (Or.inr rfl) i hi' x (List.mem_cons_of_mem _ hx)
      rw [hw, if_neg (by omega)]
    · rw [tend, hend1]
    · rw [tend]; exact hhi
  refine ⟨⟨hLt, hbig, by omega, by rw [szb]; exact hb32, by rw [szb, tend]; omega,
    by rw [tF, OBF_OBF, szb], by rw [szb, hw, if_pos (Or.inl rfl), tF], by rw [ePrev]; omega,
    by rw [ePrev, szP]; exact hp32, by rw [ePrev, szP]; omega, ?_, ?_, ?_, hlen, ?_⟩,
    szb, by rw [ePrev, tP]; exact hprev, ?_, ePrev, eNext, ?_⟩
  · intro i hi' x hx
    rw [ePrev, eNext]
    rcases hmem1 i hi' x hx with h | h
    · rcases hnx with ⟨_, _, _, h4, _⟩ | ⟨h1, _⟩
      · rw [h.1]; exact ⟨h4, Or.inr (Or.inr (Or.inl rfl))⟩
      · omega
    · obtain ⟨h1, h2, h3⟩ := tlisted i hi' x h
      have hsx : size_at cfg t x = size_at cfg s x := by unfold size_at; rw [h1]
      rw [h1, hsx]
      refine ⟨hfree i hi' x h3, ?_⟩
      rcases hnx with ⟨_, _, h5, _, _⟩ | ⟨h5, _, h6, _⟩
      · rw [h5]; omega
      · rw [h6]; omega
  · intro h
    rw [ePrev, tP] at h
    exact absurd h hprev
  · intro h
    rw [eNext] at h ⊢
    rcases hnx with ⟨_, _, h5, _, h7⟩ | ⟨_, _, _, h8⟩
    · rw [h5]; exact h7
    · exact absurd h h8
  · rw [eNext, tend]
    rcases hnx with ⟨_, _, h5, _, _⟩ | ⟨h5, _, h6, _⟩
    · rw [h5]; omega
    · rw [h6]; omega
  · unfold merged_size
    rw [ePrev, eNext, tP, if_neg hprev, szb]
    rcases hnx with ⟨_, _, h5, h6, _⟩ | ⟨h5, _, _, h8⟩
    · rw [if_pos h6, h5]; omega
    · rw [if_neg h8]; omega
  · intro a ha
    exact tout a (by omega)

/-- A request served by a listed block `F` of at least `QL_MAX_SIZE` bytes whose
two neighbours are marked allocated, followed by `sf_free` of the returned
pointer: the block is free again with its former header and footer, at the front
of its main list, and every word outside the block that is no list link, every
quick list and the heap extent are as before. -/
theorem main_round_trip (cfg : Config) (fuel : Nat) (s : State) (hi : Nat)
    (L : Nat → List Nat) (n F S psz : Nat)
    (hinit : HEAP_SIZE cfg s ≠ 0) (hn0 : 0 < n) (hn : n < 2 ^ 32)
    (hL : Lists cfg s hi L) (hbig : hi < sf_mem_start cfg + 2 ^ 32)
    (hq : malloc_block_size n < QL_MAX_SIZE → s.qlFirst (QL_INDEX (malloc_block_size n)) = 0)
    (hfind : find_fit cfg fuel s (malloc_block_size n) = some F)
    (hFm : F ∈ L (get_ml_index cfg S)) (hFa : F % 16 = 8)
    (hhdr : s.mem F = OBF cfg (PACK 0 S 0 0))
    (hftr : s.mem (F + S - 8) = OBF cfg (PACK 0 S 0 0))
    (hS : size_at cfg s F = S) (hS224 : QL_MAX_SIZE ≤ S)
    (hplace : n * 4294967296 + 2 * S ≤ sf_mem_end cfg s)
    (hpsz : size_at cfg s (F - 8) = psz) (hp32 : 32 ≤ psz)
    (hP1 : sf_mem_start cfg + 8 + psz ≤ F) (hPh : size_at cfg s (F - psz) = psz)
    (hprev : OBF cfg (s.mem (F - psz)) &&& THIS_BLOCK_ALLOCATED ≠ 0)
    (hnext : OBF cfg (s.mem (F + S)) &&& THIS_BLOCK_ALLOCATED ≠ 0)
    (hN3 : F + S + size_at cfg s (F + S) + 8 ≤ sf_mem_end cfg s)
    (hfree : ∀ i, i < cfg.NUM_FREE_LISTS → ∀ x, x ∈ L i →
      OBF cfg (s.mem x) &&& THIS_BLOCK_ALLOCATED = 0)
    (hout : ∀ i, i < cfg.NUM_FREE_LISTS → ∀ x, x ∈ L i → x ≠ F →
      x + size_at cfg s x ≤ F - psz ∨ F + S + size_at cfg s (F + S) ≤ x)
    (hfuel : ∀ i, i < cfg.NUM_FREE_LISTS → (L i).length + 1 ≤ fuel) :
    ∃ s1 s2, sf_malloc cfg fuel s n = some (F + 8, s1) ∧
      sf_free cfg fuel s1 (F + 8) = Outcome.ret () s2 ∧
      Lists cfg s2 hi (fun i => if i = get_ml_index cfg S then F :: (L i).erase F else L i) ∧
      s2.mem F = s.mem F ∧ s2.mem (F + S - 8) = s.mem (F + S - 8) ∧
      (∀ a, (a < F ∨ F + S ≤ a) →
        (∀ i, i < cfg.NUM_FREE_LISTS → ∀ c, c ∈ sentinel cfg i :: L i →
          a ≠ c + 8 ∧ a ≠ c + 16) → s2.mem a = s.mem a) ∧
      (∀ j, s2.qlFirst j = s.qlFirst j) ∧ (∀ j, s2.qlLength j = s.qlLength j) ∧
      s2.pages = s.pages := by
  have hWe := WORD_eq
  obtain ⟨hN, hhiW, hheads⟩ := hL.1
  have hhi := hL.2.1
  have hpg : 0 < s.pages := by
    unfold HEAP_SIZE sf_mem_end sf_mem_start PAGE_SZ at hinit; omega
  have hfuel1 : 1 ≤ fuel := by have := hfuel 0 hN; omega
  obtain ⟨hb32, hb16, _⟩ := malloc_block_size_small n hn0 (by omega)
  have hk := get_ml_index_lt cfg S hN
  have hFp := hL.2.2.2.1 _ hk F hFm
  rw [hS] at hFp
  have hSlt : S < 2 ^ 32 := by rw [← hS]; exact GET_BLOCK_SIZE_lt _
  have hS16 : S % 16 = 0 := by rw [← hS]; exact GET_BLOCK_SIZE_mod _
  have hF0 : F ≠ 0 := by omega
  unfold QL_MAX_SIZE at hS224
  have hbS : malloc_block_size n ≤ S := by
    obtain ⟨_, _, _, _, _, _, _, h⟩ := find_fit_spec cfg fuel s _ F hfind hF0
    rw [← hS]; exact h
  have hout1 : ∀ i, i < cfg.NUM_FREE_LISTS → ∀ x, x ∈ L i → x ≠ F →
      x + size_at cfg s x ≤ F ∨ F + S ≤ x := by
    intro i hi' x hx hne
    have := hout i hi' x hx hne
    omega
  have hbeside := beside_block cfg s hi L F S (F - psz) (F + S + size_at cfg s (F + S)) hL
    (by omega) (by omega) (by omega) (by omega) (by omega) hout
  have hFonly : ∀ i, i < cfg.NUM_FREE_LISTS → i ≠ get_ml_index cfg S → F ∉ L i := by
    intro i hi' hne hm
    have := (hL.2.2.2.1 i hi' F hm).2.2.2
    rw [hS] at this
    exact hne this.symm
  have hPn : ∀ i, i < cfg.NUM_FREE_LISTS → F - psz ∉ L i :=
    fun i hi' hm => hprev (hfree i hi' _ hm)
  have hNn : ∀ i, i < cfg.NUM_FREE_LISTS → F + S ∉ L i :=
    fun i hi' hm => hnext (hfree i hi' _ hm)
  have hlast : ∀ i, i < cfg.NUM_FREE_LISTS →
      (fun i => if i = get_ml_index cfg S then F :: (L i).erase F else (L i).erase F) i =
      (fun i => if i = get_ml_index cfg S then F :: (L i).erase F else L i) i := by
    intro i hi'
    show (if i = get_ml_index cfg S then F :: (L i).erase F else (L i).erase F) =
      (if i = get_ml_index cfg S then F :: (L i).erase F else L i)
    by_cases h : i = get_ml_index cfg S
    · rw [if_pos h, if_pos h]
    · rw [if_neg h, if_neg h, List.erase_of_not_mem (hFonly i hi' h)]
  have hE1 : ∀ i, i < cfg.NUM_FREE_LISTS → ((L i).erase F).erase (F - psz) = (L i).erase F :=
    fun i hi' => List.erase_of_not_mem (fun hm => hPn i hi' (List.mem_of_mem_erase hm))
  have hlenE : ∀ i, i < cfg.NUM_FREE_LISTS → ((L i).erase F).length + 1 ≤ fuel := by
    intro i hi'
    have := length_erase_le_self (L i) F
    have := hfuel i hi'
    omega
  by_cases hsplit : 32 ≤ S - malloc_block_size n
  · obtain ⟨s1, hm, hL1, m1, m2, m3, frame1, q1, l1, p1⟩ := malloc_split cfg fuel s hi L n F S
      hL hpg hn0 hn hq hfind hFm hS hsplit hbS hout1 hfuel1
    have hmem1 : ∀ i, i < cfg.NUM_FREE_LISTS → ∀ c,
        c ∈ (fun i => if i = get_ml_index cfg (S - malloc_block_size n) then
          (F + malloc_block_size n) :: (L i).erase F else (L i).erase F) i →
        (c = F + malloc_block_size n ∧ 32 ≤ S - malloc_block_size n) ∨ c ∈ (L i).erase F := by
      intro i hi' c hc
      have e2 : c ∈ (if i = get_ml_index cfg (S - malloc_block_size n) then
          (F + malloc_block_size n) :: (L i).erase F else (L i).erase F) := hc
      split_ifs at e2
      · rcases List.mem_cons.1 e2 with e3 | e3
        · exact Or.inl ⟨e3, hsplit⟩
        · exact Or.inr e3
      · exact Or.inr e2
    obtain ⟨hC, szb, hp, hmS, ePrev, eNext, tout⟩ := freed_ok cfg fuel s s1 hi L _ F S psz
      (malloc_block_size n) hL hbig hFm hS hS224 hpsz hp32 hP1 hPh hprev hnext hN3 hfree hout
      hb32 hb16 hbS hL1 p1 frame1 hmem1
      (fun _ => ⟨m2, by
        show F + malloc_block_size n ∈ (if get_ml_index cfg (S - malloc_block_size n) =
          get_ml_index cfg (S - malloc_block_size n) then
          (F + malloc_block_size n) :: (L _).erase F else (L _).erase F)
        rw [if_pos rfl]; exact List.mem_cons_self _ _⟩)
      (fun h => absurd hsplit (by omega))
      (fun i hi' => by
        show (if i = get_ml_index cfg (S - malloc_block_size n) then
          (F + malloc_block_size n) :: (L i).erase F else (L i).erase F).length ≤ fuel
        have := hlenE i hi'
        split_ifs
        · rw [List.length_cons]; omega
        · omega)
    obtain ⟨s2, hfr, hLs2, h1, h2, frame2, q2, l2, p2⟩ := free_to_main cfg fuel s1 hi _ F n
      (malloc_block_size n) S hn hb16 hFa
      (by rw [sf_mem_end_pages cfg s s1 p1]; omega) m1 hC szb hp hmS (by unfold QL_MAX_SIZE; exact hS224)
    rw [ePrev, eNext] at hLs2
    have hRn : ∀ i, i < cfg.NUM_FREE_LISTS → F + malloc_block_size n ∉ L i := by
      intro i hi' hx
      have h3 := hout i hi' _ hx (by omega)
      omega
    have hL0 : ∀ i, i < cfg.NUM_FREE_LISTS →
        ((if i = get_ml_index cfg (S - malloc_block_size n) then
          (F + malloc_block_size n) :: (L i).erase F else (L i).erase F).erase
            (F + malloc_block_size n)).erase (F - psz) = (L i).erase F := by
      intro i hi'
      by_cases h : i = get_ml_index cfg (S - malloc_block_size n)
      · rw [if_pos h, List.erase_cons_head, hE1 i hi']
      · rw [if_neg h, List.erase_of_not_mem
          (fun hx => hRn i hi' (List.mem_of_mem_erase hx)), hE1 i hi']
    refine ⟨s1, s2, hm, hfr, ?_, by rw [h1, hhdr], by rw [h2, hftr], ?_, ?_, ?_, ?_⟩
    · apply lists_congr cfg s2 hi _ _ hLs2
      intro i hi'
      refine (hlast i hi').symm.trans ?_
      show (if i = get_ml_index cfg S then F :: (L i).erase F else (L i).erase F) =
        (if i = get_ml_index cfg S then F :: _ else _)
      rw [hL0 i hi']
    · intro a ha hlink
      rw [frame2 a ha (fun i hi' c hc => by
        rcases List.mem_cons.1 hc with e | e
        · exact hlink i hi' c (by rw [e]; exact List.mem_cons_self _ _)
        · rcases hmem1 i hi' c e with h | h
          · omega
          · exact hlink i hi' c (List.mem_cons_of_mem _ (List.mem_of_mem_erase h))),
        tout a ha]
      exact frame1 a ha hlink
    · intro j; rw [q2, q1]
    · intro j; rw [l2, l1]
    · rw [p2, p1]
  · obtain ⟨s1, hm, hL1, m1, frame1, q1, l1, p1⟩ := malloc_whole cfg fuel s hi L n F S
      hL hpg hn0 hn hq hfind hFm hS (by omega) hbS hout1 hfuel1
    obtain ⟨hC, szb, hp, hmS, ePrev, eNext, tout⟩ := freed_ok cfg fuel s s1 hi L _ F S psz
      S hL hbig hFm hS hS224 hpsz hp32 hP1 hPh hprev hnext hN3 hfree hout
      (by omega) hS16 (le_refl _) hL1 p1 frame1 (fun i hi' c hc => Or.inr hc)
      (fun h => absurd h (by omega)) (fun _ => rfl)
      (fun i hi' => by have := hlenE i hi'; omega)
    obtain ⟨s2, hfr, hLs2, h1, h2, frame2, q2, l2, p2⟩ := free_to_main cfg fuel s1 hi _ F n
      S S hn hS16 hFa
      (by rw [sf_mem_end_pages cfg s s1 p1]; omega) m1 hC szb hp hmS (by unfold QL_MAX_SIZE; exact hS224)
    rw [ePrev, eNext] at hLs2
    have hL0 : ∀ i, i < cfg.NUM_FREE_LISTS →
        (((L i).erase F).erase (F + S)).erase (F - psz) = (L i).erase F := by
      intro i hi'
      rw [List.erase_of_not_mem (fun hx => hNn i hi' (List.mem_of_mem_erase hx)), hE1 i hi']
    refine ⟨s1, s2, hm, hfr, ?_, by rw [h1, hhdr], by rw [h2, hftr], ?_, ?_, ?_, ?_⟩
    · apply lists_congr cfg s2 hi _ _ hLs2
      intro i hi'
      refine (hlast i hi').symm.trans ?_
      show (if i = get_ml_index cfg S then F :: (L i).erase F else (L i).erase F) =
        (if i = get_ml_index cfg S then F :: _ else _)
      rw [hL0 i hi']
    · intro a ha hlink
      rw [frame2 a ha (fun i hi' c hc => by
        rcases List.mem_cons.1 hc with e | e
        · exact hlink i hi' c (by rw [e]; exact List.mem_cons_self _ _)
        · exact hlink i hi' c (List.mem_cons_of_mem _ (List.mem_of_mem_erase e))),
        tout a ha]
      exact frame1 a ha hlink
    · intro j; rw [q2, q1]
    · intro j; rw [l2, l1]
    · rw [p2, p1]

/-! ## The claims -/

theorem malloc_block_size_spec (size : Nat) (h0 : 0 < size) (hmax : size ≤ 2 ^ 64 - 32) :
    malloc_block_size size = spec_block_size size := by
  unfold malloc_block_size spec_block_size round_up_16 wadd MROW WORD MIN_BLOCK_SIZE
  simp only
  split <;> split <;> omega

theorem alloc4_eq : sf_malloc cfgA 3 fresh0 4 = some (alloc4.1, alloc4.2) := by
  rfl

theorem alloc100_eq : sf_malloc cfgA 3 fresh0 100 = some (alloc100.1, alloc100.2) := by
  rfl

theorem fit_state_fresh (size : Nat) (sf : State)
    (e : malloc_fit_state cfgA 3 (malloc_block_size size) 3 (malloc_init cfgA fresh0).2 =
      some (malloc_init cfgA fresh0).2)
    (h : malloc_fit_state cfgA 3 (malloc_block_size size) 3 (malloc_init cfgA fresh0).2 =
      some sf) : (malloc_init cfgA fresh0).2 = sf :=
  Option.some.inj (e.symm.trans h)

set_option maxRecDepth 100000 in
/-- C1 (code defect): seven `sf_malloc(32)`, the first six freed in address
order, then `sf_malloc(32)` and `sf_malloc(250)`.  After the sixth free the block
at offset 280 heads quick list 1 while it lies inside the 288-byte block at
offset 40 that is linked in main list 4; the two later allocations return the
payloads at offsets 288 (32 bytes) and 48 (250 bytes), which overlap. -/
theorem live_payloads_overlap :
    (final cfgA 20 sixFreed fresh0).map
      (fun s => (s.qlFirst 1, s.qlLength 1, node cfgA s 4 1,
        GET_BLOCK_SIZE (OBF cfgA (s.mem (baseA + 40))), s.diag)) =
      some (baseA + 280, 6, baseA + 40, 288, 1) ∧
    returns cfgA 20 (sixFreed ++ [Call.malloc 32, Call.malloc 250]) fresh0 =
      some [baseA + 48, baseA + 96, baseA + 144, baseA + 192, baseA + 240, baseA + 288,
        baseA + 336, 0, 0, 0, 0, 0, 0, baseA + 288, baseA + 48] ∧
    baseA + 48 ≤ baseA + 288 ∧ baseA + 288 < baseA + 48 + 250 := by
  decide

set_option maxRecDepth 1000000 in
/-- C2 (code defect): after the calls of `sixFreed`, `sf_malloc(250)` returns
the payload at offset 48 of a block of 288 bytes, while quick list 1 still
holds the block at offset 280, which lies inside that payload.  The client
stores a word at offset 280 of its payload; the next `sf_malloc(32)` pops the
block at offset 280 and returns the payload at offset 288, and the header of
the returned block records `payload_size = 32`, `allocated = 1` and
`block_size = 16`, which is less than 32. -/
theorem popped_block_records_sixteen :
    returns cfgA 20 (sixFreed ++ [Call.malloc 250]) fresh0 =
      some [baseA + 48, baseA + 96, baseA + 144, baseA + 192, baseA + 240, baseA + 288,
        baseA + 336, 0, 0, 0, 0, 0, 0, baseA + 48] ∧
    (overlapState.qlFirst 1, GET_PL_SIZE (header_at cfgA overlapState (baseA + 48)),
      GET_BLOCK_SIZE (header_at cfgA overlapState (baseA + 48)), overlapState.diag) =
      (baseA + 280, 250, 288, 1) ∧
    (baseA + 48 ≤ baseA + 280 ∧ baseA + 280 + 8 ≤ baseA + 48 + 250) ∧
    (sf_malloc cfgA 20 (client_store overlapState (baseA + 280) 0xA5A5A5A55A5A5A4A) 32).map
      (fun r => (r.1, GET_PL_SIZE (header_at cfgA r.2 r.1),
        GET_BLOCK_SIZE (header_at cfgA r.2 r.1),
        header_at cfgA r.2 r.1 &&& THIS_BLOCK_ALLOCATED)) =
      some (baseA + 288, 32, 16, 1) :=
  ⟨by decide, by decide, by decide, by decide⟩

/-- The header of a block handed out from well-formed lists: for
`0 < size < 2 ^ 32`, on well-formed quick and main lists, the block whose
payload `sf_malloc(size)` returns has a header with `payload_size = size`,
`allocated = 1`, `in_quick_list = 0` and a block size that is a multiple of 16 and
at least 32, and its footer word equals its header word, whether the block comes
from a quick list or from a main list; on the fresh heap `sf_malloc(4)` gives a
16-aligned pointer, block size 32, payload size 4 and a running payload of 4. -/
theorem sf_malloc_header_footer (cfg : Config) (fuel : Nat) (s : State) (size p : Nat)
    (s' : State) (hsize : 0 < size) (hlt : size < 2 ^ 32)
    (hq : QuickOK cfg (malloc_init cfg s).2)
    (hm : ∀ sf, malloc_fit_state cfg fuel (malloc_block_size size) fuel (malloc_init cfg s).2
      = some sf → MainOK cfg fuel sf)
    (hr : sf_malloc cfg fuel s size = some (p, s')) (hp : p ≠ 0) :
    (GET_PL_SIZE (header_at cfg s' p) = size ∧
      header_at cfg s' p &&& THIS_BLOCK_ALLOCATED = 1 ∧
      header_at cfg s' p &&& IN_QUICK_LIST = 0 ∧
      GET_BLOCK_SIZE (header_at cfg s' p) % 16 = 0 ∧
      32 ≤ GET_BLOCK_SIZE (header_at cfg s' p) ∧
      s'.mem (wsub (wadd (wsub p MROW) (GET_BLOCK_SIZE (header_at cfg s' p))) MROW) =
        s'.mem (wsub p MROW)) ∧
    (sf_malloc cfgA 20 fresh0 4).map (fun r => (r.1 % 16, GET_BLOCK_SIZE (header_at cfgA r.2 r.1),
      GET_PL_SIZE (header_at cfgA r.2 r.1), header_at cfgA r.2 r.1 &&& THIS_BLOCK_ALLOCATED,
      r.2.running_pl)) = some (0, 32, 4, 1, 4) := by
  refine ⟨?_, by decide⟩
  obtain ⟨bs, h1, h2, h3, h4, _, h6⟩ :=
    sf_malloc_block cfg fuel s size p s' hsize (by omega) hq hm hr hp
  obtain ⟨b32, _, _⟩ := malloc_block_size_small size hsize (by omega)
  obtain ⟨f1, f2, f3, f4⟩ := PACK_fields size bs 0 1 hlt h3 h2 (by norm_num) (by norm_num)
  rw [h1, f1, f2, f3, f4]
  exact ⟨rfl, rfl, rfl, h2, by omega, h6⟩

set_option maxRecDepth 100000 in
/-- The first `sf_malloc(4)` on the fresh heap of `cfgA`, as an instance of
`sf_malloc_header_footer`. -/
theorem sf_malloc_header_footer_witness :
    (GET_PL_SIZE (header_at cfgA alloc4.2 alloc4.1) = 4 ∧
      header_at cfgA alloc4.2 alloc4.1 &&& THIS_BLOCK_ALLOCATED = 1 ∧
      header_at cfgA alloc4.2 alloc4.1 &&& IN_QUICK_LIST = 0 ∧
      GET_BLOCK_SIZE (header_at cfgA alloc4.2 alloc4.1) % 16 = 0 ∧
      32 ≤ GET_BLOCK_SIZE (header_at cfgA alloc4.2 alloc4.1) ∧
      alloc4.2.mem (wsub (wadd (wsub alloc4.1 MROW)
        (GET_BLOCK_SIZE (header_at cfgA alloc4.2 alloc4.1))) MROW) =
        alloc4.2.mem (wsub alloc4.1 MROW)) ∧
    (sf_malloc cfgA 20 fresh0 4).map (fun r => (r.1 % 16, GET_BLOCK_SIZE (header_at cfgA r.2 r.1),
      GET_PL_SIZE (header_at cfgA r.2 r.1), header_at cfgA r.2 r.1 &&& THIS_BLOCK_ALLOCATED,
      r.2.running_pl)) = some (0, 32, 4, 1, 4) :=
  sf_malloc_header_footer cfgA 3 fresh0 4 alloc4.1 alloc4.2 (by decide) (by decide) (by decide)
    (fun sf h => by
      have := fit_state_fresh 4 sf (by rfl) h
      rw [← this]
      decide)
    alloc4_eq (by decide)

set_option maxRecDepth 100000 in
/-- C3 (as stated, refuted): for the 64-bit size `2 ^ 64 - 1` the sum `size + 16`
wraps around, the computed block size is 32 and not
`max(32, round_up_16(size + 16))`, and on the fresh heap `sf_malloc` returns a
block of 32 bytes, which has no room for `size` bytes. -/
theorem block_size_wraps :
    0 < 2 ^ 64 - 1 ∧ 2 ^ 64 - 1 < 2 ^ 64 ∧ malloc_block_size (2 ^ 64 - 1) = 32 ∧
    spec_block_size (2 ^ 64 - 1) = 2 ^ 64 + 16 ∧
    malloc_block_size (2 ^ 64 - 1) ≠ spec_block_size (2 ^ 64 - 1) ∧
    ¬ (2 ^ 64 - 1 + 16 ≤ malloc_block_size (2 ^ 64 - 1)) ∧
    (sf_malloc cfgA 20 fresh0 (2 ^ 64 - 1)).map
      (fun r => (r.1, GET_BLOCK_SIZE (header_at cfgA r.2 r.1))) = some (baseA + 48, 32) := by
  decide

/-- C3 (amended): for every size with `0 < size ≤ 2 ^ 64 - 32` the block size that
`sf_malloc` computes equals `max(32, round_up_16(size + 16))` over the natural
numbers, is a multiple of 16, at least 32 and at least `size + 16`, and on
well-formed lists every block `sf_malloc` returns has a block size of at least
that, hence room for `size` payload bytes between header and footer. -/
theorem block_size_no_wrap (cfg : Config) (fuel : Nat) (s : State) (size p : Nat) (s' : State)
    (hsize : 0 < size) (hmax : size ≤ 2 ^ 64 - 32)
    (hq : QuickOK cfg (malloc_init cfg s).2)
    (hm : ∀ sf, malloc_fit_state cfg fuel (malloc_block_size size) fuel (malloc_init cfg s).2
      = some sf → MainOK cfg fuel sf)
    (hr : sf_malloc cfg fuel s size = some (p, s')) (hp : p ≠ 0) :
    malloc_block_size size = spec_block_size size ∧ malloc_block_size size % 16 = 0 ∧
    32 ≤ malloc_block_size size ∧ size + 16 ≤ malloc_block_size size ∧
    malloc_block_size size ≤ GET_BLOCK_SIZE (header_at cfg s' p) := by
  obtain ⟨b32, b16, bsz⟩ := malloc_block_size_small size hsize hmax
  refine ⟨malloc_block_size_spec size hsize hmax, b16, b32, bsz, ?_⟩
  obtain ⟨bs, h1, h2, h3, h4, _, _⟩ :=
    sf_malloc_block cfg fuel s size p s' hsize hmax hq hm hr hp
  have hlt : size < 2 ^ 32 := by omega
  rw [h1, (PACK_fields size bs 0 1 hlt h3 h2 (by norm_num) (by norm_num)).2.1]
  exact h4

set_option maxRecDepth 100000 in
/-- Witness for C3 (amended): the first `sf_malloc(100)` on the fresh heap. -/
theorem block_size_no_wrap_witness :
    malloc_block_size 100 = spec_block_size 100 ∧ malloc_block_size 100 % 16 = 0 ∧
    32 ≤ malloc_block_size 100 ∧ 100 + 16 ≤ malloc_block_size 100 ∧
    malloc_block_size 100 ≤ GET_BLOCK_SIZE (header_at cfgA alloc100.2 alloc100.1) :=
  block_size_no_wrap cfgA 3 fresh0 100 alloc100.1 alloc100.2 (by decide) (by decide) (by decide)
    (fun sf h => by
      have := fit_state_fresh 100 sf (by rfl) h
      rw [← this]
      decide)
    alloc100_eq (by decide)

set_option maxRecDepth 1000000 in
/-- C4 (code defect): the heap start of `cfgA` is a multiple of 16.  After the
calls of `sixFreed` and `sf_malloc(250)` the client holds the payload of 250
bytes at offset 48, and quick list 1 still holds the block at offset 280, whose
`next` link is the word at offset 288 of that payload.  The client stores the
address of offset 320 there; two calls `sf_malloc(32)` then return the payloads
at offsets 288 and 328, and the second pointer is congruent to 8 modulo 16. -/
theorem misaligned_pointer_returned :
    cfgA.start % 16 = 0 ∧
    (returns cfgA 20 (sixFreed ++ [Call.malloc 250]) fresh0).map (fun r => r.getLast?) =
      some (some (baseA + 48)) ∧
    (overlapState.qlFirst 1, GET_PL_SIZE (header_at cfgA overlapState (baseA + 48))) =
      (baseA + 280, 250) ∧
    (baseA + 48 ≤ baseA + 288 ∧ baseA + 288 + 8 ≤ baseA + 48 + 250) ∧
    returns cfgA 20 [Call.malloc 32, Call.malloc 32]
      (client_store overlapState (baseA + 288) (baseA + 320)) =
      some [baseA + 288, baseA + 328] ∧
    (baseA + 328) % 16 = 8 :=
  ⟨by decide, by decide, by decide, by decide, by decide, by decide⟩

/-- Alignment on lists that hold blocks of the heap walk: when the heap start
is a multiple of 16 and the blocks linked in the quick and main lists are
blocks of the heap walk, every pointer that `sf_malloc` or `sf_realloc`
returns is a multiple of 16; and every block of the
heap walk has its header at a heap offset congruent to 8 modulo 16. -/
theorem returned_pointers_aligned (cfg : Config) (fuel n : Nat) (s : State) (size : Nat)
    (hstart : cfg.start % 16 = 0)
    (hq : QuickOnHeap cfg n (malloc_init cfg s).2)
    (hm : ∀ sf, malloc_fit_state cfg fuel (malloc_block_size size) fuel (malloc_init cfg s).2
      = some sf → MainOnHeap cfg fuel n sf)
    (hmax : size ≤ 2 ^ 64 - 32) :
    (∀ p s', sf_malloc cfg fuel s size = some (p, s') → p % 16 = 0) ∧
    (∀ pp q s', sf_realloc cfg fuel s pp size = Outcome.ret q s' → q % 16 = 0) ∧
    (∀ m, (blk cfg s m - cfg.start) % 16 = 8) :=
  ⟨fun p s' hr => sf_malloc_aligned cfg fuel n s size p s' hstart hq hm hmax hr,
   fun pp q s' hr => sf_realloc_aligned cfg fuel n s pp size q s' hstart hq hm hmax hr,
   fun m => (blk_offset cfg s m).1⟩

set_option maxRecDepth 100000 in
/-- Requests of 4 bytes on the fresh heap of `cfgA`, as an instance of
`returned_pointers_aligned`. -/
theorem returned_pointers_aligned_witness :
    (∀ p s', sf_malloc cfgA 3 fresh0 4 = some (p, s') → p % 16 = 0) ∧
    (∀ pp q s', sf_realloc cfgA 3 fresh0 pp 4 = Outcome.ret q s' → q % 16 = 0) ∧
    (∀ m, (blk cfgA fresh0 m - cfgA.start) % 16 = 8) :=
  returned_pointers_aligned cfgA 3 1 fresh0 4 (by decide) (by decide)
    (fun sf h => by
      have := fit_state_fresh 4 sf (by rfl) h
      rw [← this]
      decide)
    (by decide)

set_option maxRecDepth 1000000 in
/-- C5 (code defect): `validate_pp` adds the block size to the header word, not
to the header address.  After `sf_malloc(70000)` on the fresh heap at `2 ^ 48`
the returned pointer meets every condition of the specification, yet
`validate_pp` rejects it and `sf_free` aborts; after `sf_malloc(4)` the pointer
is accepted, and with the heap placed at `2 ^ 16` the same pointer is rejected:
the verdict depends on the payload size and on the placement of the heap. -/
theorem validate_uses_header_word :
    returns cfgA 20 [Call.malloc 70000] fresh0 = some [baseA + 48] ∧
    (final cfgA 20 [Call.malloc 70000] fresh0).map
      (fun s => (decide (validate_spec cfgA s (baseA + 48)), validate_pp cfgA s (baseA + 48),
        aborted (sf_free cfgA 20 s (baseA + 48)))) = some (true, -1, true) ∧
    (final cfgA 20 [Call.malloc 4] fresh0).map
      (fun s => (decide (validate_spec cfgA s (baseA + 48)), validate_pp cfgA s (baseA + 48))) =
      some (true, 0) ∧
    returns cfgLow 20 [Call.malloc 4] fresh0 = some [2 ^ 16 + 48] ∧
    (final cfgLow 20 [Call.malloc 4] fresh0).map
      (fun s => (decide (validate_spec cfgLow s (2 ^ 16 + 48)),
        validate_pp cfgLow s (2 ^ 16 + 48))) = some (true, -1) := by
  decide

set_option maxRecDepth 100000 in
/-- C6 (as stated, refuted): on the heap with a 32-byte block in quick list 0 at
offset 40 followed by a free block of 4016 bytes, `sf_malloc(4)` followed by
`sf_free` of the returned pointer leaves one free block of 4048 bytes at offset
40 and quick list 0 empty. -/
theorem free_malloc_not_restored :
    HEAP_SIZE cfgA mixedState ≠ 0 ∧
    returns cfgA 3 [Call.malloc 4, Call.free (baseA + 48)] mixedState = some [baseA + 48, 0] ∧
    (GET_BLOCK_SIZE (OBF cfgA (mixedState.mem (baseA + 40))), mixedState.qlFirst 0,
      GET_BLOCK_SIZE (OBF cfgA (mixedState.mem (baseA + 72)))) = (32, baseA + 40, 4016) ∧
    (final cfgA 3 [Call.malloc 4, Call.free (baseA + 48)] mixedState).map
      (fun s => (GET_BLOCK_SIZE (OBF cfgA (s.mem (baseA + 40))), s.qlFirst 0)) =
      some (4048, 0) := by
  decide

/-- The round trip through a quick list: on an initialised heap, when
`sf_malloc(n)` is served by the quick list of its block size, `free` accepts the
returned pointer, the length field of that list is not 6, the first block of
the list carries the header and footer of a quick-list block of that
size and both its neighbours are allocated, then `sf_malloc(n)` followed by
`sf_free` of the returned pointer leaves every word of memory, every quick list
and the heap extent as they were; only the statistics may differ. -/
theorem quick_round_trip (cfg : Config) (fuel : Nat) (s : State) (n B : Nat)
    (hinit : HEAP_SIZE cfg s ≠ 0) (hn0 : 0 < n) (hn : n < 2 ^ 32)
    (hb : malloc_block_size n < QL_MAX_SIZE)
    (hB : s.qlFirst (QL_INDEX (malloc_block_size n)) = B) (hB0 : B ≠ 0)
    (hBa : B % 16 = 8) (hBs : sf_mem_start cfg ≤ B) (hBe : B + malloc_block_size n < WORD)
    (hplace : n * 4294967296 + 2 * malloc_block_size n ≤ sf_mem_end cfg s)
    (hhdr : s.mem B = OBF cfg (PACK 0 (malloc_block_size n) 1 1))
    (hftr : s.mem (B + malloc_block_size n - 8) = OBF cfg (PACK 0 (malloc_block_size n) 0 0))
    (hlen : s.qlLength (QL_INDEX (malloc_block_size n)) ≠ 6)
    (hpsz : GET_BLOCK_SIZE (OBF cfg (s.mem (B - 8))) ≠ 0)
    (hpsz2 : GET_BLOCK_SIZE (OBF cfg (s.mem (B - 8))) ≤ B)
    (hprev : OBF cfg (s.mem (B - GET_BLOCK_SIZE (OBF cfg (s.mem (B - 8)))))
      &&& THIS_BLOCK_ALLOCATED ≠ 0)
    (hnext : OBF cfg (s.mem (B + malloc_block_size n)) &&& THIS_BLOCK_ALLOCATED ≠ 0) :
    ∃ s1 s2, sf_malloc cfg fuel s n = some (B + 8, s1) ∧
      sf_free cfg fuel s1 (B + 8) = Outcome.ret () s2 ∧
      (∀ a, s2.mem a = s.mem a) ∧ (∀ j, s2.qlFirst j = s.qlFirst j) ∧
      (∀ j, s2.qlLength j = s.qlLength j) ∧ s2.pages = s.pages := by
  obtain ⟨s1, hm, m1, q1, l1, p1⟩ :=
    sf_malloc_quick cfg fuel s n B hinit hn0 hn hb hB hB0 hBe hhdr
  obtain ⟨hb32, hb16, _⟩ := malloc_block_size_small n hn0 (by omega)
  generalize malloc_block_size n = b at *
  have hfs := GET_BLOCK_SIZE_mod (OBF cfg (s.mem (B - 8)))
  generalize hfsz : GET_BLOCK_SIZE (OBF cfg (s.mem (B - 8))) = fsz at *
  have n1 : ¬ (B - 8 = B + b - 8 ∨ B - 8 = B) := by omega
  have n1' : ¬ (B - 8 = B + 8) := by omega
  have n2 : ¬ (B - fsz = B + b - 8 ∨ B - fsz = B) := by omega
  have n2' : ¬ (B - fsz = B + 8) := by omega
  have n3 : ¬ (B + b = B + b - 8 ∨ B + b = B) := by omega
  have n3' : ¬ (B + b = B + 8) := by omega
  have t1 : s1.mem (B - 8) = s.mem (B - 8) := by rw [m1, if_neg n1, if_neg n1']
  have t2 : s1.mem (B - fsz) = s.mem (B - fsz) := by rw [m1, if_neg n2, if_neg n2']
  have t3 : s1.mem (B + b) = s.mem (B + b) := by rw [m1, if_neg n3, if_neg n3']
  have t4 : s1.mem B = OBF cfg (PACK n b 0 1) := by rw [m1, if_pos (Or.inr rfl)]
  have t5 : sf_mem_end cfg s1 = sf_mem_end cfg s := by unfold sf_mem_end; rw [p1]
  have t6 : s1.qlLength (QL_INDEX b) ≠ 5 := by
    rw [l1, if_pos rfl]; omega
  obtain ⟨S, hf, m2, q2, l2, p2⟩ := sf_free_quick cfg fuel s1 B n b hn hb32 hb16 hb hBa hBs hBe
    (by rw [t5]; exact hplace) t4 t6 (by rw [t1, hfsz]; exact hpsz)
    (by rw [t1, hfsz]; exact hpsz2) (by rw [t1, hfsz, t2]; exact hprev) (by rw [t3]; exact hnext)
  refine ⟨s1, _, hm, hf, ?_, ?_, ?_, ?_⟩
  · intro a
    rw [update_pl_mem, m2, q1, if_pos rfl, m1]
    by_cases h1 : a = B + 8
    · rw [if_pos h1, h1]
    · rw [if_neg h1]
      by_cases h2 : a = B
      · rw [if_pos h2, h2, hhdr]
      · rw [if_neg h2]
        by_cases h3 : a = B + b - 8
        · rw [if_pos h3, h3, hftr]
        · have h4 : ¬ (a = B + b - 8 ∨ a = B) := fun h => h.elim h3 h2
          rw [if_neg h3, if_neg h4, if_neg h1]
  · intro j
    show S.qlFirst j = _
    rw [q2, q1]
    by_cases h : j = QL_INDEX b
    · rw [if_pos h, h, hB]
    · rw [if_neg h, if_neg h]
  · intro j
    show S.qlLength j = _
    rw [l2, l1, if_pos rfl, l1]
    by_cases h : j = QL_INDEX b
    · rw [if_pos h, h]; omega
    · rw [if_neg h, if_neg h]
  · show S.pages = _
    rw [p2, p1]

/-- C6 (amended): on an initialised heap, for `0 < n < 2 ^ 32`, the calls
`p = sf_malloc(n)` and `sf_free(p)` restore the heap in two cases, `b` being
the block size of the request.

Quick list: `b < 224`, the quick list of `b` is not empty and its length field
is not 6; its first block `B` lies in the heap at an address congruent to 8
modulo 16 and carries the header of a quick-list block of `b` bytes and the
footer of a free block of `b` bytes; the footer below `B` records a size that
is not 0 and leads to a block marked allocated, and the block after `B` is
marked allocated; and `n * 2 ^ 32 + 2 * b` does not exceed the address of the
heap end, so that `validate_pp`, which adds the whole header word, accepts `p`.
Then `p = B + 8` and every word of memory, every quick list and the heap extent
are as before.

Main list: the quick list of `b` is empty or `b ≥ 224`; the main lists are the
well-formed lists `L` on a heap region shorter than `2 ^ 32` bytes, every listed
block is marked free, and the scans have fuel; `find_fit` returns the listed
block `F`, of `S ≥ 224` bytes, at an address congruent to 8 modulo 16, with
header and footer of a free block of `S` bytes; the footer below `F` gives a
block of `psz ≥ 32` bytes that is marked allocated, the block after `F` is
marked allocated and ends at or below the epilogue, every other listed block
lies below the block before `F` or above the block after it; and
`n * 2 ^ 32 + 2 * S` does not exceed the address of the heap end.  Then
`p = F + 8`, the main lists are well formed with `F` at the front of the list
of its size class and every list holding the blocks it held, the header and the
footer of `F` are the words they were, every word outside `F` that is no list
link is as before, and every quick list and the heap extent are as before. -/
theorem malloc_free_round_trip (cfg : Config) (fuel : Nat) (s : State) (n : Nat)
    (hinit : HEAP_SIZE cfg s ≠ 0) (hn0 : 0 < n) (hn : n < 2 ^ 32) :
    (∀ B : Nat, malloc_block_size n < QL_MAX_SIZE →
      s.qlFirst (QL_INDEX (malloc_block_size n)) = B → B ≠ 0 → B % 16 = 8 →
      sf_mem_start cfg ≤ B → B + malloc_block_size n < WORD →
      n * 4294967296 + 2 * malloc_block_size n ≤ sf_mem_end cfg s →
      s.mem B = OBF cfg (PACK 0 (malloc_block_size n) 1 1) →
      s.mem (B + malloc_block_size n - 8) = OBF cfg (PACK 0 (malloc_block_size n) 0 0) →
      s.qlLength (QL_INDEX (malloc_block_size n)) ≠ 6 →
      GET_BLOCK_SIZE (OBF cfg (s.mem (B - 8))) ≠ 0 →
      GET_BLOCK_SIZE (OBF cfg (s.mem (B - 8))) ≤ B →
      OBF cfg (s.mem (B - GET_BLOCK_SIZE (OBF cfg (s.mem (B - 8)))))
        &&& THIS_BLOCK_ALLOCATED ≠ 0 →
      OBF cfg (s.mem (B + malloc_block_size n)) &&& THIS_BLOCK_ALLOCATED ≠ 0 →
      ∃ s1 s2, sf_malloc cfg fuel s n = some (B + 8, s1) ∧
        sf_free cfg fuel s1 (B + 8) = Outcome.ret () s2 ∧
        (∀ a, s2.mem a = s.mem a) ∧ (∀ j, s2.qlFirst j = s.qlFirst j) ∧
        (∀ j, s2.qlLength j = s.qlLength j) ∧ s2.pages = s.pages) ∧
    (∀ (hi : Nat) (L : Nat → List Nat) (F S psz : Nat),
      Lists cfg s hi L → hi < sf_mem_start cfg + 2 ^ 32 →
      (malloc_block_size n < QL_MAX_SIZE →
        s.qlFirst (QL_INDEX (malloc_block_size n)) = 0) →
      find_fit cfg fuel s (malloc_block_size n) = some F →
      F ∈ L (get_ml_index cfg S) → F % 16 = 8 →
      s.mem F = OBF cfg (PACK 0 S 0 0) → s.mem (F + S - 8) = OBF cfg (PACK 0 S 0 0) →
      size_at cfg s F = S → QL_MAX_SIZE ≤ S →
      n * 4294967296 + 2 * S ≤ sf_mem_end cfg s →
      size_at cfg s (F - 8) = psz → 32 ≤ psz → sf_mem_start cfg + 8 + psz ≤ F →
      size_at cfg s (F - psz) = psz →
      OBF cfg (s.mem (F - psz)) &&& THIS_BLOCK_ALLOCATED ≠ 0 →
      OBF cfg (s.mem (F + S)) &&& THIS_BLOCK_ALLOCATED ≠ 0 →
      F + S + size_at cfg s (F + S) + 8 ≤ sf_mem_end cfg s →
      (∀ i, i < cfg.NUM_FREE_LISTS → ∀ x, x ∈ L i →
        OBF cfg (s.mem x) &&& THIS_BLOCK_ALLOCATED = 0) →
      (∀ i, i < cfg.NUM_FREE_LISTS → ∀ x, x ∈ L i → x ≠ F →
        x + size_at cfg s x ≤ F - psz ∨ F + S + size_at cfg s (F + S) ≤ x) →
      (∀ i, i < cfg.NUM_FREE_LISTS → (L i).length + 1 ≤ fuel) →
      ∃ s1 s2, sf_malloc cfg fuel s n = some (F + 8, s1) ∧
        sf_free cfg fuel s1 (F + 8) = Outcome.ret () s2 ∧
        Lists cfg s2 hi
          (fun i => if i = get_ml_index cfg S then F :: (L i).erase F else L i) ∧
        (∀ i x, x ∈ (if i = get_ml_index cfg S then F :: (L i).erase F else L i) ↔ x ∈ L i) ∧
        s2.mem F = s.mem F ∧ s2.mem (F + S - 8) = s.mem (F + S - 8) ∧
        (∀ a, (a < F ∨ F + S ≤ a) →
          (∀ i, i < cfg.NUM_FREE_LISTS → ∀ c, c ∈ sentinel cfg i :: L i →
            a ≠ c + 8 ∧ a ≠ c + 16) → s2.mem a = s.mem a) ∧
        (∀ j, s2.qlFirst j = s.qlFirst j) ∧ (∀ j, s2.qlLength j = s.qlLength j) ∧
        s2.pages = s.pages) := by
  refine ⟨?_, ?_⟩
  · intro B h1 h2 h3 h4 h5 h6 h7 h8 h9 h10 h11 h12 h13 h14
    exact quick_round_trip cfg fuel s n B hinit hn0 hn h1 h2 h3 h4 h5 h6 h7 h8 h9 h10 h11 h12
      h13 h14
  · intro hi L F S psz h1 h2 h3 h4 h5 h6 h7 h8 h9 h10 h11 h12 h13 h14 h15 h16 h17 h18 h19 h20
      h21
    obtain ⟨s1, s2, c1, c2, c3, c4, c5, c6, c7, c8, c9⟩ := main_round_trip cfg fuel s hi L n F S
      psz hinit hn0 hn h1 h2 h3 h4 h5 h6 h7 h8 h9 h10 h11 h12 h13 h14 h15 h16 h17 h18 h19 h20
      h21
    refine ⟨s1, s2, c1, c2, c3, ?_, c4, c5, c6, c7, c8, c9⟩
    intro i x
    by_cases h : i = get_ml_index cfg S
    · rw [if_pos h]
      constructor
      · intro hx
        rcases List.mem_cons.1 hx with e | e
        · rw [e, h]; exact h5
        · exact List.mem_of_mem_erase e
      · intro hx
        by_cases hxF : x = F
        · rw [hxF]; exact List.mem_cons_self _ _
        · exact List.mem_cons_of_mem _ ((List.mem_erase_of_ne hxF).2 hx)
    · rw [if_neg h]

set_option maxRecDepth 100000 in
/-- Witness for C6 (amended): the heap with a 32-byte block in quick list 0
between two allocated blocks, and the heap after one `sf_malloc(4)` on the fresh
heap of `cfgA`, whose free block of 4016 bytes lies between the allocated block
and the epilogue; a request of 4 bytes in both. -/
theorem malloc_free_round_trip_witness :
    (∃ s1 s2, sf_malloc cfgA 3 quickState 4 = some (baseA + 40 + 8, s1) ∧
      sf_free cfgA 3 s1 (baseA + 40 + 8) = Outcome.ret () s2 ∧
      (∀ a, s2.mem a = quickState.mem a) ∧ (∀ j, s2.qlFirst j = quickState.qlFirst j) ∧
      (∀ j, s2.qlLength j = quickState.qlLength j) ∧ s2.pages = quickState.pages) ∧
    (∃ s1 s2, sf_malloc cfgA 3 alloc4.2 4 = some (baseA + 72 + 8, s1) ∧
      sf_free cfgA 3 s1 (baseA + 72 + 8) = Outcome.ret () s2 ∧
      Lists cfgA s2 (baseA + 4096)
        (fun i => if i = get_ml_index cfgA 4016 then
          (baseA + 72) :: (oneL i).erase (baseA + 72) else oneL i) ∧
      (∀ i x, x ∈ (if i = get_ml_index cfgA 4016 then
          (baseA + 72) :: (oneL i).erase (baseA + 72) else oneL i) ↔ x ∈ oneL i) ∧
      s2.mem (baseA + 72) = alloc4.2.mem (baseA + 72) ∧
      s2.mem (baseA + 72 + 4016 - 8) = alloc4.2.mem (baseA + 72 + 4016 - 8) ∧
      (∀ a, (a < baseA + 72 ∨ baseA + 72 + 4016 ≤ a) →
        (∀ i, i < cfgA.NUM_FREE_LISTS → ∀ c, c ∈ sentinel cfgA i :: oneL i →
          a ≠ c + 8 ∧ a ≠ c + 16) → s2.mem a = alloc4.2.mem a) ∧
      (∀ j, s2.qlFirst j = alloc4.2.qlFirst j) ∧
      (∀ j, s2.qlLength j = alloc4.2.qlLength j) ∧ s2.pages = alloc4.2.pages) :=
  ⟨(malloc_free_round_trip cfgA 3 quickState 4 (by decide) (by decide) (by decide)).1
      (baseA + 40) (by decide) (by decide) (by decide) (by decide) (by decide) (by decide)
      (by decide) (by decide) (by decide) (by decide) (by decide) (by decide) (by decide)
      (by decide),
    (malloc_free_round_trip cfgA 3 alloc4.2 4 (by decide) (by decide) (by decide)).2
      (baseA + 4096) oneL (baseA + 72) 4016 32 (by decide) (by decide) (by decide) (by decide)
      (by decide) (by decide) (by decide) (by decide) (by decide) (by decide) (by decide)
      (by decide) (by decide) (by decide) (by decide) (by decide) (by decide) (by decide)
      (by decide) (by decide) (by decide)⟩

set_option maxRecDepth 100000 in
/-- C7 (code defect): `sf_malloc(20)` followed by `sf_realloc(p, 10)` returns `p`,
but the leftover of 16 bytes is too small to split off and the header keeps
`payload_size = 20`, while the running payload drops to 10. -/
theorem realloc_shrink_keeps_payload_size :
    returns cfgA 20 [Call.malloc 20, Call.realloc (baseA + 48) 10] fresh0 =
      some [baseA + 48, baseA + 48] ∧
    (final cfgA 20 [Call.malloc 20, Call.realloc (baseA + 48) 10] fresh0).map
      (fun s => (GET_PL_SIZE (header_at cfgA s (baseA + 48)),
        GET_BLOCK_SIZE (header_at cfgA s (baseA + 48)), s.running_pl)) = some (20, 48, 10) := by
  decide

set_option maxRecDepth 100000 in
/-- C8 (code defect): after `sf_malloc(4)` the running payload is 4; the growing
`sf_realloc(p, 20)` succeeds and leaves a running payload of 36, a change of
`2 * (20 - 4)`, because the difference is added once more after the internal
`sf_malloc` and `sf_free` have already accounted for it. -/
theorem realloc_grow_counts_twice :
    (final cfgA 20 [Call.malloc 4] fresh0).map (fun s => s.running_pl) = some 4 ∧
    returns cfgA 20 [Call.malloc 4, Call.realloc (baseA + 48) 20] fresh0 =
      some [baseA + 48, baseA + 80] ∧
    (final cfgA 20 [Call.malloc 4, Call.realloc (baseA + 48) 20] fresh0).map
      (fun s => s.running_pl) = some 36 ∧ 36 ≠ 4 + (20 - 4) := by
  decide

set_option maxRecDepth 100000 in
/-- C9 (code defect): after `sf_malloc(4)` and the growing `sf_realloc(p, 20)` on
the fresh heap, the payload sizes of the allocated blocks that are not in a
quick list sum to 20 while the running payload is 36; after `sf_malloc(20)` and
the shrinking `sf_realloc(p, 10)` they sum to 20 while the running payload is
10. -/
theorem running_payload_differs_from_sum :
    (final cfgA 20 [Call.malloc 4, Call.realloc (baseA + 48) 20] fresh0).bind
      (fun s => (total_payload cfgA 200 s).map (fun t => (t, s.running_pl))) = some (20, 36) ∧
    (final cfgA 20 [Call.malloc 20, Call.realloc (baseA + 48) 10] fresh0).bind
      (fun s => (total_payload cfgA 200 s).map (fun t => (t, s.running_pl))) = some (20, 10) := by
  decide

set_option maxRecDepth 100000 in
/-- C10 (code defect): seven `sf_malloc(32)`, the first six freed in address
order, then `p = sf_malloc(32)`, which returns the payload at offset 288 inside
the free block at offset 40.  The pointer is valid, its payload size is 32 and
its first byte is 0.  `sf_realloc(p, 240)` returns the payload at offset 48,
whose first byte is 91: the internal allocation split the free block and wrote
a footer over the first word of the payload of `p` before the copy. -/
theorem realloc_copies_overwritten_payload :
    returns cfgA 20 (sixFreed ++ [Call.malloc 32]) fresh0 =
      some [baseA + 48, baseA + 96, baseA + 144, baseA + 192, baseA + 240, baseA + 288,
        baseA + 336, 0, 0, 0, 0, 0, 0, baseA + 288] ∧
    (final cfgA 20 (sixFreed ++ [Call.malloc 32]) fresh0).map
      (fun s => (validate_pp cfgA s (baseA + 288), GET_PL_SIZE (header_at cfgA s (baseA + 288)),
        byte_at s (baseA + 288))) = some (0, 32, 0) ∧
    returns cfgA 20 (sixFreed ++ [Call.malloc 32, Call.realloc (baseA + 288) 240]) fresh0 =
      some [baseA + 48, baseA + 96, baseA + 144, baseA + 192, baseA + 240, baseA + 288,
        baseA + 336, 0, 0, 0, 0, 0, 0, baseA + 288, baseA + 48] ∧
    (final cfgA 20 (sixFreed ++ [Call.malloc 32, Call.realloc (baseA + 288) 240]) fresh0).map
      (fun s => byte_at s (baseA + 48)) = some 91 := by
  decide

set_option maxRecDepth 100000 in
/-- C11 (code defect): twelve `sf_malloc(32)`, then every second block freed.
After five frees quick list 1 links five blocks and its length field is 5.  The
sixth free flushes the list: the five entries move to main list 1 and the list
links only the block just freed, at offset 520, but `flush_ql` never resets the
length field and `insert_ql` increments it, so the field is 6: it is neither the
number of linked blocks nor at most 5. -/
theorem quick_length_not_reset :
    (final cfgA 20 altFreed5 fresh0).map
      (fun s => (ql_members s 20 (s.qlFirst 1), s.qlLength 1)) =
      some ([baseA + 424, baseA + 328, baseA + 232, baseA + 136, baseA + 40], 5) ∧
    (final cfgA 20 altFreed fresh0).map
      (fun s => (ql_members s 20 (s.qlFirst 1), s.qlLength 1, main_list cfgA s 20 1)) =
      some ([baseA + 520], 6,
        [baseA + 40, baseA + 136, baseA + 232, baseA + 328, baseA + 424]) := by
  decide

set_option maxRecDepth 100000 in
/-- C12 (code defect): after seven `sf_malloc(32)` and the first six blocks freed
in address order, the walk from offset 40 visits the blocks at offsets 40, 328
and 376, while quick list 1 links the block at offset 280, which is not a
visited block: it lies inside the 288-byte block at offset 40 that is linked in
main list 4. -/
theorem quick_block_not_in_walk :
    (final cfgA 20 sixFreed fresh0).map
      (fun s => (heap_blocks cfgA s 200, ql_members s 20 (s.qlFirst 1),
        GET_BLOCK_SIZE (OBF cfgA (s.mem (baseA + 40))), main_list cfgA s 20 4)) =
      some ([baseA + 40, baseA + 328, baseA + 376], [baseA + 280], 288, [baseA + 40]) ∧
    baseA + 280 ∉ [baseA + 40, baseA + 328, baseA + 376] ∧
    baseA + 40 < baseA + 280 ∧ baseA + 280 < baseA + 40 + 288 := by
  decide

set_option maxRecDepth 100000 in
/-- C13 (code defect): twelve `sf_malloc(32)`, then every second block freed, six
in all.  The sixth free flushes quick list 1; each flushed entry has two
allocated neighbours, so `coalesce` returns it unchanged and it is linked in
main list 1 with the header word of a quick-list block, `PACK 0 48 1 1`, over
the footer word `PACK 0 48 0 0`: the five blocks are blocks of the heap walk,
linked in a main list and in no quick list, and their footer differs from
their header. -/
theorem flushed_header_differs_from_footer :
    (final cfgA 20 altFreed fresh0).map
      (fun s => (heap_blocks cfgA s 200, ql_members s 20 (s.qlFirst 1), main_list cfgA s 20 1,
        (main_list cfgA s 20 1).map
          (fun a => (OBF cfgA (s.mem a), OBF cfgA (s.mem (FOOTER cfgA s a)))))) =
      some ([baseA + 40, baseA + 88, baseA + 136, baseA + 184, baseA + 232, baseA + 280,
          baseA + 328, baseA + 376, baseA + 424, baseA + 472, baseA + 520, baseA + 568,
          baseA + 616],
        [baseA + 520], [baseA + 40, baseA + 136, baseA + 232, baseA + 328, baseA + 424],
        [(PACK 0 48 1 1, PACK 0 48 0 0), (PACK 0 48 1 1, PACK 0 48 0 0),
         (PACK 0 48 1 1, PACK 0 48 0 0), (PACK 0 48 1 1, PACK 0 48 0 0),
         (PACK 0 48 1 1, PACK 0 48 0 0)]) ∧
    PACK 0 48 1 1 ≠ PACK 0 48 0 0 := by
  decide

set_option maxRecDepth 100000 in
/-- C14 (code defect): ten `sf_malloc(32)` and one `sf_malloc(300)`; the small
blocks at offsets 40, 136, 232, 328 and 472 are freed into quick list 1, the
large block at offset 520 is freed into a main list, and then the block at
offset 424 is freed.  That free flushes the quick list while the block at 424 is
already rewritten as free: the entry at 472 is merged with both neighbours, the
free block at 520 is unlinked from its main list, and the merged block at 424 is
then turned into a quick-list block of 48 bytes.  The walk still visits the
block at offset 520, whose header has `allocated = 0`, and no main list links
it. -/
theorem free_block_in_no_main_list :
    (final cfgA 20 shadowed fresh0).map
      (fun s => (heap_blocks cfgA s 200, flags_at cfgA s (baseA + 520),
        GET_BLOCK_SIZE (OBF cfgA (s.mem (baseA + 520))))) =
      some ([baseA + 40, baseA + 88, baseA + 136, baseA + 184, baseA + 232, baseA + 280,
          baseA + 328, baseA + 376, baseA + 424, baseA + 472, baseA + 520], (0, 0), 3568) ∧
    (final cfgA 20 shadowed fresh0).map
      (fun s => ((List.range 10).map (main_list cfgA s 20), s.mem (baseA + 424 + 8), s.diag)) =
      some ([[], [baseA + 40, baseA + 136, baseA + 232, baseA + 328], [], [], [], [], [],
          [baseA + 424], [], []], 0, 1) ∧
    baseA + 520 ∉ [baseA + 40, baseA + 136, baseA + 232, baseA + 328, baseA + 424] := by
  decide

set_option maxRecDepth 1000000 in
/-- C16 (code defect): on the fresh heap at `2 ^ 48`, `p = sf_malloc(70000)`
succeeds and `p` meets every condition the specification puts on a valid
pointer, yet `sf_realloc(p, 0)` sets `sf_errno` to `EINVAL` and frees nothing:
the running payload stays 70000 and the block at offset 40 stays allocated.
For `p = sf_malloc(4)`, `sf_realloc(p, 0)` returns `NULL`, leaves `sf_errno` at
0, brings the running payload to 0 and leaves one free block at offset 40. -/
theorem realloc_zero_rejected :
    returns cfgA 20 [Call.malloc 70000, Call.realloc (baseA + 48) 0] fresh0 =
      some [baseA + 48, 0] ∧
    (final cfgA 20 [Call.malloc 70000] fresh0).map
      (fun s => (s.sf_errno, s.running_pl, decide (validate_spec cfgA s (baseA + 48)))) =
      some (0, 70000, true) ∧
    (final cfgA 20 [Call.malloc 70000, Call.realloc (baseA + 48) 0] fresh0).map
      (fun s => (s.sf_errno, s.running_pl, flags_at cfgA s (baseA + 40))) =
      some (EINVAL, 70000, (1, 0)) ∧
    (final cfgA 20 [Call.malloc 70000, Call.realloc (baseA + 48) 0] fresh0).map
      (fun s => (heap_blocks cfgA s 200, main_list cfgA s 20 7)) =
      some ([baseA + 40, baseA + 70056], [baseA + 70056]) ∧
    returns cfgA 20 [Call.malloc 4, Call.realloc (baseA + 48) 0] fresh0 =
      some [baseA + 48, 0] ∧
    (final cfgA 20 [Call.malloc 4, Call.realloc (baseA + 48) 0] fresh0).map
      (fun s => (s.sf_errno, s.running_pl, heap_blocks cfgA s 200, main_list cfgA s 20 7)) =
      some (0, 0, [baseA + 40], [baseA + 40]) := by
  decide

set_option maxRecDepth 1000000 in
/-- C17 (code defect): the calls of `tailFlushed` leave a heap of one page and
write no diagnostic.  The last block before the epilogue, at offset 4040, has 48
bytes and is linked in main list 1, where `flush_ql` put it with the flag bits of
a quick-list block still set in its header.  No main-list block reaches 4112
bytes, the block size of a request of 4096 bytes, which is above the quick-list
sizes.  With `L = 48` the deficit `4112 - 48` is covered by one page, but
`sf_malloc(4096)` returns after growing two pages. -/
theorem grows_twice_after_flush :
    (final cfgA 20 tailFlushed fresh0).map (fun s => (s.pages, s.diag)) = some (1, 0) ∧
    (last_block cfgA tailState, main_list cfgA tailState 20 1,
      flags_at cfgA tailState (baseA + 4040), size_at cfgA tailState (baseA + 4040)) =
      (baseA + 4040,
        [baseA + 4040, baseA + 3944, baseA + 3848, baseA + 3752, baseA + 3656], (1, 1), 48) ∧
    (∀ l, l ∈ main_lists cfgA tailState 20 → ∀ x, x ∈ l →
      size_at cfgA tailState x < malloc_block_size 4096) ∧
    (malloc_block_size 4096, decide (QL_MAX_SIZE ≤ malloc_block_size 4096),
      last_free_size cfgA tailState 20,
      pages_for (malloc_block_size 4096 - last_free_size cfgA tailState 20)) =
      (4112, true, 48, 1) ∧
    (sf_malloc cfgA 20 tailState 4096).map (fun r => (r.1, r.2.pages - tailState.pages)) =
      some (baseA + 4096, 2) :=
  ⟨by decide, by decide, by decide, by decide, by decide⟩

set_option maxRecDepth 100000 in
/-- Page grows on well-formed lists.  On an initialised heap with well-formed
main lists `L`, where no listed block has the block size `b` of the request,
the quick list for `b` is empty or `b` is at least `QL_MAX_SIZE`, and the last
block before the epilogue is either marked allocated or a listed free block
that ends at the epilogue, `sf_malloc` returns a block after exactly
`ceil((b - L) / 4096)` page grows, `L` being `last_clear_size`, the size of that
last block when its header is not marked allocated and 0 otherwise, provided
the page provider and the fuel allow that many grows; the header of the
returned block records a size of at least `b`. -/
theorem grows_by_deficit (cfg : Config) (fuel : Nat) (s : State) (hi : Nat)
    (L : Nat → List Nat) (n : Nat) (hn : 0 < n) (hnl : n ≤ 2 ^ 64 - 32)
    (hpg0 : 0 < s.pages) (hL : Lists cfg s hi L) (hbig : hi < sf_mem_start cfg + 2 ^ 32)
    (hsmall : ∀ i, i < cfg.NUM_FREE_LISTS → ∀ x, x ∈ L i →
      size_at cfg s x < malloc_block_size n)
    (hq : malloc_block_size n < QL_MAX_SIZE → s.qlFirst (QL_INDEX (malloc_block_size n)) = 0)
    (hlb : last_block cfg s + 40 ≤ sf_mem_end cfg s)
    (hfree : OBF cfg (s.mem (last_block cfg s)) &&& THIS_BLOCK_ALLOCATED = 0 →
      last_block cfg s ∈ L (get_ml_index cfg (size_at cfg s (last_block cfg s))) ∧
      last_block cfg s + size_at cfg s (last_block cfg s) + 8 = sf_mem_end cfg s)
    (hroom : sf_mem_end cfg s +
      4096 * pages_for (malloc_block_size n - last_clear_size cfg s) ≤ hi)
    (hpages : s.pages + pages_for (malloc_block_size n - last_clear_size cfg s) ≤ cfg.maxPages)
    (hfuel : (∀ i, i < cfg.NUM_FREE_LISTS → (L i).length + 2 ≤ fuel) ∧
      pages_for (malloc_block_size n - last_clear_size cfg s) + 1 ≤ fuel) :
    ∃ p s', sf_malloc cfg fuel s n = some (p, s') ∧ p ≠ 0 ∧
      s'.pages = s.pages + pages_for (malloc_block_size n - last_clear_size cfg s) ∧
      malloc_block_size n ≤ GET_BLOCK_SIZE (header_at cfg s' p) := by
  obtain ⟨hb32, hb16, hbsz⟩ := malloc_block_size_small n hn hnl
  obtain ⟨hlen, hfk⟩ := hfuel
  have hWe := WORD_eq
  have hhiW := hL.1.2.1
  have hhi := hL.2.1
  by_cases ha : OBF cfg (s.mem (last_block cfg s)) &&& THIS_BLOCK_ALLOCATED = 0
  · -- the heap ends in a free block
    obtain ⟨hPm, hPe⟩ := hfree ha
    have hlf : last_clear_size cfg s = size_at cfg s (last_block cfg s) := by
      unfold last_clear_size; rw [if_pos ha]
    rw [hlf] at hroom hpages hfk ⊢
    have hk := get_ml_index_lt cfg (size_at cfg s (last_block cfg s)) hL.1.1
    have hSb := hsmall _ hk _ hPm
    have hSlt : size_at cfg s (last_block cfg s) < 2 ^ 32 := GET_BLOCK_SIZE_lt _
    have hPl := hL.2.2.2.1 _ hk _ hPm
    have hft : size_at cfg s (last_block cfg s + size_at cfg s (last_block cfg s) - 8) =
        size_at cfg s (last_block cfg s) := by
      have e1 : last_block cfg s = wsub (sf_mem_end cfg s - 8)
          (size_at cfg s (sf_mem_end cfg s - 16)) := by
        have e2 : wsub (sf_mem_end cfg s - 8) 8 = sf_mem_end cfg s - 16 := by
          rw [wsub_eq (by omega) (by omega)]; omega
        unfold last_block PREV_BLOCK size_at MROW
        rw [e2]
      have e3 : last_block cfg s + size_at cfg s (last_block cfg s) - 8 =
          sf_mem_end cfg s - 16 := by omega
      have hflt : size_at cfg s (sf_mem_end cfg s - 16) < 2 ^ 32 := GET_BLOCK_SIZE_lt _
      rw [e3]
      unfold wsub at e1
      rw [hWe] at e1
      omega
    have hE : EndsFree cfg fuel s hi L (malloc_block_size n) (last_block cfg s)
        (size_at cfg s (last_block cfg s)) :=
      ⟨hL, hPm, rfl, hPe, ha, hft, fun i hi' x hx _ => hsmall i hi' x hx,
        fun i hi' => by
          have := hlen i hi'
          have := List.length_erase_le (last_block cfg s) (L i)
          omega⟩
    have hpf : malloc_block_size n ≤ size_at cfg s (last_block cfg s) +
        4096 * pages_for (malloc_block_size n - size_at cfg s (last_block cfg s)) := by
      unfold pages_for PAGE_SZ; omega
    obtain ⟨s1, L1, hloop, hE1, hp1⟩ := fit_loop_grows cfg fuel hi (malloc_block_size n)
      (last_block cfg s) hbig
      (pages_for (malloc_block_size n - size_at cfg s (last_block cfg s))) s L
      (size_at cfg s (last_block cfg s)) fuel hE (fun hbS => by omega) hpg0 hpages hroom
      hpf (fun _ => by unfold pages_for PAGE_SZ; omega) hfk
    obtain ⟨p, s', h1, h2, h3, h4⟩ := malloc_after_loop cfg fuel s hi n _ s1 L1 _ hn hnl hpg0 hq
      hloop hE1 hpf
    exact ⟨p, s', h1, h2, by rw [h3, hp1], h4⟩
  · -- the heap ends in an allocated block
    have hlf : last_clear_size cfg s = 0 := by
      unfold last_clear_size; rw [if_neg ha]
    rw [hlf] at hroom hpages hfk ⊢
    have hk1 : 1 ≤ pages_for (malloc_block_size n - 0) := by
      unfold pages_for PAGE_SZ; omega
    obtain ⟨f', hf'⟩ : ∃ f', fuel = f' + 1 := ⟨fuel - 1, by omega⟩
    have hfind := find_fit_none cfg fuel s hi L (malloc_block_size n) hL hsmall
      (fun i hi' => by have := hlen i hi'; omega)
    obtain ⟨s1, L1, hext, hE1, hp1, he1, hhead1⟩ :=
      extend_allocated cfg fuel s hi L (malloc_block_size n) hL hpg0 (by omega) (by omega)
        hlb ha hsmall hlen
    obtain ⟨s2, L2, hloop, hE2, hp2⟩ := fit_loop_grows cfg fuel hi (malloc_block_size n)
      (sf_mem_end cfg s - 8) hbig (pages_for (malloc_block_size n - 0) - 1) s1 L1 4096 f' hE1
      (fun _ => hhead1) (by omega) (by omega) (by omega)
      (by unfold pages_for PAGE_SZ; omega) (fun _ => by unfold pages_for PAGE_SZ at *; omega)
      (by omega)
    have hloop0 : malloc_fit_loop cfg fuel (malloc_block_size n) fuel s =
        some (sf_mem_end cfg s - 8, unlink_block s2 (sf_mem_end cfg s - 8)) := by
      rw [← hloop]
      nth_rewrite 2 [hf']
      simp only [malloc_fit_loop, hfind, hext]
      simp
    obtain ⟨p, s', h1, h2, h3, h4⟩ := malloc_after_loop cfg fuel s hi n _ s2 L2 _ hn hnl hpg0 hq
      hloop0 hE2 (by unfold pages_for PAGE_SZ; omega)
    exact ⟨p, s', h1, h2, by rw [h3, hp2, hp1]; omega, h4⟩

set_option maxRecDepth 100000 in
theorem grows_by_deficit_witness :
    ∃ p s', sf_malloc cfgA 3 alloc4.2 5000 = some (p, s') ∧ p ≠ 0 ∧
      s'.pages = alloc4.2.pages +
        pages_for (malloc_block_size 5000 - last_clear_size cfgA alloc4.2) ∧
      malloc_block_size 5000 ≤ GET_BLOCK_SIZE (header_at cfgA s' p) :=
  grows_by_deficit cfgA 3 alloc4.2 (baseA + 4096 * 5) oneL 5000 (by decide) (by decide)
    (by decide) (by decide) (by decide) (by decide) (by decide) (by decide) (by decide)
    (by decide) (by decide) (by decide)

/-- C18: on a fresh heap, for every build whose list heads lie outside the
first page and whose page provider grants one page, the initialisation that
the first call of `sf_malloc` runs succeeds and leaves the prologue of 32 bytes
marked allocated at offset 8, one free block of 4048 bytes at offset 40, alone
in the main lists, and the epilogue at offset 4088; and for every `k` from 1 to
5, `k` calls `sf_malloc(4)` return the payloads at the offsets `48 + 32 * i`,
`i < k`, each in a block of 32 bytes with payload size 4, and leave one free
block of `4048 - 32 * k` bytes at offset `40 + 32 * k`, the only block in the
main lists. -/
theorem fresh_heap_allocations (cfg : Config) (mem : Nat → Nat) (fuel k : Nat)
    (hheads : HeadsOutside cfg (sf_mem_start cfg + 4096)) (hgrow : 0 < cfg.maxPages)
    (hfuel : 2 ≤ fuel) (hk1 : 1 ≤ k) (hk5 : k ≤ 5) :
    (malloc_init cfg (fresh mem)).1 = 0 ∧ Carved cfg (malloc_init cfg (fresh mem)).2 0 ∧
    ∃ s, run cfg fuel (alloc4s k) (fresh mem) =
        some ((List.range k).map (fun i => sf_mem_start cfg + 48 + 32 * i), s) ∧
      Carved cfg s k := by
  obtain ⟨h0, hc0⟩ := carved_init cfg mem hheads hgrow
  refine ⟨h0, hc0, ?_⟩
  obtain ⟨m, rfl⟩ : ∃ m, k = m + 1 := ⟨k - 1, by omega⟩
  obtain ⟨s1, hr1, hc1⟩ := carved_step cfg fuel _ 0 hc0 (by omega) hfuel
  obtain ⟨s2, hr2, hc2⟩ := carved_run cfg fuel hfuel m s1 1 hc1 (by omega)
  have h1 : malloc_init cfg (fresh mem) = (0, (malloc_init cfg (fresh mem)).2) :=
    Prod.ext h0 rfl
  have h2 : malloc_init cfg (malloc_init cfg (fresh mem)).2 =
      (0, (malloc_init cfg (fresh mem)).2) := by
    generalize (malloc_init cfg (fresh mem)).2 = s0 at hc0
    unfold malloc_init
    rw [if_neg]
    unfold HEAP_SIZE sf_mem_end sf_mem_start PAGE_SZ
    rw [hc0.1]; omega
  have hfirst := sf_malloc_after_init cfg fuel (fresh mem) _ 4 (by norm_num) h1 h2
  rw [hr1] at hfirst
  refine ⟨s2, ?_, ?_⟩
  · have e : alloc4s (m + 1) = Call.malloc 4 :: alloc4s m := rfl
    rw [e, run]
    have hs : step cfg fuel (fresh mem) (Call.malloc 4) = sf_malloc cfg fuel (fresh mem) 4 := rfl
    rw [hs, hfirst]
    simp only [hr2]
    rw [List.range_succ_eq_map, List.map_cons, List.map_map]
    have e0 : (fun i => sf_mem_start cfg + 48 + 32 * i) ∘ Nat.succ =
        fun i => sf_mem_start cfg + 48 + 32 * (1 + i) := by
      funext i
      simp only [Function.comp]
      omega
    rw [e0]
  · have e : m + 1 = 1 + m := by omega
    rw [e]; exact hc2

set_option maxRecDepth 100000 in
/-- Witness for C18: the build `cfgA` with zeroed memory and `k = 5`. -/
theorem fresh_heap_allocations_witness :
    HeadsOutside cfgA (sf_mem_start cfgA + 4096) ∧ 0 < cfgA.maxPages ∧
    (malloc_init cfgA (fresh (fun _ => 0))).1 = 0 ∧
    Carved cfgA (malloc_init cfgA (fresh (fun _ => 0))).2 0 ∧
    ∃ s, run cfgA 20 (alloc4s 5) (fresh (fun _ => 0)) =
        some ((List.range 5).map (fun i => sf_mem_start cfgA + 48 + 32 * i), s) ∧
      Carved cfgA s 5 :=
  ⟨by decide, by decide,
    fresh_heap_allocations cfgA (fun _ => 0) 20 5 (by decide) (by decide) (by decide)
      (by decide) (by decide)⟩

/-- C19: `sf_malloc(0)` returns `NULL` and the state after the call is the state
before it, whatever that state is: memory, heap extent, quick lists, running
and peak payload and `sf_errno` are unchanged; on a heap that was never
initialised no page is grown and the heap size stays 0. -/
theorem malloc_zero_changes_nothing (cfg : Config) (fuel : Nat) (s : State) (mem : Nat → Nat) :
    sf_malloc cfg fuel s 0 = some (0, s) ∧
    (sf_malloc cfg fuel (fresh mem) 0).map (fun r => (r.1, r.2.pages, HEAP_SIZE cfg r.2)) =
      some (0, 0, 0) := by
  refine ⟨rfl, ?_⟩
  show some (0, 0, HEAP_SIZE cfg (fresh mem)) = _
  unfold HEAP_SIZE sf_mem_end sf_mem_start fresh
  simp

set_option maxRecDepth 100000 in
/-- C20 (code defect): twelve `sf_malloc(32)`, then every second block freed, five
in all: quick list 1 links the blocks at offsets 424, 328, 232, 136 and 40, and
both neighbours of each are allocated.  `flush_ql` on that list leaves its first
pointer `NULL` but its length field at 5, and the five blocks are linked in main
list 1 with `allocated = 1` and `in_quick_list = 1` in their headers, over
footers with both bits 0. -/
theorem flush_leaves_flags_and_length :
    (final cfgA 20 altFreed5 fresh0).map
      (fun s => (ql_members s 20 (s.qlFirst 1), s.qlLength 1,
        (heap_blocks cfgA s 200).map (fun a => (flags_at cfgA s a).1))) =
      some ([baseA + 424, baseA + 328, baseA + 232, baseA + 136, baseA + 40], 5,
        [1, 1, 1, 1, 1, 1, 1, 1, 1, 1, 1, 1, 0]) ∧
    ((final cfgA 20 altFreed5 fresh0).bind (fun s => flush_ql cfgA 20 s 1)).map
      (fun t => (t.qlFirst 1, t.qlLength 1, main_list cfgA t 20 1)) =
      some (0, 5, [baseA + 40, baseA + 136, baseA + 232, baseA + 328, baseA + 424]) ∧
    ((final cfgA 20 altFreed5 fresh0).bind (fun s => flush_ql cfgA 20 s 1)).map
      (fun t => ((main_list cfgA t 20 1).map (fun a => flags_at cfgA t a),
        (main_list cfgA t 20 1).map (fun a => flags_at cfgA t (FOOTER cfgA t a)))) =
      some ([(1, 1), (1, 1), (1, 1), (1, 1), (1, 1)],
        [(0, 0), (0, 0), (0, 0), (0, 0), (0, 0)]) := by
  decide

/-- C21. Let `B` be a free block in no list, on a tiled heap with well-formed main
lists `L` in which every neighbour of `B` marked free is listed under its size
class (`CoalesceOK`). Then `coalesce` returns `merged_block`, the lowest-addressed
block among `B` and its neighbours marked free (the block before `B` lies below
`B`, the block after above). In the new state the header of the returned block is
`PACK 0 merged_size 0 0`: payload size 0, block size the size of `B` plus the
sizes of exactly the neighbours marked free, `allocated = 0`, `in_quick_list = 0`;
the footer, at the last word of the merged block, equals the header; the main
lists are the old ones without the two neighbours (a neighbour marked allocated
was in none), so no merged neighbour is linked in any list; and every word of a
neighbour marked allocated (prologue, epilogue and quick-list blocks included) is
as before. -/
theorem coalesce_merges (cfg : Config) (fuel : Nat) (s : State) (hi : Nat)
    (L : Nat → List Nat) (B : Nat) (h : CoalesceOK cfg fuel s hi L B) :
    ∃ s', coalesce cfg fuel s B = some (merged_block cfg s B, s') ∧
      PREV_BLOCK cfg s B < B ∧ B < NEXT_BLOCK cfg s B ∧
      OBF cfg (s'.mem (merged_block cfg s B)) = PACK 0 (merged_size cfg s B) 0 0 ∧
      GET_PL_SIZE (OBF cfg (s'.mem (merged_block cfg s B))) = 0 ∧
      GET_BLOCK_SIZE (OBF cfg (s'.mem (merged_block cfg s B))) = merged_size cfg s B ∧
      OBF cfg (s'.mem (merged_block cfg s B)) &&& THIS_BLOCK_ALLOCATED = 0 ∧
      OBF cfg (s'.mem (merged_block cfg s B)) &&& IN_QUICK_LIST = 0 ∧
      s'.mem (merged_block cfg s B + merged_size cfg s B - 8) =
        s'.mem (merged_block cfg s B) ∧
      Lists cfg s' hi
        (fun i => ((L i).erase (NEXT_BLOCK cfg s B)).erase (PREV_BLOCK cfg s B)) ∧
      (∀ i, i < cfg.NUM_FREE_LISTS →
        PREV_BLOCK cfg s B ∉ ((L i).erase (NEXT_BLOCK cfg s B)).erase (PREV_BLOCK cfg s B) ∧
        NEXT_BLOCK cfg s B ∉ ((L i).erase (NEXT_BLOCK cfg s B)).erase (PREV_BLOCK cfg s B)) ∧
      (OBF cfg (s.mem (PREV_BLOCK cfg s B)) &&& THIS_BLOCK_ALLOCATED ≠ 0 →
        ∀ a, PREV_BLOCK cfg s B ≤ a → a < B → s'.mem a = s.mem a) ∧
      (OBF cfg (s.mem (NEXT_BLOCK cfg s B)) &&& THIS_BLOCK_ALLOCATED ≠ 0 →
        ∀ a, NEXT_BLOCK cfg s B ≤ a →
          (a < NEXT_BLOCK cfg s B + size_at cfg s (NEXT_BLOCK cfg s B) ∨
            a = NEXT_BLOCK cfg s B) → s'.mem a = s.mem a) := by
  have hNe := next_block_eq cfg fuel s hi L B h
  have hh := h
  obtain ⟨hL, hbig, hB1, hB2, hB3, hBh, hBf, hP1, hP3, hP2, hlisted, hPfree, hNfree, hfuel,
    hN3⟩ := hh
  have hhi := hL.2.1
  have hB16 : size_at cfg s B % 16 = 0 := GET_BLOCK_SIZE_mod _
  have hP16 : size_at cfg s (PREV_BLOCK cfg s B) % 16 = 0 := GET_BLOCK_SIZE_mod _
  have hN16 : size_at cfg s (NEXT_BLOCK cfg s B) % 16 = 0 := GET_BLOCK_SIZE_mod _
  by_cases hp : OBF cfg (s.mem (PREV_BLOCK cfg s B)) &&& THIS_BLOCK_ALLOCATED = 0
  · by_cases hn : OBF cfg (s.mem (NEXT_BLOCK cfg s B)) &&& THIS_BLOCK_ALLOCATED = 0
    · have eR : merged_block cfg s B = PREV_BLOCK cfg s B := by
        unfold merged_block; rw [if_pos hp]
      have eT : merged_size cfg s B = size_at cfg s B + size_at cfg s (PREV_BLOCK cfg s B) +
          size_at cfg s (NEXT_BLOCK cfg s B) := by
        unfold merged_size; rw [if_pos hp, if_pos hn]
      obtain ⟨s', hco, hLs, h1, h2, frame⟩ := coalesce_case_both cfg fuel s hi L B h hp hn
      rw [eR, eT]
      exact coalesce_finish cfg fuel s s' hi L B _ _ h hco hLs h1 h2 frame
        ⟨by omega, by omega⟩ (fun hp' => absurd hp hp') (fun hn' => absurd hn hn')
    · have eR : merged_block cfg s B = PREV_BLOCK cfg s B := by
        unfold merged_block; rw [if_pos hp]
      have eT : merged_size cfg s B = size_at cfg s B + size_at cfg s (PREV_BLOCK cfg s B) := by
        unfold merged_size; rw [if_pos hp, if_neg hn]; rfl
      obtain ⟨s', hco, hLs, h1, h2, frame⟩ := coalesce_case_prev cfg fuel s hi L B h hp hn
      rw [eR, eT]
      exact coalesce_finish cfg fuel s s' hi L B _ _ h hco hLs h1 h2 frame
        ⟨by omega, by omega⟩ (fun hp' => absurd hp hp') (fun _ => by omega)
  · by_cases hn : OBF cfg (s.mem (NEXT_BLOCK cfg s B)) &&& THIS_BLOCK_ALLOCATED = 0
    · have eR : merged_block cfg s B = B := by
        unfold merged_block; rw [if_neg hp]
      have eT : merged_size cfg s B = size_at cfg s B + size_at cfg s (NEXT_BLOCK cfg s B) := by
        unfold merged_size; rw [if_neg hp, if_pos hn]; rfl
      obtain ⟨s', hco, hLs, h1, h2, frame⟩ := coalesce_case_next cfg fuel s hi L B h hp hn
      rw [eR, eT]
      exact coalesce_finish cfg fuel s s' hi L B _ _ h hco hLs h1 h2 frame
        ⟨by omega, by omega⟩ (fun _ => le_refl _) (fun hn' => absurd hn hn')
    · have eR : merged_block cfg s B = B := by
        unfold merged_block; rw [if_neg hp]
      have eT : merged_size cfg s B = size_at cfg s B := by
        unfold merged_size; rw [if_neg hp, if_neg hn]; rfl
      obtain ⟨s', hco, hLs, h1, h2, frame⟩ := coalesce_case_none cfg fuel s hi L B h hp hn
      rw [eR, eT]
      exact coalesce_finish cfg fuel s s' hi L B _ _ h hco hLs h1 h2 frame
        ⟨by omega, by omega⟩ (fun _ => le_refl _) (fun _ => by omega)

set_option maxRecDepth 100000 in
theorem coalesce_merges_witness :
    ∃ s', coalesce cfgA 3 freedState (baseA + 72) =
        some (merged_block cfgA freedState (baseA + 72), s') ∧
      PREV_BLOCK cfgA freedState (baseA + 72) < baseA + 72 ∧
      baseA + 72 < NEXT_BLOCK cfgA freedState (baseA + 72) ∧
      OBF cfgA (s'.mem (merged_block cfgA freedState (baseA + 72))) =
        PACK 0 (merged_size cfgA freedState (baseA + 72)) 0 0 ∧
      GET_PL_SIZE (OBF cfgA (s'.mem (merged_block cfgA freedState (baseA + 72)))) = 0 ∧
      GET_BLOCK_SIZE (OBF cfgA (s'.mem (merged_block cfgA freedState (baseA + 72)))) =
        merged_size cfgA freedState (baseA + 72) ∧
      OBF cfgA (s'.mem (merged_block cfgA freedState (baseA + 72))) &&&
        THIS_BLOCK_ALLOCATED = 0 ∧
      OBF cfgA (s'.mem (merged_block cfgA freedState (baseA + 72))) &&& IN_QUICK_LIST = 0 ∧
      s'.mem (merged_block cfgA freedState (baseA + 72) +
          merged_size cfgA freedState (baseA + 72) - 8) =
        s'.mem (merged_block cfgA freedState (baseA + 72)) ∧
      Lists cfgA s' (baseA + 4096 * 5)
        (fun i => ((freedL i).erase (NEXT_BLOCK cfgA freedState (baseA + 72))).erase
          (PREV_BLOCK cfgA freedState (baseA + 72))) ∧
      (∀ i, i < cfgA.NUM_FREE_LISTS →
        PREV_BLOCK cfgA freedState (baseA + 72) ∉
          ((freedL i).erase (NEXT_BLOCK cfgA freedState (baseA + 72))).erase
            (PREV_BLOCK cfgA freedState (baseA + 72)) ∧
        NEXT_BLOCK cfgA freedState (baseA + 72) ∉
          ((freedL i).erase (NEXT_BLOCK cfgA freedState (baseA + 72))).erase
            (PREV_BLOCK cfgA freedState (baseA + 72))) ∧
      (OBF cfgA (freedState.mem (PREV_BLOCK cfgA freedState (baseA + 72))) &&&
          THIS_BLOCK_ALLOCATED ≠ 0 →
        ∀ a, PREV_BLOCK cfgA freedState (baseA + 72) ≤ a → a < baseA + 72 →
          s'.mem a = freedState.mem a) ∧
      (OBF cfgA (freedState.mem (NEXT_BLOCK cfgA freedState (baseA + 72))) &&&
          THIS_BLOCK_ALLOCATED ≠ 0 →
        ∀ a, NEXT_BLOCK cfgA freedState (baseA + 72) ≤ a →
          (a < NEXT_BLOCK cfgA freedState (baseA + 72) +
              size_at cfgA freedState (NEXT_BLOCK cfgA freedState (baseA + 72)) ∨
            a = NEXT_BLOCK cfgA freedState (baseA + 72)) → s'.mem a = freedState.mem a) :=
  coalesce_merges cfgA 3 freedState (baseA + 4096 * 5) freedL (baseA + 72) (by decide)

/-- C22. Let `F` be a free block of `S` bytes of the heap that is in no main list
(the listed blocks `L` are well formed and lie outside `F`), and `R` a multiple
of 16 with `32 ≤ R ≤ S`. The function `split_free_block` returns `F`. When
`S - R < 32` it returns the state as it is, so the block and every list are
unchanged. Otherwise header and footer of `F` are `PACK 0 R 0 0` (size `R`,
`allocated = 0`), header and footer of the block at `F + R` are
`PACK 0 (S - R) 0 0`, that block is the new first entry of the main list of the
class of `S - R`, the other lists are as before, `R + (S - R) = S`, and both
blocks have at least 32 bytes. -/
theorem split_free_block_spec (cfg : Config) (u : State) (hi : Nat) (L : Nat → List Nat)
    (F R S : Nat) (hL : Lists cfg u hi L)
    (hF1 : sf_mem_start cfg + 40 ≤ F) (hF2 : F + S + 8 ≤ sf_mem_end cfg u)
    (hS : size_at cfg u F = S) (hR32 : 32 ≤ R) (hRS : R ≤ S) (hR16 : R % 16 = 0)
    (hout : ∀ i, i < cfg.NUM_FREE_LISTS → ∀ x, x ∈ L i →
      x + size_at cfg u x ≤ F ∨ F + S ≤ x) :
    (split_free_block cfg u F R).1 = F ∧
    (S - R < 32 → split_free_block cfg u F R = (F, u)) ∧
    (32 ≤ S - R →
      OBF cfg ((split_free_block cfg u F R).2.mem F) = PACK 0 R 0 0 ∧
      (split_free_block cfg u F R).2.mem (F + R - 8) = (split_free_block cfg u F R).2.mem F ∧
      size_at cfg (split_free_block cfg u F R).2 F = R ∧
      OBF cfg ((split_free_block cfg u F R).2.mem F) &&& THIS_BLOCK_ALLOCATED = 0 ∧
      OBF cfg ((split_free_block cfg u F R).2.mem (F + R)) = PACK 0 (S - R) 0 0 ∧
      (split_free_block cfg u F R).2.mem (F + S - 8) =
        (split_free_block cfg u F R).2.mem (F + R) ∧
      size_at cfg (split_free_block cfg u F R).2 (F + R) = S - R ∧
      OBF cfg ((split_free_block cfg u F R).2.mem (F + R)) &&& THIS_BLOCK_ALLOCATED = 0 ∧
      Lists cfg (split_free_block cfg u F R).2 hi
        (fun i => if i = get_ml_index cfg (S - R) then (F + R) :: L i else L i) ∧
      R + (S - R) = S ∧ 32 ≤ size_at cfg (split_free_block cfg u F R).2 F ∧
      32 ≤ size_at cfg (split_free_block cfg u F R).2 (F + R)) := by
  have hWe := WORD_eq
  have hhiW := hL.1.2.1
  have hhi := hL.2.1
  have hSlt : S < 2 ^ 32 := by rw [← hS]; exact GET_BLOCK_SIZE_lt _
  have hS16 : S % 16 = 0 := by rw [← hS]; exact GET_BLOCK_SIZE_mod _
  refine ⟨split_free_block_fst cfg u F R, ?_, ?_⟩
  · exact fun h => split_free_block_whole cfg u F R S hS hRS h
  · intro hfrag
    obtain ⟨_, p2, p3, _⟩ := PACK_fields 0 R 0 0 (by norm_num) (by omega) hR16 (by norm_num)
      (by norm_num)
    obtain ⟨_, q2, q3, _⟩ := PACK_fields 0 (S - R) 0 0 (by norm_num) (by omega) (by omega)
      (by norm_num) (by norm_num)
    obtain ⟨hLI, m1, m2, m3, m4⟩ := split_lists cfg u hi L F R S (OBF cfg (PACK 0 R 0 0))
      (OBF cfg (PACK 0 (S - R) 0 0)) hL hF1 hF2 hR32 hRS hfrag (by rw [OBF_OBF]; exact q2) hout
    rw [split_free_block_eq cfg u F R S hS hRS hfrag (by omega) (by omega)]
    unfold size_at
    simp only
    rw [m1, m2, m3, m4, OBF_OBF, OBF_OBF, p2, q2]
    exact ⟨rfl, rfl, rfl, p3, rfl, rfl, rfl, q3, hLI, by omega, hR32, hfrag⟩

set_option maxRecDepth 100000 in
theorem split_free_block_spec_witness :
    (split_free_block cfgA takenState (baseA + 72) 64).1 = baseA + 72 ∧
    (4016 - 64 < 32 → split_free_block cfgA takenState (baseA + 72) 64 =
      (baseA + 72, takenState)) ∧
    (32 ≤ 4016 - 64 →
      OBF cfgA ((split_free_block cfgA takenState (baseA + 72) 64).2.mem (baseA + 72)) =
        PACK 0 64 0 0 ∧
      (split_free_block cfgA takenState (baseA + 72) 64).2.mem (baseA + 72 + 64 - 8) =
        (split_free_block cfgA takenState (baseA + 72) 64).2.mem (baseA + 72) ∧
      size_at cfgA (split_free_block cfgA takenState (baseA + 72) 64).2 (baseA + 72) = 64 ∧
      OBF cfgA ((split_free_block cfgA takenState (baseA + 72) 64).2.mem (baseA + 72)) &&&
        THIS_BLOCK_ALLOCATED = 0 ∧
      OBF cfgA ((split_free_block cfgA takenState (baseA + 72) 64).2.mem (baseA + 72 + 64)) =
        PACK 0 (4016 - 64) 0 0 ∧
      (split_free_block cfgA takenState (baseA + 72) 64).2.mem (baseA + 72 + 4016 - 8) =
        (split_free_block cfgA takenState (baseA + 72) 64).2.mem (baseA + 72 + 64) ∧
      size_at cfgA (split_free_block cfgA takenState (baseA + 72) 64).2 (baseA + 72 + 64) =
        4016 - 64 ∧
      OBF cfgA ((split_free_block cfgA takenState (baseA + 72) 64).2.mem (baseA + 72 + 64)) &&&
        THIS_BLOCK_ALLOCATED = 0 ∧
      Lists cfgA (split_free_block cfgA takenState (baseA + 72) 64).2 (baseA + 4096 * 5)
        (fun i => if i = get_ml_index cfgA (4016 - 64) then (baseA + 72 + 64) :: [] else []) ∧
      64 + (4016 - 64) = 4016 ∧
      32 ≤ size_at cfgA (split_free_block cfgA takenState (baseA + 72) 64).2 (baseA + 72) ∧
      32 ≤ size_at cfgA (split_free_block cfgA takenState (baseA + 72) 64).2
        (baseA + 72 + 64)) :=
  split_free_block_spec cfgA takenState (baseA + 4096 * 5) (fun _ => []) (baseA + 72) 64 4016
    (by decide) (by decide) (by decide) (by decide) (by decide) (by decide) (by decide)
    (by decide)

/-- C23. On well-formed main lists `L` (circular, doubly linked, every block filed
under the class of its size) and with fuel for the longest list: `find_fit`
returns the block `F` whenever `F` is the first entry of size at least `b` in list
`m`, where `m` is the lowest class from `get_ml_index b` upwards whose list has
such an entry; it returns `NULL` exactly when no listed block has size at least
`b`; in every case it returns (a listed block or `NULL`). The function writes
nothing: the model of `find_fit` has no state result, so every list is as it
was and the returned block is still linked. -/
theorem find_fit_first_fit (cfg : Config) (fuel : Nat) (s : State) (hi : Nat)
    (L : Nat → List Nat) (b : Nat) (h : Lists cfg s hi L)
    (hf : ∀ i, i < cfg.NUM_FREE_LISTS → (L i).length + 1 ≤ fuel) :
    (∀ m pre F post, get_ml_index cfg b ≤ m → m < cfg.NUM_FREE_LISTS →
      L m = pre ++ F :: post → (∀ x, x ∈ pre → size_at cfg s x < b) → b ≤ size_at cfg s F →
      (∀ j, get_ml_index cfg b ≤ j → j < m → ∀ x, x ∈ L j → size_at cfg s x < b) →
      find_fit cfg fuel s b = some F ∧ F ≠ 0) ∧
    (find_fit cfg fuel s b = some 0 ↔
      ∀ i, i < cfg.NUM_FREE_LISTS → ∀ x, x ∈ L i → size_at cfg s x < b) ∧
    (∃ r, find_fit cfg fuel s b = some r ∧
      (r = 0 ∨ ∃ i, i < cfg.NUM_FREE_LISTS ∧ r ∈ L i ∧ b ≤ size_at cfg s r)) := by
  have hne : ∀ i, i < cfg.NUM_FREE_LISTS → ∀ x, x ∈ L i → x ≠ 0 := by
    intro i hi' x hx
    have := (h.2.2.2.1 i hi' x hx).1
    omega
  have key : (∃ i, i < cfg.NUM_FREE_LISTS ∧ ∃ x, x ∈ L i ∧ b ≤ size_at cfg s x) →
      ∃ m F, m < cfg.NUM_FREE_LISTS ∧ F ∈ L m ∧ b ≤ size_at cfg s F ∧
        find_fit cfg fuel s b = some F := by
    intro hex
    classical
    have hex' : ∃ i, i < cfg.NUM_FREE_LISTS ∧ ∃ x, x ∈ L i ∧ b ≤ size_at cfg s x := hex
    let m := Nat.find hex'
    have hm : m < cfg.NUM_FREE_LISTS ∧ ∃ x, x ∈ L m ∧ b ≤ size_at cfg s x := Nat.find_spec hex'
    obtain ⟨hm2, hx⟩ := hm
    obtain ⟨pre, F, post, e, h1, h2⟩ := first_split (fun x => b ≤ size_at cfg s x) (L m) hx
    have hFm : F ∈ L m := by rw [e]; simp
    refine ⟨m, F, hm2, hFm, h2, ?_⟩
    refine find_fit_first cfg fuel s hi L b h hf m pre F post
      (fit_class_ge cfg s hi L b m F h hm2 hFm h2) hm2 e (fun x hx => by
        have := h1 x hx; omega) h2 ?_
    intro j _ hj x hxj
    by_contra hcon
    have : ¬ (j < cfg.NUM_FREE_LISTS ∧ ∃ x, x ∈ L j ∧ b ≤ size_at cfg s x) :=
      Nat.find_min hex' hj
    exact this ⟨by omega, x, hxj, by omega⟩
  refine ⟨?_, ⟨?_, ?_⟩, ?_⟩
  · intro m pre F post hm1 hm2 hL hpre hF hlow
    refine ⟨find_fit_first cfg fuel s hi L b h hf m pre F post hm1 hm2 hL hpre hF hlow, ?_⟩
    exact hne m hm2 F (by rw [hL]; simp)
  · intro h0 i hi' x hx
    by_contra hcon
    obtain ⟨m, F, hm2, hFm, _, hfit⟩ := key ⟨i, hi', x, hx, by omega⟩
    rw [hfit] at h0
    exact hne m hm2 F hFm (Option.some.inj h0)
  · intro hall
    exact find_fit_none cfg fuel s hi L b h hall hf
  · by_cases hex : ∃ i, i < cfg.NUM_FREE_LISTS ∧ ∃ x, x ∈ L i ∧ b ≤ size_at cfg s x
    · obtain ⟨m, F, hm2, hFm, hb, hfit⟩ := key hex
      exact ⟨F, hfit, Or.inr ⟨m, hm2, hFm, hb⟩⟩
    · refine ⟨0, find_fit_none cfg fuel s hi L b h ?_ hf, Or.inl rfl⟩
      intro i hi' x hx
      by_contra hcon
      exact hex ⟨i, hi', x, hx, by omega⟩

set_option maxRecDepth 100000 in
theorem find_fit_first_fit_witness :
    (∀ m pre F post, get_ml_index cfgA 64 ≤ m → m < cfgA.NUM_FREE_LISTS →
      oneL m = pre ++ F :: post → (∀ x, x ∈ pre → size_at cfgA alloc4.2 x < 64) →
      64 ≤ size_at cfgA alloc4.2 F →
      (∀ j, get_ml_index cfgA 64 ≤ j → j < m → ∀ x, x ∈ oneL j → size_at cfgA alloc4.2 x < 64) →
      find_fit cfgA 3 alloc4.2 64 = some F ∧ F ≠ 0) ∧
    (find_fit cfgA 3 alloc4.2 64 = some 0 ↔
      ∀ i, i < cfgA.NUM_FREE_LISTS → ∀ x, x ∈ oneL i → size_at cfgA alloc4.2 x < 64) ∧
    (∃ r, find_fit cfgA 3 alloc4.2 64 = some r ∧
      (r = 0 ∨ ∃ i, i < cfgA.NUM_FREE_LISTS ∧ r ∈ oneL i ∧ 64 ≤ size_at cfgA alloc4.2 r)) :=
  find_fit_first_fit cfgA 3 alloc4.2 (baseA + 4096 * 5) oneL 64 (by decide) (by decide)

/-- C24. In a build with at least one and at most 60 main lists (so that the
class bounds `32 * 2 ^ i` compared by the loop fit in a 64-bit word),
`get_ml_index size` is 0 when `size ≤ 32`; for the `i ≥ 1` with
`32 * 2 ^ (i - 1) < size ≤ 32 * 2 ^ i` it is `i` when `i ≤ NUM_FREE_LISTS - 2` and
`NUM_FREE_LISTS - 1` otherwise; the result is below `NUM_FREE_LISTS`, and it is
monotone in the size. -/
theorem class_index_spec (cfg : Config) (size : Nat) (hN : 0 < cfg.NUM_FREE_LISTS)
    (hN60 : cfg.NUM_FREE_LISTS ≤ 60) :
    (size ≤ 32 → get_ml_index cfg size = 0) ∧
    (∀ i, 0 < i → 32 * 2 ^ (i - 1) < size → size ≤ 32 * 2 ^ i →
      get_ml_index cfg size = if i + 2 ≤ cfg.NUM_FREE_LISTS then i else cfg.NUM_FREE_LISTS - 1) ∧
    get_ml_index cfg size < cfg.NUM_FREE_LISTS ∧
    (∀ a, a ≤ size → get_ml_index cfg a ≤ get_ml_index cfg size) := by
  have hfit : ∀ t, t < cfg.NUM_FREE_LISTS - 1 → 32 * 2 ^ t < 2 ^ 64 :=
    fun t ht => class_bound_fits t (by omega)
  refine ⟨?_, ?_, get_ml_index_lt cfg size hN, fun a ha => get_ml_index_mono cfg a size ha⟩
  · intro h32
    unfold get_ml_index
    by_cases h1 : cfg.NUM_FREE_LISTS - 1 = 0
    · rw [h1]; rfl
    · rw [get_ml_index_go_hit size _ 0 32 0 (by omega) hfit (by simpa using h32)
        (fun t ht => by omega)]
  · intro i hi hlo hup
    have hbelow : ∀ t, t < i → 32 * 2 ^ t < size := by
      intro t ht
      have : 2 ^ t ≤ 2 ^ (i - 1) := Nat.pow_le_pow_right (by norm_num) (by omega)
      omega
    unfold get_ml_index
    by_cases hi2 : i + 2 ≤ cfg.NUM_FREE_LISTS
    · rw [if_pos hi2, get_ml_index_go_hit size _ 0 32 i (by omega) hfit hup hbelow]
      omega
    · rw [if_neg hi2, get_ml_index_go_miss size _ 0 32 hfit
        (fun t ht => hbelow t (by omega))]
      omega

theorem class_index_spec_witness :
    (100 ≤ 32 → get_ml_index cfgA 100 = 0) ∧
    (∀ i, 0 < i → 32 * 2 ^ (i - 1) < 100 → 100 ≤ 32 * 2 ^ i →
      get_ml_index cfgA 100 =
        if i + 2 ≤ cfgA.NUM_FREE_LISTS then i else cfgA.NUM_FREE_LISTS - 1) ∧
    get_ml_index cfgA 100 < cfgA.NUM_FREE_LISTS ∧
    (∀ a, a ≤ 100 → get_ml_index cfgA a ≤ get_ml_index cfgA 100) :=
  class_index_spec cfgA 100 (by decide) (by decide)

/-- C25. For a payload size below `2 ^ 32`, a block size below `2 ^ 32` that is a
multiple of 16 and flags in `{0, 1}`, the word `w = PACK pl bs ql al` gives back
its fields: `GET_PL_SIZE w = pl`, `GET_BLOCK_SIZE w = bs`, bit 0 of `w` is `al`
(also as read through the mask `THIS_BLOCK_ALLOCATED`), bit 1 is `ql` (also as
read through `IN_QUICK_LIST`), bits 2 and 3 are zero, and `w` fits in 64 bits.
`OBF` is an involution on every word, so the fields read from a stored header
`OBF w`, de-obfuscated, are the packed ones. -/
theorem pack_roundtrip (cfg : Config) (pl bs ql al : Nat) (hpl : pl < 2 ^ 32)
    (hbs : bs < 2 ^ 32) (h16 : bs % 16 = 0) (hql : ql ≤ 1) (hal : al ≤ 1) :
    GET_PL_SIZE (PACK pl bs ql al) = pl ∧ GET_BLOCK_SIZE (PACK pl bs ql al) = bs ∧
    PACK pl bs ql al % 2 = al ∧ PACK pl bs ql al / 2 % 2 = ql ∧
    PACK pl bs ql al / 4 % 4 = 0 ∧
    PACK pl bs ql al &&& THIS_BLOCK_ALLOCATED = al ∧
    PACK pl bs ql al &&& IN_QUICK_LIST = 2 * ql ∧
    PACK pl bs ql al < 2 ^ 64 ∧
    (∀ w, OBF cfg (OBF cfg w) = w) ∧
    GET_PL_SIZE (OBF cfg (OBF cfg (PACK pl bs ql al))) = pl ∧
    GET_BLOCK_SIZE (OBF cfg (OBF cfg (PACK pl bs ql al))) = bs ∧
    OBF cfg (OBF cfg (PACK pl bs ql al)) &&& THIS_BLOCK_ALLOCATED = al ∧
    OBF cfg (OBF cfg (PACK pl bs ql al)) &&& IN_QUICK_LIST = 2 * ql := by
  obtain ⟨f1, f2, f3, f4⟩ := PACK_fields pl bs ql al hpl hbs h16 hql hal
  have e := PACK_eq pl bs ql al hpl hbs h16 hql hal
  rw [OBF_OBF]
  refine ⟨f1, f2, ?_, ?_, ?_, f3, f4, ?_, fun w => OBF_OBF cfg w, f1, f2, f3, f4⟩
  · rw [e]; omega
  · rw [e]; omega
  · rw [e]; omega
  · rw [e]; omega

theorem pack_roundtrip_witness :
    GET_PL_SIZE (PACK 100 128 0 1) = 100 ∧ GET_BLOCK_SIZE (PACK 100 128 0 1) = 128 ∧
    PACK 100 128 0 1 % 2 = 1 ∧ PACK 100 128 0 1 / 2 % 2 = 0 ∧
    PACK 100 128 0 1 / 4 % 4 = 0 ∧
    PACK 100 128 0 1 &&& THIS_BLOCK_ALLOCATED = 1 ∧
    PACK 100 128 0 1 &&& IN_QUICK_LIST = 2 * 0 ∧
    PACK 100 128 0 1 < 2 ^ 64 ∧
    (∀ w, OBF cfgA (OBF cfgA w) = w) ∧
    GET_PL_SIZE (OBF cfgA (OBF cfgA (PACK 100 128 0 1))) = 100 ∧
    GET_BLOCK_SIZE (OBF cfgA (OBF cfgA (PACK 100 128 0 1))) = 128 ∧
    OBF cfgA (OBF cfgA (PACK 100 128 0 1)) &&& THIS_BLOCK_ALLOCATED = 1 ∧
    OBF cfgA (OBF cfgA (PACK 100 128 0 1)) &&& IN_QUICK_LIST = 2 * 0 :=
  pack_roundtrip cfgA 100 128 0 1 (by decide) (by decide) (by decide) (by decide) (by decide)

set_option maxRecDepth 1000000 in
/-- C26 (code defect): in the client program `twiceGiven` the sixth
`sf_malloc(4)` returns the payload at offset 288 of a block of 32 bytes, and the
last call, `sf_malloc(32)`, returns the same payload from quick list 1, which
still held that block; its header then records `payload_size = 32` and
`block_size = 32`.  The pointer is valid and the request of 20 bytes is below
the payload size, so `sf_realloc` takes its shrinking branch, and the block size
it computes, `realloc_block_size 20 = 48`, exceeds the block size 32 of a block
that was allocated for the larger payload of 32 bytes. -/
theorem shrink_size_exceeds_block :
    returns cfgA 20 twiceGiven fresh0 =
      some [baseA + 48, baseA + 96, baseA + 144, baseA + 192, baseA + 240, baseA + 288,
        baseA + 336, 0, 0, 0, 0, 0, 0, 0, baseA + 48, baseA + 128, baseA + 160, baseA + 192,
        baseA + 224, baseA + 256, baseA + 288, baseA + 288] ∧
    (validate_pp cfgA twiceState (baseA + 288),
      GET_PL_SIZE (header_at cfgA twiceState (baseA + 288)),
      GET_BLOCK_SIZE (header_at cfgA twiceState (baseA + 288)),
      realloc_block_size 20) = (0, 32, 32, 48) ∧
    (1 ≤ 20 ∧ 20 < GET_PL_SIZE (header_at cfgA twiceState (baseA + 288))) ∧
    GET_BLOCK_SIZE (header_at cfgA twiceState (baseA + 288)) < realloc_block_size 20 :=
  ⟨by decide, by decide, by decide, by decide⟩

/-- The rounding of the shrinking branch.  Whenever `sf_realloc` takes its
shrinking branch (valid pointer, request `rsize ≥ 1` below the payload size recorded in the header, a 64-bit word), the
block size it passes to `split_malloc_block` is `realloc_block_size rsize`, which
equals `round_up_16 (rsize + 16)` over the natural numbers, is a multiple of 16,
at least 32, equal to the block size `sf_malloc` computes for `rsize`, and at
most the size of the block when that block was allocated for the payload its
header records. -/
theorem realloc_block_size_rounds (cfg : Config) (fuel : Nat) (s : State) (pp rsize : Nat)
    (h1 : 1 ≤ rsize) (h2 : rsize + 16 < 2 ^ 64) (hM : cfg.MAGIC < 2 ^ 64)
    (hw : s.mem (wsub pp MROW) < 2 ^ 64) (hv : validate_pp cfg s pp = 0)
    (hbr : rsize < GET_PL_SIZE (header_at cfg s pp))
    (hB : malloc_block_size (GET_PL_SIZE (header_at cfg s pp)) ≤
      GET_BLOCK_SIZE (header_at cfg s pp)) :
    (sf_realloc cfg fuel s pp rsize =
      match split_malloc_block cfg fuel s (wsub pp MROW) (realloc_block_size rsize) rsize with
      | none => Outcome.timeout
      | some (block, s1) =>
        Outcome.ret (wadd block MROW)
          (update_pl s1 (wsub rsize (GET_PL_SIZE (header_at cfg s pp))))) ∧
    realloc_block_size rsize = round_up_16 (rsize + 2 * MROW) ∧
    realloc_block_size rsize % 16 = 0 ∧ 32 ≤ realloc_block_size rsize ∧
    realloc_block_size rsize = malloc_block_size rsize ∧
    realloc_block_size rsize ≤ GET_BLOCK_SIZE (header_at cfg s pp) := by
  have hpl : GET_PL_SIZE (header_at cfg s pp) < 2 ^ 32 := header_payload_lt cfg _ hM hw
  obtain ⟨e1, e2⟩ := realloc_block_size_small rsize h1 (by omega)
  obtain ⟨a1, a2, _⟩ := malloc_block_size_small rsize (by omega) (by omega)
  obtain ⟨b1, b2⟩ := realloc_block_size_small (GET_PL_SIZE (header_at cfg s pp)) (by omega)
    (by omega)
  refine ⟨sf_realloc_shrinks cfg fuel s pp rsize hv h1 hbr, e1, by rw [e2]; exact a2,
    by rw [e2]; exact a1, e2, ?_⟩
  refine le_trans ?_ hB
  rw [← b2, b1, e1]
  unfold round_up_16 MROW
  omega

set_option maxRecDepth 100000 in
theorem realloc_block_size_rounds_witness :
    (sf_realloc cfgA 3 alloc100.2 alloc100.1 4 =
      match split_malloc_block cfgA 3 alloc100.2 (wsub alloc100.1 MROW) (realloc_block_size 4) 4
        with
      | none => Outcome.timeout
      | some (block, s1) =>
        Outcome.ret (wadd block MROW)
          (update_pl s1 (wsub 4 (GET_PL_SIZE (header_at cfgA alloc100.2 alloc100.1))))) ∧
    realloc_block_size 4 = round_up_16 (4 + 2 * MROW) ∧
    realloc_block_size 4 % 16 = 0 ∧ 32 ≤ realloc_block_size 4 ∧
    realloc_block_size 4 = malloc_block_size 4 ∧
    realloc_block_size 4 ≤ GET_BLOCK_SIZE (header_at cfgA alloc100.2 alloc100.1) :=
  realloc_block_size_rounds cfgA 3 alloc100.2 alloc100.1 4 (by decide) (by decide) (by decide)
    (by decide) (by decide) (by decide) (by decide)

end Sfmm
